import Mathlib

/-!
Memora: a shallow embedding of the RESP codec, the key matcher, the expiring hash
table, the value store and the command dispatcher, with the properties proved about
them.

Conventions of the embedding

* A Go `string` / `[]byte` is a `List UInt8` (`Bytes`); a `[]byte` or slice that may be
  `nil` is an `Option`.
* Go `int` / `int64` values are `Int`; where the source computes with them the
  two's-complement wrap-around is made explicit with `wrap64`.
* A `bufio.Reader` over a finite input is the list of bytes still unread.  Reading past
  the end is `io.EOF` (the peer closed the connection).
* A run-time panic (index out of range, negative `make`, failed type assertion) is an
  explicit outcome, never silently dropped.
* The clock is passed explicitly: every operation that calls `time.Now()` takes the
  reading `now` (Unix nanoseconds) as an argument.
* Locks are not modelled: every operation is one atomic step.
-/

namespace Memora

/-! ## Bytes, integers and decimal text -/

/-- A Go string or byte slice. -/
abbrev Bytes := List UInt8

/-- The bytes of an ASCII literal. -/
def bs (s : String) : Bytes := s.toList.map (fun c => c.toNat.toUInt8)

/-- Carriage return, line feed. -/
def CRLF : Bytes := [13, 10]

/-- The range of a Go `int64` (and of `int` on a 64-bit platform). -/
def inInt64 (x : Int) : Prop := -(2 : Int) ^ 63 ≤ x ∧ x < (2 : Int) ^ 63

instance (x : Int) : Decidable (inInt64 x) := by unfold inInt64; infer_instance

/-- Two's-complement wrap-around of 64-bit signed arithmetic. -/
def wrap64 (x : Int) : Int := (x + (2 : Int) ^ 63) % (2 : Int) ^ 64 - (2 : Int) ^ 63

/-- The ASCII digit for `d < 10`. -/
def digitByte (d : Nat) : UInt8 := (48 + d).toUInt8

/-- Decimal digits of `n`, most significant first, pushed in front of `acc`.
The first argument bounds the number of digits. -/
def natDigits : Nat → Nat → Bytes → Bytes
  | 0, _, acc => acc
  | fuel + 1, n, acc =>
    if n < 10 then digitByte n :: acc
    else natDigits fuel (n / 10) (digitByte (n % 10) :: acc)

/-- Decimal text of a natural number. -/
def formatNat (n : Nat) : Bytes := natDigits (n + 1) n []

/-- The text `fmt.Sprintf("%d", i)` / `strconv.Itoa(i)` / `strconv.FormatInt(i, 10)`. -/
def formatInt (i : Int) : Bytes :=
  if i < 0 then 45 :: formatNat i.natAbs else formatNat i.natAbs

/-- Value of an ASCII digit. -/
def digitVal (c : UInt8) : Option Nat :=
  if 48 ≤ c.toNat ∧ c.toNat ≤ 57 then some (c.toNat - 48) else none

/-- Reads a run of decimal digits; `none` on any other byte. -/
def parseDigits : Bytes → Nat → Option Nat
  | [], acc => some acc
  | c :: cs, acc =>
    match digitVal c with
    | none => none
    | some d => parseDigits cs (acc * 10 + d)

/-- Go `strconv.Atoi(s)` on a 64-bit platform, which is also
`strconv.ParseInt(s, 10, 64)`: an optional sign, at least one digit, digits only,
value inside the `int64` range.  `none` stands for any returned error. -/
def Atoi (s : Bytes) : Option Int :=
  match s with
  | [] => none
  | c :: cs =>
    let neg := decide (c = 45)
    let ds := if c = 45 ∨ c = 43 then cs else s
    if ds = [] then none
    else
      match parseDigits ds 0 with
      | none => none
      | some n =>
        let v : Int := if neg then -(n : Int) else (n : Int)
        if inInt64 v then some v else none

/-! ## Upper case (Go `strings.ToUpper`, `unicode/utf8`)

Both the dispatcher and the client upper-case the first word of a command with
`strings.ToUpper`, which works on the runes of the UTF-8 text, not on its bytes. -/

/-- Upper case of an ASCII letter. -/
def toUpperByte (c : UInt8) : UInt8 :=
  if 97 ≤ c.toNat ∧ c.toNat ≤ 122 then (c.toNat - 32).toUInt8 else c

/-- The rune `utf8.RuneError`, U+FFFD. -/
def RuneError : Nat := 0xFFFD

/-- Go `utf8.DecodeRune`: the rune at the start of the text and its width in bytes.  A
lead byte 0xC2..0xDF takes one continuation byte, 0xE0..0xEF two, 0xF0..0xF4 three; a
continuation byte is in 0x80..0xBF, and the first one is narrowed after 0xE0, 0xED, 0xF0
and 0xF4 (no overlong form, no surrogate, nothing beyond U+10FFFF).  Any other start is
answered with `(RuneError, 1)`. -/
def DecodeRune (s : Bytes) : Nat × Nat :=
  match s with
  | [] => (RuneError, 0)
  | s0 :: rest =>
    let b0 := s0.toNat
    let b1 := (rest.getD 0 0).toNat
    let b2 := (rest.getD 1 0).toNat
    let b3 := (rest.getD 2 0).toNat
    let sz := if b0 < 0xE0 then 2 else if b0 < 0xF0 then 3 else 4
    let lo := if b0 = 0xE0 then 0xA0 else if b0 = 0xF0 then 0x90 else 0x80
    let hi := if b0 = 0xED then 0x9F else if b0 = 0xF4 then 0x8F else 0xBF
    if b0 < 0x80 then (b0, 1)
    else if b0 < 0xC2 ∨ 0xF5 ≤ b0 then (RuneError, 1)
    else if rest.length + 1 < sz then (RuneError, 1)
    else if b1 < lo ∨ hi < b1 then (RuneError, 1)
    else if sz ≤ 2 then (b0 % 32 * 64 + b1 % 64, 2)
    else if b2 < 0x80 ∨ 0xBF < b2 then (RuneError, 1)
    else if sz ≤ 3 then (b0 % 16 * 4096 + b1 % 64 * 64 + b2 % 64, 3)
    else if b3 < 0x80 ∨ 0xBF < b3 then (RuneError, 1)
    else (b0 % 8 * 262144 + b1 % 64 * 4096 + b2 % 64 * 64 + b3 % 64, 4)

/-- The runes `for _, c := range s` yields, with `skip` bytes of the rune before still
to pass: every invalid byte yields `RuneError`. -/
def runesFrom : Nat → Bytes → List Nat
  | _, [] => []
  | skip + 1, _ :: rest => runesFrom skip rest
  | 0, b :: rest =>
    let d := DecodeRune (b :: rest)
    d.1 :: runesFrom (d.2 - 1) rest

/-- Go `utf8.AppendRune`: the UTF-8 bytes of a rune; a surrogate or a value beyond
U+10FFFF is written as `RuneError`. -/
def EncodeRune (r : Nat) : Bytes :=
  if r < 0x80 then [r.toUInt8]
  else if r < 0x800 then [(0xC0 + r / 64).toUInt8, (0x80 + r % 64).toUInt8]
  else if (0xD800 ≤ r ∧ r ≤ 0xDFFF) ∨ 0x10FFFF < r then [0xEF, 0xBF, 0xBD]
  else if r < 0x10000 then
    [(0xE0 + r / 4096).toUInt8, (0x80 + r / 64 % 64).toUInt8, (0x80 + r % 64).toUInt8]
  else
    [(0xF0 + r / 262144).toUInt8, (0x80 + r / 4096 % 64).toUInt8,
      (0x80 + r / 64 % 64).toUInt8, (0x80 + r % 64).toUInt8]

/-- The upper-case pairs of the table `unicode.CaseRanges` beyond ASCII, as runs
`(lo, hi, stride, upper)`: a rune `lo + i * stride` up to `hi` has the upper case
`upper + i * stride`.  Go generates its table from the Unicode Character Database; the
runs are the 1424 simple upper-case mappings of its version 14.0, which version 15.0
keeps.  The repository pins no Go release; releases differ in pairs of lately added
scripts only, and in each the runes beyond ASCII whose upper case is an ASCII letter
are U+0131 (dotless i, to `I`) and U+017F (long s, to `S`). -/
def upperRanges : List (Nat × Nat × Nat × Nat) :=
  [(0xB5, 0xB5, 1, 0x39C), (0xE0, 0xF6, 1, 0xC0), (0xF8, 0xFE, 1, 0xD8), (0xFF, 0xFF, 1, 0x178),
    (0x101, 0x12F, 2, 0x100), (0x131, 0x131, 1, 0x49), (0x133, 0x137, 2, 0x132),
    (0x13A, 0x148, 2, 0x139), (0x14B, 0x177, 2, 0x14A), (0x17A, 0x17E, 2, 0x179),
    (0x17F, 0x17F, 1, 0x53), (0x180, 0x180, 1, 0x243), (0x183, 0x185, 2, 0x182),
    (0x188, 0x188, 1, 0x187), (0x18C, 0x18C, 1, 0x18B), (0x192, 0x192, 1, 0x191),
    (0x195, 0x195, 1, 0x1F6), (0x199, 0x199, 1, 0x198), (0x19A, 0x19A, 1, 0x23D),
    (0x19E, 0x19E, 1, 0x220), (0x1A1, 0x1A5, 2, 0x1A0), (0x1A8, 0x1A8, 1, 0x1A7),
    (0x1AD, 0x1AD, 1, 0x1AC), (0x1B0, 0x1B0, 1, 0x1AF), (0x1B4, 0x1B6, 2, 0x1B3),
    (0x1B9, 0x1B9, 1, 0x1B8), (0x1BD, 0x1BD, 1, 0x1BC), (0x1BF, 0x1BF, 1, 0x1F7),
    (0x1C5, 0x1C5, 1, 0x1C4), (0x1C6, 0x1C6, 1, 0x1C4), (0x1C8, 0x1C8, 1, 0x1C7),
    (0x1C9, 0x1C9, 1, 0x1C7), (0x1CB, 0x1CB, 1, 0x1CA), (0x1CC, 0x1CC, 1, 0x1CA),
    (0x1CE, 0x1DC, 2, 0x1CD), (0x1DD, 0x1DD, 1, 0x18E), (0x1DF, 0x1EF, 2, 0x1DE),
    (0x1F2, 0x1F2, 1, 0x1F1), (0x1F3, 0x1F3, 1, 0x1F1), (0x1F5, 0x1F5, 1, 0x1F4),
    (0x1F9, 0x21F, 2, 0x1F8), (0x223, 0x233, 2, 0x222), (0x23C, 0x23C, 1, 0x23B),
    (0x23F, 0x240, 1, 0x2C7E), (0x242, 0x242, 1, 0x241), (0x247, 0x24F, 2, 0x246),
    (0x250, 0x250, 1, 0x2C6F), (0x251, 0x251, 1, 0x2C6D), (0x252, 0x252, 1, 0x2C70),
    (0x253, 0x253, 1, 0x181), (0x254, 0x254, 1, 0x186), (0x256, 0x257, 1, 0x189),
    (0x259, 0x259, 1, 0x18F), (0x25B, 0x25B, 1, 0x190), (0x25C, 0x25C, 1, 0xA7AB),
    (0x260, 0x260, 1, 0x193), (0x261, 0x261, 1, 0xA7AC), (0x263, 0x263, 1, 0x194),
    (0x265, 0x265, 1, 0xA78D), (0x266, 0x266, 1, 0xA7AA), (0x268, 0x268, 1, 0x197),
    (0x269, 0x269, 1, 0x196), (0x26A, 0x26A, 1, 0xA7AE), (0x26B, 0x26B, 1, 0x2C62),
    (0x26C, 0x26C, 1, 0xA7AD), (0x26F, 0x26F, 1, 0x19C), (0x271, 0x271, 1, 0x2C6E),
    (0x272, 0x272, 1, 0x19D), (0x275, 0x275, 1, 0x19F), (0x27D, 0x27D, 1, 0x2C64),
    (0x280, 0x280, 1, 0x1A6), (0x282, 0x282, 1, 0xA7C5), (0x283, 0x283, 1, 0x1A9),
    (0x287, 0x287, 1, 0xA7B1), (0x288, 0x288, 1, 0x1AE), (0x289, 0x289, 1, 0x244),
    (0x28A, 0x28B, 1, 0x1B1), (0x28C, 0x28C, 1, 0x245), (0x292, 0x292, 1, 0x1B7),
    (0x29D, 0x29D, 1, 0xA7B2), (0x29E, 0x29E, 1, 0xA7B0), (0x345, 0x345, 1, 0x399),
    (0x371, 0x373, 2, 0x370), (0x377, 0x377, 1, 0x376), (0x37B, 0x37D, 1, 0x3FD),
    (0x3AC, 0x3AC, 1, 0x386), (0x3AD, 0x3AF, 1, 0x388), (0x3B1, 0x3C1, 1, 0x391),
    (0x3C2, 0x3C2, 1, 0x3A3), (0x3C3, 0x3CB, 1, 0x3A3), (0x3CC, 0x3CC, 1, 0x38C),
    (0x3CD, 0x3CE, 1, 0x38E), (0x3D0, 0x3D0, 1, 0x392), (0x3D1, 0x3D1, 1, 0x398),
    (0x3D5, 0x3D5, 1, 0x3A6), (0x3D6, 0x3D6, 1, 0x3A0), (0x3D7, 0x3D7, 1, 0x3CF),
    (0x3D9, 0x3EF, 2, 0x3D8), (0x3F0, 0x3F0, 1, 0x39A), (0x3F1, 0x3F1, 1, 0x3A1),
    (0x3F2, 0x3F2, 1, 0x3F9), (0x3F3, 0x3F3, 1, 0x37F), (0x3F5, 0x3F5, 1, 0x395),
    (0x3F8, 0x3F8, 1, 0x3F7), (0x3FB, 0x3FB, 1, 0x3FA), (0x430, 0x44F, 1, 0x410),
    (0x450, 0x45F, 1, 0x400), (0x461, 0x481, 2, 0x460), (0x48B, 0x4BF, 2, 0x48A),
    (0x4C2, 0x4CE, 2, 0x4C1), (0x4CF, 0x4CF, 1, 0x4C0), (0x4D1, 0x52F, 2, 0x4D0),
    (0x561, 0x586, 1, 0x531), (0x10D0, 0x10FA, 1, 0x1C90), (0x10FD, 0x10FF, 1, 0x1CBD),
    (0x13F8, 0x13FD, 1, 0x13F0), (0x1C80, 0x1C80, 1, 0x412), (0x1C81, 0x1C81, 1, 0x414),
    (0x1C82, 0x1C82, 1, 0x41E), (0x1C83, 0x1C84, 1, 0x421), (0x1C85, 0x1C85, 1, 0x422),
    (0x1C86, 0x1C86, 1, 0x42A), (0x1C87, 0x1C87, 1, 0x462), (0x1C88, 0x1C88, 1, 0xA64A),
    (0x1D79, 0x1D79, 1, 0xA77D), (0x1D7D, 0x1D7D, 1, 0x2C63), (0x1D8E, 0x1D8E, 1, 0xA7C6),
    (0x1E01, 0x1E95, 2, 0x1E00), (0x1E9B, 0x1E9B, 1, 0x1E60), (0x1EA1, 0x1EFF, 2, 0x1EA0),
    (0x1F00, 0x1F07, 1, 0x1F08), (0x1F10, 0x1F15, 1, 0x1F18), (0x1F20, 0x1F27, 1, 0x1F28),
    (0x1F30, 0x1F37, 1, 0x1F38), (0x1F40, 0x1F45, 1, 0x1F48), (0x1F51, 0x1F57, 2, 0x1F59),
    (0x1F60, 0x1F67, 1, 0x1F68), (0x1F70, 0x1F71, 1, 0x1FBA), (0x1F72, 0x1F75, 1, 0x1FC8),
    (0x1F76, 0x1F77, 1, 0x1FDA), (0x1F78, 0x1F79, 1, 0x1FF8), (0x1F7A, 0x1F7B, 1, 0x1FEA),
    (0x1F7C, 0x1F7D, 1, 0x1FFA), (0x1F80, 0x1F87, 1, 0x1F88), (0x1F90, 0x1F97, 1, 0x1F98),
    (0x1FA0, 0x1FA7, 1, 0x1FA8), (0x1FB0, 0x1FB1, 1, 0x1FB8), (0x1FB3, 0x1FB3, 1, 0x1FBC),
    (0x1FBE, 0x1FBE, 1, 0x399), (0x1FC3, 0x1FC3, 1, 0x1FCC), (0x1FD0, 0x1FD1, 1, 0x1FD8),
    (0x1FE0, 0x1FE1, 1, 0x1FE8), (0x1FE5, 0x1FE5, 1, 0x1FEC), (0x1FF3, 0x1FF3, 1, 0x1FFC),
    (0x214E, 0x214E, 1, 0x2132), (0x2170, 0x217F, 1, 0x2160), (0x2184, 0x2184, 1, 0x2183),
    (0x24D0, 0x24E9, 1, 0x24B6), (0x2C30, 0x2C5F, 1, 0x2C00), (0x2C61, 0x2C61, 1, 0x2C60),
    (0x2C65, 0x2C65, 1, 0x23A), (0x2C66, 0x2C66, 1, 0x23E), (0x2C68, 0x2C6C, 2, 0x2C67),
    (0x2C73, 0x2C73, 1, 0x2C72), (0x2C76, 0x2C76, 1, 0x2C75), (0x2C81, 0x2CE3, 2, 0x2C80),
    (0x2CEC, 0x2CEE, 2, 0x2CEB), (0x2CF3, 0x2CF3, 1, 0x2CF2), (0x2D00, 0x2D25, 1, 0x10A0),
    (0x2D27, 0x2D27, 1, 0x10C7), (0x2D2D, 0x2D2D, 1, 0x10CD), (0xA641, 0xA66D, 2, 0xA640),
    (0xA681, 0xA69B, 2, 0xA680), (0xA723, 0xA72F, 2, 0xA722), (0xA733, 0xA76F, 2, 0xA732),
    (0xA77A, 0xA77C, 2, 0xA779), (0xA77F, 0xA787, 2, 0xA77E), (0xA78C, 0xA78C, 1, 0xA78B),
    (0xA791, 0xA793, 2, 0xA790), (0xA794, 0xA794, 1, 0xA7C4), (0xA797, 0xA7A9, 2, 0xA796),
    (0xA7B5, 0xA7C3, 2, 0xA7B4), (0xA7C8, 0xA7CA, 2, 0xA7C7), (0xA7D1, 0xA7D1, 1, 0xA7D0),
    (0xA7D7, 0xA7D9, 2, 0xA7D6), (0xA7F6, 0xA7F6, 1, 0xA7F5), (0xAB53, 0xAB53, 1, 0xA7B3),
    (0xAB70, 0xABBF, 1, 0x13A0), (0xFF41, 0xFF5A, 1, 0xFF21), (0x10428, 0x1044F, 1, 0x10400),
    (0x104D8, 0x104FB, 1, 0x104B0), (0x10597, 0x105A1, 1, 0x10570),
    (0x105A3, 0x105B1, 1, 0x1057C), (0x105B3, 0x105B9, 1, 0x1058C),
    (0x105BB, 0x105BC, 1, 0x10594), (0x10CC0, 0x10CF2, 1, 0x10C80),
    (0x118C0, 0x118DF, 1, 0x118A0), (0x16E60, 0x16E7F, 1, 0x16E40),
    (0x1E922, 0x1E943, 1, 0x1E900)]

/-- Go `unicode.ToUpper`: an ASCII letter is mapped by arithmetic, a rune beyond ASCII
by the table; a rune without an upper case is kept. -/
def unicodeToUpper (r : Nat) : Nat :=
  if r < 0x80 then (if 97 ≤ r ∧ r ≤ 122 then r - 32 else r)
  else
    match upperRanges.find? fun e =>
        decide (e.1 ≤ r ∧ r ≤ e.2.1 ∧ (r - e.1) % e.2.2.1 = 0) with
    | some e => e.2.2.2 + (r - e.1)
    | none => r

/-- Go `strings.ToUpper`: a text of ASCII bytes is mapped byte by byte; any other text
goes through `strings.Map(unicode.ToUpper, s)`, which maps rune by rune and writes
`RuneError` for an invalid byte. -/
def ToUpper (s : Bytes) : Bytes :=
  if s.all (fun c => decide (c.toNat < 0x80)) then s.map toUpperByte
  else ((runesFrom 0 s).map fun r => EncodeRune (unicodeToUpper r)).flatten

/-! ## RESP values and the reader (`server/protocol.go`) -/

/-- The type byte of a RESP frame (`type RESPType byte`). -/
abbrev RESPType := UInt8

/-- Type byte `+`. -/
def SimpleString : RESPType := 43
/-- Type byte `-`. -/
def Error : RESPType := 45
/-- Type byte `:`. -/
def Integer : RESPType := 58
/-- Type byte `$`. -/
def BulkString : RESPType := 36
/-- Type byte `*`. -/
def Array : RESPType := 42

/-- The struct `RESPValue`.  Unset fields hold Go zero values: the empty string, `0`,
the nil slice (`none`). -/
inductive RESPValue where
  | mk (Typ : RESPType) (Simple : Bytes) (Integer : Int) (Bulk : Option Bytes)
      (Array : Option (List RESPValue))

/-- Field `Type`. -/
def RESPValue.Typ : RESPValue → RESPType
  | .mk t _ _ _ _ => t
/-- Field `Simple`. -/
def RESPValue.Simple : RESPValue → Bytes
  | .mk _ s _ _ _ => s
/-- Field `Integer`. -/
def RESPValue.Integer : RESPValue → Int
  | .mk _ _ i _ _ => i
/-- Field `Bulk`. -/
def RESPValue.Bulk : RESPValue → Option Bytes
  | .mk _ _ _ b _ => b
/-- Field `Array`. -/
def RESPValue.Array : RESPValue → Option (List RESPValue)
  | .mk _ _ _ _ a => a

/-- The errors `ReadCommand` can return. -/
inductive RESPErr where
  | InvalidFormat
  | EmptyCommand
  | EOF
  | UnexpectedEOF
  deriving DecidableEq, Repr

/-- Outcome of a read: a value and the unread input, a returned error, a run-time
panic, or exhaustion of the recursion bound of the model. -/
inductive Res (α : Type) where
  | ok (v : α) (rest : Bytes)
  | err (e : RESPErr)
  | panic
  | outOfFuel
  deriving DecidableEq

/-- `reader.ReadBytes(10)`: the bytes up to and including the first line feed, and the
unread rest; `none` when the input ends first (the call returns `io.EOF`). -/
def readLine : Bytes → Option (Bytes × Bytes)
  | [] => none
  | c :: cs =>
    if c = 10 then some ([c], cs)
    else
      match readLine cs with
      | none => none
      | some (l, r) => some (c :: l, r)

/-- The loop `for i := 0; i < length; i++ { value, err := r.readValue(reader) ... }`. -/
def readValues (rv : Bytes → Res RESPValue) : Nat → Bytes → Res (List RESPValue)
  | 0, input => .ok [] input
  | n + 1, input =>
    match rv input with
    | .ok v rest =>
      match readValues rv n rest with
      | .ok vs rest2 => .ok (v :: vs) rest2
      | .err e => .err e
      | .panic => .panic
      | .outOfFuel => .outOfFuel
    | .err e => .err e
    | .panic => .panic
    | .outOfFuel => .outOfFuel

/-- The arm `case BulkString` of `readValue`: `payload` is the text after the type byte,
`rest` the unread input.  Allocation failure for lengths beyond the available memory is
not modelled. -/
def readBulk (payload rest : Bytes) : Res RESPValue :=
  match Atoi payload with
  | none => .err .InvalidFormat
  | some length =>
    if length = -1 then .ok (.mk BulkString [] 0 none none) rest
    else
      let size := wrap64 (length + 2)
      if size < 0 then .panic -- make([]byte, size): len out of range
      else if rest.length < size.toNat then
        -- io.ReadFull
        (if rest = [] then .err .EOF else .err .UnexpectedEOF)
      else if length < 0 then .panic -- data[:length]: bounds out of range
      else
        .ok (.mk BulkString [] 0 (some (rest.take length.toNat)) none) (rest.drop size.toNat)

/-- The arm `case Array` of `readValue`; `rv` is the recursive call. -/
def readArray (rv : Bytes → Res RESPValue) (payload rest : Bytes) : Res RESPValue :=
  match Atoi payload with
  | none => .err .InvalidFormat
  | some length =>
    if length = -1 then .ok (.mk Array [] 0 none none) rest
    else if length < 0 then .panic -- make([]*RESPValue, length): len out of range
    else
      match readValues rv length.toNat rest with
      | .ok vs rest2 => .ok (.mk Array [] 0 none (some vs)) rest2
      | .err e => .err e
      | .panic => .panic
      | .outOfFuel => .outOfFuel

/-- The `switch RESPType(line[0])` of `readValue`, on the type byte `t` and the rest
of the line. -/
def readFrame (rv : Bytes → Res RESPValue) (t : UInt8) (payload rest : Bytes) :
    Res RESPValue :=
  if t = SimpleString then .ok (.mk SimpleString payload 0 none none) rest
  else if t = Error then .ok (.mk Error payload 0 none none) rest
  else if t = Integer then
    match Atoi payload with
    | none => .err .InvalidFormat
    | some num => .ok (.mk Integer [] num none none) rest
  else if t = BulkString then readBulk payload rest
  else if t = Array then readArray rv payload rest
  else .err .InvalidFormat

/-- The method `readValue`, with a bound on the nesting depth of arrays. -/
def readValueFuel : Nat → Bytes → Res RESPValue
  | 0, _ => .outOfFuel
  | fuel + 1, input =>
    match readLine input with
    | none => .err .EOF
    | some (line, rest) =>
      if line.length < 2 then .err .InvalidFormat
      else
        -- line = line[:len(line)-2]
        match line.take (line.length - 2) with
        | [] => .panic -- line[0]: index out of range
        | t :: payload => readFrame (readValueFuel fuel) t payload rest

/-- The method `readValue`.  Every level of nesting consumes a header line, so a
depth bound of one more than the input length is never reached
(`readValueFuel_total`). -/
def readValue (input : Bytes) : Res RESPValue := readValueFuel (input.length + 1) input

/-- The loop of `ReadCommand` that copies the arguments out of the array. -/
def commandArgs : List RESPValue → Option (List Bytes)
  | [] => some []
  | arg :: args =>
    if arg.Typ ≠ BulkString then none
    else
      match commandArgs args with
      | none => none
      | some cs => some ((arg.Bulk.getD []) :: cs)

/-- The method `ReadCommand`. -/
def ReadCommand (input : Bytes) : Res (List Bytes) :=
  match readValue input with
  | .ok value rest =>
    if value.Typ ≠ Array then .err .InvalidFormat
    else if (value.Array.getD []).length = 0 then .err .EmptyCommand
    else
      match commandArgs (value.Array.getD []) with
      | none => .err .InvalidFormat
      | some command => .ok command rest
  | .err e => .err e
  | .panic => .panic
  | .outOfFuel => .outOfFuel

/-! ## The writers (`server/protocol.go`) and the client request (`client/client.go`) -/

/-- A Go value held in an `interface{}`, as far as the type switches of the writers
tell values apart.  `other text` is a value of any further dynamic type, given by the text
`fmt.Sprintf("%v", v)` prints for it. -/
inductive Iface where
  | str (s : Bytes)
  | bytes (b : Option Bytes)
  | int (n : Int)
  | int64 (n : Int)
  | nil
  | other (text : Bytes)
  deriving DecidableEq

/-- The bytes `WriteSimpleString` sends. -/
def WriteSimpleString (value : Bytes) : Bytes := 43 :: value ++ CRLF

/-- The bytes `WriteError` sends. -/
def WriteError (value : Bytes) : Bytes := 45 :: value ++ CRLF

/-- The bytes `WriteInteger` sends. -/
def WriteInteger (value : Int) : Bytes := 58 :: formatInt value ++ CRLF

/-- The bytes `WriteBulkString` sends; `none` is the nil slice. -/
def WriteBulkString (value : Option Bytes) : Bytes :=
  match value with
  | none => bs "$-1\r\n"
  | some v => 36 :: formatInt v.length ++ CRLF ++ v ++ CRLF

/-- The bytes `WriteNull` sends. -/
def WriteNull : Bytes := bs "$-1\r\n"

/-- One iteration of the loop of `WriteArray`: the type switch on an element. -/
def writeElement (value : Iface) : Bytes :=
  match value with
  | .str v => WriteBulkString (some v)
  | .bytes v => WriteBulkString v
  | .int v => WriteInteger v
  | .int64 v => WriteInteger v
  | .nil => WriteNull
  | .other text => WriteBulkString (some text)

/-- The bytes `WriteArray` sends; `none` is the nil slice. -/
def WriteArray (values : Option (List Iface)) : Bytes :=
  match values with
  | none => bs "*-1\r\n"
  | some vs => 42 :: formatInt vs.length ++ CRLF ++ (vs.map writeElement).flatten

/-- One argument of a request: `fmt.Sprintf("$%d\r\n%s\r\n", len(arg), arg)`. -/
def encodeArg (arg : Bytes) : Bytes := 36 :: formatInt arg.length ++ CRLF ++ arg ++ CRLF

/-- The block "Build RESP array" of `SendCommand`: the frame of a command vector. -/
def buildRESPArray (command : List Bytes) : Bytes :=
  42 :: formatInt command.length ++ CRLF ++ (command.map encodeArg).flatten

/-- The map `knownCommands` of `SendCommand`: the one-word commands the client sends as
they are. -/
def knownCommands : List Bytes := [bs "PING", bs "ECHO", bs "FLUSHALL", bs "DBSIZE"]

/-- The vector `SendCommand` frames: a command of one word that is not a known command
is turned into `GET` of that word. -/
def framedCommand (command : List Bytes) : List Bytes :=
  match command with
  | [word] => if ToUpper word ∈ knownCommands then [word] else [bs "GET", word]
  | _ => command

/-- The method `SendCommand` up to the write: the request bytes written to the
connection, `none` for the error `empty command`. -/
def SendCommand (command : List Bytes) : Option Bytes :=
  if command.length = 0 then none
  else some (buildRESPArray (framedCommand command))

/-- A byte that is an ASCII digit. -/
def isDigit (c : UInt8) : Prop := 48 ≤ c.toNat ∧ c.toNat ≤ 57

/-- The value `readValue` returns for an element `WriteArray` has written. -/
def respOf : Iface → RESPValue
  | .str s => .mk BulkString [] 0 (some s) none
  | .bytes b => .mk BulkString [] 0 b none
  | .int n => .mk Integer [] n none none
  | .int64 n => .mk Integer [] n none none
  | .nil => .mk BulkString [] 0 none none
  | .other text => .mk BulkString [] 0 (some text) none

/-- The Go value `WriteArray` is given for an array element: an `int64` for an integer,
a `[]byte` (nil for the nil bulk) otherwise. -/
def elementOf : RESPValue → Iface
  | .mk t _ i b _ => if t = Integer then .int64 i else .bytes b

/-- A RESP value that is an integer or a bulk string (the nil bulk included), with the
other fields of the struct at their zero values and within the bounds of the Go types. -/
def RESPValue.isElement : RESPValue → Prop
  | .mk t s i b a =>
    a = none ∧ s = [] ∧
      ((t = Memora.Integer ∧ b = none ∧ inInt64 i)
        ∨ (t = BulkString ∧ i = 0 ∧ ∀ x, b = some x → (x.length : Int) + 2 < 2 ^ 63))

/-- The bounds the Go types put on a value: integers fit 64 bits and a byte string,
with its two terminator bytes, has a length that fits an `int`. -/
def Iface.inRange : Iface → Prop
  | .str s => (s.length : Int) + 2 < 2 ^ 63
  | .bytes (some b) => (b.length : Int) + 2 < 2 ^ 63
  | .bytes none => True
  | .int n => inInt64 n
  | .int64 n => inInt64 n
  | .nil => True
  | .other text => (text.length : Int) + 2 < 2 ^ 63

/-! ## The key matcher (`store/hashtable.go`) -/

/-- The inner loop of `matchesPattern` after a `*`: try the rest of the pattern,
through `f`, at every position `keyIndex < keyLen` of the key. -/
def scanKey (f : Bytes → Bool) : Bytes → Bool
  | [] => false
  | c :: key => f (c :: key) || scanKey f key

/-- The outer loop of `matchesPattern`, on the key from `keyIndex` on and the pattern
from `patternIndex` on.  The recursive call `matchesPattern(key[keyIndex:],
pattern[patternIndex:])` is the function handed to `scanKey`. -/
def matchLoop : Bytes → Bytes → Bool
  | key, [] => decide (key = []) -- return keyIndex == keyLen
  | key, p :: pattern =>
    if p = 42 then
      if pattern = [] then true
      else scanKey (fun k => if pattern = [42] then true else matchLoop k pattern) key
    else
      match key with
      | [] => false
      | c :: rest => if p = 63 ∨ p = c then matchLoop rest pattern else false

/-- The function `matchesPattern(key, pattern)`. -/
def matchesPattern (key pattern : Bytes) : Bool :=
  if pattern = [42] then true else matchLoop key pattern

/-- The glob semantics of the specification: `*` matches any, possibly empty, byte
sequence, `?` matches exactly one byte, every other byte matches itself. -/
inductive GlobMatches : (pattern key : Bytes) → Prop where
  | nil : GlobMatches [] []
  | star (s key pattern : Bytes) : GlobMatches pattern key → GlobMatches (42 :: pattern) (s ++ key)
  | any (c : UInt8) (key pattern : Bytes) :
      GlobMatches pattern key → GlobMatches (63 :: pattern) (c :: key)
  | lit (c : UInt8) (key pattern : Bytes) : c ≠ 42 → c ≠ 63 →
      GlobMatches pattern key → GlobMatches (c :: pattern) (c :: key)

/-! ## The expiring hash table (`store/hashtable.go`) -/

/-- Outcome of an operation that indexes or downcasts: its result, or a run-time
panic. -/
inductive Outcome (α : Type) where
  | ok (a : α)
  | panic
  deriving DecidableEq

/-- Sequencing: a panic ends the run. -/
def Outcome.bind {α β : Type} (x : Outcome α) (f : α → Outcome β) : Outcome β :=
  match x with
  | .ok a => f a
  | .panic => .panic

/-- The struct `Entry`; `Expiration` is a Unix time in nanoseconds, 0 for none. -/
structure Entry (α : Type) where
  Value : α
  Expiration : Int
  deriving DecidableEq

/-- A Go `map[string]*Entry`: keys are unique, one iteration order is fixed. -/
abbrev Bucket (α : Type) := AList (fun _ : Bytes => Entry α)

/-- The struct `HashTable`. -/
structure HashTable (α : Type) where
  buckets : List (Bucket α)
  size : Int
  count : Int

/-- The function `NewHashTable`. -/
def NewHashTable {α : Type} (size : Int) : HashTable α :=
  let size := if size ≤ 0 then 1024 else size
  { buckets := List.replicate size.toNat ∅, size := size, count := 0 }

/-- The loop of `hash`: `hash = 31*hash + int(key[i])` in wrapping 64-bit arithmetic. -/
def hashFold (key : Bytes) : Int :=
  key.foldl (fun hash c => wrap64 (31 * hash + (c.toNat : Int))) 0

/-- The method `hash`: the fold, then Go's `%`, whose result has the sign of the
dividend.  (For a table of size 0 the `%` panics: see `bucketOf`.) -/
def HashTable.hash {α : Type} (h : HashTable α) (key : Bytes) : Int :=
  Int.tmod (hashFold key) h.size

/-- The indexing `h.buckets[bucketIndex]`, which panics outside `0 ≤ index < len`. -/
def HashTable.bucketAt {α : Type} (h : HashTable α) (index : Int) : Outcome (Bucket α) :=
  if 0 ≤ index then
    match h.buckets[index.toNat]? with
    | some bucket => .ok bucket
    | none => .panic
  else .panic

/-- The two steps `bucketIndex := h.hash(key)` and `bucket := h.buckets[bucketIndex]`
with which every operation on a key starts.  `%` by a zero size panics, and so does an
index outside the slice. -/
def HashTable.bucketOf {α : Type} (h : HashTable α) (key : Bytes) : Outcome (Bucket α) :=
  if h.size = 0 then .panic else h.bucketAt (h.hash key)

/-- The method `Set`, at clock reading `now`; `ttl` is a `time.Duration` in
nanoseconds.  `time.Now().Add(ttl).UnixNano()` is the 64-bit wrap of `now + ttl`. -/
def HashTable.Set {α : Type} (h : HashTable α) (key : Bytes) (value : α) (ttl now : Int) :
    Outcome (HashTable α) :=
  let bucketIndex := h.hash key
  match h.bucketOf key with
  | .panic => .panic
  | .ok bucket =>
    let expiration : Int := if ttl > 0 then wrap64 (now + ttl) else 0
    let count := if (bucket.lookup key).isNone then h.count + 1 else h.count
    .ok { buckets := h.buckets.set bucketIndex.toNat
            (bucket.insert key { Value := value, Expiration := expiration })
          size := h.size
          count := count }

/-- The method `Get`, at clock reading `now`: `some value` for `(value, true)`, `none`
for `(nil, false)`.  It returns no table: a read leaves the table as it is. -/
def HashTable.Get {α : Type} (h : HashTable α) (key : Bytes) (now : Int) :
    Outcome (Option α) :=
  match h.bucketOf key with
  | .panic => .panic
  | .ok bucket =>
    match bucket.lookup key with
    | none => .ok none
    | some entry =>
      if entry.Expiration > 0 ∧ now > entry.Expiration then .ok none
      else .ok (some entry.Value)

/-- The method `TTL`, at clock reading `now`.  `/` on `int64` truncates toward zero. -/
def HashTable.TTL {α : Type} (h : HashTable α) (key : Bytes) (now : Int) : Outcome Int :=
  match h.bucketOf key with
  | .panic => .panic
  | .ok bucket =>
    match bucket.lookup key with
    | none => .ok (-2) -- Key doesn't exist
    | some entry =>
      if entry.Expiration = 0 then .ok (-1) -- No expiration
      else
        let ttl := Int.tdiv (wrap64 (entry.Expiration - now)) 1000000000
        if ttl < 0 then .ok (-2) -- Key expired
        else .ok ttl

/-- The method `Delete`: whether an entry was removed, and the table afterwards. -/
def HashTable.Delete {α : Type} (h : HashTable α) (key : Bytes) :
    Outcome (Bool × HashTable α) :=
  let bucketIndex := h.hash key
  match h.bucketOf key with
  | .panic => .panic
  | .ok bucket =>
    if (bucket.lookup key).isSome then
      .ok (true, { buckets := h.buckets.set bucketIndex.toNat (bucket.erase key)
                   size := h.size
                   count := h.count - 1 })
    else .ok (false, h)

/-- The method `Exists`, at clock reading `now`. -/
def HashTable.Exists {α : Type} (h : HashTable α) (key : Bytes) (now : Int) : Outcome Bool :=
  match h.bucketOf key with
  | .panic => .panic
  | .ok bucket =>
    match bucket.lookup key with
    | none => .ok false
    | some entry =>
      if entry.Expiration > 0 ∧ now > entry.Expiration then .ok false
      else .ok true

/-- The keys of one bucket that `Keys` reports. -/
def Bucket.liveKeys {α : Type} (bucket : Bucket α) (pattern : Bytes) (now : Int) :
    List Bytes :=
  (bucket.entries.filter
    (fun e => ¬ (e.2.Expiration > 0 ∧ now > e.2.Expiration) ∧ matchesPattern e.1 pattern = true)).map
    (fun e => e.1)

/-- The method `Keys`, at clock reading `now`.  Go leaves the order of a map iteration
open; the model lists each bucket in its stored order. -/
def HashTable.Keys {α : Type} (h : HashTable α) (pattern : Bytes) (now : Int) : List Bytes :=
  (h.buckets.map (fun bucket => bucket.liveKeys pattern now)).flatten

/-- The method `Expire`, at clock reading `now`: whether the key was found, and the
table afterwards.  The entry is updated in place. -/
def HashTable.Expire {α : Type} (h : HashTable α) (key : Bytes) (ttl now : Int) :
    Outcome (Bool × HashTable α) :=
  let bucketIndex := h.hash key
  match h.bucketOf key with
  | .panic => .panic
  | .ok bucket =>
    match bucket.lookup key with
    | none => .ok (false, h)
    | some entry =>
      let expiration : Int := if ttl > 0 then wrap64 (now + ttl) else 0
      .ok (true, { buckets := h.buckets.set bucketIndex.toNat
                     (bucket.replace key { Value := entry.Value, Expiration := expiration })
                   size := h.size
                   count := h.count })

/-- The method `Count`. -/
def HashTable.Count {α : Type} (h : HashTable α) : Int := h.count

/-- The entries of one bucket that `RemoveExpired` deletes. -/
def Bucket.expiredKeys {α : Type} (bucket : Bucket α) (now : Int) : List Bytes :=
  (bucket.entries.filter (fun e => e.2.Expiration > 0 ∧ now > e.2.Expiration)).map
    (fun e => e.1)

/-- The method `RemoveExpired`, at clock reading `now`: the number of entries removed,
and the table afterwards. -/
def HashTable.RemoveExpired {α : Type} (h : HashTable α) (now : Int) : Int × HashTable α :=
  let removed : Nat := ((h.buckets.map (fun bucket => (bucket.expiredKeys now).length))).sum
  ((removed : Int),
   { buckets := h.buckets.map
       (fun bucket => (bucket.expiredKeys now).foldl (fun b key => b.erase key) bucket)
     size := h.size
     count := h.count - removed })

/-! ## The value store (`store/store.go`) -/

/-- A Go `map[interface{}]bool`. -/
abbrev GoSet := AList (fun _ : Iface => Bool)

/-- A Go `map[string]interface{}`. -/
abbrev GoHash := AList (fun _ : Bytes => Iface)

/-- An `interface{}` as the tables and the dispatcher hold it: a value of a
non-composite type, a `[]interface{}` (`none` when nil), a `map[interface{}]bool` or a
`map[string]interface{}`. -/
inductive Value where
  | atom (v : Iface)
  | slice (vs : Option (List Iface))
  | set (m : GoSet)
  | hash (m : GoHash)
  deriving DecidableEq

/-- The struct `DataStore`: four tables of `interface{}` values. -/
structure DataStore where
  stringStore : HashTable Value
  listStore : HashTable Value
  setStore : HashTable Value
  hashStore : HashTable Value

/-- The function `NewDataStore`. -/
def NewDataStore : DataStore :=
  { stringStore := NewHashTable 1024
    listStore := NewHashTable 512
    setStore := NewHashTable 512
    hashStore := NewHashTable 512 }

/-- The method `DataStore.Set`. -/
def DataStore.Set (ds : DataStore) (key : Bytes) (value : Value) (ttl now : Int) :
    Outcome DataStore :=
  (ds.stringStore.Set key value ttl now).bind fun t => .ok { ds with stringStore := t }

/-- The method `DataStore.Get`. -/
def DataStore.Get (ds : DataStore) (key : Bytes) (now : Int) : Outcome (Option Value) :=
  ds.stringStore.Get key now

/-- Go `append(a, b...)` on slices that may be nil: with nothing to add the first
slice is returned as it is. -/
def goAppend (a b : Option (List Iface)) : Option (List Iface) :=
  match b.getD [] with
  | [] => a
  | x :: xs => some (a.getD [] ++ x :: xs)

/-- The slice a variadic parameter holds: nil when no argument was passed. -/
def variadic (values : List Iface) : Option (List Iface) :=
  if values = [] then none else some values

/-- The type assertion `existing.([]interface{})`, which panics on another type. -/
def Value.asSlice : Value → Outcome (Option (List Iface))
  | .slice vs => .ok vs
  | _ => .panic

/-- The method `LPush`: the returned length and the store afterwards. -/
def DataStore.LPush (ds : DataStore) (key : Bytes) (values : List Iface) (now : Int) :
    Outcome (Int × DataStore) :=
  (ds.listStore.Get key now).bind fun existing =>
    (match existing with
      | some v => v.asSlice
      | none => .ok none).bind fun list =>
      let list := goAppend (variadic values) list
      (ds.listStore.Set key (.slice list) 0 now).bind fun t =>
        .ok (((list.getD []).length : Int), { ds with listStore := t })

/-- The method `RPush`. -/
def DataStore.RPush (ds : DataStore) (key : Bytes) (values : List Iface) (now : Int) :
    Outcome (Int × DataStore) :=
  (ds.listStore.Get key now).bind fun existing =>
    (match existing with
      | some v => v.asSlice
      | none => .ok none).bind fun list =>
      let list := goAppend list (variadic values)
      (ds.listStore.Set key (.slice list) 0 now).bind fun t =>
        .ok (((list.getD []).length : Int), { ds with listStore := t })

/-- The type assertion `existing.(map[interface{}]bool)`. -/
def Value.asSet : Value → Outcome GoSet
  | .set m => .ok m
  | _ => .panic

/-- The type assertion `existing.(map[string]interface{})`. -/
def Value.asHash : Value → Outcome GoHash
  | .hash m => .ok m
  | _ => .panic

/-- Whether a value can be a key of a Go map: a `[]byte` cannot, and using one panics.
A value of an unlisted type (`other`) is taken to be of a comparable type. -/
def Iface.hashable : Iface → Bool
  | .bytes _ => false
  | _ => true

/-- The method `LPop`: the removed head (`nil` when there is none) and the store
afterwards. -/
def DataStore.LPop (ds : DataStore) (key : Bytes) (now : Int) : Outcome (Iface × DataStore) :=
  (ds.listStore.Get key now).bind fun existing =>
    match existing with
    | none => .ok (.nil, ds)
    | some v =>
      v.asSlice.bind fun list =>
        match list.getD [] with
        | [] => .ok (.nil, ds)
        | value :: rest =>
          (ds.listStore.Set key (.slice (some rest)) 0 now).bind fun t =>
            .ok (value, { ds with listStore := t })

/-- The method `RPop`. -/
def DataStore.RPop (ds : DataStore) (key : Bytes) (now : Int) : Outcome (Iface × DataStore) :=
  (ds.listStore.Get key now).bind fun existing =>
    match existing with
    | none => .ok (.nil, ds)
    | some v =>
      v.asSlice.bind fun list =>
        match (list.getD []).getLast? with
        | none => .ok (.nil, ds)
        | some value =>
          (ds.listStore.Set key (.slice (some (list.getD []).dropLast)) 0 now).bind fun t =>
            .ok (value, { ds with listStore := t })

/-- The method `LLen`. -/
def DataStore.LLen (ds : DataStore) (key : Bytes) (now : Int) : Outcome Int :=
  (ds.listStore.Get key now).bind fun existing =>
    match existing with
    | none => .ok 0
    | some v => v.asSlice.bind fun list => .ok ((list.getD []).length : Int)

/-- The map read `set[member]`: false for an absent key. -/
def GoSet.get (set : GoSet) (member : Iface) : Bool := (set.lookup member).getD false

/-- The loop of `SAdd`: the set and the count of added members after each member. -/
def saddLoop : List Iface → GoSet × Int → GoSet × Int
  | [], acc => acc
  | member :: members, (set, added) =>
    if ¬ set.get member then saddLoop members (set.insert member true, added + 1)
    else saddLoop members (set, added)

/-- The method `SAdd`: the number of members added and the store afterwards. -/
def DataStore.SAdd (ds : DataStore) (key : Bytes) (members : List Iface) (now : Int) :
    Outcome (Int × DataStore) :=
  (ds.setStore.Get key now).bind fun existing =>
    (match existing with
      | some v => v.asSet
      | none => .ok ∅).bind fun set =>
      if members.all Iface.hashable then
        let r := saddLoop members (set, 0)
        (ds.setStore.Set key (.set r.1) 0 now).bind fun t =>
          .ok (r.2, { ds with setStore := t })
      else .panic -- hash of unhashable type

/-- The loop of `SRem`. -/
def sremLoop : List Iface → GoSet × Int → GoSet × Int
  | [], acc => acc
  | member :: members, (set, removed) =>
    if set.get member then sremLoop members (set.erase member, removed + 1)
    else sremLoop members (set, removed)

/-- The method `SRem`. -/
def DataStore.SRem (ds : DataStore) (key : Bytes) (members : List Iface) (now : Int) :
    Outcome (Int × DataStore) :=
  (ds.setStore.Get key now).bind fun existing =>
    match existing with
    | none => .ok (0, ds)
    | some v =>
      v.asSet.bind fun set =>
        if members.all Iface.hashable then
          let r := sremLoop members (set, 0)
          (ds.setStore.Set key (.set r.1) 0 now).bind fun t =>
            .ok (r.2, { ds with setStore := t })
        else .panic -- hash of unhashable type

/-- The method `SMembers`: `none` is the nil slice.  The members come in the iteration
order of the map, which Go leaves open; the model uses the stored order. -/
def DataStore.SMembers (ds : DataStore) (key : Bytes) (now : Int) :
    Outcome (Option (List Iface)) :=
  (ds.setStore.Get key now).bind fun existing =>
    match existing with
    | none => .ok none
    | some (.set m) => .ok (some m.keys)
    | some _ => .ok none -- the checked assertion `set, ok := existing.(...)`

/-- The method `SIsMember`. -/
def DataStore.SIsMember (ds : DataStore) (key : Bytes) (member : Iface) (now : Int) :
    Outcome Bool :=
  (ds.setStore.Get key now).bind fun existing =>
    match existing with
    | none => .ok false
    | some v =>
      v.asSet.bind fun set =>
        if member.hashable then .ok (set.get member) else .panic

/-- The map read `hash[field]`: nil for an absent key. -/
def GoHash.get (hash : GoHash) (field : Bytes) : Iface := (hash.lookup field).getD .nil

/-- The method `HSet`: whether the field was new, and the store afterwards. -/
def DataStore.HSet (ds : DataStore) (key field : Bytes) (value : Iface) (now : Int) :
    Outcome (Bool × DataStore) :=
  (ds.hashStore.Get key now).bind fun existing =>
    (match existing with
      | some v => v.asHash
      | none => .ok ∅).bind fun hash =>
      let fieldExists := decide (hash.get field ≠ .nil)
      (ds.hashStore.Set key (.hash (hash.insert field value)) 0 now).bind fun t =>
        .ok (! fieldExists, { ds with hashStore := t })

/-- The method `HGet`. -/
def DataStore.HGet (ds : DataStore) (key field : Bytes) (now : Int) : Outcome Iface :=
  (ds.hashStore.Get key now).bind fun existing =>
    match existing with
    | none => .ok .nil
    | some v => v.asHash.bind fun hash => .ok (hash.get field)

/-- The loop of `HDel`. -/
def hdelLoop : List Bytes → GoHash × Int → GoHash × Int
  | [], acc => acc
  | field :: fields, (hash, deleted) =>
    if hash.get field ≠ .nil then hdelLoop fields (hash.erase field, deleted + 1)
    else hdelLoop fields (hash, deleted)

/-- The method `HDel`. -/
def DataStore.HDel (ds : DataStore) (key : Bytes) (fields : List Bytes) (now : Int) :
    Outcome (Int × DataStore) :=
  (ds.hashStore.Get key now).bind fun existing =>
    match existing with
    | none => .ok (0, ds)
    | some v =>
      v.asHash.bind fun hash =>
        let r := hdelLoop fields (hash, 0)
        (ds.hashStore.Set key (.hash r.1) 0 now).bind fun t =>
          .ok (r.2, { ds with hashStore := t })

/-- The method `HGetAll`: `none` is the nil map. -/
def DataStore.HGetAll (ds : DataStore) (key : Bytes) (now : Int) : Outcome (Option GoHash) :=
  (ds.hashStore.Get key now).bind fun existing =>
    match existing with
    | none => .ok none
    | some v => v.asHash.bind fun hash => .ok (some hash)

/-- The method `DataStore.Delete`: all four tables are tried, in order. -/
def DataStore.Delete (ds : DataStore) (key : Bytes) : Outcome (Bool × DataStore) :=
  (ds.stringStore.Delete key).bind fun r1 =>
    (ds.listStore.Delete key).bind fun r2 =>
      (ds.setStore.Delete key).bind fun r3 =>
        (ds.hashStore.Delete key).bind fun r4 =>
          .ok (r4.1 || (r3.1 || (r2.1 || r1.1)),
            { stringStore := r1.2, listStore := r2.2, setStore := r3.2, hashStore := r4.2 })

/-- The method `DataStore.Exists`: `||` stops at the first table that has the key. -/
def DataStore.Exists (ds : DataStore) (key : Bytes) (now : Int) : Outcome Bool :=
  (ds.stringStore.Exists key now).bind fun e1 =>
    if e1 then .ok true
    else (ds.listStore.Exists key now).bind fun e2 =>
      if e2 then .ok true
      else (ds.setStore.Exists key now).bind fun e3 =>
        if e3 then .ok true
        else ds.hashStore.Exists key now

/-- The method `DataStore.Keys`: the keys of the four tables, each once.  The order of
the result is that of a map iteration in Go; the model keeps the order of discovery. -/
def DataStore.Keys (ds : DataStore) (pattern : Bytes) (now : Int) : List Bytes :=
  (ds.stringStore.Keys pattern now ++ ds.listStore.Keys pattern now
    ++ ds.setStore.Keys pattern now ++ ds.hashStore.Keys pattern now).dedup

/-- The method `DataStore.TTL`: the first answer other than -2. -/
def DataStore.TTL (ds : DataStore) (key : Bytes) (now : Int) : Outcome Int :=
  (ds.stringStore.TTL key now).bind fun t1 =>
    if t1 ≠ -2 then .ok t1
    else (ds.listStore.TTL key now).bind fun t2 =>
      if t2 ≠ -2 then .ok t2
      else (ds.setStore.TTL key now).bind fun t3 =>
        if t3 ≠ -2 then .ok t3
        else (ds.hashStore.TTL key now).bind fun t4 =>
          if t4 ≠ -2 then .ok t4 else .ok (-2)

/-- The method `DataStore.Expire`: all four tables are tried, in order. -/
def DataStore.Expire (ds : DataStore) (key : Bytes) (ttl now : Int) :
    Outcome (Bool × DataStore) :=
  (ds.stringStore.Expire key ttl now).bind fun r1 =>
    (ds.listStore.Expire key ttl now).bind fun r2 =>
      (ds.setStore.Expire key ttl now).bind fun r3 =>
        (ds.hashStore.Expire key ttl now).bind fun r4 =>
          .ok (r4.1 || (r3.1 || (r2.1 || r1.1)),
            { stringStore := r1.2, listStore := r2.2, setStore := r3.2, hashStore := r4.2 })

/-- The method `DataStore.RemoveExpired`. -/
def DataStore.RemoveExpired (ds : DataStore) (now : Int) : Int × DataStore :=
  let r1 := ds.stringStore.RemoveExpired now
  let r2 := ds.listStore.RemoveExpired now
  let r3 := ds.setStore.RemoveExpired now
  let r4 := ds.hashStore.RemoveExpired now
  (r1.1 + r2.1 + r3.1 + r4.1,
    { stringStore := r1.2, listStore := r2.2, setStore := r3.2, hashStore := r4.2 })

/-- The method `FlushAll`. -/
def DataStore.FlushAll (_ds : DataStore) : DataStore := NewDataStore

/-! ## The command dispatcher (`commands/commands.go`) and `writeResponse`
(`server/server.go`)

A handler takes the store and the clock reading of the command and returns the reply
together with the store afterwards.  All clock reads of one command see the same
reading. -/

/-- Texts joined with single spaces. -/
def joinSpace : List Bytes → Bytes
  | [] => []
  | [x] => x
  | x :: y :: rest => x ++ 32 :: joinSpace (y :: rest)

/-- The text `fmt.Sprintf("%v", v)` prints for a non-composite value. -/
def Iface.sprint : Iface → Bytes
  | .str s => s
  | .bytes b => 91 :: joinSpace ((b.getD []).map fun c => formatNat c.toNat) ++ [93]
  | .int n => formatInt n
  | .int64 n => formatInt n
  | .nil => bs "<nil>"
  | .other text => text

/-- The text `fmt.Sprintf("%v", v)` prints.  For a map Go sorts the keys; the model
prints the entries in their stored order. -/
def Value.sprint : Value → Bytes
  | .atom v => v.sprint
  | .slice vs => 91 :: joinSpace ((vs.getD []).map Iface.sprint) ++ [93]
  | .set m =>
    bs "map[" ++ joinSpace (m.entries.map fun e =>
      e.1.sprint ++ 58 :: (if e.2 then bs "true" else bs "false")) ++ [93]
  | .hash m =>
    bs "map[" ++ joinSpace (m.entries.map fun e => e.1 ++ 58 :: e.2.sprint) ++ [93]

/-- A reply that is a Go string. -/
def strReply (s : String) : Value := .atom (.str (bs s))

/-- A reply that is a Go `int`. -/
def intReply (n : Int) : Value := .atom (.int n)

/-- The conversion loop `values[i] = arg` from strings to `interface{}`. -/
def toIfaces (args : List Bytes) : List Iface := args.map Iface.str

/-- The handler `handleSet`. -/
def handleSet (ds : DataStore) (args : List Bytes) (now : Int) : Outcome (Value × DataStore) :=
  match args with
  | key :: value :: more =>
    let ttl : Option Int :=
      match more with
      | option :: amount :: _ =>
        if ToUpper option = bs "EX" then
          (Atoi amount).map fun seconds => wrap64 (seconds * 1000000000)
        else if ToUpper option = bs "PX" then
          (Atoi amount).map fun millis => wrap64 (millis * 1000000)
        else some 0
      | _ => some 0
    match ttl with
    | none => .ok (strReply "ERR invalid expire time in 'set' command", ds)
    | some ttl =>
      (ds.Set key (.atom (.str value)) ttl now).bind fun ds2 => .ok (strReply "OK", ds2)
  | _ => .ok (strReply "ERR wrong number of arguments for 'set' command", ds)

/-- The handler `handleGet`. -/
def handleGet (ds : DataStore) (args : List Bytes) (now : Int) : Outcome (Value × DataStore) :=
  match args with
  | [key] =>
    (ds.Get key now).bind fun found =>
      match found with
      | none => .ok (.atom .nil, ds)
      | some (.atom (.str str)) => .ok (.atom (.str str), ds)
      | some value => .ok (.atom (.str value.sprint), ds)
  | _ => .ok (strReply "ERR wrong number of arguments for 'get' command", ds)

/-- The loop of `handleDel`. -/
def delLoop : List Bytes → DataStore → Int → Outcome (Int × DataStore)
  | [], ds, deleted => .ok (deleted, ds)
  | key :: keys, ds, deleted =>
    (ds.Delete key).bind fun r => delLoop keys r.2 (if r.1 then deleted + 1 else deleted)

/-- The handler `handleDel`. -/
def handleDel (ds : DataStore) (args : List Bytes) (_now : Int) : Outcome (Value × DataStore) :=
  (delLoop args ds 0).bind fun r => .ok (intReply r.1, r.2)

/-- The loop of `handleExists`. -/
def existsLoop (ds : DataStore) (now : Int) : List Bytes → Int → Outcome Int
  | [], count => .ok count
  | key :: keys, count =>
    (ds.Exists key now).bind fun e => existsLoop ds now keys (if e then count + 1 else count)

/-- The handler `handleExists`. -/
def handleExists (ds : DataStore) (args : List Bytes) (now : Int) :
    Outcome (Value × DataStore) :=
  (existsLoop ds now args 0).bind fun count => .ok (intReply count, ds)

/-- The handler `handleKeys`. -/
def handleKeys (ds : DataStore) (args : List Bytes) (now : Int) : Outcome (Value × DataStore) :=
  match args with
  | [pattern] =>
    let pattern := if pattern = [] then bs "*" else pattern
    .ok (.slice (some (toIfaces (ds.Keys pattern now))), ds)
  | _ => .ok (strReply "ERR wrong number of arguments for 'keys' command", ds)

/-- The handler `handleTTL`. -/
def handleTTL (ds : DataStore) (args : List Bytes) (now : Int) : Outcome (Value × DataStore) :=
  match args with
  | [key] => (ds.TTL key now).bind fun ttl => .ok (.atom (.int64 ttl), ds)
  | _ => .ok (strReply "ERR wrong number of arguments for 'ttl' command", ds)

/-- The handler `handleExpire`. -/
def handleExpire (ds : DataStore) (args : List Bytes) (now : Int) :
    Outcome (Value × DataStore) :=
  match args with
  | [key, amount] =>
    match Atoi amount with
    | none => .ok (intReply 0, ds)
    | some seconds =>
      (ds.Expire key (wrap64 (seconds * 1000000000)) now).bind fun r =>
        .ok (intReply (if r.1 then 1 else 0), r.2)
  | _ => .ok (strReply "ERR wrong number of arguments for 'expire' command", ds)

/-- The handler `handleIncr`. -/
def handleIncr (ds : DataStore) (args : List Bytes) (now : Int) : Outcome (Value × DataStore) :=
  match args with
  | [key] =>
    (ds.Get key now).bind fun found =>
      match found with
      | none =>
        (ds.Set key (.atom (.str (bs "1"))) 0 now).bind fun ds2 => .ok (intReply 1, ds2)
      | some (.atom (.str strValue)) =>
        match Atoi strValue with
        | none => .ok (strReply "ERR value is not an integer or out of range", ds)
        | some num =>
          let num := wrap64 (num + 1) -- num++
          (ds.Set key (.atom (.str (formatInt num))) 0 now).bind fun ds2 =>
            .ok (intReply num, ds2)
      | some _ => .ok (strReply "ERR value is not an integer or out of range", ds)
  | _ => .ok (strReply "ERR wrong number of arguments for 'incr' command", ds)

/-- The handler `handleDecr`. -/
def handleDecr (ds : DataStore) (args : List Bytes) (now : Int) : Outcome (Value × DataStore) :=
  match args with
  | [key] =>
    (ds.Get key now).bind fun found =>
      match found with
      | none =>
        (ds.Set key (.atom (.str (bs "-1"))) 0 now).bind fun ds2 => .ok (intReply (-1), ds2)
      | some (.atom (.str strValue)) =>
        match Atoi strValue with
        | none => .ok (strReply "ERR value is not an integer or out of range", ds)
        | some num =>
          let num := wrap64 (num - 1) -- num--
          (ds.Set key (.atom (.str (formatInt num))) 0 now).bind fun ds2 =>
            .ok (intReply num, ds2)
      | some _ => .ok (strReply "ERR value is not an integer or out of range", ds)
  | _ => .ok (strReply "ERR wrong number of arguments for 'decr' command", ds)

/-- The handler `handleLPush`. -/
def handleLPush (ds : DataStore) (args : List Bytes) (now : Int) :
    Outcome (Value × DataStore) :=
  match args with
  | key :: value :: values =>
    (ds.LPush key (toIfaces (value :: values)) now).bind fun r => .ok (intReply r.1, r.2)
  | _ => .ok (strReply "ERR wrong number of arguments for 'lpush' command", ds)

/-- The handler `handleRPush`. -/
def handleRPush (ds : DataStore) (args : List Bytes) (now : Int) :
    Outcome (Value × DataStore) :=
  match args with
  | key :: value :: values =>
    (ds.RPush key (toIfaces (value :: values)) now).bind fun r => .ok (intReply r.1, r.2)
  | _ => .ok (strReply "ERR wrong number of arguments for 'rpush' command", ds)

/-- The handler `handleLPop`. -/
def handleLPop (ds : DataStore) (args : List Bytes) (now : Int) : Outcome (Value × DataStore) :=
  match args with
  | [key] => (ds.LPop key now).bind fun r => .ok (.atom r.1, r.2)
  | _ => .ok (strReply "ERR wrong number of arguments for 'lpop' command", ds)

/-- The handler `handleRPop`. -/
def handleRPop (ds : DataStore) (args : List Bytes) (now : Int) : Outcome (Value × DataStore) :=
  match args with
  | [key] => (ds.RPop key now).bind fun r => .ok (.atom r.1, r.2)
  | _ => .ok (strReply "ERR wrong number of arguments for 'rpop' command", ds)

/-- The handler `handleLLen`. -/
def handleLLen (ds : DataStore) (args : List Bytes) (now : Int) : Outcome (Value × DataStore) :=
  match args with
  | [key] => (ds.LLen key now).bind fun n => .ok (intReply n, ds)
  | _ => .ok (strReply "ERR wrong number of arguments for 'llen' command", ds)

/-- The handler `handleSAdd`. -/
def handleSAdd (ds : DataStore) (args : List Bytes) (now : Int) : Outcome (Value × DataStore) :=
  match args with
  | key :: member :: members =>
    (ds.SAdd key (toIfaces (member :: members)) now).bind fun r => .ok (intReply r.1, r.2)
  | _ => .ok (strReply "ERR wrong number of arguments for 'sadd' command", ds)

/-- The handler `handleSRem`. -/
def handleSRem (ds : DataStore) (args : List Bytes) (now : Int) : Outcome (Value × DataStore) :=
  match args with
  | key :: member :: members =>
    (ds.SRem key (toIfaces (member :: members)) now).bind fun r => .ok (intReply r.1, r.2)
  | _ => .ok (strReply "ERR wrong number of arguments for 'srem' command", ds)

/-- The handler `handleSMembers`. -/
def handleSMembers (ds : DataStore) (args : List Bytes) (now : Int) :
    Outcome (Value × DataStore) :=
  match args with
  | [key] =>
    (ds.SMembers key now).bind fun members =>
      match members with
      | none => .ok (.slice (some []), ds)
      | some ms => .ok (.slice (some ms), ds)
  | _ => .ok (strReply "ERR wrong number of arguments for 'smembers' command", ds)

/-- The handler `handleSIsMember`. -/
def handleSIsMember (ds : DataStore) (args : List Bytes) (now : Int) :
    Outcome (Value × DataStore) :=
  match args with
  | [key, member] =>
    (ds.SIsMember key (.str member) now).bind fun e =>
      .ok (intReply (if e then 1 else 0), ds)
  | _ => .ok (strReply "ERR wrong number of arguments for 'sismember' command", ds)

/-- The loop of `handleHSet` over the field and value pairs; the arity check before it
makes the number of remaining arguments even. -/
def hsetLoop (key : Bytes) (now : Int) : List Bytes → DataStore → Int → Outcome (Int × DataStore)
  | field :: value :: rest, ds, added =>
    (ds.HSet key field (.str value) now).bind fun r =>
      hsetLoop key now rest r.2 (if r.1 then added + 1 else added)
  | _, ds, added => .ok (added, ds)

/-- The handler `handleHSet`. -/
def handleHSet (ds : DataStore) (args : List Bytes) (now : Int) : Outcome (Value × DataStore) :=
  if args.length < 3 ∨ args.length % 2 ≠ 1 then
    .ok (strReply "ERR wrong number of arguments for 'hset' command", ds)
  else
    match args with
    | key :: pairs => (hsetLoop key now pairs ds 0).bind fun r => .ok (intReply r.1, r.2)
    | [] => .ok (intReply 0, ds)

/-- The handler `handleHGet`. -/
def handleHGet (ds : DataStore) (args : List Bytes) (now : Int) : Outcome (Value × DataStore) :=
  match args with
  | [key, field] => (ds.HGet key field now).bind fun v => .ok (.atom v, ds)
  | _ => .ok (strReply "ERR wrong number of arguments for 'hget' command", ds)

/-- The handler `handleHDel`. -/
def handleHDel (ds : DataStore) (args : List Bytes) (now : Int) : Outcome (Value × DataStore) :=
  match args with
  | key :: field :: fields =>
    (ds.HDel key (field :: fields) now).bind fun r => .ok (intReply r.1, r.2)
  | _ => .ok (strReply "ERR wrong number of arguments for 'hdel' command", ds)

/-- The handler `handleHGetAll`: fields and values alternate, in the iteration order
of the map. -/
def handleHGetAll (ds : DataStore) (args : List Bytes) (now : Int) :
    Outcome (Value × DataStore) :=
  match args with
  | [key] =>
    (ds.HGetAll key now).bind fun hash =>
      match hash with
      | none => .ok (.slice (some []), ds)
      | some m => .ok (.slice (some ((m.entries.map fun e => [Iface.str e.1, e.2]).flatten)), ds)
  | _ => .ok (strReply "ERR wrong number of arguments for 'hgetall' command", ds)

/-- The handler `handleHKeys`. -/
def handleHKeys (ds : DataStore) (args : List Bytes) (now : Int) :
    Outcome (Value × DataStore) :=
  match args with
  | [key] =>
    (ds.HGetAll key now).bind fun hash =>
      match hash with
      | none => .ok (.slice (some []), ds)
      | some m => .ok (.slice (some (m.entries.map fun e => Iface.str e.1)), ds)
  | _ => .ok (strReply "ERR wrong number of arguments for 'hkeys' command", ds)

/-- The handler `handleHVals`. -/
def handleHVals (ds : DataStore) (args : List Bytes) (now : Int) :
    Outcome (Value × DataStore) :=
  match args with
  | [key] =>
    (ds.HGetAll key now).bind fun hash =>
      match hash with
      | none => .ok (.slice (some []), ds)
      | some m => .ok (.slice (some (m.entries.map fun e => e.2)), ds)
  | _ => .ok (strReply "ERR wrong number of arguments for 'hvals' command", ds)

/-- The handler `handleEcho`. -/
def handleEcho (ds : DataStore) (args : List Bytes) (_now : Int) :
    Outcome (Value × DataStore) :=
  match args with
  | [message] => .ok (.atom (.str message), ds)
  | _ => .ok (strReply "ERR wrong number of arguments for 'echo' command", ds)

/-- The handler `handleFlushAll`. -/
def handleFlushAll (ds : DataStore) (_args : List Bytes) (_now : Int) :
    Outcome (Value × DataStore) :=
  .ok (strReply "OK", ds.FlushAll)

/-- The handler `handleDBSize`. -/
def handleDBSize (ds : DataStore) (_args : List Bytes) (now : Int) :
    Outcome (Value × DataStore) :=
  .ok (intReply ((ds.Keys (bs "*") now).length : Int), ds)

/-- Go's order on strings: byte-wise lexicographic, `a <= b`. -/
def bytesLE : Bytes → Bytes → Bool
  | [], _ => true
  | _ :: _, [] => false
  | a :: as, b :: rest =>
    if a.toNat < b.toNat then true
    else if b.toNat < a.toNat then false
    else bytesLE as rest

/-- The members of a `[]interface{}` that are strings (`str, ok := v.(string)`). -/
def stringMembers : List Iface → List Bytes
  | [] => []
  | .str s :: rest => s :: stringMembers rest
  | _ :: rest => stringMembers rest

/-- The handler `handleZRANGEBYLEX`. -/
def handleZRANGEBYLEX (ds : DataStore) (args : List Bytes) (now : Int) :
    Outcome (Value × DataStore) :=
  match args with
  | [key, order] =>
    (ds.SMembers key now).bind fun membersIface =>
      match membersIface with
      | none => .ok (.slice (some []), ds)
      | some ms =>
        let members := stringMembers ms
        if order = bs "I" then
          -- sort.Strings(members)
          .ok (.slice (some (toIfaces (members.insertionSort fun a b => bytesLE a b = true))), ds)
        else if order = bs "D" then
          -- sort.Sort(sort.Reverse(sort.StringSlice(members)))
          .ok (.slice (some (toIfaces (members.insertionSort fun a b => bytesLE b a = true))), ds)
        else .ok (strReply "ERR invalid sort order; use 'I' or 'D'", ds)
  | _ => .ok (strReply "ERR wrong number of arguments for 'ZRANGEBYLEX' command", ds)

/-- The method `HandleCommand`, on the store `ds` at clock reading `now`: the reply and
the store afterwards. -/
def HandleCommand (ds : DataStore) (command : List Bytes) (now : Int) :
    Outcome (Value × DataStore) :=
  match command with
  | [] => .ok (.atom .nil, ds)
  | name :: args =>
    let cmd := ToUpper name
    if cmd = bs "SET" then handleSet ds args now
    else if cmd = bs "GET" then handleGet ds args now
    else if cmd = bs "DEL" then handleDel ds args now
    else if cmd = bs "EXISTS" then handleExists ds args now
    else if cmd = bs "KEYS" then handleKeys ds args now
    else if cmd = bs "TTL" then handleTTL ds args now
    else if cmd = bs "EXPIRE" then handleExpire ds args now
    else if cmd = bs "INCR" then handleIncr ds args now
    else if cmd = bs "DECR" then handleDecr ds args now
    else if cmd = bs "LPUSH" then handleLPush ds args now
    else if cmd = bs "RPUSH" then handleRPush ds args now
    else if cmd = bs "LPOP" then handleLPop ds args now
    else if cmd = bs "RPOP" then handleRPop ds args now
    else if cmd = bs "LLEN" then handleLLen ds args now
    else if cmd = bs "SADD" then handleSAdd ds args now
    else if cmd = bs "SREM" then handleSRem ds args now
    else if cmd = bs "SMEMBERS" then handleSMembers ds args now
    else if cmd = bs "SISMEMBER" then handleSIsMember ds args now
    else if cmd = bs "HSET" then handleHSet ds args now
    else if cmd = bs "HGET" then handleHGet ds args now
    else if cmd = bs "HDEL" then handleHDel ds args now
    else if cmd = bs "HGETALL" then handleHGetAll ds args now
    else if cmd = bs "HKEYS" then handleHKeys ds args now
    else if cmd = bs "HVALS" then handleHVals ds args now
    else if cmd = bs "PING" then .ok (strReply "PONG", ds)
    else if cmd = bs "ECHO" then handleEcho ds args now
    else if cmd = bs "FLUSHALL" then handleFlushAll ds args now
    else if cmd = bs "DBSIZE" then handleDBSize ds args now
    else if cmd = bs "COMMAND" then .ok (strReply "OK", ds)
    else if cmd = bs "ZRANGEBYLEX" then handleZRANGEBYLEX ds args now
    else if command.length = 1 then handleGet ds command now
    else .ok (.atom .nil, ds)

/-- The method `writeResponse`: the bytes written to the connection for a reply. -/
def writeResponse (result : Value) : Bytes :=
  match result with
  | .atom (.str v) => WriteSimpleString v
  | .atom (.bytes v) => WriteBulkString v
  | .atom (.int v) => WriteInteger v
  | .atom (.int64 v) => WriteInteger v
  | .slice v => WriteArray v
  | .atom .nil => WriteNull
  | v => WriteBulkString (some v.sprint)

/-! ## Reading one bucket

The part of `Get`, `Exists` and `TTL` that follows the lookup of the bucket, and the two
ways a key can sit in a table; used to state what the operations do. -/

/-- What `Get` answers from the bucket of the key. -/
def Bucket.get {α : Type} (bucket : Bucket α) (key : Bytes) (now : Int) : Option α :=
  match bucket.lookup key with
  | none => none
  | some entry =>
    if entry.Expiration > 0 ∧ now > entry.Expiration then none else some entry.Value

/-- What `TTL` answers from the bucket of the key. -/
def Bucket.ttl {α : Type} (bucket : Bucket α) (key : Bytes) (now : Int) : Int :=
  match bucket.lookup key with
  | none => -2
  | some entry =>
    if entry.Expiration = 0 then -1
    else if Int.tdiv (wrap64 (entry.Expiration - now)) 1000000000 < 0 then -2
    else Int.tdiv (wrap64 (entry.Expiration - now)) 1000000000

/-- The table holds no entry for the key, expired or not. -/
def HashTable.absent {α : Type} (h : HashTable α) (key : Bytes) : Prop :=
  ∃ bucket, h.bucketOf key = .ok bucket ∧ bucket.lookup key = none

/-- The table holds the entry `entry` for the key. -/
def HashTable.holds {α : Type} (h : HashTable α) (key : Bytes) (entry : Entry α) : Prop :=
  ∃ bucket, h.bucketOf key = .ok bucket ∧ bucket.lookup key = some entry

/-- Successive `LPop` calls on one key, one at each clock reading of `times`: the
values returned, in order, and the store afterwards. -/
def lpops (key : Bytes) : List Int → DataStore → Outcome (List Iface × DataStore)
  | [], ds => .ok ([], ds)
  | now :: times, ds =>
    (ds.LPop key now).bind fun r =>
      (lpops key times r.2).bind fun rs => .ok (r.1 :: rs.1, rs.2)

/-- The commands of one connection, each with the clock reading at which it is handled
(the loop of `handleConnection` after parsing): the bytes written in reply, in order. -/
def serve : List (List Bytes × Int) → DataStore → Outcome (List Bytes)
  | [], _ => .ok []
  | (command, now) :: rest, ds =>
    (HandleCommand ds command now).bind fun r =>
      (serve rest r.2).bind fun out => .ok (writeResponse r.1 :: out)

/-- The arguments of `HSET` after the key: fields and values in turn. -/
def flatPairs (pairs : List (Bytes × Bytes)) : List Bytes :=
  (pairs.map fun p => [p.1, p.2]).flatten

/-- The hash after the assignments `hash[field] = value` of the pairs, in order. -/
def assignPairs (hash : GoHash) (pairs : List (Bytes × Bytes)) : GoHash :=
  pairs.foldl (fun m p => m.insert p.1 (Iface.str p.2)) hash

/-- No field of the hash holds the nil interface (the dispatcher stores strings only). -/
def GoHash.noNil (hash : GoHash) : Prop := ∀ f, hash.lookup f ≠ some Iface.nil

/-- The value of the last pair that names the field, if a pair does. -/
def lastAssigned (pairs : List (Bytes × Bytes)) (field : Bytes) : Option Bytes :=
  (pairs.reverse.find? fun p => p.1 = field).map Prod.snd

/-- The two tables answer `Get`, `TTL` and `Exists` alike for the key, at every clock
reading. -/
def HashTable.sameAt {α : Type} (h h2 : HashTable α) (key : Bytes) : Prop :=
  ∀ t, h2.Get key t = h.Get key t ∧ h2.TTL key t = h.TTL key t
    ∧ h2.Exists key t = h.Exists key t

/-- The command names of the `switch` in `HandleCommand`, in its order. -/
def commandNames : List Bytes :=
  [bs "SET", bs "GET", bs "DEL", bs "EXISTS", bs "KEYS", bs "TTL", bs "EXPIRE", bs "INCR",
    bs "DECR", bs "LPUSH", bs "RPUSH", bs "LPOP", bs "RPOP", bs "LLEN", bs "SADD", bs "SREM",
    bs "SMEMBERS", bs "SISMEMBER", bs "HSET", bs "HGET", bs "HDEL", bs "HGETALL", bs "HKEYS",
    bs "HVALS", bs "PING", bs "ECHO", bs "FLUSHALL", bs "DBSIZE", bs "COMMAND",
    bs "ZRANGEBYLEX"]

/-- The text of an arity error that names `name`. -/
def arityError (name : Bytes) : Value :=
  .atom (.str (bs "ERR wrong number of arguments for '" ++ name ++ bs "' command"))

/-! ## Runs of calls on one table

The calls that change a table, each with the clock reading at which it is made, and the
entries a table stores; used to state what holds in every table that can be reached. -/

/-- One call that changes a table. -/
inductive TableOp (α : Type) where
  | Set (key : Bytes) (value : α) (ttl now : Int)
  | Delete (key : Bytes)
  | Expire (key : Bytes) (ttl now : Int)
  | RemoveExpired (now : Int)

/-- The table after one call. -/
def HashTable.step {α : Type} (h : HashTable α) : TableOp α → Outcome (HashTable α)
  | .Set key value ttl now => h.Set key value ttl now
  | .Delete key => (h.Delete key).bind fun r => .ok r.2
  | .Expire key ttl now => (h.Expire key ttl now).bind fun r => .ok r.2
  | .RemoveExpired now => .ok (h.RemoveExpired now).2

/-- The table after a sequence of calls. -/
def HashTable.run {α : Type} (h : HashTable α) : List (TableOp α) → Outcome (HashTable α)
  | [] => .ok h
  | op :: ops => (h.step op).bind fun h2 => h2.run ops

/-- The entries stored in the buckets of a table, bucket after bucket. -/
def HashTable.entries {α : Type} (h : HashTable α) : List (Sigma fun _ : Bytes => Entry α) :=
  (h.buckets.map fun bucket => bucket.entries).flatten

/-- The test `entry.Expiration > 0 && now > entry.Expiration` of `Get`, `Exists`, `Keys`
and `RemoveExpired`. -/
def Entry.expired {α : Type} (entry : Entry α) (now : Int) : Bool :=
  decide (entry.Expiration > 0 ∧ now > entry.Expiration)

/-- The table stores an entry for the key that is not expired at `now`. -/
def HashTable.live {α : Type} (h : HashTable α) (key : Bytes) (now : Int) : Prop :=
  ∃ entry : Entry α, (⟨key, entry⟩ : Sigma fun _ : Bytes => Entry α) ∈ h.entries
    ∧ entry.expired now = false

/-- A call whose clock reading is a non-negative Unix time and whose deadline
`now + ttl` is inside the 64-bit range. -/
def TableOp.timely {α : Type} : TableOp α → Prop
  | .Set _ _ ttl now => 0 ≤ now ∧ (0 < ttl → now + ttl < 2 ^ 63)
  | .Expire _ ttl now => 0 ≤ now ∧ (0 < ttl → now + ttl < 2 ^ 63)
  | _ => True

/-- Every key is stored in the bucket its hash selects. -/
def HashTable.placed {α : Type} (h : HashTable α) : Prop :=
  h.size ≠ 0 ∧ ∀ (i : Nat) (bucket : Bucket α), h.buckets[i]? = some bucket →
    ∀ key ∈ bucket.keys, 0 ≤ h.hash key ∧ (h.hash key).toNat = i

/-! ## The commands of each kind -/

/-- The commands that work on the string table. -/
def stringCommands : List Bytes := [bs "SET", bs "GET", bs "INCR", bs "DECR"]

/-- The commands that work on the list table. -/
def listCommands : List Bytes := [bs "LPUSH", bs "RPUSH", bs "LPOP", bs "RPOP", bs "LLEN"]

/-- The commands that work on the set table. -/
def setCommands : List Bytes :=
  [bs "SADD", bs "SREM", bs "SMEMBERS", bs "SISMEMBER", bs "ZRANGEBYLEX"]

/-- The commands that work on the hash table. -/
def hashCommands : List Bytes :=
  [bs "HSET", bs "HGET", bs "HDEL", bs "HGETALL", bs "HKEYS", bs "HVALS"]

/-- A store that has `table` as its string table. -/
def DataStore.ofStrings (table : HashTable Value) : DataStore :=
  { NewDataStore with stringStore := table }

/-- A store that has `table` as its list table. -/
def DataStore.ofLists (table : HashTable Value) : DataStore :=
  { NewDataStore with listStore := table }

/-- A store that has `table` as its set table. -/
def DataStore.ofSets (table : HashTable Value) : DataStore :=
  { NewDataStore with setStore := table }

/-- A store that has `table` as its hash table. -/
def DataStore.ofHashes (table : HashTable Value) : DataStore :=
  { NewDataStore with hashStore := table }

/-! ## Tasks that run `INCR` at the same time

`handleIncr` takes no lock of its own.  `h.store.Get` holds the read lock of the string
table while it looks the key up and `h.store.Set` holds its write lock while it stores;
between the two calls other tasks run.  A task that handles `INCR key` therefore makes
two atomic steps, and a schedule says which task makes the next step. -/

/-- The first step of `handleIncr`: `value, exists := h.store.Get(key)`. -/
def incrRead (ds : DataStore) (key : Bytes) (now : Int) : Outcome (Option Value) :=
  ds.Get key now

/-- The rest of `handleIncr`, with `found` the result of its `Get`: the reply and the
store afterwards. -/
def incrWrite (ds : DataStore) (key : Bytes) (found : Option Value) (now : Int) :
    Outcome (Value × DataStore) :=
  match found with
  | none =>
    (ds.Set key (.atom (.str (bs "1"))) 0 now).bind fun ds2 => .ok (intReply 1, ds2)
  | some (.atom (.str strValue)) =>
    match Atoi strValue with
    | none => .ok (strReply "ERR value is not an integer or out of range", ds)
    | some num =>
      let num := wrap64 (num + 1) -- num++
      (ds.Set key (.atom (.str (formatInt num))) 0 now).bind fun ds2 =>
        .ok (intReply num, ds2)
  | some _ => .ok (strReply "ERR value is not an integer or out of range", ds)

/-- A task that runs `INCR key` commands one after the other: the number of commands it
still has to finish, and the result of `Get` when it is between the two steps of one. -/
structure IncrTask where
  remaining : Nat
  pending : Option (Option Value)
  deriving DecidableEq

/-- One atomic step of a task, at clock reading `now`. -/
def IncrTask.step (task : IncrTask) (key : Bytes) (now : Int) (ds : DataStore) :
    Outcome (DataStore × IncrTask) :=
  if task.remaining = 0 then .ok (ds, task)
  else
    match task.pending with
    | none =>
      (incrRead ds key now).bind fun found => .ok (ds, { task with pending := some found })
    | some found =>
      (incrWrite ds key found now).bind fun r =>
        .ok (r.2, { remaining := task.remaining - 1, pending := none })

/-- The tasks and the store after a schedule: each item names the task that makes the
next step and the clock reading of that step. -/
def runSchedule (key : Bytes) :
    List (Nat × Int) → DataStore → List IncrTask → Outcome (DataStore × List IncrTask)
  | [], ds, tasks => .ok (ds, tasks)
  | (i, now) :: rest, ds, tasks =>
    match tasks[i]? with
    | none => runSchedule key rest ds tasks
    | some task =>
      (task.step key now ds).bind fun r => runSchedule key rest r.1 (tasks.set i r.2)

/-! ## What the server does to the store

The store changes when the dispatcher handles a command and when the sweeper task calls
`RemoveExpired`; a run is a sequence of the two, each at its clock reading.  The kinds
are the dynamic types the methods of the store assert with a downcast. -/

/-- One event that can change the store. -/
inductive ServerEvent where
  | command (command : List Bytes) (now : Int)
  | sweep (now : Int)

/-- The store after one event. -/
def DataStore.handle (ds : DataStore) : ServerEvent → Outcome DataStore
  | .command command now => (HandleCommand ds command now).bind fun r => .ok r.2
  | .sweep now => .ok (ds.RemoveExpired now).2

/-- The store after a sequence of events. -/
def DataStore.runEvents (ds : DataStore) : List ServerEvent → Outcome DataStore
  | [] => .ok ds
  | event :: events => (ds.handle event).bind fun ds2 => ds2.runEvents events

/-- The value is a Go `string`. -/
def Value.isString : Value → Bool
  | .atom (.str _) => true
  | _ => false

/-- The value is a `[]interface{}`. -/
def Value.isList : Value → Bool
  | .slice _ => true
  | _ => false

/-- The value is a `map[interface{}]bool`. -/
def Value.isSet : Value → Bool
  | .set _ => true
  | _ => false

/-- The value is a `map[string]interface{}`. -/
def Value.isHash : Value → Bool
  | .hash _ => true
  | _ => false

/-- Every value a table stores, in an entry expired or not, passes the test. -/
def HashTable.holdsOnly (h : HashTable Value) (kind : Value → Bool) : Prop :=
  ∀ e ∈ h.entries, kind e.2.Value = true

/-- Every table of the store holds values of its kind only. -/
def DataStore.wellKinded (ds : DataStore) : Prop :=
  ds.stringStore.holdsOnly Value.isString ∧ ds.listStore.holdsOnly Value.isList
    ∧ ds.setStore.holdsOnly Value.isSet ∧ ds.hashStore.holdsOnly Value.isHash

/-- Every result with which the computation returns passes the test. -/
def Outcome.ensures {α : Type} (x : Outcome α) (post : α → Prop) : Prop :=
  ∀ a, x = .ok a → post a

/-! ## Decimal text: printing and parsing agree -/

theorem digitVal_digitByte (d : Nat) (h : d < 10) : digitVal (digitByte d) = some d := by
  interval_cases d <;> decide

theorem digitByte_range (d : Nat) (h : d < 10) :
    48 ≤ (digitByte d).toNat ∧ (digitByte d).toNat ≤ 57 := by
  interval_cases d <;> decide

theorem natDigits_parse (fuel : Nat) :
    ∀ (n : Nat) (acc : Bytes), n < fuel →
      parseDigits (natDigits fuel n acc) 0 = parseDigits acc n := by
  induction fuel with
  | zero => intro n acc h; omega
  | succ f ih =>
    intro n acc h
    unfold natDigits
    split
    · rename_i h10
      simp [parseDigits, digitVal_digitByte n h10]
    · rename_i h10
      have hlt : n / 10 < f := by omega
      rw [ih (n / 10) _ hlt]
      have hm : n % 10 < 10 := Nat.mod_lt _ (by decide)
      simp only [parseDigits, digitVal_digitByte _ hm]
      congr 1
      omega

theorem natDigits_head (fuel : Nat) :
    ∀ (n : Nat) (acc : Bytes), n < fuel →
      ∃ c tl, natDigits fuel n acc = c :: tl ∧ isDigit c := by
  induction fuel with
  | zero => intro n acc h; omega
  | succ f ih =>
    intro n acc h
    unfold natDigits
    split
    · rename_i h10
      exact ⟨_, _, rfl, digitByte_range n h10⟩
    · exact ih _ _ (by omega)

theorem natDigits_mem (fuel : Nat) :
    ∀ (n : Nat) (acc : Bytes) (c : UInt8), c ∈ natDigits fuel n acc → c ∈ acc ∨ isDigit c := by
  induction fuel with
  | zero => intro n acc c h; left; simpa [natDigits] using h
  | succ f ih =>
    intro n acc c h
    unfold natDigits at h
    split at h
    · rename_i h10
      rcases List.mem_cons.mp h with h | h
      · right; rw [h]; exact digitByte_range n h10
      · left; exact h
    · rcases ih _ _ _ h with h | h
      · rcases List.mem_cons.mp h with h | h
        · right; rw [h]; exact digitByte_range _ (Nat.mod_lt _ (by decide))
        · left; exact h
      · right; exact h

theorem formatNat_parse (n : Nat) : parseDigits (formatNat n) 0 = some n := by
  unfold formatNat
  rw [natDigits_parse (n + 1) n [] (by omega)]
  rfl

theorem formatNat_head (n : Nat) : ∃ c tl, formatNat n = c :: tl ∧ isDigit c :=
  natDigits_head (n + 1) n [] (by omega)

theorem formatNat_mem (n : Nat) (c : UInt8) (h : c ∈ formatNat n) : isDigit c := by
  rcases natDigits_mem (n + 1) n [] c h with h | h
  · simp at h
  · exact h

/-- Parsing the decimal text of a 64-bit integer gives the integer back. -/
theorem Atoi_formatInt (i : Int) (h : inInt64 i) : Atoi (formatInt i) = some i := by
  unfold formatInt
  split
  · rename_i hneg
    obtain ⟨c, tl, htl, _⟩ := formatNat_head i.natAbs
    have hp := formatNat_parse i.natAbs
    have hv : -((i.natAbs : Nat) : Int) = i := by omega
    simp only [Atoi, true_or, if_true, decide_True]
    rw [if_neg (by rw [htl]; simp), hp]
    simp only [hv, if_pos h]
  · rename_i hneg
    obtain ⟨c, tl, htl, hc⟩ := formatNat_head i.natAbs
    have hp := formatNat_parse i.natAbs
    have hv : ((i.natAbs : Nat) : Int) = i := by omega
    have h45 : c ≠ 45 := by
      intro hc45; rw [hc45] at hc; revert hc; unfold isDigit; decide
    have h43 : c ≠ 43 := by
      intro hc43; rw [hc43] at hc; revert hc; unfold isDigit; decide
    rw [htl] at hp
    rw [htl]
    simp only [Atoi, h45, h43, or_self, if_false, decide_False]
    rw [if_neg (by simp), hp]
    simp [hv, h]

/-- The decimal text of an integer holds no line feed. -/
theorem formatInt_no_lf (i : Int) : (10 : UInt8) ∉ formatInt i := by
  have hd : ¬ isDigit 10 := by unfold isDigit; decide
  unfold formatInt
  split
  · intro h
    rcases List.mem_cons.mp h with h | h
    · revert h; decide
    · exact hd (formatNat_mem _ _ h)
  · intro h
    exact hd (formatNat_mem _ _ h)


/-! ## Reading back what the writers send -/

theorem wrap64_of_inInt64 (x : Int) (h : inInt64 x) : wrap64 x = x := by
  unfold inInt64 at h
  unfold wrap64
  omega

theorem readLine_append (l : Bytes) (r : Bytes) (h : (10 : UInt8) ∉ l) :
    readLine (l ++ 10 :: r) = some (l ++ [10], r) := by
  induction l with
  | nil => simp [readLine]
  | cons c cs ih =>
    have hc : c ≠ 10 := fun e => h (by simp [e])
    have hcs : (10 : UInt8) ∉ cs := fun e => h (by simp [e])
    simp [readLine, hc, ih hcs]

/-- A framing line `t payload CR LF` is read whole. -/
theorem readLine_frame (t : UInt8) (payload more : Bytes) (ht : t ≠ 10)
    (hp : (10 : UInt8) ∉ payload) :
    readLine (t :: payload ++ CRLF ++ more) = some (t :: payload ++ CRLF, more) := by
  have h : (10 : UInt8) ∉ t :: payload ++ [13] := by
    simp only [List.cons_append, List.mem_cons, List.mem_append, List.mem_singleton, not_or]
    exact ⟨fun e => ht e.symm, hp, by decide, by simp⟩
  have := readLine_append (t :: payload ++ [13]) more h
  simpa [CRLF] using this

/-- Dropping the last two bytes of a framing line leaves the type byte and payload. -/
theorem take_frame (t : UInt8) (payload : Bytes) :
    (t :: payload ++ CRLF).take ((t :: payload ++ CRLF).length - 2) = t :: payload := by
  have : (t :: payload ++ CRLF).length - 2 = (t :: payload).length := by simp [CRLF]
  rw [this]
  simp

theorem length_frame (t : UInt8) (payload : Bytes) :
    ¬ (t :: payload ++ CRLF).length < 2 := by
  simp [CRLF]

theorem readValueFuel_simple (f : Nat) (s rest : Bytes) (hs : (10 : UInt8) ∉ s) :
    readValueFuel (f + 1) (WriteSimpleString s ++ rest)
      = .ok (.mk SimpleString s 0 none none) rest := by
  unfold WriteSimpleString readValueFuel
  rw [readLine_frame 43 s rest (by decide) hs]
  simp only [length_frame, if_false, take_frame]
  simp [readFrame, SimpleString]

theorem readValueFuel_error (f : Nat) (s rest : Bytes) (hs : (10 : UInt8) ∉ s) :
    readValueFuel (f + 1) (WriteError s ++ rest)
      = .ok (.mk Error s 0 none none) rest := by
  unfold WriteError readValueFuel
  rw [readLine_frame 45 s rest (by decide) hs]
  simp only [length_frame, if_false, take_frame]
  simp [readFrame, SimpleString, Error]

theorem readValueFuel_integer (f : Nat) (v : Int) (rest : Bytes) (hv : inInt64 v) :
    readValueFuel (f + 1) (WriteInteger v ++ rest)
      = .ok (.mk Integer [] v none none) rest := by
  unfold WriteInteger readValueFuel
  rw [readLine_frame 58 (formatInt v) rest (by decide) (formatInt_no_lf v)]
  simp only [length_frame, if_false, take_frame]
  simp [readFrame, SimpleString, Error, Integer, Atoi_formatInt v hv]

theorem readValueFuel_bulk (f : Nat) (v rest : Bytes) (hv : (v.length : Int) + 2 < 2 ^ 63) :
    readValueFuel (f + 1) (WriteBulkString (some v) ++ rest)
      = .ok (.mk BulkString [] 0 (some v) none) rest := by
  have hshape : WriteBulkString (some v) ++ rest
      = 36 :: formatInt v.length ++ CRLF ++ (v ++ CRLF ++ rest) := by
    simp [WriteBulkString]
  have hin : inInt64 (v.length : Int) := by unfold inInt64; omega
  have hw : wrap64 ((v.length : Int) + 2) = (v.length : Int) + 2 :=
    wrap64_of_inInt64 _ (by unfold inInt64; omega)
  rw [hshape]
  unfold readValueFuel
  rw [readLine_frame 36 (formatInt v.length) _ (by decide) (formatInt_no_lf _)]
  simp only [length_frame, if_false, take_frame]
  have h1 : ¬ ((v.length : Int) = -1) := by omega
  have h2 : ¬ ((v.length : Int) + 2 < 0) := by omega
  have h3 : ¬ ((v.length : Int) < 0) := by omega
  have h4 : ((v.length : Int) + 2).toNat = v.length + 2 := by omega
  have h5 : ¬ ((v ++ CRLF ++ rest).length < v.length + 2) := by simp [CRLF]
  simp only [readFrame, readBulk, SimpleString, Error, Integer, BulkString, Atoi_formatInt _ hin,
    hw, h1, h2, h3, h4,
    h5, if_false, Int.toNat_ofNat]
  simp [CRLF]

theorem readValueFuel_nullBulk (f : Nat) (rest : Bytes) :
    readValueFuel (f + 1) (WriteBulkString none ++ rest)
      = .ok (.mk BulkString [] 0 none none) rest := by
  have hshape : WriteBulkString none ++ rest = 36 :: formatInt (-1) ++ CRLF ++ rest := by
    have h : bs "$-1\r\n" = 36 :: formatInt (-1) ++ CRLF := by decide
    simp only [WriteBulkString, h]
  rw [hshape]
  unfold readValueFuel
  rw [readLine_frame 36 (formatInt (-1)) _ (by decide) (formatInt_no_lf _)]
  simp only [length_frame, if_false, take_frame]
  simp [readFrame, readBulk, SimpleString, Error, Integer, BulkString,
    Atoi_formatInt (-1) (by decide)]

theorem readValueFuel_element (f : Nat) (v : Iface) (rest : Bytes) (hv : v.inRange) :
    readValueFuel (f + 1) (writeElement v ++ rest) = .ok (respOf v) rest := by
  cases v with
  | str s => exact readValueFuel_bulk f s rest hv
  | bytes b =>
    cases b with
    | none => exact readValueFuel_nullBulk f rest
    | some b => exact readValueFuel_bulk f b rest hv
  | int n => exact readValueFuel_integer f n rest hv
  | int64 n => exact readValueFuel_integer f n rest hv
  | nil => exact readValueFuel_nullBulk f rest
  | other text => exact readValueFuel_bulk f text rest hv

theorem readValues_elements (f : Nat) (vs : List Iface) (rest : Bytes)
    (hvs : ∀ v ∈ vs, v.inRange) :
    readValues (readValueFuel (f + 1)) vs.length ((vs.map writeElement).flatten ++ rest)
      = .ok (vs.map respOf) rest := by
  induction vs with
  | nil => simp [readValues]
  | cons v vs ih =>
    have hv : v.inRange := hvs v (by simp)
    have hrest : ∀ w ∈ vs, w.inRange := fun w hw => hvs w (by simp [hw])
    simp only [List.map_cons, List.flatten_cons, List.length_cons, List.append_assoc,
      readValues]
    rw [readValueFuel_element f v _ hv]
    simp only
    rw [ih hrest]

theorem readValueFuel_array (f : Nat) (vs : List Iface) (rest : Bytes)
    (hn : (vs.length : Int) < 2 ^ 63) (hvs : ∀ v ∈ vs, v.inRange) :
    readValueFuel (f + 2) (WriteArray (some vs) ++ rest)
      = .ok (.mk Array [] 0 none (some (vs.map respOf))) rest := by
  have hshape : WriteArray (some vs) ++ rest
      = 42 :: formatInt vs.length ++ CRLF ++ ((vs.map writeElement).flatten ++ rest) := by
    simp [WriteArray]
  have hin : inInt64 (vs.length : Int) := by unfold inInt64; omega
  rw [hshape]
  unfold readValueFuel
  rw [readLine_frame 42 (formatInt vs.length) _ (by decide) (formatInt_no_lf _)]
  simp only [length_frame, if_false, take_frame]
  have h1 : ¬ ((vs.length : Int) = -1) := by omega
  have h2 : ¬ ((vs.length : Int) < 0) := by omega
  simp only [readFrame, readArray, SimpleString, Error, Integer, BulkString, Array,
    Atoi_formatInt _ hin, h1, h2,
    if_false, Int.toNat_ofNat]
  have := readValues_elements f vs rest hvs
  simp only [BulkString, Integer] at this
  simp [this]

theorem readValueFuel_nullArray (f : Nat) (rest : Bytes) :
    readValueFuel (f + 1) (WriteArray none ++ rest) = .ok (.mk Array [] 0 none none) rest := by
  have hshape : WriteArray none ++ rest = 42 :: formatInt (-1) ++ CRLF ++ rest := by
    have h : bs "*-1\r\n" = 42 :: formatInt (-1) ++ CRLF := by decide
    simp only [WriteArray, h]
  rw [hshape]
  unfold readValueFuel
  rw [readLine_frame 42 (formatInt (-1)) _ (by decide) (formatInt_no_lf _)]
  simp only [length_frame, if_false, take_frame]
  simp [readFrame, readArray, SimpleString, Error, Integer, BulkString, Array,
    Atoi_formatInt (-1) (by decide)]
/-! ## The depth bound of the reader is never reached -/

set_option linter.unusedTactic false

theorem readLine_length (input : Bytes) :
    ∀ (line rest : Bytes), readLine input = some (line, rest) → rest.length < input.length := by
  induction input with
  | nil => intro line rest h; simp [readLine] at h
  | cons c cs ih =>
    intro line rest h
    unfold readLine at h
    split at h
    · simp only [Option.some.injEq, Prod.mk.injEq] at h
      rw [← h.2]; simp
    · cases hr : readLine cs with
      | none => rw [hr] at h; simp at h
      | some p =>
        obtain ⟨l, r⟩ := p
        rw [hr] at h
        simp only [Option.some.injEq, Prod.mk.injEq] at h
        have := ih l r hr
        rw [← h.2]; simp; omega

theorem readValues_shrink (rv : Bytes → Res RESPValue)
    (hrv : ∀ input v r, rv input = .ok v r → r.length ≤ input.length) :
    ∀ (n : Nat) (input : Bytes) (vs : List RESPValue) (r : Bytes),
      readValues rv n input = .ok vs r → r.length ≤ input.length := by
  intro n
  induction n with
  | zero =>
    intro input vs r h
    simp only [readValues, Res.ok.injEq] at h
    rw [h.2]
  | succ n ih =>
    intro input vs r h
    unfold readValues at h
    split at h
    · rename_i v rest h1
      split at h
      · rename_i vs2 rest2 h2
        simp only [Res.ok.injEq] at h
        have a := hrv _ _ _ h1
        have b := ih _ _ _ h2
        rw [← h.2]; omega
      all_goals simp at h
    all_goals simp at h

theorem readBulk_shrink (payload rest : Bytes) (v : RESPValue) (r : Bytes)
    (h : readBulk payload rest = .ok v r) : r.length ≤ rest.length := by
  unfold readBulk at h
  cases hA : Atoi payload with
  | none => rw [hA] at h; simp at h
  | some length =>
    rw [hA] at h
    simp only at h
    by_cases h1 : length = -1
    · simp only [h1, if_true, Res.ok.injEq] at h
      rw [← h.2]
    · by_cases h2 : wrap64 (length + 2) < 0
      · simp [h1, h2] at h
      · by_cases h3 : rest.length < (wrap64 (length + 2)).toNat
        · rw [if_neg h1, if_neg h2, if_pos h3] at h
          split at h <;> simp at h
        · by_cases h4 : length < 0
          · simp [h1, h2, h3, h4] at h
          · simp only [h1, h2, h3, h4, if_false, Res.ok.injEq] at h
            rw [← h.2]; simp

theorem readArray_shrink (rv : Bytes → Res RESPValue)
    (hrv : ∀ input v r, rv input = .ok v r → r.length ≤ input.length)
    (payload rest : Bytes) (v : RESPValue) (r : Bytes)
    (h : readArray rv payload rest = .ok v r) : r.length ≤ rest.length := by
  unfold readArray at h
  repeat' split at h
  all_goals first
    | (simp at h; done)
    | (simp only [Res.ok.injEq] at h; rw [← h.2]; done)
    | (rename_i hvs
       simp only [Res.ok.injEq] at h
       have := readValues_shrink rv hrv _ _ _ _ hvs
       rw [← h.2]; exact this)

theorem readFrame_shrink (rv : Bytes → Res RESPValue)
    (hrv : ∀ input v r, rv input = .ok v r → r.length ≤ input.length)
    (t : UInt8) (payload rest : Bytes) (v : RESPValue) (r : Bytes)
    (h : readFrame rv t payload rest = .ok v r) : r.length ≤ rest.length := by
  unfold readFrame at h
  repeat' split at h
  all_goals first
    | (simp at h; done)
    | (simp only [Res.ok.injEq] at h; rw [← h.2]; done)
    | exact readBulk_shrink _ _ _ _ h
    | exact readArray_shrink rv hrv _ _ _ _ h

theorem readValueFuel_shrink (fuel : Nat) :
    ∀ (input : Bytes) (v : RESPValue) (r : Bytes),
      readValueFuel fuel input = .ok v r → r.length ≤ input.length := by
  induction fuel with
  | zero => intro input v r h; simp [readValueFuel] at h
  | succ f ih =>
    intro input v r h
    unfold readValueFuel at h
    split at h
    · simp at h
    · rename_i line rest hl
      have hlen := readLine_length _ _ _ hl
      repeat' split at h
      all_goals first
        | (simp at h; done)
        | (have hsh := readFrame_shrink _ ih _ _ _ _ _ h
           omega)

theorem readValues_total (rv : Bytes → Res RESPValue)
    (hrv : ∀ input v r, rv input = .ok v r → r.length ≤ input.length) :
    ∀ (n : Nat) (input : Bytes),
      (∀ i : Bytes, i.length ≤ input.length → rv i ≠ .outOfFuel) →
      readValues rv n input ≠ .outOfFuel := by
  intro n
  induction n with
  | zero => intro input _; simp [readValues]
  | succ n ih =>
    intro input hin
    unfold readValues
    split
    · rename_i v rest h1
      have hle := hrv _ _ _ h1
      have := ih rest (fun i hi => hin i (by omega))
      split
      · simp
      · simp
      · simp
      · rename_i h2; exact absurd h2 this
    · simp
    · simp
    · rename_i h1; exact absurd h1 (hin input (le_refl _))

theorem readBulk_total (payload rest : Bytes) : readBulk payload rest ≠ .outOfFuel := by
  unfold readBulk
  cases hA : Atoi payload with
  | none => simp
  | some length =>
    simp only
    by_cases h1 : length = -1
    · simp [h1]
    · by_cases h2 : wrap64 (length + 2) < 0
      · simp [h1, h2]
      · by_cases h3 : rest.length < (wrap64 (length + 2)).toNat
        · rw [if_neg h1, if_neg h2, if_pos h3]
          split <;> simp
        · by_cases h4 : length < 0 <;> simp [h1, h2, h3, h4]

theorem readFrame_total (rv : Bytes → Res RESPValue)
    (hrv : ∀ input v r, rv input = .ok v r → r.length ≤ input.length)
    (t : UInt8) (payload rest : Bytes)
    (hin : ∀ i : Bytes, i.length ≤ rest.length → rv i ≠ .outOfFuel) :
    readFrame rv t payload rest ≠ .outOfFuel := by
  unfold readFrame readArray
  repeat' split
  all_goals first
    | (simp; done)
    | exact readBulk_total _ _
    | (rename_i h2; exact absurd h2 (readValues_total rv hrv _ _ hin))

/-- With more fuel than input bytes `readValueFuel` always ends in a value, an error
or a panic. -/
theorem readValueFuel_total (fuel : Nat) :
    ∀ input : Bytes, input.length < fuel → readValueFuel fuel input ≠ .outOfFuel := by
  induction fuel with
  | zero => intro input h; omega
  | succ f ih =>
    intro input hlt
    unfold readValueFuel
    split
    · simp
    · rename_i line rest hl
      have hlen := readLine_length _ _ _ hl
      repeat' split
      all_goals first
        | (simp; done)
        | exact readFrame_total _ (readValueFuel_shrink f) _ _ _ (fun i hi => ih i (by omega))

/-- The reader is total: `readValue` never runs out of the depth bound. -/
theorem readValue_total (input : Bytes) : readValue input ≠ .outOfFuel :=
  readValueFuel_total _ input (by omega)

/-- `ReadCommand` always ends in a command, a returned error or a panic. -/
theorem ReadCommand_total (input : Bytes) : ReadCommand input ≠ .outOfFuel := by
  unfold ReadCommand
  have := readValue_total input
  repeat' split
  all_goals first
    | (simp; done)
    | (rename_i h; exact absurd h this)

/-! ## The request round trip, the codec round trip and the parser on malformed input -/

theorem buildRESPArray_eq_WriteArray (cmd : List Bytes) :
    buildRESPArray cmd = WriteArray (some (cmd.map Iface.str)) := by
  simp only [buildRESPArray, WriteArray, List.length_map, List.map_map]
  rfl

theorem commandArgs_bulk (cmd : List Bytes) :
    commandArgs (cmd.map (respOf ∘ Iface.str)) = some cmd := by
  induction cmd with
  | nil => rfl
  | cons a cmd ih =>
    simp only [List.map_cons, commandArgs, Function.comp, respOf, RESPValue.Typ,
      RESPValue.Bulk] at ih ⊢
    simp [ih]

theorem readValue_array (vs : List Iface) (rest : Bytes)
    (hn : (vs.length : Int) < 2 ^ 63) (hvs : ∀ v ∈ vs, v.inRange) :
    readValue (WriteArray (some vs) ++ rest)
      = .ok (.mk Array [] 0 none (some (vs.map respOf))) rest := by
  unfold readValue
  have hlen : (WriteArray (some vs) ++ rest).length + 1
      = ((WriteArray (some vs) ++ rest).length - 1) + 2 := by
    simp [WriteArray, CRLF]
  rw [hlen]
  exact readValueFuel_array _ vs rest hn hvs

/-- The frame of a non-empty command vector, whatever bytes its arguments hold (CR,
LF and the empty string included), is read back by `ReadCommand` as exactly that vector,
and the bytes that follow the frame are left unread. -/
theorem ReadCommand_buildRESPArray (cmd : List Bytes) (rest : Bytes) (hne : cmd ≠ [])
    (hn : (cmd.length : Int) < 2 ^ 63)
    (hargs : ∀ a ∈ cmd, (a.length : Int) + 2 < 2 ^ 63) :
    ReadCommand (buildRESPArray cmd ++ rest) = .ok cmd rest := by
  have hvs : ∀ v ∈ cmd.map Iface.str, v.inRange := by
    intro v hv
    obtain ⟨a, ha, rfl⟩ := List.mem_map.mp hv
    exact hargs a ha
  have hread := readValue_array (cmd.map Iface.str) rest (by simpa using hn) hvs
  unfold ReadCommand
  rw [buildRESPArray_eq_WriteArray, hread]
  have hlen : ¬ cmd.length = 0 := by
    intro h; exact hne (List.length_eq_zero.mp h)
  simp [RESPValue.Typ, RESPValue.Array, commandArgs_bulk, hlen]

/-- C3, as amended.  For a non-empty command vector, whatever bytes its words hold (CR,
LF and the empty string included), `SendCommand` writes a request, and `ReadCommand`
reads that request back, without error and leaving the bytes that follow it unread, as
the vector the client has framed: `GET w` for a command of the one word `w` whose upper
case is none of `PING`, `ECHO`, `FLUSHALL`, `DBSIZE`, and the command itself in every
other case (two or more words, or one of these four words in any case). -/
theorem ReadCommand_SendCommand (cmd : List Bytes) (rest : Bytes) (hne : cmd ≠ [])
    (hn : (cmd.length : Int) < 2 ^ 63)
    (hargs : ∀ a ∈ cmd, (a.length : Int) + 2 < 2 ^ 63) :
    ∃ request, SendCommand cmd = some request
      ∧ (∀ word, cmd = [word] → ToUpper word ∉ knownCommands →
          ReadCommand (request ++ rest) = .ok [bs "GET", word] rest)
      ∧ ((∀ word, cmd = [word] → ToUpper word ∈ knownCommands) →
          ReadCommand (request ++ rest) = .ok cmd rest) := by
  have hlen : ¬ cmd.length = 0 := by
    intro h; exact hne (List.length_eq_zero.mp h)
  refine ⟨buildRESPArray (framedCommand cmd), ?_, ?_, ?_⟩
  · unfold SendCommand
    rw [if_neg hlen]
  · intro word hcmd hunknown
    subst hcmd
    have hframed : framedCommand [word] = [bs "GET", word] := by
      simp only [framedCommand, if_neg hunknown]
    rw [hframed]
    apply ReadCommand_buildRESPArray _ rest (by simp) (by norm_num)
    intro a ha
    simp only [List.mem_cons, List.mem_singleton, List.not_mem_nil, or_false] at ha
    rcases ha with h | h
    · rw [h]
      decide
    · rw [h]
      exact hargs word (List.mem_singleton.mpr rfl)
  · intro hknown
    have hframed : framedCommand cmd = cmd := by
      match cmd, hknown with
      | [], _ => rfl
      | [word], hknown => simp only [framedCommand, if_pos (hknown word rfl)]
      | _ :: _ :: _, _ => rfl
    rw [hframed]
    exact ReadCommand_buildRESPArray cmd rest hne hn hargs

set_option maxRecDepth 100000 in
/-- C3, as amended, at a command whose second word holds CR LF and whose last word is
empty, followed by the start of a pipelined frame. -/
theorem ReadCommand_SendCommand_witness :
    ∃ request, SendCommand [bs "SET", bs "a\r\nb", []] = some request
      ∧ ReadCommand (request ++ bs "*1\r\n") = .ok [bs "SET", bs "a\r\nb", []] (bs "*1\r\n") := by
  obtain ⟨request, hreq, _, hsame⟩ :=
    ReadCommand_SendCommand [bs "SET", bs "a\r\nb", []] (bs "*1\r\n") (by decide)
      (by norm_num) (by
        intro a ha
        have hlen : a.length ≤ 4 := by
          simp only [List.mem_cons, List.mem_singleton, List.not_mem_nil, or_false] at ha
          rcases ha with h | h | h <;> rw [h] <;> decide
        have : ((a.length : Nat) : Int) ≤ 4 := by exact_mod_cast hlen
        omega)
  exact ⟨request, hreq, hsame (fun word hword => by cases hword)⟩

set_option maxRecDepth 100000 in
/-- C3 as stated fails: for the command of the one word `foo` the client writes the
frame of `GET foo`, and `ReadCommand` returns `GET foo`, not `foo`; the word `ping` is
sent as it is. -/
theorem SendCommand_rewrite_counterexample :
    SendCommand [bs "foo"] = some (bs "*2\r\n$3\r\nGET\r\n$3\r\nfoo\r\n")
    ∧ ReadCommand (bs "*2\r\n$3\r\nGET\r\n$3\r\nfoo\r\n") = .ok [bs "GET", bs "foo"] []
    ∧ [bs "GET", bs "foo"] ≠ [bs "foo"]
    ∧ SendCommand [bs "ping"] = some (bs "*1\r\n$4\r\nping\r\n") := by
  decide

theorem respOf_elementOf (v : RESPValue) (hv : v.isElement) :
    respOf (elementOf v) = v ∧ (elementOf v).inRange := by
  obtain ⟨t, s, i, b, a⟩ := v
  obtain ⟨ha, hs, hkind⟩ := hv
  rcases hkind with ⟨ht, hb, hi⟩ | ⟨ht, hi, hb⟩
  · subst ha hs ht hb
    exact ⟨rfl, hi⟩
  · subst ha hs ht hi
    have hne : ¬ (BulkString = Integer) := by decide
    constructor
    · simp only [elementOf, if_neg hne, respOf]
    · simp only [elementOf, if_neg hne]
      cases b with
      | none => trivial
      | some x => exact hb x rfl

/-- C4, as amended.  `readValue` gives back what the writers were given: a simple string
or an error text without a line feed, a 64-bit integer, a bulk string of arbitrary bytes,
the nil bulk (`WriteBulkString(nil)` and `WriteNull`), the nil array, and an array `arr`
of integers and bulk strings (nil bulks included) written from the matching Go values.
For any Go values `vs`, each element comes back as the bulk string or integer
`WriteArray` wrote for it (`respOf`).  The unread input is left in place. -/
theorem readValue_write_round_trip (s e b : Bytes) (i : Int) (arr : List RESPValue)
    (vs : List Iface) (rest : Bytes)
    (hs : (10 : UInt8) ∉ s) (he : (10 : UInt8) ∉ e) (hi : inInt64 i)
    (hb : (b.length : Int) + 2 < 2 ^ 63)
    (hna : (arr.length : Int) < 2 ^ 63) (harr : ∀ v ∈ arr, v.isElement)
    (hn : (vs.length : Int) < 2 ^ 63) (hvs : ∀ v ∈ vs, v.inRange) :
    readValue (WriteSimpleString s ++ rest) = .ok (.mk SimpleString s 0 none none) rest
    ∧ readValue (WriteError e ++ rest) = .ok (.mk Error e 0 none none) rest
    ∧ readValue (WriteInteger i ++ rest) = .ok (.mk Integer [] i none none) rest
    ∧ readValue (WriteBulkString (some b) ++ rest) = .ok (.mk BulkString [] 0 (some b) none) rest
    ∧ readValue (WriteBulkString none ++ rest) = .ok (.mk BulkString [] 0 none none) rest
    ∧ readValue (WriteNull ++ rest) = .ok (.mk BulkString [] 0 none none) rest
    ∧ readValue (WriteArray none ++ rest) = .ok (.mk Array [] 0 none none) rest
    ∧ readValue (WriteArray (some (arr.map elementOf)) ++ rest)
        = .ok (.mk Array [] 0 none (some arr)) rest
    ∧ readValue (WriteArray (some vs) ++ rest)
        = .ok (.mk Array [] 0 none (some (vs.map respOf))) rest := by
  refine ⟨?_, ?_, ?_, ?_, ?_, ?_, ?_, ?_, readValue_array vs rest hn hvs⟩
  · exact readValueFuel_simple _ s rest hs
  · exact readValueFuel_error _ e rest he
  · exact readValueFuel_integer _ i rest hi
  · exact readValueFuel_bulk _ b rest hb
  · exact readValueFuel_nullBulk _ rest
  · exact readValueFuel_nullBulk _ rest
  · exact readValueFuel_nullArray _ rest
  · have hrange : ∀ v ∈ arr.map elementOf, v.inRange := by
      intro v hv
      obtain ⟨w, hw, rfl⟩ := List.mem_map.mp hv
      exact (respOf_elementOf w (harr w hw)).2
    have hback : (arr.map elementOf).map respOf = arr := by
      rw [List.map_map]
      conv_rhs => rw [← List.map_id arr]
      apply List.map_congr_left
      intro w hw
      exact (respOf_elementOf w (harr w hw)).1
    have := readValue_array (arr.map elementOf) rest (by simpa using hna) hrange
    rw [hback] at this
    exact this

/-- C4, as amended, at concrete values: a bulk string holding CR LF, the integer -7 and
an array of a bulk string, a nil bulk and an integer. -/
theorem readValue_write_round_trip_witness :
    readValue (WriteBulkString (some (bs "a\r\nb")) ++ bs "+x")
        = .ok (.mk BulkString [] 0 (some (bs "a\r\nb")) none) (bs "+x")
    ∧ readValue (WriteInteger (-7) ++ bs "+x") = .ok (.mk Integer [] (-7) none none) (bs "+x")
    ∧ readValue (WriteArray (some ([.mk BulkString [] 0 (some (bs "f")) none,
          .mk BulkString [] 0 none none, .mk Integer [] 3 none none].map elementOf)) ++ bs "+x")
        = .ok (.mk Array [] 0 none (some [.mk BulkString [] 0 (some (bs "f")) none,
            .mk BulkString [] 0 none none, .mk Integer [] 3 none none])) (bs "+x") := by
  have h := readValue_write_round_trip (bs "OK") (bs "ERR x") (bs "a\r\nb") (-7)
    [.mk BulkString [] 0 (some (bs "f")) none, .mk BulkString [] 0 none none,
      .mk Integer [] 3 none none]
    [Iface.str (bs "f"), Iface.nil, Iface.int 3] (bs "+x") (by decide) (by decide) (by decide)
    (by norm_num [bs]) (by norm_num) (by
      intro v hv
      simp only [List.mem_cons, List.mem_singleton, List.not_mem_nil, or_false] at hv
      rcases hv with h | h | h <;> rw [h]
      · refine ⟨rfl, rfl, Or.inr ⟨rfl, rfl, ?_⟩⟩
        intro x hx
        simp only [Option.some.injEq] at hx
        rw [← hx]
        norm_num [bs]
      · exact ⟨rfl, rfl, Or.inr ⟨rfl, rfl, fun x hx => by simp at hx⟩⟩
      · exact ⟨rfl, rfl, Or.inl ⟨rfl, rfl, by decide⟩⟩) (by norm_num) (by
      intro v hv
      simp only [List.mem_cons, List.mem_singleton, List.not_mem_nil, or_false] at hv
      rcases hv with h | h | h <;> rw [h]
      · show ((bs "f").length : Int) + 2 < 2 ^ 63
        norm_num [bs]
      · trivial
      · show inInt64 3
        decide)
  exact ⟨h.2.2.2.1, h.2.2.1, h.2.2.2.2.2.2.2.1⟩

/-- C4 as stated fails for an array that holds a simple string: `WriteArray` writes the
Go string `OK` as the bulk string `$2 OK`, which `readValue` returns with type `$`, not
`+`; and no element is ever written with a first byte other than `$` or `:`. -/
theorem readValue_WriteArray_simple_counterexample :
    readValue (WriteArray (some [Iface.str (bs "OK")]))
        = .ok (.mk Array [] 0 none (some [.mk BulkString [] 0 (some (bs "OK")) none])) []
    ∧ readValue (WriteArray (some [Iface.str (bs "OK")]))
        ≠ .ok (.mk Array [] 0 none (some [.mk SimpleString (bs "OK") 0 none none])) []
    ∧ ∀ v : Iface, (writeElement v).head? = some 36 ∨ (writeElement v).head? = some 58 := by
  have h : readValue (WriteArray (some [Iface.str (bs "OK")]))
      = .ok (.mk Array [] 0 none (some [.mk BulkString [] 0 (some (bs "OK")) none])) [] := rfl
  refine ⟨h, ?_, ?_⟩
  · rw [h]
    intro hc
    simp [BulkString, SimpleString] at hc
  · intro v
    cases v with
    | str s => left; rfl
    | bytes b => cases b <;> (left; rfl)
    | int n => right; rfl
    | int64 n => right; rfl
    | nil => left; rfl
    | other text => left; rfl

/-- C5 fails on the code: on a line that holds only CR LF the parser indexes the empty
line (`line[0]`), and on a bulk or array length below -1 it allocates or slices with a
negative size; each is a run-time panic, not a returned error. -/
theorem ReadCommand_panics :
    ReadCommand (bs "\r\n") = .panic
    ∧ ReadCommand (bs "x\n") = .panic
    ∧ ReadCommand (bs "$-5\r\n") = .panic
    ∧ ReadCommand (bs "$-2\r\n") = .panic
    ∧ ReadCommand (bs "*-2\r\n") = .panic
    ∧ ReadCommand (bs "*1\r\n$-7\r\n") = .panic := by
  decide

/-! ## The key matcher -/

theorem scanKey_true (f : Bytes → Bool) :
    ∀ k : Bytes, scanKey f k = true → ∃ s k2, k = s ++ k2 ∧ f k2 = true := by
  intro k
  induction k with
  | nil => intro h; simp [scanKey] at h
  | cons c k ih =>
    intro h
    simp only [scanKey, Bool.or_eq_true] at h
    rcases h with h | h
    · exact ⟨[], c :: k, rfl, h⟩
    · obtain ⟨s, k2, hk, hf⟩ := ih h
      exact ⟨c :: s, k2, by rw [hk]; rfl, hf⟩

theorem GlobMatches_star_only (k : Bytes) : GlobMatches [42] k := by
  have := GlobMatches.star k [] [] GlobMatches.nil
  simpa using this

theorem matchLoop_sound (p : Bytes) : ∀ k : Bytes, matchLoop k p = true → GlobMatches p k := by
  induction p with
  | nil =>
    intro k h
    simp only [matchLoop, decide_eq_true_eq] at h
    rw [h]
    exact GlobMatches.nil
  | cons c p ih =>
    intro k h
    unfold matchLoop at h
    by_cases hc : c = 42
    · rw [if_pos hc] at h
      rw [hc]
      by_cases hp : p = []
      · rw [hp]; exact GlobMatches_star_only k
      · rw [if_neg hp] at h
        obtain ⟨s, k2, hk, hf⟩ := scanKey_true _ k h
        rw [hk]
        apply GlobMatches.star
        by_cases hp2 : p = [42]
        · rw [hp2]; exact GlobMatches_star_only k2
        · rw [if_neg hp2] at hf
          exact ih k2 hf
    · rw [if_neg hc] at h
      cases k with
      | nil => simp at h
      | cons x r =>
        simp only at h
        split at h
        · rename_i hx
          by_cases h63 : c = 63
          · rw [h63]; exact GlobMatches.any x r p (ih r h)
          · have hcx : c = x := by
              rcases hx with hx | hx
              · exact absurd hx h63
              · exact hx
            rw [← hcx]
            exact GlobMatches.lit c r p hc h63 (ih r h)
        · simp at h

/-- The matcher never accepts a key the glob semantics rejects. -/
theorem matchesPattern_sound (k p : Bytes) (h : matchesPattern k p = true) :
    GlobMatches p k := by
  unfold matchesPattern at h
  by_cases hp : p = [42]
  · rw [hp]; exact GlobMatches_star_only k
  · rw [if_neg hp] at h
    exact matchLoop_sound p k h

theorem matchLoop_literal (p : Bytes) (hstar : (42 : UInt8) ∉ p) (hq : (63 : UInt8) ∉ p) :
    ∀ k : Bytes, matchLoop k p = true ↔ p = k := by
  induction p with
  | nil =>
    intro k
    simp only [matchLoop, decide_eq_true_eq]
    exact eq_comm
  | cons c p ih =>
    intro k
    have hc42 : c ≠ 42 := fun e => hstar (by simp [e])
    have hc63 : c ≠ 63 := fun e => hq (by simp [e])
    have hp42 : (42 : UInt8) ∉ p := fun e => hstar (by simp [e])
    have hp63 : (63 : UInt8) ∉ p := fun e => hq (by simp [e])
    cases k with
    | nil => simp [matchLoop, hc42]
    | cons x r =>
      simp only [matchLoop, hc42, hc63, if_false, false_or, List.cons.injEq]
      by_cases hx : c = x
      · simp [hx, ih hp42 hp63 r]
      · simp [hx]

/-- C7. The pattern `*` matches every key; a pattern without `*` and `?` matches
exactly the key equal to it; the empty pattern matches only the empty key. -/
theorem matchesPattern_trivial (k p : Bytes) (hstar : (42 : UInt8) ∉ p)
    (hq : (63 : UInt8) ∉ p) :
    matchesPattern k (bs "*") = true
    ∧ (matchesPattern k p = true ↔ p = k)
    ∧ (matchesPattern k [] = true ↔ k = []) := by
  refine ⟨rfl, ?_, ?_⟩
  · have hne : p ≠ [42] := fun e => hstar (by simp [e])
    simp only [matchesPattern, hne, if_false]
    exact matchLoop_literal p hstar hq k
  · simp [matchesPattern, matchLoop]

/-- C7 at the key and pattern `user:1`. -/
theorem matchesPattern_trivial_witness :
    matchesPattern (bs "user:1") (bs "*") = true
    ∧ (matchesPattern (bs "user:1") (bs "user:1") = true ↔ bs "user:1" = bs "user:1")
    ∧ (matchesPattern (bs "user:1") [] = true ↔ bs "user:1" = []) :=
  matchesPattern_trivial (bs "user:1") (bs "user:1") (by decide) (by decide)

/-- C6 fails on the code: after a `*` that is not the last pattern byte the matcher tries
the rest of the pattern only at positions `keyIndex < keyLen`, never at the end of the
key, so a further `*` cannot match the empty sequence.  The patterns `**` and `a**` match
the keys `""` and `a` in the glob semantics, and `matchesPattern` answers false. -/
theorem matchesPattern_consecutive_stars :
    matchesPattern [] (bs "**") = false ∧ GlobMatches (bs "**") []
    ∧ matchesPattern (bs "a") (bs "a**") = false ∧ GlobMatches (bs "a**") (bs "a") := by
  refine ⟨by decide, ?_, by decide, ?_⟩
  · exact GlobMatches.star [] [] [42] (GlobMatches.star [] [] [] GlobMatches.nil)
  · exact GlobMatches.lit 97 [] [42, 42] (by decide) (by decide)
      (GlobMatches.star [] [] [42] (GlobMatches.star [] [] [] GlobMatches.nil))

/-! ## The hash table -/

set_option maxRecDepth 100000 in
/-- C8 fails on the code: the 64-bit fold of the 14-byte key `counter:visits` wraps to a
negative number, Go's `%` keeps the sign, and the bucket index is -58 for both table sizes
the store uses; indexing `h.buckets[-58]` panics in `Set`, `Get` and `TTL`. -/
theorem hash_negative_index :
    hashFold (bs "counter:visits") = -923434338906144826
    ∧ (NewHashTable 1024 : HashTable Bytes).hash (bs "counter:visits") = -58
    ∧ (NewHashTable 512 : HashTable Bytes).hash (bs "counter:visits") = -58
    ∧ (NewHashTable 1024 : HashTable Bytes).Set (bs "counter:visits") (bs "1") 0 1700000000
        = .panic
    ∧ (NewHashTable 1024 : HashTable Bytes).Get (bs "counter:visits") 1700000000 = .panic
    ∧ (NewHashTable 1024 : HashTable Bytes).TTL (bs "counter:visits") 1700000000 = .panic := by
  refine ⟨by decide, by decide, by decide, rfl, by decide, by decide⟩

set_option maxRecDepth 100000 in
/-- C10 fails on the code: an entry that expired less than a second ago is missing for
`Get` while `TTL` answers 0, not -2, because `/` truncates the negative remaining
lifetime toward zero.  Here the key is set with a lifetime of one millisecond at clock
reading 1000 and read one nanosecond after its expiry. -/
theorem TTL_just_expired :
    ((NewHashTable 1024 : HashTable Bytes).Set (bs "k") (bs "v") 1000000 1000).bind
        (fun h => h.Get (bs "k") 1001001) = .ok none
    ∧ ((NewHashTable 1024 : HashTable Bytes).Set (bs "k") (bs "v") 1000000 1000).bind
        (fun h => h.TTL (bs "k") 1001001) = .ok 0 := by
  refine ⟨by decide, by decide⟩

theorem bucketAt_ok {α : Type} (h : HashTable α) (i : Int) (b : Bucket α)
    (hb : h.bucketAt i = .ok b) : 0 ≤ i ∧ h.buckets[i.toNat]? = some b := by
  unfold HashTable.bucketAt at hb
  split at hb
  · rename_i hi
    split at hb
    · rename_i b2 hb2
      simp only [Outcome.ok.injEq] at hb
      exact ⟨hi, by rw [hb2, hb]⟩
    · simp at hb
  · simp at hb

theorem bucketOf_ok {α : Type} (h : HashTable α) (k : Bytes) (b : Bucket α)
    (hb : h.bucketOf k = .ok b) :
    h.size ≠ 0 ∧ 0 ≤ h.hash k ∧ h.buckets[(h.hash k).toNat]? = some b := by
  unfold HashTable.bucketOf at hb
  split at hb
  · simp at hb
  · rename_i hs
    exact ⟨hs, bucketAt_ok h _ b hb⟩

/-- What `Set` returns when it does not panic. -/
theorem Set_ok {α : Type} (h h2 : HashTable α) (k : Bytes) (v : α) (ttl now : Int)
    (hset : h.Set k v ttl now = .ok h2) :
    ∃ b, h.bucketOf k = .ok b
      ∧ h2.buckets = h.buckets.set (h.hash k).toNat
          (b.insert k { Value := v, Expiration := if ttl > 0 then wrap64 (now + ttl) else 0 })
      ∧ h2.size = h.size := by
  unfold HashTable.Set at hset
  dsimp only at hset
  cases hb : h.bucketOf k with
  | panic => rw [hb] at hset; simp at hset
  | ok b =>
    rw [hb] at hset
    simp only [Outcome.ok.injEq] at hset
    refine ⟨b, rfl, ?_, ?_⟩
    · rw [← hset]
    · rw [← hset]

/-- The expiry `Set` stores, read against a later clock: the entry counts as expired
exactly when the lifetime was positive and has run out. -/
theorem expiry_check (ttl t0 t : Int) (h0 : 0 ≤ t0) (ht : t0 ≤ t) (ht63 : t < 2 ^ 63)
    (httl : inInt64 ttl) :
    ((if ttl > 0 then wrap64 (t0 + ttl) else 0) > 0 ∧ t > (if ttl > 0 then wrap64 (t0 + ttl) else 0))
      ↔ ¬ (ttl ≤ 0 ∨ t ≤ t0 + ttl) := by
  unfold inInt64 at httl
  unfold wrap64
  split <;> omega

theorem Get_Set_same {α : Type} (h h2 : HashTable α) (k : Bytes) (v : α) (ttl t0 t : Int)
    (hset : h.Set k v ttl t0 = .ok h2) :
    h2.Get k t = .ok (if (if ttl > 0 then wrap64 (t0 + ttl) else 0) > 0
        ∧ t > (if ttl > 0 then wrap64 (t0 + ttl) else 0) then none else some v) := by
  obtain ⟨b, hb, hbuckets, hsize⟩ := Set_ok h h2 k v ttl t0 hset
  obtain ⟨hs, hi, hget⟩ := bucketOf_ok h _ b hb
  have hlt : (h.hash k).toNat < h.buckets.length := by
    by_contra hc
    rw [List.getElem?_eq_none (by omega)] at hget
    simp at hget
  have hhash : h2.hash k = h.hash k := by simp only [HashTable.hash, hsize]
  have hb2 : h2.bucketOf k = .ok (b.insert k
      { Value := v, Expiration := if ttl > 0 then wrap64 (t0 + ttl) else 0 }) := by
    unfold HashTable.bucketOf HashTable.bucketAt
    rw [hhash, hsize, if_neg hs, if_pos hi, hbuckets, List.getElem?_set_self hlt]
  unfold HashTable.Get
  rw [hb2]
  simp only [AList.lookup_insert]
  generalize (if ttl > 0 then wrap64 (t0 + ttl) else 0) = e
  by_cases hc : e > 0 ∧ t > e
  · rw [if_pos hc, if_pos hc]
  · rw [if_neg hc, if_neg hc]

theorem Get_Set_other {α : Type} (h h2 : HashTable α) (k k2 : Bytes) (v : α) (ttl t0 t : Int)
    (hset : h.Set k v ttl t0 = .ok h2) (hne : k2 ≠ k) : h2.Get k2 t = h.Get k2 t := by
  obtain ⟨b, hb, hbuckets, hsize⟩ := Set_ok h h2 k v ttl t0 hset
  obtain ⟨hs, hi, hget⟩ := bucketOf_ok h _ b hb
  have hlt : (h.hash k).toNat < h.buckets.length := by
    by_contra hc
    rw [List.getElem?_eq_none (by omega)] at hget
    simp at hget
  have hhash : h2.hash k2 = h.hash k2 := by simp only [HashTable.hash, hsize]
  unfold HashTable.Get
  by_cases hsame : h.hash k2 = h.hash k
  · have hb2 : h2.bucketOf k2 = .ok (b.insert k
        { Value := v, Expiration := if ttl > 0 then wrap64 (t0 + ttl) else 0 }) := by
      unfold HashTable.bucketOf HashTable.bucketAt
      rw [hhash, hsize, if_neg hs, hsame, if_pos hi, hbuckets, List.getElem?_set_self hlt]
    have hb1 : h.bucketOf k2 = .ok b := by
      unfold HashTable.bucketOf
      rw [if_neg hs, hsame]
      unfold HashTable.bucketOf at hb
      rw [if_neg hs] at hb
      exact hb
    rw [hb2, hb1]
    simp only [AList.lookup_insert_ne hne]
  · have hb2 : h2.bucketOf k2 = h.bucketOf k2 := by
      unfold HashTable.bucketOf HashTable.bucketAt
      rw [hhash, hsize, if_neg hs, if_neg hs]
      by_cases hk2 : 0 ≤ h.hash k2
      · have hidx : (h.hash k).toNat ≠ (h.hash k2).toNat := by omega
        rw [if_pos hk2, if_pos hk2, hbuckets, List.getElem?_set_ne hidx]
      · rw [if_neg hk2, if_neg hk2]
    rw [hb2]

/-- C9. After `Set(k, v, ttl)` at clock reading `t0` has returned, `Get(k)` at any later
reading `t` returns `(v, true)` exactly when `ttl <= 0` or `t <= t0 + ttl`, and
`(nil, false)` otherwise; `Get` of any other key returns what it returned before the
`Set`.  `Get` itself returns no table, so it cannot change one.  The clock readings are
non-negative 64-bit Unix times and `ttl` is a 64-bit duration. -/
theorem Get_after_Set {α : Type} (h h2 : HashTable α) (k k2 : Bytes) (v : α)
    (ttl t0 t : Int) (hset : h.Set k v ttl t0 = .ok h2)
    (h0 : 0 ≤ t0) (ht : t0 ≤ t) (ht63 : t < 2 ^ 63) (httl : inInt64 ttl) :
    h2.Get k t = .ok (if ttl ≤ 0 ∨ t ≤ t0 + ttl then some v else none)
    ∧ (k2 ≠ k → h2.Get k2 t = h.Get k2 t) := by
  constructor
  · rw [Get_Set_same h h2 k v ttl t0 t hset]
    have hexp := expiry_check ttl t0 t h0 ht ht63 httl
    by_cases hc : ttl ≤ 0 ∨ t ≤ t0 + ttl
    · rw [if_neg (by rw [hexp]; exact not_not.mpr hc), if_pos hc]
    · rw [if_pos (hexp.mpr hc), if_neg hc]
  · exact Get_Set_other h h2 k k2 v ttl t0 t hset

set_option maxRecDepth 100000 in
/-- C9 on a fresh table of 1024 buckets: a key set for one second at clock reading
1700000000000000000 is returned half a second later. -/
theorem Get_after_Set_witness :
    ∃ h2 : HashTable Bytes,
      (NewHashTable 1024 : HashTable Bytes).Set (bs "foo") (bs "bar") 1000000000
          1700000000000000000 = .ok h2
      ∧ h2.Get (bs "foo") 1700000000500000000 = .ok (some (bs "bar"))
      ∧ h2.Get (bs "other") 1700000000500000000
          = (NewHashTable 1024 : HashTable Bytes).Get (bs "other") 1700000000500000000 := by
  refine ⟨_, rfl, ?_, ?_⟩
  · exact (Get_after_Set (NewHashTable 1024) _ (bs "foo") (bs "other") (bs "bar") 1000000000
      1700000000000000000 1700000000500000000 rfl (by decide) (by decide) (by decide)
      (by decide)).1
  · exact (Get_after_Set (NewHashTable 1024) _ (bs "foo") (bs "other") (bs "bar") 1000000000
      1700000000000000000 1700000000500000000 rfl (by decide) (by decide) (by decide)
      (by decide)).2 (by decide)

/-! ## The list operations of the store -/

theorem Get_ok_bucket {α : Type} (h : HashTable α) (k : Bytes) (now : Int) (r : Option α)
    (hget : h.Get k now = .ok r) : ∃ b, h.bucketOf k = .ok b := by
  unfold HashTable.Get at hget
  cases hb : h.bucketOf k with
  | panic => rw [hb] at hget; simp at hget
  | ok b => exact ⟨b, rfl⟩

theorem Set_succeeds {α : Type} (h : HashTable α) (k : Bytes) (v : α) (ttl now : Int)
    (b : Bucket α) (hb : h.bucketOf k = .ok b) : ∃ h2, h.Set k v ttl now = .ok h2 := by
  unfold HashTable.Set
  dsimp only
  rw [hb]
  exact ⟨_, rfl⟩

theorem goAppend_variadic (values : List Iface) (l : Option (List Iface)) (hne : values ≠ []) :
    goAppend (variadic values) l = some (values ++ l.getD []) := by
  unfold goAppend variadic
  rw [if_neg hne]
  cases h : l.getD [] with
  | nil => simp
  | cons x xs => simp

/-- C2, as amended.  `LPush(k, v1..vN)` with `N >= 1` stores the arguments in the order
given in front of the list found at `k` (the empty list when `k` is absent or expired), so
the first argument ends up at index 0, and returns `N + length(existing)`.  The lookup of
`k` is taken to have returned (see C8 for the keys on which it panics). -/
theorem LPush_prepends (ds : DataStore) (k : Bytes) (values : List Iface) (now : Int)
    (found : Option (Option (List Iface))) (hne : values ≠ [])
    (hget : ds.listStore.Get k now = .ok (found.map Value.slice)) :
    ∃ ds2, ds.LPush k values now
        = .ok (((values.length + ((found.getD none).getD []).length : Nat) : Int), ds2)
      ∧ ∀ t, ds2.listStore.Get k t
          = .ok (some (.slice (some (values ++ (found.getD none).getD [])))) := by
  obtain ⟨b, hb⟩ := Get_ok_bucket _ _ _ _ hget
  obtain ⟨t2, hset⟩ := Set_succeeds ds.listStore k
    (.slice (some (values ++ (found.getD none).getD []))) 0 now b hb
  have hlist : (match found.map Value.slice with
      | some v => v.asSlice
      | none => Outcome.ok none) = .ok (found.getD none) := by
    cases found <;> rfl
  refine ⟨{ ds with listStore := t2 }, ?_, ?_⟩
  · unfold DataStore.LPush
    rw [hget]
    simp only [Outcome.bind, hlist, goAppend_variadic values _ hne, hset, Option.getD_some,
      List.length_append]
  · intro t
    have := Get_Set_same ds.listStore t2 k _ 0 now t hset
    simpa using this

set_option maxRecDepth 100000 in
/-- C2, as amended, at a key that is absent from a fresh store. -/
theorem LPush_prepends_witness :
    ∃ ds2, NewDataStore.LPush (bs "L") [Iface.str (bs "a"), Iface.str (bs "b")] 7
        = .ok (2, ds2)
      ∧ ∀ t, ds2.listStore.Get (bs "L") t
          = .ok (some (.slice (some [Iface.str (bs "a"), Iface.str (bs "b")]))) :=
  LPush_prepends NewDataStore (bs "L") [Iface.str (bs "a"), Iface.str (bs "b")] 7 none
    (by decide) rfl

set_option maxRecDepth 100000 in
/-- C2 as stated fails: after `LPush(L, a, b)` on a fresh key the stored list is
`[a, b]`, with the first argument at index 0, not `[b, a]`. -/
theorem LPush_order_counterexample :
    (NewDataStore.LPush (bs "L") [Iface.str (bs "a"), Iface.str (bs "b")] 7).bind
        (fun r => r.2.listStore.Get (bs "L") 7)
      = .ok (some (.slice (some [Iface.str (bs "a"), Iface.str (bs "b")])))
    ∧ [Iface.str (bs "a"), Iface.str (bs "b")] ≠ [Iface.str (bs "b"), Iface.str (bs "a")] :=
  ⟨rfl, by decide⟩

/-! ## The reply to GET on the wire -/

/-- What the dispatcher and `writeResponse` do for `SET k b` followed by `GET k`: once
the `SET` has returned, it has answered `OK`, and `GET k` at any later clock reading
answers with the Go string `b`, which goes out as `+` b CR LF. -/
theorem GET_after_SET (ds ds2 : DataStore) (k b : Bytes) (now t : Int) (r : Value)
    (hset : HandleCommand ds [bs "SET", k, b] now = .ok (r, ds2)) :
    r = strReply "OK"
    ∧ HandleCommand ds2 [bs "GET", k] t = .ok (.atom (.str b), ds2)
    ∧ writeResponse (.atom (.str b)) = 43 :: b ++ CRLF := by
  have hS : ToUpper (bs "SET") = bs "SET" := by decide
  have hG : ToUpper (bs "GET") = bs "GET" := by decide
  have hGS : ¬ (bs "GET" = bs "SET") := by decide
  simp only [HandleCommand, hS, if_true, handleSet, DataStore.Set] at hset
  cases hst : ds.stringStore.Set k (.atom (.str b)) 0 now with
  | panic => rw [hst] at hset; simp [Outcome.bind] at hset
  | ok t2 =>
    rw [hst] at hset
    simp only [Outcome.bind, Outcome.ok.injEq, Prod.mk.injEq] at hset
    obtain ⟨hr, hds⟩ := hset
    refine ⟨hr.symm, ?_, rfl⟩
    have hget := Get_Set_same ds.stringStore t2 k (Value.atom (.str b)) 0 now t hst
    simp only [gt_iff_lt, lt_self_iff_false, if_false, false_and] at hget
    simp only [HandleCommand, hG, hGS, if_true, if_false, handleGet, DataStore.Get, ← hds, hget,
      Outcome.bind]

set_option maxRecDepth 100000 in
/-- C1 fails on the code: `handleGet` returns the stored value as a Go string, and
`writeResponse` sends every Go string as a simple string.  After `SET foo bar` the reply
to `GET foo` is `+bar` CR LF, not the bulk string `$3` CR LF `bar` CR LF; after
`SET k b` with `b` holding CR LF the reply `+` b CR LF is cut at the first line feed
when it is read back, so `b` does not arrive. -/
theorem GET_reply_is_simple_string :
    ((HandleCommand NewDataStore [bs "SET", bs "foo", bs "bar"] 5).bind fun r =>
        (HandleCommand r.2 [bs "GET", bs "foo"] 6).bind fun r2 =>
          .ok (writeResponse r.1, writeResponse r2.1))
      = .ok (bs "+OK\r\n", bs "+bar\r\n")
    ∧ bs "+bar\r\n" ≠ WriteBulkString (some (bs "bar"))
    ∧ WriteBulkString (some (bs "bar")) = bs "$3\r\nbar\r\n"
    ∧ ((HandleCommand NewDataStore [bs "SET", bs "k", bs "a\r\nb"] 5).bind fun r =>
        (HandleCommand r.2 [bs "GET", bs "k"] 6).bind fun r2 => .ok (writeResponse r2.1))
      = .ok (bs "+a\r\nb\r\n")
    ∧ readValue (bs "+a\r\nb\r\n") = .ok (.mk SimpleString (bs "a") 0 none none) (bs "b\r\n") := by
  refine ⟨by decide, by decide, by decide, by decide, rfl⟩


/-! ## One bucket of a table -/

theorem Get_eq_bucket {α : Type} (h : HashTable α) (k : Bytes) (t : Int) (b : Bucket α)
    (hb : h.bucketOf k = .ok b) : h.Get k t = .ok (b.get k t) := by
  unfold HashTable.Get Bucket.get
  rw [hb]
  simp only
  cases hl : b.lookup k with
  | none => rfl
  | some e =>
    simp only
    by_cases hc : e.Expiration > 0 ∧ t > e.Expiration
    · rw [if_pos hc, if_pos hc]
    · rw [if_neg hc, if_neg hc]

theorem TTL_eq_bucket {α : Type} (h : HashTable α) (k : Bytes) (t : Int) (b : Bucket α)
    (hb : h.bucketOf k = .ok b) : h.TTL k t = .ok (b.ttl k t) := by
  unfold HashTable.TTL Bucket.ttl
  rw [hb]
  simp only
  cases hl : b.lookup k with
  | none => rfl
  | some e =>
    simp only
    by_cases hc : e.Expiration = 0
    · rw [if_pos hc, if_pos hc]
    · rw [if_neg hc, if_neg hc]
      by_cases hq : Int.tdiv (wrap64 (e.Expiration - t)) 1000000000 < 0
      · rw [if_pos hq, if_pos hq]
      · rw [if_neg hq, if_neg hq]

theorem Exists_eq_bucket {α : Type} (h : HashTable α) (k : Bytes) (t : Int) (b : Bucket α)
    (hb : h.bucketOf k = .ok b) : h.Exists k t = .ok (b.get k t).isSome := by
  unfold HashTable.Exists Bucket.get
  rw [hb]
  simp only
  cases hl : b.lookup k with
  | none => rfl
  | some e =>
    simp only
    by_cases hc : e.Expiration > 0 ∧ t > e.Expiration
    · rw [if_pos hc, if_pos hc]; rfl
    · rw [if_neg hc, if_neg hc]; rfl

theorem bucketOf_lt {α : Type} (h : HashTable α) (k : Bytes) (b : Bucket α)
    (hb : h.bucketOf k = .ok b) : (h.hash k).toNat < h.buckets.length := by
  obtain ⟨_, _, hget⟩ := bucketOf_ok h k b hb
  by_contra hc
  rw [List.getElem?_eq_none (by omega)] at hget
  simp at hget

/-- The buckets of a table after the bucket of `k` has been replaced by `nb`. -/
theorem bucketOf_set {α : Type} (h : HashTable α) (k k2 : Bytes) (b nb : Bucket α) (c : Int)
    (hb : h.bucketOf k = .ok b) :
    HashTable.bucketOf
        { buckets := h.buckets.set (h.hash k).toNat nb, size := h.size, count := c } k2
      = if h.hash k2 = h.hash k then .ok nb else h.bucketOf k2 := by
  obtain ⟨hs, hi, _⟩ := bucketOf_ok h k b hb
  have hlt := bucketOf_lt h k b hb
  unfold HashTable.bucketOf HashTable.bucketAt
  simp only [HashTable.hash, if_neg hs]
  by_cases hsame : (hashFold k2).tmod h.size = (hashFold k).tmod h.size
  · have hi2 : 0 ≤ (hashFold k).tmod h.size := hi
    rw [if_pos hsame, hsame, if_pos hi2]
    have hlt2 : ((hashFold k).tmod h.size).toNat < h.buckets.length := hlt
    rw [List.getElem?_set_self hlt2]
  · rw [if_neg hsame]
    by_cases hk2 : 0 ≤ (hashFold k2).tmod h.size
    · have hi2 : 0 ≤ (hashFold k).tmod h.size := hi
      have hidx : ((hashFold k).tmod h.size).toNat ≠ ((hashFold k2).tmod h.size).toNat := by
        omega
      rw [if_pos hk2, if_pos hk2, List.getElem?_set_ne hidx]
    · rw [if_neg hk2, if_neg hk2]

theorem bucketOf_same_hash {α : Type} (h : HashTable α) (k k2 : Bytes)
    (hsame : h.hash k2 = h.hash k) : h.bucketOf k2 = h.bucketOf k := by
  unfold HashTable.bucketOf
  rw [hsame]

theorem Bucket.get_insert_ne {α : Type} (b : Bucket α) (k k2 : Bytes) (e : Entry α) (t : Int)
    (hne : k2 ≠ k) : Bucket.get (AList.insert k e b) k2 t = b.get k2 t := by
  unfold Bucket.get
  rw [AList.lookup_insert_ne hne]

theorem Bucket.get_erase_ne {α : Type} (b : Bucket α) (k k2 : Bytes) (t : Int)
    (hne : k2 ≠ k) : Bucket.get (AList.erase k b) k2 t = b.get k2 t := by
  unfold Bucket.get
  rw [AList.lookup_erase_ne hne]

theorem Bucket.get_erase_self {α : Type} (b : Bucket α) (k : Bytes) (t : Int) :
    Bucket.get (AList.erase k b) k t = none := by
  unfold Bucket.get
  rw [AList.lookup_erase]

/-- The table `Set` returns: the bucket of the key with the new entry put in. -/
theorem Set_eq {α : Type} (h h2 : HashTable α) (k : Bytes) (v : α) (ttl t0 : Int)
    (hset : h.Set k v ttl t0 = .ok h2) :
    ∃ b, h.bucketOf k = .ok b
      ∧ h2 = { buckets := h.buckets.set (h.hash k).toNat
                 (b.insert k { Value := v, Expiration := if ttl > 0 then wrap64 (t0 + ttl) else 0 })
               size := h.size
               count := if (b.lookup k).isNone then h.count + 1 else h.count } := by
  unfold HashTable.Set at hset
  dsimp only at hset
  cases hb : h.bucketOf k with
  | panic => rw [hb] at hset; simp at hset
  | ok b =>
    rw [hb] at hset
    simp only [Outcome.ok.injEq] at hset
    exact ⟨b, rfl, hset.symm⟩

theorem bucketOf_after_Set {α : Type} (h h2 : HashTable α) (k : Bytes) (v : α) (ttl t0 : Int)
    (hset : h.Set k v ttl t0 = .ok h2) :
    ∃ b, h.bucketOf k = .ok b
      ∧ h2.bucketOf k = .ok (b.insert k
          { Value := v, Expiration := if ttl > 0 then wrap64 (t0 + ttl) else 0 }) := by
  obtain ⟨b, hb, rfl⟩ := Set_eq h h2 k v ttl t0 hset
  refine ⟨b, hb, ?_⟩
  rw [bucketOf_set h k k b _ _ hb, if_pos rfl]

theorem TTL_Set_same {α : Type} (h h2 : HashTable α) (k : Bytes) (v : α) (ttl t0 t : Int)
    (hset : h.Set k v ttl t0 = .ok h2) :
    h2.TTL k t = .ok (Bucket.ttl (AList.insert k
      ({ Value := v, Expiration := if ttl > 0 then wrap64 (t0 + ttl) else 0 } : Entry α) ∅) k t) := by
  obtain ⟨b, _, hb2⟩ := bucketOf_after_Set h h2 k v ttl t0 hset
  rw [TTL_eq_bucket h2 k t _ hb2]
  simp only [Bucket.ttl, AList.lookup_insert]

/-! ## Expire and TTL -/

set_option maxRecDepth 100000 in
/-- C11 fails on the code: `Expire` looks the entry up and never compares its expiration
with the clock.  A key set with a lifetime of 1000 ns at clock reading 1000 is expired at
reading 5000 (`Exists` and `Get` report it missing); `Expire` there returns true, and
afterwards `Get` returns the old value again, with a positive as with a zero `ttl`. -/
theorem Expire_revives_expired :
    ((NewHashTable 1024 : HashTable Bytes).Set (bs "k") (bs "v") 1000 1000).bind
        (fun h => h.Exists (bs "k") 5000) = .ok false
    ∧ ((NewHashTable 1024 : HashTable Bytes).Set (bs "k") (bs "v") 1000 1000).bind
        (fun h => h.Get (bs "k") 5000) = .ok none
    ∧ ((NewHashTable 1024 : HashTable Bytes).Set (bs "k") (bs "v") 1000 1000).bind
        (fun h => (h.Expire (bs "k") 10000000000 5000).bind fun r => .ok r.1) = .ok true
    ∧ ((NewHashTable 1024 : HashTable Bytes).Set (bs "k") (bs "v") 1000 1000).bind
        (fun h => (h.Expire (bs "k") 10000000000 5000).bind fun r => r.2.Get (bs "k") 5000)
      = .ok (some (bs "v"))
    ∧ ((NewHashTable 1024 : HashTable Bytes).Set (bs "k") (bs "v") 1000 1000).bind
        (fun h => (h.Expire (bs "k") 0 5000).bind fun r => r.2.Get (bs "k") 5000)
      = .ok (some (bs "v")) := by
  refine ⟨by decide, by decide, by decide, by decide, by decide⟩

theorem tdiv_billion (d : Int) :
    Int.tdiv d 1000000000
      = if 0 ≤ d then d / 1000000000 else -((-d) / 1000000000) := by
  split
  · rename_i h
    exact Int.tdiv_eq_ediv h (by decide)
  · rename_i h
    have h2 : (0 : Int) ≤ -d := by omega
    have := Int.tdiv_eq_ediv h2 (show (0 : Int) ≤ 1000000000 by decide)
    rw [Int.neg_tdiv] at this
    omega

/-- The expiration stored for a positive lifetime and the remaining time `TTL` computes
from it, for 64-bit clock readings. -/
theorem remaining_time (t0 ttl t : Int) (h0 : 0 ≤ t0) (ht : t0 ≤ t) (ht63 : t < 2 ^ 63)
    (hpos : 0 < ttl) (httl : ttl < 2 ^ 63) :
    wrap64 (t0 + ttl) ≠ 0 ∧ wrap64 (wrap64 (t0 + ttl) - t) = t0 + ttl - t := by
  unfold wrap64
  constructor <;> omega

/-- What `TTL` answers for a key set with a positive lifetime `ttl` at reading `t0`. -/
theorem ttl_inserted {α : Type} (k : Bytes) (v : α) (t0 ttl t : Int) (h0 : 0 ≤ t0)
    (ht : t0 ≤ t) (ht63 : t < 2 ^ 63) (hpos : 0 < ttl) (httl : ttl < 2 ^ 63) :
    Bucket.ttl (AList.insert k
        ({ Value := v, Expiration := if ttl > 0 then wrap64 (t0 + ttl) else 0 } : Entry α) ∅) k t
      = if Int.tdiv (t0 + ttl - t) 1000000000 < 0 then -2
        else Int.tdiv (t0 + ttl - t) 1000000000 := by
  obtain ⟨hne, hrem⟩ := remaining_time t0 ttl t h0 ht ht63 hpos httl
  have hgt : ttl > 0 := hpos
  simp only [Bucket.ttl, AList.lookup_insert, if_pos hgt, if_neg hne, hrem]

/-- The answer of `TTL` is non-increasing in the clock reading. -/
theorem ttl_answer_mono (d1 d2 : Int) (h : d2 ≤ d1) :
    (if Int.tdiv d2 1000000000 < 0 then -2 else Int.tdiv d2 1000000000)
      ≤ (if Int.tdiv d1 1000000000 < 0 then (-2 : Int) else Int.tdiv d1 1000000000) := by
  rw [tdiv_billion d1, tdiv_billion d2]
  split <;> split <;> split <;> split <;> omega

theorem ttl_answer_live (d : Int) (h : 0 < d) :
    (if Int.tdiv d 1000000000 < 0 then (-2 : Int) else Int.tdiv d 1000000000) ≠ -2 := by
  rw [tdiv_billion d]
  split <;> split <;> omega

/-- What `SET k v EX n` does once it has returned. -/
theorem SET_EX_eq (ds ds2 : DataStore) (k v option amount : Bytes) (n t0 : Int) (reply : Value)
    (hopt : ToUpper option = bs "EX") (hn : Atoi amount = some n)
    (hset : HandleCommand ds [bs "SET", k, v, option, amount] t0 = .ok (reply, ds2)) :
    ∃ tbl, ds.stringStore.Set k (.atom (.str v)) (wrap64 (n * 1000000000)) t0 = .ok tbl
      ∧ ds2 = { ds with stringStore := tbl } ∧ reply = strReply "OK" := by
  have hS : ToUpper (bs "SET") = bs "SET" := by decide
  simp only [HandleCommand, hS, if_true, handleSet, hopt, hn, Option.map_some',
    DataStore.Set] at hset
  cases hst : ds.stringStore.Set k (.atom (.str v)) (wrap64 (n * 1000000000)) t0 with
  | panic => rw [hst] at hset; simp [Outcome.bind] at hset
  | ok tbl =>
    rw [hst] at hset
    simp only [Outcome.bind, Outcome.ok.injEq, Prod.mk.injEq] at hset
    exact ⟨tbl, rfl, hset.2.symm, hset.1.symm⟩

/-- The reply to `TTL k` when the string table answers `r`. -/
theorem TTL_reply (ds : DataStore) (k : Bytes) (t r : Int)
    (hs : ds.stringStore.TTL k t = .ok r)
    (hrest : r = -2 → ds.listStore.TTL k t = .ok (-2) ∧ ds.setStore.TTL k t = .ok (-2)
      ∧ ds.hashStore.TTL k t = .ok (-2)) :
    HandleCommand ds [bs "TTL", k] t = .ok (.atom (.int64 r), ds) := by
  have hT : ToUpper (bs "TTL") = bs "TTL" := by decide
  have h1 : ¬ (bs "TTL" = bs "SET") := by decide
  have h2 : ¬ (bs "TTL" = bs "GET") := by decide
  have h3 : ¬ (bs "TTL" = bs "DEL") := by decide
  have h4 : ¬ (bs "TTL" = bs "EXISTS") := by decide
  have h5 : ¬ (bs "TTL" = bs "KEYS") := by decide
  simp only [HandleCommand, hT, h1, h2, h3, h4, h5, if_true, if_false, handleTTL,
    DataStore.TTL, hs, Outcome.bind]
  by_cases hr : r = -2
  · obtain ⟨hl, hse, hh⟩ := hrest hr
    simp [hr, hl, hse, hh]
  · simp [hr]

/-- C12, as amended.  After `SET k v EX n` with `1 <= n` and `n * 10^9` inside the 64-bit
range has returned at clock reading `t0`, the reply to `TTL k` at every reading `t` with
`t0 <= t < t0 + n` seconds is an integer other than -2; and when `k` is in none of the
list, set and hash tables, the reply at `t1` is at least the reply at `t2` for all
`t0 <= t1 <= t2`.  Clock readings are non-negative 64-bit Unix times. -/
theorem TTL_after_SET_EX (ds ds2 : DataStore) (k v option amount : Bytes)
    (n t0 t1 t2 : Int) (reply : Value)
    (hopt : ToUpper option = bs "EX") (hn : Atoi amount = some n) (h1 : 1 ≤ n)
    (hover : n * 1000000000 < 2 ^ 63)
    (hset : HandleCommand ds [bs "SET", k, v, option, amount] t0 = .ok (reply, ds2))
    (h0 : 0 ≤ t0) (h01 : t0 ≤ t1) (h12 : t1 ≤ t2) (h263 : t2 < 2 ^ 63) :
    (t1 < t0 + n * 1000000000 →
      ∃ r, HandleCommand ds2 [bs "TTL", k] t1 = .ok (.atom (.int64 r), ds2) ∧ r ≠ -2)
    ∧ ((∀ t, ds.listStore.TTL k t = .ok (-2)) → (∀ t, ds.setStore.TTL k t = .ok (-2)) →
        (∀ t, ds.hashStore.TTL k t = .ok (-2)) →
      ∃ r1 r2, HandleCommand ds2 [bs "TTL", k] t1 = .ok (.atom (.int64 r1), ds2)
        ∧ HandleCommand ds2 [bs "TTL", k] t2 = .ok (.atom (.int64 r2), ds2) ∧ r2 ≤ r1) := by
  obtain ⟨tbl, hst, hds, _⟩ := SET_EX_eq ds ds2 k v option amount n t0 reply hopt hn hset
  have hin : inInt64 (n * 1000000000) := by unfold inInt64; omega
  have hw : wrap64 (n * 1000000000) = n * 1000000000 := wrap64_of_inInt64 _ hin
  rw [hw] at hst
  have hpos : 0 < n * 1000000000 := by omega
  have hs : ∀ t, t0 ≤ t → t < 2 ^ 63 → ds2.stringStore.TTL k t
      = .ok (if Int.tdiv (t0 + n * 1000000000 - t) 1000000000 < 0 then -2
        else Int.tdiv (t0 + n * 1000000000 - t) 1000000000) := by
    intro t ht ht63
    rw [hds]
    show tbl.TTL k t = _
    rw [TTL_Set_same ds.stringStore tbl k _ _ t0 t hst,
      ttl_inserted k _ t0 (n * 1000000000) t h0 ht ht63 hpos hover]
  constructor
  · intro hlive
    refine ⟨_, TTL_reply ds2 k t1 _ (hs t1 h01 (by omega)) ?_, ?_⟩
    · intro hc
      exact absurd hc (ttl_answer_live _ (by omega))
    · exact ttl_answer_live _ (by omega)
  · intro hl hse hh
    have hothers : ∀ t, ds2.listStore.TTL k t = .ok (-2) ∧ ds2.setStore.TTL k t = .ok (-2)
        ∧ ds2.hashStore.TTL k t = .ok (-2) := by
      intro t
      rw [hds]
      exact ⟨hl t, hse t, hh t⟩
    refine ⟨_, _, TTL_reply ds2 k t1 _ (hs t1 h01 (by omega)) (fun _ => hothers t1),
      TTL_reply ds2 k t2 _ (hs t2 (by omega) h263) (fun _ => hothers t2), ?_⟩
    exact ttl_answer_mono _ _ (by omega)

set_option maxRecDepth 100000 in
/-- C12, as amended, on a fresh store: `SET k v EX 2` at reading 1000, then `TTL k` at
readings 1500 and 1000001500. -/
theorem TTL_after_SET_EX_witness :
    ∃ reply ds2,
      HandleCommand NewDataStore [bs "SET", bs "k", bs "v", bs "EX", bs "2"] 1000
        = .ok (reply, ds2)
      ∧ (∃ r, HandleCommand ds2 [bs "TTL", bs "k"] 1500 = .ok (.atom (.int64 r), ds2) ∧ r ≠ -2)
      ∧ (∃ r1 r2, HandleCommand ds2 [bs "TTL", bs "k"] 1500 = .ok (.atom (.int64 r1), ds2)
          ∧ HandleCommand ds2 [bs "TTL", bs "k"] 1000001500 = .ok (.atom (.int64 r2), ds2)
          ∧ r2 ≤ r1) := by
  refine ⟨_, _, rfl, ?_, ?_⟩
  · exact (TTL_after_SET_EX NewDataStore _ (bs "k") (bs "v") (bs "EX") (bs "2") 2 1000 1500
      1000001500 _ (by decide) (by decide) (by decide) (by decide) rfl (by decide) (by decide)
      (by decide) (by decide)).1 (by decide)
  · exact (TTL_after_SET_EX NewDataStore _ (bs "k") (bs "v") (bs "EX") (bs "2") 2 1000 1500
      1000001500 _ (by decide) (by decide) (by decide) (by decide) rfl (by decide) (by decide)
      (by decide) (by decide)).2 (fun _ => rfl) (fun _ => rfl) (fun _ => rfl)

set_option maxRecDepth 100000 in
/-- C12 as stated fails when the key also lives in another table: the list `k` is given
a lifetime of 100 seconds, then `SET k v EX 1` is run.  `TTL k` answers 1 while the string
entry is live and 97 three seconds later, when the string table answers -2 and the list
table is asked. -/
theorem TTL_not_monotone_counterexample :
    serve [([bs "LPUSH", bs "k", bs "x"], 1000), ([bs "EXPIRE", bs "k", bs "100"], 1000),
        ([bs "SET", bs "k", bs "v", bs "EX", bs "1"], 1000), ([bs "TTL", bs "k"], 1000),
        ([bs "TTL", bs "k"], 3000001000)] NewDataStore
      = .ok [bs ":1\r\n", bs ":1\r\n", bs "+OK\r\n", bs ":1\r\n", bs ":97\r\n"]
    ∧ ¬ ((97 : Int) ≤ 1) := by
  refine ⟨by decide, by decide⟩

/-! ## The dispatcher on the command names -/

theorem HandleCommand_GET (ds : DataStore) (args : List Bytes) (now : Int) :
    HandleCommand ds (bs "GET" :: args) now = handleGet ds args now := rfl

theorem HandleCommand_DEL (ds : DataStore) (args : List Bytes) (now : Int) :
    HandleCommand ds (bs "DEL" :: args) now = handleDel ds args now := rfl

theorem HandleCommand_EXISTS (ds : DataStore) (args : List Bytes) (now : Int) :
    HandleCommand ds (bs "EXISTS" :: args) now = handleExists ds args now := rfl

theorem HandleCommand_INCR (ds : DataStore) (args : List Bytes) (now : Int) :
    HandleCommand ds (bs "INCR" :: args) now = handleIncr ds args now := rfl

theorem HandleCommand_DECR (ds : DataStore) (args : List Bytes) (now : Int) :
    HandleCommand ds (bs "DECR" :: args) now = handleDecr ds args now := rfl

theorem HandleCommand_HSET (ds : DataStore) (args : List Bytes) (now : Int) :
    HandleCommand ds (bs "HSET" :: args) now = handleHSet ds args now := rfl

theorem HandleCommand_HGET (ds : DataStore) (args : List Bytes) (now : Int) :
    HandleCommand ds (bs "HGET" :: args) now = handleHGet ds args now := rfl

theorem HandleCommand_HGETALL (ds : DataStore) (args : List Bytes) (now : Int) :
    HandleCommand ds (bs "HGETALL" :: args) now = handleHGetAll ds args now := rfl

/-! ## INCR and DECR -/

theorem Atoi_range (s : Bytes) (n : Int) (h : Atoi s = some n) : inInt64 n := by
  cases s with
  | nil => simp [Atoi] at h
  | cons c cs =>
    unfold Atoi at h
    dsimp only at h
    generalize (if c = 45 ∨ c = 43 then cs else c :: cs) = ds at h
    by_cases hds : ds = []
    · simp [hds] at h
    · rw [if_neg hds] at h
      cases hp : parseDigits ds 0 with
      | none => rw [hp] at h; simp at h
      | some d =>
        rw [hp] at h
        dsimp only at h
        generalize (if decide (c = 45) = true then -(d : Int) else (d : Int)) = v at h
        by_cases hin : inInt64 v
        · rw [if_pos hin] at h
          simp only [Option.some.injEq] at h
          rw [← h]; exact hin
        · rw [if_neg hin] at h
          simp at h

/-- A write to a key whose lookup returns: the `Set` returns too, and the key then holds
the value written, without expiration. -/
theorem Set_after_Get {α : Type} (h : HashTable α) (k : Bytes) (now : Int) (r : Option α)
    (val : α) (hget : h.Get k now = .ok r) :
    ∃ tbl, h.Set k val 0 now = .ok tbl ∧ ∀ t, tbl.Get k t = .ok (some val) := by
  obtain ⟨b, hb⟩ := Get_ok_bucket h k now r hget
  obtain ⟨tbl, hset⟩ := Set_succeeds h k val 0 now b hb
  refine ⟨tbl, hset, fun t => ?_⟩
  have := Get_Set_same h tbl k val 0 now t hset
  simpa using this

theorem GET_of_string (ds : DataStore) (k s : Bytes) (t : Int)
    (hget : ds.stringStore.Get k t = .ok (some (.atom (.str s)))) :
    HandleCommand ds [bs "GET", k] t = .ok (.atom (.str s), ds) := by
  rw [HandleCommand_GET]
  simp only [handleGet, DataStore.Get, hget, Outcome.bind]

/-- `INCR` (`delta = 1`) and `DECR` (`delta = -1`) on a key that holds the text of `n`,
when `n + delta` is inside the 64-bit range. -/
theorem step_present (ds : DataStore) (k s : Bytes) (n now : Int)
    (hget : ds.stringStore.Get k now = .ok (some (.atom (.str s)))) (hs : Atoi s = some n) :
    (inInt64 (n + 1) → ∃ ds2,
      HandleCommand ds [bs "INCR", k] now = .ok (intReply (n + 1), ds2)
      ∧ ∀ t, ds2.stringStore.Get k t = .ok (some (.atom (.str (formatInt (n + 1))))))
    ∧ (inInt64 (n - 1) → ∃ ds2,
      HandleCommand ds [bs "DECR", k] now = .ok (intReply (n - 1), ds2)
      ∧ ∀ t, ds2.stringStore.Get k t = .ok (some (.atom (.str (formatInt (n - 1)))))) := by
  constructor
  · intro hin
    obtain ⟨tbl, hset, hafter⟩ := Set_after_Get ds.stringStore k now _
      (Value.atom (.str (formatInt (n + 1)))) hget
    refine ⟨{ ds with stringStore := tbl }, ?_, hafter⟩
    rw [HandleCommand_INCR]
    simp only [handleIncr, DataStore.Get, hget, Outcome.bind, hs, DataStore.Set,
      wrap64_of_inInt64 _ hin, hset]
  · intro hin
    obtain ⟨tbl, hset, hafter⟩ := Set_after_Get ds.stringStore k now _
      (Value.atom (.str (formatInt (n - 1)))) hget
    refine ⟨{ ds with stringStore := tbl }, ?_, hafter⟩
    rw [HandleCommand_DECR]
    simp only [handleDecr, DataStore.Get, hget, Outcome.bind, hs, DataStore.Set,
      wrap64_of_inInt64 _ hin, hset]

theorem step_absent (ds : DataStore) (k : Bytes) (now : Int)
    (hget : ds.stringStore.Get k now = .ok none) :
    (∃ ds2, HandleCommand ds [bs "INCR", k] now = .ok (intReply 1, ds2)
      ∧ ∀ t, ds2.stringStore.Get k t = .ok (some (.atom (.str (bs "1")))))
    ∧ (∃ ds2, HandleCommand ds [bs "DECR", k] now = .ok (intReply (-1), ds2)
      ∧ ∀ t, ds2.stringStore.Get k t = .ok (some (.atom (.str (bs "-1"))))) := by
  constructor
  · obtain ⟨tbl, hset, hafter⟩ := Set_after_Get ds.stringStore k now _
      (Value.atom (.str (bs "1"))) hget
    refine ⟨{ ds with stringStore := tbl }, ?_, hafter⟩
    rw [HandleCommand_INCR]
    simp only [handleIncr, DataStore.Get, hget, Outcome.bind, DataStore.Set, hset]
  · obtain ⟨tbl, hset, hafter⟩ := Set_after_Get ds.stringStore k now _
      (Value.atom (.str (bs "-1"))) hget
    refine ⟨{ ds with stringStore := tbl }, ?_, hafter⟩
    rw [HandleCommand_DECR]
    simp only [handleDecr, DataStore.Get, hget, Outcome.bind, DataStore.Set, hset]

/-- C13, as amended.  On a key absent from the string table `INCR` stores `1` and
replies 1, and `DECR` stores `-1` and replies -1.  On a key holding a text that parses as
the 64-bit integer `n`, `INCR` replies `n + 1` when `n + 1` is still inside the 64-bit
range, `GET` then yields the decimal text of `n + 1`, and a following `DECR` replies `n`
and leaves the decimal text of `n`; likewise `DECR` with `n - 1`, followed by `INCR`. -/
theorem INCR_DECR_arithmetic (ds : DataStore) (k s : Bytes) (n now : Int) :
    (ds.stringStore.Get k now = .ok none →
      (∃ ds2, HandleCommand ds [bs "INCR", k] now = .ok (intReply 1, ds2)
        ∧ ∀ t, HandleCommand ds2 [bs "GET", k] t = .ok (.atom (.str (bs "1")), ds2))
      ∧ (∃ ds2, HandleCommand ds [bs "DECR", k] now = .ok (intReply (-1), ds2)
        ∧ ∀ t, HandleCommand ds2 [bs "GET", k] t = .ok (.atom (.str (bs "-1")), ds2)))
    ∧ (ds.stringStore.Get k now = .ok (some (.atom (.str s))) → Atoi s = some n →
      (inInt64 (n + 1) → ∃ ds2,
        HandleCommand ds [bs "INCR", k] now = .ok (intReply (n + 1), ds2)
        ∧ (∀ t, HandleCommand ds2 [bs "GET", k] t
            = .ok (.atom (.str (formatInt (n + 1))), ds2))
        ∧ ∀ t, ∃ ds3, HandleCommand ds2 [bs "DECR", k] t = .ok (intReply n, ds3)
            ∧ ∀ u, HandleCommand ds3 [bs "GET", k] u = .ok (.atom (.str (formatInt n)), ds3))
      ∧ (inInt64 (n - 1) → ∃ ds2,
        HandleCommand ds [bs "DECR", k] now = .ok (intReply (n - 1), ds2)
        ∧ (∀ t, HandleCommand ds2 [bs "GET", k] t
            = .ok (.atom (.str (formatInt (n - 1))), ds2))
        ∧ ∀ t, ∃ ds3, HandleCommand ds2 [bs "INCR", k] t = .ok (intReply n, ds3)
            ∧ ∀ u, HandleCommand ds3 [bs "GET", k] u = .ok (.atom (.str (formatInt n)), ds3))) := by
  constructor
  · intro habs
    obtain ⟨⟨d1, h1, g1⟩, ⟨d2, h2, g2⟩⟩ := step_absent ds k now habs
    exact ⟨⟨d1, h1, fun t => GET_of_string d1 k _ t (g1 t)⟩,
      ⟨d2, h2, fun t => GET_of_string d2 k _ t (g2 t)⟩⟩
  · intro hget hs
    have hn : inInt64 n := Atoi_range s n hs
    obtain ⟨hinc, hdec⟩ := step_present ds k s n now hget hs
    constructor
    · intro hin
      obtain ⟨d1, h1, g1⟩ := hinc hin
      refine ⟨d1, h1, fun t => GET_of_string d1 k _ t (g1 t), fun t => ?_⟩
      have hback := (step_present d1 k (formatInt (n + 1)) (n + 1) t (g1 t)
        (Atoi_formatInt _ hin)).2
      have hsub : n + 1 - 1 = n := by omega
      rw [hsub] at hback
      obtain ⟨d3, h3, g3⟩ := hback hn
      exact ⟨d3, h3, fun u => GET_of_string d3 k _ u (g3 u)⟩
    · intro hin
      obtain ⟨d1, h1, g1⟩ := hdec hin
      refine ⟨d1, h1, fun t => GET_of_string d1 k _ t (g1 t), fun t => ?_⟩
      have hback := (step_present d1 k (formatInt (n - 1)) (n - 1) t (g1 t)
        (Atoi_formatInt _ hin)).1
      have hsub : n - 1 + 1 = n := by omega
      rw [hsub] at hback
      obtain ⟨d3, h3, g3⟩ := hback hn
      exact ⟨d3, h3, fun u => GET_of_string d3 k _ u (g3 u)⟩

set_option maxRecDepth 100000 in
/-- C13, as amended, on a fresh store (key absent) and on the store in which `n` holds
the text `41`. -/
theorem INCR_DECR_arithmetic_witness :
    (∃ ds2, HandleCommand NewDataStore [bs "INCR", bs "n"] 5 = .ok (intReply 1, ds2)
      ∧ ∀ t, HandleCommand ds2 [bs "GET", bs "n"] t = .ok (.atom (.str (bs "1")), ds2))
    ∧ ∃ ds, NewDataStore.Set (bs "n") (.atom (.str (bs "41"))) 0 5 = .ok ds
      ∧ ∃ ds2, HandleCommand ds [bs "INCR", bs "n"] 6 = .ok (intReply (41 + 1), ds2)
        ∧ (∀ t, HandleCommand ds2 [bs "GET", bs "n"] t
            = .ok (.atom (.str (formatInt (41 + 1))), ds2))
        ∧ ∀ t, ∃ ds3, HandleCommand ds2 [bs "DECR", bs "n"] t = .ok (intReply 41, ds3)
            ∧ ∀ u, HandleCommand ds3 [bs "GET", bs "n"] u
                = .ok (.atom (.str (formatInt 41)), ds3) := by
  refine ⟨((INCR_DECR_arithmetic NewDataStore (bs "n") [] 0 5).1 rfl).1, _, rfl, ?_⟩
  refine ((INCR_DECR_arithmetic _ (bs "n") (bs "41") 41 6).2 ?_ ?_).1 ?_
  · rfl
  · decide
  · decide

set_option maxRecDepth 100000 in
/-- C13 as stated fails at the largest 64-bit integer: `num++` wraps, so `INCR` on
9223372036854775807 replies -9223372036854775808 and stores that text, and `DECR` on
-9223372036854775808 replies 9223372036854775807. -/
theorem INCR_wraps_counterexample :
    serve [([bs "SET", bs "n", bs "9223372036854775807"], 5), ([bs "INCR", bs "n"], 6),
        ([bs "GET", bs "n"], 7), ([bs "DECR", bs "n"], 8)] NewDataStore
      = .ok [bs "+OK\r\n", bs ":-9223372036854775808\r\n", bs "+-9223372036854775808\r\n",
          bs ":9223372036854775807\r\n"]
    ∧ WriteInteger (9223372036854775807 + 1) ≠ bs ":-9223372036854775808\r\n" := by
  refine ⟨by decide, by decide⟩

/-- C14. On a key whose stored string does not parse as a 64-bit decimal integer, `INCR`
and `DECR` reply with the text `ERR value is not an integer or out of range` and return
the store they were given: no table, value or expiration changes. -/
theorem INCR_DECR_failure (ds : DataStore) (k s : Bytes) (now : Int)
    (hget : ds.stringStore.Get k now = .ok (some (.atom (.str s)))) (hs : Atoi s = none) :
    HandleCommand ds [bs "INCR", k] now
        = .ok (strReply "ERR value is not an integer or out of range", ds)
    ∧ HandleCommand ds [bs "DECR", k] now
        = .ok (strReply "ERR value is not an integer or out of range", ds) := by
  constructor
  · rw [HandleCommand_INCR]
    simp only [handleIncr, DataStore.Get, hget, Outcome.bind, hs]
  · rw [HandleCommand_DECR]
    simp only [handleDecr, DataStore.Get, hget, Outcome.bind, hs]

set_option maxRecDepth 100000 in
/-- C14 on the store in which `k` holds the text `abc`. -/
theorem INCR_DECR_failure_witness :
    ∃ ds, NewDataStore.Set (bs "k") (.atom (.str (bs "abc"))) 0 5 = .ok ds
      ∧ HandleCommand ds [bs "INCR", bs "k"] 6
          = .ok (strReply "ERR value is not an integer or out of range", ds)
      ∧ HandleCommand ds [bs "DECR", bs "k"] 6
          = .ok (strReply "ERR value is not an integer or out of range", ds) := by
  refine ⟨_, rfl, ?_⟩
  refine INCR_DECR_failure _ (bs "k") (bs "abc") 6 ?_ ?_
  · rfl
  · decide

/-! ## Sets -/

theorem GoSet.get_insert (set : GoSet) (m x : Iface) :
    GoSet.get (AList.insert m true set) x = if x = m then true else set.get x := by
  unfold GoSet.get
  by_cases h : x = m
  · rw [if_pos h, h, AList.lookup_insert]; rfl
  · rw [if_neg h, AList.lookup_insert_ne h]

theorem GoSet.mem_of_get (set : GoSet) (x : Iface) (h : set.get x = true) : x ∈ set := by
  unfold GoSet.get at h
  rw [← AList.lookup_isSome]
  cases hl : set.lookup x with
  | none => rw [hl] at h; simp at h
  | some b => rfl

/-- The loop of `SAdd`: the count grows by the number of distinct members not yet in the
set, every member is in the set afterwards, and what was in the set stays. -/
theorem saddLoop_spec (members : List Iface) :
    ∀ (set : GoSet) (added : Int),
      (saddLoop members (set, added)).2
          = added + ((members.toFinset.filter fun m => set.get m = false).card : Int)
      ∧ (∀ x, (saddLoop members (set, added)).1.get x
            = (set.get x || decide (x ∈ members)))
      ∧ (∀ x, x ∈ (saddLoop members (set, added)).1 ↔ x ∈ set ∨ x ∈ members) := by
  induction members with
  | nil =>
    intro set added
    simp [saddLoop]
  | cons m ms ih =>
    intro set added
    by_cases hm : set.get m = true
    · have hstep : saddLoop (m :: ms) (set, added) = saddLoop ms (set, added) := by
        simp [saddLoop, hm]
      obtain ⟨h1, h2, h3⟩ := ih set added
      rw [hstep]
      refine ⟨?_, ?_, ?_⟩
      · rw [h1, List.toFinset_cons, Finset.filter_insert, if_neg (by simp [hm])]
      · intro x
        rw [h2 x]
        by_cases hx : x = m
        · subst hx; simp [hm]
        · simp [hx]
      · intro x
        rw [h3 x]
        constructor
        · rintro (h | h)
          · exact Or.inl h
          · exact Or.inr (List.mem_cons_of_mem _ h)
        · rintro (h | h)
          · exact Or.inl h
          · rcases List.mem_cons.mp h with h | h
            · subst h; exact Or.inl (GoSet.mem_of_get set x hm)
            · exact Or.inr h
    · have hmf : set.get m = false := by simpa using hm
      have hstep : saddLoop (m :: ms) (set, added)
          = saddLoop ms (AList.insert m true set, added + 1) := by
        simp [saddLoop, hmf]
      obtain ⟨h1, h2, h3⟩ := ih (AList.insert m true set) (added + 1)
      rw [hstep]
      refine ⟨?_, ?_, ?_⟩
      · rw [h1, List.toFinset_cons, Finset.filter_insert, if_pos hmf]
        have hfilter : (ms.toFinset.filter fun x => GoSet.get (AList.insert m true set) x = false)
            = (ms.toFinset.filter fun x => set.get x = false).erase m := by
          ext x
          simp only [Finset.mem_filter, Finset.mem_erase, GoSet.get_insert]
          by_cases hx : x = m
          · simp [hx]
          · simp [hx]
        rw [hfilter, Finset.card_insert_eq_ite]
        by_cases hmem : m ∈ ms.toFinset.filter fun x => set.get x = false
        · rw [if_pos hmem, Finset.card_erase_of_mem hmem]
          have hpos : 0 < (ms.toFinset.filter fun x => set.get x = false).card :=
            Finset.card_pos.mpr ⟨m, hmem⟩
          omega
        · rw [if_neg hmem, Finset.erase_eq_of_not_mem hmem]
          push_cast
          omega
      · intro x
        rw [h2 x, GoSet.get_insert]
        by_cases hx : x = m
        · subst hx; simp
        · simp [hx]
      · intro x
        rw [h3 x, AList.mem_insert]
        constructor
        · rintro ((h | h) | h)
          · exact Or.inr (by rw [h]; exact List.mem_cons_self _ _)
          · exact Or.inl h
          · exact Or.inr (List.mem_cons_of_mem _ h)
        · rintro (h | h)
          · exact Or.inl (Or.inr h)
          · rcases List.mem_cons.mp h with h | h
            · exact Or.inl (Or.inl h)
            · exact Or.inr h

theorem HandleCommand_SADD (ds : DataStore) (args : List Bytes) (now : Int) :
    HandleCommand ds (bs "SADD" :: args) now = handleSAdd ds args now := rfl

theorem toIfaces_hashable (args : List Bytes) : (toIfaces args).all Iface.hashable = true := by
  simp [toIfaces, Iface.hashable]

/-- What `SAdd` does on a key whose lookup in the set table returns `found` (`none` when
the key is absent or expired). -/
theorem SAdd_spec (ds : DataStore) (k : Bytes) (members : List Iface) (now : Int)
    (found : Option GoSet) (hh : members.all Iface.hashable = true)
    (hget : ds.setStore.Get k now = .ok (found.map Value.set)) :
    ∃ ds2 set2,
      ds.SAdd k members now
        = .ok (((members.toFinset.filter fun m => (found.getD ∅).get m = false).card : Int), ds2)
      ∧ (∀ t, ds2.setStore.Get k t = .ok (some (.set set2)))
      ∧ (∀ x, set2.get x = ((found.getD ∅).get x || decide (x ∈ members)))
      ∧ (∀ x, x ∈ set2 ↔ x ∈ found.getD ∅ ∨ x ∈ members) := by
  obtain ⟨h1, h2, h3⟩ := saddLoop_spec members (found.getD ∅) 0
  obtain ⟨tbl, hset, hafter⟩ := Set_after_Get ds.setStore k now _
    (Value.set (saddLoop members (found.getD ∅, 0)).1) hget
  refine ⟨{ ds with setStore := tbl }, (saddLoop members (found.getD ∅, 0)).1, ?_, hafter, h2, h3⟩
  unfold DataStore.SAdd
  rw [hget]
  cases found with
  | none =>
    simp only [Option.getD_none] at hset h1
    simp only [Option.map_none', Outcome.bind, hh, if_true, hset, h1, zero_add,
      Option.getD_none]
  | some s0 =>
    simp only [Option.getD_some] at hset h1
    simp only [Option.map_some', Outcome.bind, Value.asSet, hh, if_true, hset, h1, zero_add,
      Option.getD_some]

/-- The count of `SAdd`, on a key whose lookup in the set table returns.  `SAdd`
returns the number of distinct members among its arguments that were not
in the set at `k` (the empty set when `k` is absent); afterwards `SMembers(k)` holds each
argument exactly once and `SIsMember(k, m)` is true for each.  On an absent key `SADD k x`
replies 1 and a second `SADD k x` replies 0.  Members are values that can be map keys, as
the strings of a command are. -/
theorem SAdd_count (ds : DataStore) (k : Bytes) (members : List Iface) (now : Int)
    (found : Option GoSet) (hh : members.all Iface.hashable = true)
    (hget : ds.setStore.Get k now = .ok (found.map Value.set)) :
    (∃ ds2,
      ds.SAdd k members now
        = .ok (((members.toFinset.filter fun m => (found.getD ∅).get m = false).card : Int), ds2)
      ∧ ∀ t, (∃ ms, ds2.SMembers k t = .ok (some ms) ∧ ∀ m ∈ members, ms.count m = 1)
          ∧ ∀ m ∈ members, ds2.SIsMember k m t = .ok true)
    ∧ (found = none → ∀ x : Bytes, ∃ ds2,
        HandleCommand ds [bs "SADD", k, x] now = .ok (intReply 1, ds2)
        ∧ ∀ t, ∃ ds3, HandleCommand ds2 [bs "SADD", k, x] t = .ok (intReply 0, ds3)) := by
  constructor
  · obtain ⟨ds2, set2, hadd, hafter, hgetm, hmem⟩ := SAdd_spec ds k members now found hh hget
    refine ⟨ds2, hadd, fun t => ⟨⟨set2.keys, ?_, ?_⟩, ?_⟩⟩
    · simp only [DataStore.SMembers, hafter t, Outcome.bind]
    · intro m hm
      apply List.count_eq_one_of_mem set2.keys_nodup
      exact AList.mem_keys.mp ((hmem m).mpr (Or.inr hm))
    · intro m hm
      have hhm : m.hashable = true := by
        rw [List.all_eq_true] at hh
        exact hh m hm
      simp only [DataStore.SIsMember, hafter t, Outcome.bind, Value.asSet, hhm, if_true,
        hgetm m]
      simp [hm]
  · intro hnone x
    subst hnone
    obtain ⟨ds2, set2, hadd, hafter, hgetm, _⟩ :=
      SAdd_spec ds k (toIfaces [x]) now none (toIfaces_hashable [x]) hget
    have hcard : ((toIfaces [x]).toFinset.filter fun m => (Option.getD none ∅ : GoSet).get m = false).card
        = 1 := by
      simp [toIfaces, GoSet.get, AList.lookup_empty]
    refine ⟨ds2, ?_, fun t => ?_⟩
    · rw [HandleCommand_SADD]
      simp only [handleSAdd, hadd, hcard, Outcome.bind]
      rfl
    · obtain ⟨ds3, _, hadd2, _⟩ := SAdd_spec ds2 k (toIfaces [x]) t (some set2)
        (toIfaces_hashable [x]) (hafter t)
      have hcard2 : ((toIfaces [x]).toFinset.filter
          fun m => (Option.getD (some set2) ∅ : GoSet).get m = false).card = 0 := by
        have hx : set2.get (Iface.str x) = true := by
          rw [hgetm]; simp [toIfaces]
        rw [Finset.card_eq_zero]
        ext m
        simp only [Option.getD_some, toIfaces, List.map_cons, List.map_nil, List.toFinset_cons,
          List.toFinset_nil, Finset.mem_filter, Finset.mem_insert, Finset.not_mem_empty,
          or_false, iff_false, not_and]
        intro hm
        rw [hm, hx]
        simp
      refine ⟨ds3, ?_⟩
      rw [HandleCommand_SADD]
      simp only [handleSAdd, hadd2, hcard2, Outcome.bind]
      rfl

set_option maxRecDepth 100000 in
/-- The count of `SADD` on a fresh store, and at the wire: `SADD s x y x` replies 2, `SADD s x` then
replies 0. -/
theorem SAdd_count_witness :
    (∃ ds2,
      NewDataStore.SAdd (bs "s") [Iface.str (bs "x"), Iface.str (bs "y"), Iface.str (bs "x")] 5
        = .ok (2, ds2)
      ∧ ∀ t, (∃ ms, ds2.SMembers (bs "s") t = .ok (some ms)
            ∧ ∀ m ∈ [Iface.str (bs "x"), Iface.str (bs "y"), Iface.str (bs "x")], ms.count m = 1)
          ∧ ∀ m ∈ [Iface.str (bs "x"), Iface.str (bs "y"), Iface.str (bs "x")],
              ds2.SIsMember (bs "s") m t = .ok true)
    ∧ serve [([bs "SADD", bs "s", bs "x"], 5), ([bs "SADD", bs "s", bs "x"], 6),
        ([bs "SISMEMBER", bs "s", bs "x"], 7), ([bs "SMEMBERS", bs "s"], 8)] NewDataStore
      = .ok [bs ":1\r\n", bs ":0\r\n", bs ":1\r\n", bs "*1\r\n$1\r\nx\r\n"] := by
  refine ⟨?_, by decide⟩
  have h := (SAdd_count NewDataStore (bs "s")
    [Iface.str (bs "x"), Iface.str (bs "y"), Iface.str (bs "x")] 5 none (by decide) rfl).1
  have hcard : (([Iface.str (bs "x"), Iface.str (bs "y"), Iface.str (bs "x")].toFinset.filter
      fun m => (Option.getD none ∅ : GoSet).get m = false).card : Int) = 2 := by
    decide
  rw [hcard] at h
  exact h

/-! ## Hashes -/

theorem GoHash.get_ne_nil_iff (hash : GoHash) (hn : hash.noNil) (f : Bytes) :
    hash.get f ≠ Iface.nil ↔ f ∈ hash := by
  unfold GoHash.get
  rw [← AList.lookup_isSome]
  cases hl : hash.lookup f with
  | none => simp
  | some v =>
    have := hn f
    rw [hl] at this
    simp only [Option.getD_some, Option.isSome_some, iff_true]
    intro hv
    exact this (by rw [hv])

theorem GoHash.noNil_insert (hash : GoHash) (hn : hash.noNil) (f v : Bytes) :
    GoHash.noNil (AList.insert f (Iface.str v) hash) := by
  intro g
  by_cases hg : g = f
  · rw [hg, AList.lookup_insert]; simp
  · rw [AList.lookup_insert_ne hg]; exact hn g

theorem GoHash.noNil_empty : GoHash.noNil ∅ := by
  intro f
  simp [AList.lookup_empty]

/-- What `HSet` does on a key whose lookup in the hash table returns `found`. -/
theorem HSet_spec (ds : DataStore) (k f : Bytes) (v : Iface) (now : Int)
    (found : Option GoHash)
    (hget : ds.hashStore.Get k now = .ok (found.map Value.hash)) :
    ∃ ds2, ds.HSet k f v now = .ok (decide ((found.getD ∅).get f = Iface.nil), ds2)
      ∧ ∀ t, ds2.hashStore.Get k t = .ok (some (.hash ((found.getD ∅).insert f v))) := by
  obtain ⟨tbl, hset, hafter⟩ := Set_after_Get ds.hashStore k now _
    (Value.hash ((found.getD ∅).insert f v)) hget
  refine ⟨{ ds with hashStore := tbl }, ?_, hafter⟩
  unfold DataStore.HSet
  rw [hget]
  cases found with
  | none =>
    simp only [Option.getD_none] at hset
    simp only [Option.map_none', Outcome.bind, hset, Option.getD_none]
    simp
  | some m =>
    simp only [Option.getD_some] at hset
    simp only [Option.map_some', Outcome.bind, Value.asHash, hset, Option.getD_some]
    simp

theorem flatPairs_cons (p : Bytes × Bytes) (ps : List (Bytes × Bytes)) :
    flatPairs (p :: ps) = p.1 :: p.2 :: flatPairs ps := rfl

theorem flatPairs_length (pairs : List (Bytes × Bytes)) :
    (flatPairs pairs).length = 2 * pairs.length := by
  induction pairs with
  | nil => rfl
  | cons p ps ih => rw [flatPairs_cons]; simp [ih]; omega

theorem GoHash_get_insert (hash : GoHash) (f g : Bytes) (v : Iface) :
    GoHash.get (AList.insert f v hash) g = if g = f then v else hash.get g := by
  unfold GoHash.get
  by_cases hg : g = f
  · rw [if_pos hg, hg, AList.lookup_insert]; rfl
  · rw [if_neg hg, AList.lookup_insert_ne hg]

/-- The loop of `handleHSet`: the count grows by the number of distinct fields at which the
hash read nil, and the hash afterwards holds the assignments. -/
theorem hsetLoop_spec (k : Bytes) (now : Int) (pairs : List (Bytes × Bytes)) :
    ∀ (ds : DataStore) (found : Option GoHash) (added : Int),
      ds.hashStore.Get k now = .ok (found.map Value.hash) →
      ∃ ds2, hsetLoop k now (flatPairs pairs) ds added
          = .ok (added + (((pairs.map Prod.fst).toFinset.filter
              fun f => (found.getD ∅).get f = Iface.nil).card : Int), ds2)
        ∧ (pairs ≠ [] → ∀ t, ds2.hashStore.Get k t
            = .ok (some (.hash (assignPairs (found.getD ∅) pairs)))) := by
  induction pairs with
  | nil =>
    intro ds found added _
    exact ⟨ds, by simp [flatPairs, hsetLoop], fun h => absurd rfl h⟩
  | cons p ps ih =>
    intro ds found added hget
    obtain ⟨d1, hset, hafter⟩ := HSet_spec ds k p.1 (Iface.str p.2) now found hget
    obtain ⟨d2, hloop, hfinal⟩ := ih d1 (some ((found.getD ∅).insert p.1 (Iface.str p.2)))
      (if decide ((found.getD ∅).get p.1 = Iface.nil) = true then added + 1 else added)
      (hafter now)
    refine ⟨d2, ?_, fun _ t => ?_⟩
    · rw [flatPairs_cons]
      simp only [hsetLoop, hset, Outcome.bind, hloop, Option.getD_some, Outcome.ok.injEq,
        Prod.mk.injEq, and_true]
      rw [List.map_cons, List.toFinset_cons, Finset.filter_insert]
      have hfilter : ((ps.map Prod.fst).toFinset.filter
            fun f => GoHash.get (AList.insert p.1 (Iface.str p.2) (found.getD ∅)) f = Iface.nil)
          = ((ps.map Prod.fst).toFinset.filter
              fun f => (found.getD ∅).get f = Iface.nil).erase p.1 := by
        ext f
        simp only [Finset.mem_filter, Finset.mem_erase, GoHash_get_insert]
        by_cases hf : f = p.1
        · simp [hf]
        · simp [hf]
      rw [hfilter]
      by_cases heq : (found.getD ∅).get p.1 = Iface.nil
      · simp only [heq, decide_True, if_true, Finset.card_insert_eq_ite]
        by_cases hin : p.1 ∈ (ps.map Prod.fst).toFinset.filter
            fun f => (found.getD ∅).get f = Iface.nil
        · rw [if_pos hin, Finset.card_erase_of_mem hin]
          have hpos : 0 < ((ps.map Prod.fst).toFinset.filter
              fun f => (found.getD ∅).get f = Iface.nil).card :=
            Finset.card_pos.mpr ⟨p.1, hin⟩
          omega
        · rw [if_neg hin, Finset.erase_eq_of_not_mem hin]
          push_cast
          omega
      · have hnot : p.1 ∉ (ps.map Prod.fst).toFinset.filter
            fun f => (found.getD ∅).get f = Iface.nil := by
          simp [heq]
        simp only [heq, decide_False, Bool.false_eq_true, if_false,
          Finset.erase_eq_of_not_mem hnot]
    · cases ps with
      | nil =>
        have hd : d2 = d1 := by
          simp only [flatPairs, List.map_nil, List.flatten_nil, hsetLoop, Outcome.ok.injEq,
            Prod.mk.injEq] at hloop
          exact hloop.2.symm
        rw [hd]
        exact hafter t
      | cons q qs =>
        have := hfinal (by simp) t
        simpa [assignPairs] using this

theorem handleHSet_pairs (ds : DataStore) (k : Bytes) (pairs : List (Bytes × Bytes)) (now : Int)
    (hne : pairs ≠ []) :
    HandleCommand ds (bs "HSET" :: k :: flatPairs pairs) now
      = (hsetLoop k now (flatPairs pairs) ds 0).bind fun r => .ok (intReply r.1, r.2) := by
  rw [HandleCommand_HSET]
  unfold handleHSet
  have hlen : 0 < pairs.length := List.length_pos.mpr hne
  have hcond : ¬ ((k :: flatPairs pairs).length < 3 ∨ (k :: flatPairs pairs).length % 2 ≠ 1) := by
    rw [List.length_cons, flatPairs_length]
    omega
  rw [if_neg hcond]

/-- The reply of `HSET` with at least one pair, on a key whose lookup returned, and
the hash stored afterwards. -/
theorem HSET_store (ds : DataStore) (k : Bytes) (pairs : List (Bytes × Bytes)) (now : Int)
    (found : Option GoHash) (hne : pairs ≠ [])
    (hget : ds.hashStore.Get k now = .ok (found.map Value.hash)) :
    ∃ ds2, HandleCommand ds (bs "HSET" :: k :: flatPairs pairs) now
        = .ok (intReply (((pairs.map Prod.fst).toFinset.filter
            fun f => (found.getD ∅).get f = Iface.nil).card : Int), ds2)
      ∧ ∀ t, ds2.hashStore.Get k t = .ok (some (.hash (assignPairs (found.getD ∅) pairs))) := by
  obtain ⟨ds2, hloop, hafter⟩ := hsetLoop_spec k now pairs ds found 0 hget
  refine ⟨ds2, ?_, hafter hne⟩
  rw [handleHSet_pairs ds k pairs now hne, hloop]
  simp [Outcome.bind]

/-- The reply of `HSET` when no field of the hash holds nil: the fields counted are
those that are not in the hash. -/
theorem HSET_reply (ds : DataStore) (k : Bytes) (pairs : List (Bytes × Bytes)) (now : Int)
    (found : Option GoHash) (hne : pairs ≠ []) (hn : (found.getD ∅).noNil)
    (hget : ds.hashStore.Get k now = .ok (found.map Value.hash)) :
    ∃ ds2, HandleCommand ds (bs "HSET" :: k :: flatPairs pairs) now
        = .ok (intReply (((pairs.map Prod.fst).toFinset.filter
            fun f => f ∉ found.getD ∅).card : Int), ds2)
      ∧ ∀ t, ds2.hashStore.Get k t = .ok (some (.hash (assignPairs (found.getD ∅) pairs))) := by
  obtain ⟨ds2, h, hafter⟩ := HSET_store ds k pairs now found hne hget
  refine ⟨ds2, ?_, hafter⟩
  have hfilter : ((pairs.map Prod.fst).toFinset.filter fun f => f ∉ found.getD ∅)
      = (pairs.map Prod.fst).toFinset.filter fun f => (found.getD ∅).get f = Iface.nil := by
    apply Finset.filter_congr
    intro f _
    have := GoHash.get_ne_nil_iff _ hn f
    constructor
    · intro hf
      by_contra hc
      exact hf (this.mp hc)
    · intro hf hm
      exact (this.mpr hm) hf
  rw [hfilter]
  exact h

/-- The reply of `HSET`: once the lookup of `k` in the hash table has returned
(`found` is the hash it holds, none when `k` is not live there) and no field of that hash
holds the nil interface, `HSET k f1 v1 ... fn vn` with `n ≥ 1` replies with the number of
distinct fields among `f1..fn` that are not fields of the hash.  On a key that is not
live, `HSET k f v` replies 1 and a later `HSET k f v2` replies 0, and
`HSET k f1 v1 f2 v2` with `f1 ≠ f2` replies 2. -/
theorem HSET_count (ds : DataStore) (k : Bytes) (pairs : List (Bytes × Bytes)) (now : Int)
    (found : Option GoHash) (hne : pairs ≠ []) (hn : (found.getD ∅).noNil)
    (hget : ds.hashStore.Get k now = .ok (found.map Value.hash)) :
    (∃ ds2, HandleCommand ds (bs "HSET" :: k :: flatPairs pairs) now
        = .ok (intReply (((pairs.map Prod.fst).toFinset.filter
            fun f => f ∉ found.getD ∅).card : Int), ds2))
    ∧ (found = none → ∀ f v v2 : Bytes, ∃ ds2,
        HandleCommand ds [bs "HSET", k, f, v] now = .ok (intReply 1, ds2)
        ∧ ∀ t, ∃ ds3, HandleCommand ds2 [bs "HSET", k, f, v2] t = .ok (intReply 0, ds3))
    ∧ (found = none → ∀ f1 v1 f2 v2 : Bytes, f1 ≠ f2 → ∃ ds2,
        HandleCommand ds [bs "HSET", k, f1, v1, f2, v2] now = .ok (intReply 2, ds2)) := by
  refine ⟨?_, ?_, ?_⟩
  · obtain ⟨ds2, h, _⟩ := HSET_reply ds k pairs now found hne hn hget
    exact ⟨ds2, h⟩
  · intro hnone f v v2
    subst hnone
    obtain ⟨ds2, h1, hafter⟩ := HSET_reply ds k [(f, v)] now none (by simp)
      GoHash.noNil_empty hget
    refine ⟨ds2, ?_, fun t => ?_⟩
    · have hcard : ((([(f, v)] : List (Bytes × Bytes)).map Prod.fst).toFinset.filter
          fun g => g ∉ (none : Option GoHash).getD ∅).card = 1 := by
        simp
      rw [hcard] at h1
      exact h1
    · obtain ⟨ds3, h2, _⟩ := HSET_reply ds2 k [(f, v2)] t
        (some (assignPairs ((none : Option GoHash).getD ∅) [(f, v)])) (by simp)
        (GoHash.noNil_insert _ GoHash.noNil_empty f v) (hafter t)
      refine ⟨ds3, ?_⟩
      have hcard : ((([(f, v2)] : List (Bytes × Bytes)).map Prod.fst).toFinset.filter
          fun g => g ∉ (some (assignPairs ((none : Option GoHash).getD ∅) [(f, v)])).getD ∅).card
            = 0 := by
        rw [Finset.card_eq_zero, Finset.filter_eq_empty_iff]
        intro g hg
        have hgf : g = f := by simpa using hg
        have hmem : g ∈ AList.insert f (Iface.str v) (∅ : GoHash) :=
          (AList.mem_insert _).mpr (Or.inl hgf)
        exact not_not.mpr hmem
      rw [hcard] at h2
      exact h2
  · intro hnone f1 v1 f2 v2 hf
    subst hnone
    obtain ⟨ds2, h1, _⟩ := HSET_reply ds k [(f1, v1), (f2, v2)] now none (by simp)
      GoHash.noNil_empty hget
    refine ⟨ds2, ?_⟩
    have hcard : ((([(f1, v1), (f2, v2)] : List (Bytes × Bytes)).map Prod.fst).toFinset.filter
        fun g => g ∉ (none : Option GoHash).getD ∅).card = 2 := by
      simp [Finset.card_insert_of_not_mem, hf]
    rw [hcard] at h1
    exact h1

set_option maxRecDepth 100000 in
/-- The reply of `HSET` on a fresh store: `HSET h f1 v1 f2 v2` replies 2, and on the wire a first
`HSET k f v` gives `:1`, a second `HSET k f w` gives `:0`. -/
theorem HSET_count_witness :
    (∃ ds2, HandleCommand NewDataStore
        [bs "HSET", bs "h", bs "f1", bs "v1", bs "f2", bs "v2"] 5 = .ok (intReply 2, ds2))
    ∧ serve [([bs "HSET", bs "k", bs "f", bs "v"], 5), ([bs "HSET", bs "k", bs "f", bs "w"], 6),
        ([bs "HSET", bs "h", bs "f1", bs "v1", bs "f2", bs "v2"], 7),
        ([bs "HSET", bs "h", bs "f1", bs "x", bs "f3", bs "y", bs "f3", bs "z"], 8)] NewDataStore
      = .ok [bs ":1\r\n", bs ":0\r\n", bs ":2\r\n", bs ":1\r\n"] :=
  ⟨(HSET_count NewDataStore (bs "h") [(bs "f1", bs "v1")] 5 none (by simp)
      GoHash.noNil_empty rfl).2.2 rfl (bs "f1") (bs "v1") (bs "f2") (bs "v2") (by decide),
    by decide⟩

/-- The array that `handleHGetAll` builds from the entries of a map. -/
theorem hgetall_items_length (es : List (Sigma fun _ : Bytes => Iface)) :
    ((es.map fun e => [Iface.str e.1, e.2]).flatten).length = 2 * es.length := by
  induction es with
  | nil => rfl
  | cons e es ih =>
    simp only [List.map_cons, List.flatten_cons, List.length_append, List.length_cons,
      List.length_nil, ih]
    omega

theorem hgetall_items_get (es : List (Sigma fun _ : Bytes => Iface)) :
    ∀ i (hi : i < es.length),
      ((es.map fun e => [Iface.str e.1, e.2]).flatten)[2 * i]? = some (Iface.str (es.get ⟨i, hi⟩).1)
      ∧ ((es.map fun e => [Iface.str e.1, e.2]).flatten)[2 * i + 1]? = some (es.get ⟨i, hi⟩).2 := by
  induction es with
  | nil => intro i hi; exact absurd hi (Nat.not_lt_zero _)
  | cons e es ih =>
    intro i hi
    cases i with
    | zero => simp
    | succ j =>
      have hj : j < es.length := Nat.lt_of_succ_lt_succ hi
      have h := ih j hj
      have e1 : 2 * (j + 1) = (2 * j) + 1 + 1 := by omega
      have e2 : 2 * (j + 1) + 1 = (2 * j + 1) + 1 + 1 := by omega
      refine ⟨?_, ?_⟩
      · rw [e1]
        simp only [List.map_cons, List.flatten_cons, List.cons_append, List.nil_append,
          List.getElem?_cons_succ]
        exact h.1
      · rw [e2]
        simp only [List.map_cons, List.flatten_cons, List.cons_append, List.nil_append,
          List.getElem?_cons_succ]
        exact h.2

/-- The lookup of a field after the assignments of the pairs. -/
theorem assignPairs_get (pairs : List (Bytes × Bytes)) :
    ∀ (hash : GoHash) (f : Bytes),
      (assignPairs hash pairs).get f
        = match lastAssigned pairs f with
          | some v => Iface.str v
          | none => hash.get f := by
  induction pairs with
  | nil => intro hash f; rfl
  | cons p ps ih =>
    intro hash f
    have hstep : assignPairs hash (p :: ps) = assignPairs (AList.insert p.1 (Iface.str p.2) hash) ps :=
      rfl
    rw [hstep, ih]
    unfold lastAssigned
    rw [List.reverse_cons, List.find?_append]
    cases hfind : ps.reverse.find? fun q => decide (q.1 = f) with
    | some q => simp
    | none =>
      simp only [Option.map_none', Option.none_or, List.find?_cons, List.find?_nil,
        GoHash_get_insert]
      by_cases hf : f = p.1
      · simp [hf]
      · have hf2 : ¬ p.1 = f := fun h => hf h.symm
        simp [hf, hf2]

theorem HGET_eq (ds : DataStore) (k f : Bytes) (now : Int) (found : Option GoHash)
    (hget : ds.hashStore.Get k now = .ok (found.map Value.hash)) :
    HandleCommand ds [bs "HGET", k, f] now = .ok (.atom ((found.getD ∅).get f), ds) := by
  rw [HandleCommand_HGET]
  simp only [handleHGet, DataStore.HGet, hget]
  cases found with
  | none => rfl
  | some m => rfl

theorem HGETALL_eq (ds : DataStore) (k : Bytes) (now : Int) (found : Option GoHash)
    (hget : ds.hashStore.Get k now = .ok (found.map Value.hash)) :
    HandleCommand ds [bs "HGETALL", k] now
      = .ok (.slice (some (((found.getD ∅).entries.map
          fun e => [Iface.str e.1, e.2]).flatten)), ds) := by
  rw [HandleCommand_HGETALL]
  simp only [handleHGetAll, DataStore.HGetAll, hget]
  cases found with
  | none => rfl
  | some m => rfl

theorem GoHash.keys_length (hash : GoHash) : hash.keys.length = hash.entries.length := by
  unfold AList.keys List.keys
  rw [List.length_map]

theorem GoHash.keys_get (hash : GoHash) (i : Nat) (hi : i < hash.entries.length) :
    hash.keys[i]? = some (hash.entries.get ⟨i, hi⟩).1 := by
  unfold AList.keys List.keys
  rw [List.getElem?_map, List.getElem?_eq_getElem hi]
  rfl

/-- The shape of the `HGETALL` reply: once the lookup of `k` in the hash table has returned (`found` is
the hash it holds, none when `k` is not live there), the `HGETALL` reply is an array of
length twice the number of fields; positions `2i` and `2i+1` hold a field and the value
the hash has for it, which is what `HGET` replies for that field; every field of the hash
is at exactly one even position; `HGET` of a name that is not a field replies nil; a key
that is not live gives the empty array.  After an `HSET` the value `HGET` replies for a
field is the one of the last pair naming it, and the former value if no pair does. -/
theorem HGETALL_shape (ds : DataStore) (k : Bytes) (now : Int) (found : Option GoHash)
    (hget : ds.hashStore.Get k now = .ok (found.map Value.hash)) :
    (∃ items, HandleCommand ds [bs "HGETALL", k] now = .ok (.slice (some items), ds)
      ∧ items.length = 2 * (found.getD ∅).keys.length
      ∧ (∀ i, i < (found.getD ∅).keys.length → ∃ f v,
          items[2 * i]? = some (Iface.str f) ∧ items[2 * i + 1]? = some v
          ∧ (found.getD ∅).lookup f = some v
          ∧ HandleCommand ds [bs "HGET", k, f] now = .ok (.atom v, ds))
      ∧ (∀ f ∈ found.getD ∅, ∃! i, i < (found.getD ∅).keys.length
          ∧ items[2 * i]? = some (Iface.str f))
      ∧ (found = none → items = []))
    ∧ (∀ f, f ∉ found.getD ∅ → HandleCommand ds [bs "HGET", k, f] now = .ok (.atom .nil, ds))
    ∧ (∀ pairs, pairs ≠ [] → ∃ r ds2,
        HandleCommand ds (bs "HSET" :: k :: flatPairs pairs) now = .ok (r, ds2)
        ∧ ∀ t f, HandleCommand ds2 [bs "HGET", k, f] t
            = .ok (.atom (match lastAssigned pairs f with
                | some v => Iface.str v
                | none => (found.getD ∅).get f), ds2)) := by
  refine ⟨⟨_, HGETALL_eq ds k now found hget, ?_, ?_, ?_, ?_⟩, ?_, ?_⟩
  · rw [hgetall_items_length, GoHash.keys_length]
  · intro i hi
    rw [GoHash.keys_length] at hi
    obtain ⟨h1, h2⟩ := hgetall_items_get (found.getD ∅).entries i hi
    have hmem : (found.getD ∅).entries.get ⟨i, hi⟩ ∈ (found.getD ∅).entries :=
      List.get_mem _ _ _
    have hl : (found.getD ∅).lookup ((found.getD ∅).entries.get ⟨i, hi⟩).1
        = some ((found.getD ∅).entries.get ⟨i, hi⟩).2 := by
      exact AList.mem_lookup_iff.mpr hmem
    refine ⟨_, _, h1, h2, hl, ?_⟩
    rw [HGET_eq ds k _ now found hget]
    unfold GoHash.get
    rw [hl]
    rfl
  · intro f hf
    have hk : f ∈ (found.getD ∅).keys := AList.mem_keys.mp hf
    obtain ⟨i, hi, hfi⟩ := List.getElem_of_mem hk
    have hi2 : i < (found.getD ∅).entries.length := by rw [← GoHash.keys_length]; exact hi
    have hkey : ∀ j (hj : j < (found.getD ∅).entries.length),
        ((found.getD ∅).entries.map fun e => [Iface.str e.1, e.2]).flatten[2 * j]?
          = some (Iface.str f) → (found.getD ∅).keys[j]? = some f := by
      intro j hj h
      rw [(hgetall_items_get _ j hj).1] at h
      rw [GoHash.keys_get _ j hj]
      simpa using h
    refine ⟨i, ⟨hi, ?_⟩, ?_⟩
    · rw [(hgetall_items_get _ i hi2).1]
      have := GoHash.keys_get _ i hi2
      rw [List.getElem?_eq_getElem hi, hfi] at this
      simp only [Option.some.injEq] at this
      rw [← this]
    · intro j hj
      have hj2 : j < (found.getD ∅).entries.length := by rw [← GoHash.keys_length]; exact hj.1
      have h1 := hkey j hj2 hj.2
      have h2 : (found.getD ∅).keys[i]? = some f := by
        rw [List.getElem?_eq_getElem hi, hfi]
      have hnd : (found.getD ∅).keys.Nodup := AList.keys_nodup _
      rw [List.getElem?_eq_getElem hj.1] at h1
      rw [List.getElem?_eq_getElem hi] at h2
      simp only [Option.some.injEq] at h1 h2
      exact (List.Nodup.getElem_inj_iff hnd).mp (h1.trans h2.symm)
  · intro hnone
    subst hnone
    rfl
  · intro f hf
    rw [HGET_eq ds k f now found hget]
    have hl : (found.getD ∅).lookup f = none := AList.lookup_eq_none.mpr hf
    unfold GoHash.get
    rw [hl]
    rfl
  · intro pairs hne
    obtain ⟨ds2, h, hafter⟩ := HSET_store ds k pairs now found hne hget
    refine ⟨_, ds2, h, fun t f => ?_⟩
    rw [HGET_eq ds2 k f t (some (assignPairs (found.getD ∅) pairs)) (hafter t)]
    rw [Option.getD_some]
    exact congrArg (fun v => Outcome.ok (Value.atom v, ds2)) (assignPairs_get pairs _ f)

set_option maxRecDepth 100000 in
/-- The `HGETALL` reply on a fresh store: after `HSET h f1 v1 f2 v2 f1 v3`, `HGET h f1` gives `v3` and
`HGET h g` gives nil; on the wire `HGETALL` of the hash has four items (in the iteration
order of the model) and `HGETALL` of an absent key is the empty array. -/
theorem HGETALL_shape_witness :
    (∃ r ds2, HandleCommand NewDataStore
        [bs "HSET", bs "h", bs "f1", bs "v1", bs "f2", bs "v2", bs "f1", bs "v3"] 5 = .ok (r, ds2)
      ∧ ∀ t, HandleCommand ds2 [bs "HGET", bs "h", bs "f1"] t
            = .ok (.atom (Iface.str (bs "v3")), ds2)
          ∧ HandleCommand ds2 [bs "HGET", bs "h", bs "g"] t = .ok (.atom Iface.nil, ds2))
    ∧ serve [([bs "HSET", bs "h", bs "f1", bs "v1", bs "f2", bs "v2"], 5),
        ([bs "HGETALL", bs "h"], 6), ([bs "HGETALL", bs "absent"], 7),
        ([bs "HGET", bs "h", bs "g"], 8)] NewDataStore
      = .ok [bs ":2\r\n", bs "*4\r\n$2\r\nf2\r\n$2\r\nv2\r\n$2\r\nf1\r\n$2\r\nv1\r\n",
          bs "*0\r\n", bs "$-1\r\n"] := by
  refine ⟨?_, by decide⟩
  obtain ⟨r, ds2, h, hafter⟩ := (HGETALL_shape NewDataStore (bs "h") 5 none rfl).2.2
    [(bs "f1", bs "v1"), (bs "f2", bs "v2"), (bs "f1", bs "v3")] (by simp)
  exact ⟨r, ds2, h, fun t => ⟨hafter t (bs "f1"), hafter t (bs "g")⟩⟩

/-! ## Lists: RPUSH, LPOP, RPOP -/

theorem goAppend_variadic_right (values : List Iface) (l : Option (List Iface))
    (hne : values ≠ []) :
    goAppend l (variadic values) = some (l.getD [] ++ values) := by
  unfold goAppend variadic
  rw [if_neg hne]
  cases values with
  | nil => exact absurd rfl hne
  | cons x xs => rfl

theorem LLen_of_list (ds : DataStore) (k : Bytes) (t : Int) (l : Option (List Iface))
    (hget : ds.listStore.Get k t = .ok (some (.slice l))) :
    ds.LLen k t = .ok ((l.getD []).length : Int) := by
  unfold DataStore.LLen
  rw [hget]
  rfl

/-- What `RPush` does on a key whose lookup in the list table returns `found`. -/
theorem RPush_spec (ds : DataStore) (k : Bytes) (values : List Iface) (now : Int)
    (found : Option (Option (List Iface))) (hne : values ≠ [])
    (hget : ds.listStore.Get k now = .ok (found.map Value.slice)) :
    ∃ ds2, ds.RPush k values now
        = .ok (((((found.getD none).getD []).length + values.length : Nat) : Int), ds2)
      ∧ (∀ t, ds2.listStore.Get k t
          = .ok (some (.slice (some ((found.getD none).getD [] ++ values)))))
      ∧ ∀ t, ds2.LLen k t
          = .ok ((((found.getD none).getD []).length + values.length : Nat) : Int) := by
  obtain ⟨b, hb⟩ := Get_ok_bucket _ _ _ _ hget
  obtain ⟨t2, hset⟩ := Set_succeeds ds.listStore k
    (.slice (some ((found.getD none).getD [] ++ values))) 0 now b hb
  have hafter : ∀ t, ({ ds with listStore := t2 } : DataStore).listStore.Get k t
      = .ok (some (.slice (some ((found.getD none).getD [] ++ values)))) := by
    intro t
    have := Get_Set_same ds.listStore t2 k _ 0 now t hset
    simpa using this
  refine ⟨{ ds with listStore := t2 }, ?_, hafter, ?_⟩
  · unfold DataStore.RPush
    rw [hget]
    cases found with
    | none =>
      simp only [Option.getD_none] at hset
      simp only [Option.map_none', Outcome.bind, goAppend_variadic_right values _ hne, hset,
        Option.getD_none, Option.getD_some, List.length_append]
    | some l =>
      simp only [Option.getD_some] at hset
      simp only [Option.map_some', Value.asSlice, Outcome.bind,
        goAppend_variadic_right values _ hne, hset, Option.getD_some, List.length_append]
  · intro t
    rw [LLen_of_list _ k t _ (hafter t)]
    simp only [Option.getD_some, List.length_append]

/-- Order and length of `RPUSH`: once the lookup of `k` in the list table has returned
(`found` is the list it holds, none when `k` is absent or expired), `RPush(k, v1..vN)` with
`N ≥ 1` stores the list found followed by `v1..vN` in the order given, returns the length of
the list found plus `N`, and `LLen(k)` afterwards returns that same number. -/
theorem RPush_appends (ds : DataStore) (k : Bytes) (values : List Iface) (now : Int)
    (found : Option (Option (List Iface))) (hne : values ≠ [])
    (hget : ds.listStore.Get k now = .ok (found.map Value.slice)) :
    ∃ ds2, ds.RPush k values now
        = .ok (((((found.getD none).getD []).length + values.length : Nat) : Int), ds2)
      ∧ (∀ t, ds2.listStore.Get k t
          = .ok (some (.slice (some ((found.getD none).getD [] ++ values)))))
      ∧ ∀ t, ds2.LLen k t
          = .ok ((((found.getD none).getD []).length + values.length : Nat) : Int) :=
  RPush_spec ds k values now found hne hget

set_option maxRecDepth 100000 in
/-- `RPUSH` on a fresh key: `RPush(L, a, b, c)` returns 3 and leaves `[a, b, c]`; on the wire
`RPUSH L a b c` replies 3, as does `LLEN L`, and `RPUSH L d` then replies 4. -/
theorem RPush_appends_witness :
    (∃ ds2, NewDataStore.RPush (bs "L")
          [Iface.str (bs "a"), Iface.str (bs "b"), Iface.str (bs "c")] 7 = .ok (3, ds2)
        ∧ (∀ t, ds2.listStore.Get (bs "L") t
            = .ok (some (.slice (some [Iface.str (bs "a"), Iface.str (bs "b"),
                Iface.str (bs "c")]))))
        ∧ ∀ t, ds2.LLen (bs "L") t = .ok 3)
    ∧ serve [([bs "RPUSH", bs "L", bs "a", bs "b", bs "c"], 5), ([bs "LLEN", bs "L"], 6),
        ([bs "RPUSH", bs "L", bs "d"], 7), ([bs "LLEN", bs "L"], 8)] NewDataStore
      = .ok [bs ":3\r\n", bs ":3\r\n", bs ":4\r\n", bs ":4\r\n"] :=
  ⟨RPush_appends NewDataStore (bs "L")
      [Iface.str (bs "a"), Iface.str (bs "b"), Iface.str (bs "c")] 7 none (by decide) rfl,
    by decide⟩

theorem LPop_cons (ds : DataStore) (k : Bytes) (now : Int) (x : Iface) (xs : List Iface)
    (hget : ds.listStore.Get k now = .ok (some (.slice (some (x :: xs))))) :
    ∃ ds2, ds.LPop k now = .ok (x, ds2)
      ∧ ∀ t, ds2.listStore.Get k t = .ok (some (.slice (some xs))) := by
  obtain ⟨tbl, hset, hafter⟩ := Set_after_Get ds.listStore k now _ (Value.slice (some xs)) hget
  refine ⟨{ ds with listStore := tbl }, ?_, hafter⟩
  unfold DataStore.LPop
  rw [hget]
  simp only [Outcome.bind, Value.asSlice, Option.getD_some, hset]

theorem RPop_concat (ds : DataStore) (k : Bytes) (now : Int) (ys : List Iface) (y : Iface)
    (hget : ds.listStore.Get k now = .ok (some (.slice (some (ys ++ [y]))))) :
    ∃ ds2, ds.RPop k now = .ok (y, ds2)
      ∧ ∀ t, ds2.listStore.Get k t = .ok (some (.slice (some ys))) := by
  obtain ⟨tbl, hset, hafter⟩ := Set_after_Get ds.listStore k now _ (Value.slice (some ys)) hget
  refine ⟨{ ds with listStore := tbl }, ?_, hafter⟩
  unfold DataStore.RPop
  rw [hget]
  simp [Outcome.bind, Value.asSlice, hset]

theorem pop_nothing (ds : DataStore) (k : Bytes) (now : Int) (found : Option (Option (List Iface)))
    (hempty : (found.getD none).getD [] = [])
    (hget : ds.listStore.Get k now = .ok (found.map Value.slice)) :
    ds.LPop k now = .ok (Iface.nil, ds) ∧ ds.RPop k now = .ok (Iface.nil, ds) := by
  unfold DataStore.LPop DataStore.RPop
  rw [hget]
  cases found with
  | none => exact ⟨rfl, rfl⟩
  | some l =>
    simp only [Option.getD_some] at hempty
    simp only [Option.map_some', Outcome.bind, Value.asSlice, hempty, List.getLast?_nil,
      and_self]

/-- Successive `LPop`s take the elements of the list from the front, in order. -/
theorem lpops_spec (k : Bytes) (values : List Iface) :
    ∀ (rest : List Iface) (ds : DataStore) (times : List Int),
      times.length = values.length →
      (∀ t, ds.listStore.Get k t = .ok (some (.slice (some (values ++ rest))))) →
      ∃ ds2, lpops k times ds = .ok (values, ds2)
        ∧ ∀ t, ds2.listStore.Get k t = .ok (some (.slice (some rest))) := by
  induction values with
  | nil =>
    intro rest ds times hlen hget
    have : times = [] := List.length_eq_zero.mp hlen
    subst this
    exact ⟨ds, rfl, hget⟩
  | cons x xs ih =>
    intro rest ds times hlen hget
    cases times with
    | nil => simp at hlen
    | cons t0 ts =>
      obtain ⟨d1, hpop, h1⟩ := LPop_cons ds k t0 x (xs ++ rest) (hget t0)
      obtain ⟨d2, hrest, h2⟩ := ih rest d1 ts (by simpa using hlen) h1
      refine ⟨d2, ?_, h2⟩
      simp only [lpops, hpop, Outcome.bind, hrest]

/-- `LPOP` and `RPOP`: on a key whose lookup in the list table gives `x :: xs`, `LPop`
returns `x` and leaves `xs`; on one that gives `ys ++ [y]`, `RPop` returns `y` and leaves
`ys`; when the lookup gives nothing (key missing or expired) or an empty list, both return
nil and the store is the same.  Hence after `RPush(L, a, b, c)` on a key that was not
there `LPop(L)` returns `a` and `LLen(L)` returns 2, and after `RPush(k, v1..vN)` on such a
key `N` successive `LPop(k)` return `v1..vN` in order. -/
theorem LPop_RPop (ds : DataStore) (k : Bytes) (now : Int) :
    (∀ x xs, ds.listStore.Get k now = .ok (some (.slice (some (x :: xs)))) →
      ∃ ds2, ds.LPop k now = .ok (x, ds2)
        ∧ ∀ t, ds2.listStore.Get k t = .ok (some (.slice (some xs))))
    ∧ (∀ ys y, ds.listStore.Get k now = .ok (some (.slice (some (ys ++ [y])))) →
      ∃ ds2, ds.RPop k now = .ok (y, ds2)
        ∧ ∀ t, ds2.listStore.Get k t = .ok (some (.slice (some ys))))
    ∧ (∀ found : Option (Option (List Iface)), (found.getD none).getD [] = [] →
      ds.listStore.Get k now = .ok (found.map Value.slice) →
      ds.LPop k now = .ok (Iface.nil, ds) ∧ ds.RPop k now = .ok (Iface.nil, ds))
    ∧ (ds.listStore.Get k now = .ok none → ∀ a b c : Iface, ∃ ds2,
        ds.RPush k [a, b, c] now = .ok (3, ds2)
        ∧ ∀ t, ∃ ds3, ds2.LPop k t = .ok (a, ds3) ∧ ∀ t2, ds3.LLen k t2 = .ok 2)
    ∧ (ds.listStore.Get k now = .ok none → ∀ values : List Iface, values ≠ [] → ∃ ds2,
        ds.RPush k values now = .ok ((values.length : Int), ds2)
        ∧ ∀ times : List Int, times.length = values.length →
            ∃ ds3, lpops k times ds2 = .ok (values, ds3)) := by
  refine ⟨fun x xs h => LPop_cons ds k now x xs h, fun ys y h => RPop_concat ds k now ys y h,
    fun found he h => pop_nothing ds k now found he h, ?_, ?_⟩
  · intro hget a b c
    obtain ⟨ds2, hpush, hafter, _⟩ := RPush_spec ds k [a, b, c] now none (by simp) hget
    refine ⟨ds2, by simpa using hpush, fun t => ?_⟩
    obtain ⟨ds3, hpop, h3⟩ := LPop_cons ds2 k t a [b, c] (by simpa using hafter t)
    refine ⟨ds3, hpop, fun t2 => ?_⟩
    rw [LLen_of_list ds3 k t2 _ (h3 t2)]
    rfl
  · intro hget values hne
    obtain ⟨ds2, hpush, hafter, _⟩ := RPush_spec ds k values now none hne hget
    refine ⟨ds2, by simpa using hpush, fun times hlen => ?_⟩
    obtain ⟨ds3, hpops, _⟩ := lpops_spec k values [] ds2 times hlen
      (by simpa using hafter)
    exact ⟨ds3, hpops⟩

set_option maxRecDepth 100000 in
/-- `LPOP` and `RPOP` on a fresh store: after `RPush(L, a, b, c)`, `LPop(L)` returns `a` and `LLen(L)`
returns 2.  At the dispatcher, the popped strings go out in the form of a simple string
(the reply form of C1); popping an absent key replies nil. -/
theorem LPop_RPop_witness :
    (∃ ds2, NewDataStore.RPush (bs "L")
          [Iface.str (bs "a"), Iface.str (bs "b"), Iface.str (bs "c")] 5 = .ok (3, ds2)
        ∧ ∀ t, ∃ ds3, ds2.LPop (bs "L") t = .ok (Iface.str (bs "a"), ds3)
            ∧ ∀ t2, ds3.LLen (bs "L") t2 = .ok 2)
    ∧ serve [([bs "RPUSH", bs "L", bs "a", bs "b", bs "c"], 5), ([bs "LPOP", bs "L"], 6),
        ([bs "LLEN", bs "L"], 7), ([bs "RPOP", bs "L"], 8), ([bs "LPOP", bs "L"], 9),
        ([bs "LPOP", bs "L"], 10), ([bs "RPOP", bs "M"], 11), ([bs "LLEN", bs "L"], 12)]
        NewDataStore
      = .ok [bs ":3\r\n", bs "+a\r\n", bs ":2\r\n", bs "+c\r\n", bs "+b\r\n", bs "$-1\r\n",
          bs "$-1\r\n", bs ":0\r\n"] :=
  ⟨(LPop_RPop NewDataStore (bs "L") 5).2.2.2.1 rfl
      (Iface.str (bs "a")) (Iface.str (bs "b")) (Iface.str (bs "c")),
    by decide⟩

/-! ## DEL and EXISTS -/

theorem Get_via_bucket {α : Type} (h : HashTable α) (k : Bytes) (t : Int) :
    h.Get k t = (h.bucketOf k).bind fun b => .ok (b.get k t) := by
  cases hb : h.bucketOf k with
  | ok b => rw [Get_eq_bucket h k t b hb]; rfl
  | panic => unfold HashTable.Get; rw [hb]; rfl

theorem TTL_via_bucket {α : Type} (h : HashTable α) (k : Bytes) (t : Int) :
    h.TTL k t = (h.bucketOf k).bind fun b => .ok (b.ttl k t) := by
  cases hb : h.bucketOf k with
  | ok b => rw [TTL_eq_bucket h k t b hb]; rfl
  | panic => unfold HashTable.TTL; rw [hb]; rfl

theorem Exists_via_bucket {α : Type} (h : HashTable α) (k : Bytes) (t : Int) :
    h.Exists k t = (h.bucketOf k).bind fun b => .ok (b.get k t).isSome := by
  cases hb : h.bucketOf k with
  | ok b => rw [Exists_eq_bucket h k t b hb]; rfl
  | panic => unfold HashTable.Exists; rw [hb]; rfl

theorem Bucket.ttl_erase_ne {α : Type} (b : Bucket α) (k k2 : Bytes) (t : Int)
    (hne : k2 ≠ k) : Bucket.ttl (AList.erase k b) k2 t = b.ttl k2 t := by
  unfold Bucket.ttl
  rw [AList.lookup_erase_ne hne]

/-- The table `Delete` returns. -/
theorem Delete_eq {α : Type} (h h2 : HashTable α) (k : Bytes) (d : Bool)
    (hdel : h.Delete k = .ok (d, h2)) :
    ∃ b, h.bucketOf k = .ok b ∧ d = (b.lookup k).isSome
      ∧ h2 = if (b.lookup k).isSome then
          { buckets := h.buckets.set (h.hash k).toNat (b.erase k)
            size := h.size
            count := h.count - 1 }
        else h := by
  unfold HashTable.Delete at hdel
  dsimp only at hdel
  cases hb : h.bucketOf k with
  | panic => rw [hb] at hdel; simp at hdel
  | ok b =>
    rw [hb] at hdel
    refine ⟨b, rfl, ?_⟩
    by_cases hl : (b.lookup k).isSome = true
    · simp only [hl, if_true, Outcome.ok.injEq, Prod.mk.injEq] at hdel
      rw [if_pos hl, hl]
      exact ⟨hdel.1.symm, hdel.2.symm⟩
    · simp only [hl, Bool.false_eq_true, if_false, Outcome.ok.injEq, Prod.mk.injEq] at hdel
      rw [if_neg hl]
      simp only [Bool.not_eq_true] at hl
      rw [hl]
      exact ⟨hdel.1.symm, hdel.2.symm⟩

/-- After `Delete` the key is not in the table, and the other keys are looked up as
before. -/
theorem Delete_spec {α : Type} (h h2 : HashTable α) (k : Bytes) (d : Bool)
    (hdel : h.Delete k = .ok (d, h2)) :
    h2.absent k
    ∧ (∀ t, h.Exists k t = .ok true → d = true)
    ∧ (h.absent k → d = false ∧ h2 = h)
    ∧ ∀ k2, k2 ≠ k → ∀ t, h2.Get k2 t = h.Get k2 t ∧ h2.TTL k2 t = h.TTL k2 t
        ∧ h2.Exists k2 t = h.Exists k2 t := by
  obtain ⟨b, hb, hd, h2eq⟩ := Delete_eq h h2 k d hdel
  by_cases hl : (b.lookup k).isSome = true
  · rw [if_pos hl] at h2eq
    have hbk : ∀ k2, h2.bucketOf k2
        = if h.hash k2 = h.hash k then .ok (b.erase k) else h.bucketOf k2 := by
      intro k2
      rw [h2eq]
      exact bucketOf_set h k k2 b _ _ hb
    refine ⟨⟨b.erase k, ?_, AList.lookup_erase k b⟩, ?_, ?_, ?_⟩
    · rw [hbk k, if_pos rfl]
    · intro t _
      rw [hd, hl]
    · rintro ⟨b2, hb2, hnone⟩
      rw [hb] at hb2
      simp only [Outcome.ok.injEq] at hb2
      rw [hb2, hnone] at hl
      simp at hl
    · intro k2 hne t
      rw [Get_via_bucket h2, TTL_via_bucket h2, Exists_via_bucket h2, Get_via_bucket h,
        TTL_via_bucket h, Exists_via_bucket h, hbk k2]
      by_cases hsame : h.hash k2 = h.hash k
      · rw [if_pos hsame, bucketOf_same_hash h k k2 hsame, hb]
        simp only [Outcome.bind, Bucket.get_erase_ne b k k2 t hne,
          Bucket.ttl_erase_ne b k k2 t hne, and_self]
      · rw [if_neg hsame]
        exact ⟨rfl, rfl, rfl⟩
  · rw [if_neg hl] at h2eq
    have hl : b.lookup k = none := by
      cases hc : b.lookup k with
      | none => rfl
      | some e => rw [hc] at hl; simp at hl
    subst h2eq
    refine ⟨⟨b, hb, hl⟩, ?_, ?_, ?_⟩
    · intro t hex
      rw [Exists_eq_bucket h2 k t b hb] at hex
      unfold Bucket.get at hex
      rw [hl] at hex
      simp at hex
    · intro _
      rw [hd, hl]
      exact ⟨rfl, rfl⟩
    · intro k2 _ t
      exact ⟨rfl, rfl, rfl⟩

theorem Exists_of_absent {α : Type} (h : HashTable α) (k : Bytes) (t : Int)
    (ha : h.absent k) : h.Exists k t = .ok false := by
  obtain ⟨b, hb, hl⟩ := ha
  rw [Exists_eq_bucket h k t b hb]
  unfold Bucket.get
  rw [hl]
  rfl

theorem DataStore_Delete_eq (ds ds2 : DataStore) (k : Bytes) (d : Bool)
    (hdel : ds.Delete k = .ok (d, ds2)) :
    ∃ d1 d2 d3 d4, ds.stringStore.Delete k = .ok (d1, ds2.stringStore)
      ∧ ds.listStore.Delete k = .ok (d2, ds2.listStore)
      ∧ ds.setStore.Delete k = .ok (d3, ds2.setStore)
      ∧ ds.hashStore.Delete k = .ok (d4, ds2.hashStore)
      ∧ d = (d4 || (d3 || (d2 || d1))) := by
  unfold DataStore.Delete at hdel
  cases h1 : ds.stringStore.Delete k with
  | panic => rw [h1] at hdel; simp [Outcome.bind] at hdel
  | ok r1 =>
    cases h2 : ds.listStore.Delete k with
    | panic => rw [h1, h2] at hdel; simp [Outcome.bind] at hdel
    | ok r2 =>
      cases h3 : ds.setStore.Delete k with
      | panic => rw [h1, h2, h3] at hdel; simp [Outcome.bind] at hdel
      | ok r3 =>
        cases h4 : ds.hashStore.Delete k with
        | panic => rw [h1, h2, h3, h4] at hdel; simp [Outcome.bind] at hdel
        | ok r4 =>
          rw [h1, h2, h3, h4] at hdel
          simp only [Outcome.bind, Outcome.ok.injEq, Prod.mk.injEq] at hdel
          obtain ⟨hd, hds⟩ := hdel
          subst hds
          exact ⟨r1.1, r2.1, r3.1, r4.1, rfl, rfl, rfl, rfl, hd.symm⟩

theorem DEL_one (ds : DataStore) (k : Bytes) (now : Int) :
    HandleCommand ds [bs "DEL", k] now
      = (ds.Delete k).bind fun r => .ok (intReply (if r.1 = true then 0 + 1 else 0), r.2) := by
  rw [HandleCommand_DEL]
  unfold handleDel
  simp only [delLoop]
  cases ds.Delete k <;> rfl

theorem EXISTS_one (ds : DataStore) (k : Bytes) (t : Int) :
    HandleCommand ds [bs "EXISTS", k] t
      = (ds.Exists k t).bind fun e => .ok (intReply (if e = true then 0 + 1 else 0), ds) := by
  rw [HandleCommand_EXISTS]
  unfold handleExists
  simp only [existsLoop]
  cases ds.Exists k t <;> rfl

/-- `DEL` over the four tables: once `DEL k` has returned, with reply `reply` and store `ds2`:
if `k` was live in at least one of the four tables the reply is 1; `EXISTS k` afterwards
replies 0 and none of the four tables holds an entry for `k`; every other key is
answered for by each table as before; and if no table held an entry for `k`, the reply
is 0 and the store is the same. -/
theorem DEL_union (ds ds2 : DataStore) (k : Bytes) (now : Int) (reply : Value)
    (hdel : HandleCommand ds [bs "DEL", k] now = .ok (reply, ds2)) :
    ((ds.stringStore.Exists k now = .ok true ∨ ds.listStore.Exists k now = .ok true
        ∨ ds.setStore.Exists k now = .ok true ∨ ds.hashStore.Exists k now = .ok true) →
      reply = intReply 1)
    ∧ (∀ t, HandleCommand ds2 [bs "EXISTS", k] t = .ok (intReply 0, ds2))
    ∧ (ds2.stringStore.absent k ∧ ds2.listStore.absent k ∧ ds2.setStore.absent k
        ∧ ds2.hashStore.absent k)
    ∧ (∀ k2, k2 ≠ k → ds.stringStore.sameAt ds2.stringStore k2
        ∧ ds.listStore.sameAt ds2.listStore k2 ∧ ds.setStore.sameAt ds2.setStore k2
        ∧ ds.hashStore.sameAt ds2.hashStore k2)
    ∧ ((ds.stringStore.absent k ∧ ds.listStore.absent k ∧ ds.setStore.absent k
        ∧ ds.hashStore.absent k) → reply = intReply 0 ∧ ds2 = ds) := by
  rw [DEL_one] at hdel
  cases hD : ds.Delete k with
  | panic => rw [hD] at hdel; simp [Outcome.bind] at hdel
  | ok r =>
    rw [hD] at hdel
    simp only [Outcome.bind, Outcome.ok.injEq, Prod.mk.injEq] at hdel
    obtain ⟨hreply, hds⟩ := hdel
    obtain ⟨d, dsr⟩ := r
    simp only at hreply hds
    subst hds
    obtain ⟨d1, d2, d3, d4, h1, h2, h3, h4, hd⟩ := DataStore_Delete_eq ds dsr k d hD
    obtain ⟨a1, l1, n1, o1⟩ := Delete_spec _ _ k d1 h1
    obtain ⟨a2, l2, n2, o2⟩ := Delete_spec _ _ k d2 h2
    obtain ⟨a3, l3, n3, o3⟩ := Delete_spec _ _ k d3 h3
    obtain ⟨a4, l4, n4, o4⟩ := Delete_spec _ _ k d4 h4
    refine ⟨?_, ?_, ⟨a1, a2, a3, a4⟩, ?_, ?_⟩
    · intro hlive
      have hdt : d = true := by
        rw [hd]
        rcases hlive with h | h | h | h
        · rw [l1 now h]; simp
        · rw [l2 now h]; simp
        · rw [l3 now h]; simp
        · rw [l4 now h]; simp
      rw [← hreply, hdt]
      rfl
    · intro t
      rw [EXISTS_one]
      unfold DataStore.Exists
      rw [Exists_of_absent _ k t a1, Exists_of_absent _ k t a2, Exists_of_absent _ k t a3,
        Exists_of_absent _ k t a4]
      rfl
    · intro k2 hne
      exact ⟨fun t => o1 k2 hne t, fun t => o2 k2 hne t, fun t => o3 k2 hne t,
        fun t => o4 k2 hne t⟩
    · rintro ⟨b1, b2, b3, b4⟩
      obtain ⟨e1, s1⟩ := n1 b1
      obtain ⟨e2, s2⟩ := n2 b2
      obtain ⟨e3, s3⟩ := n3 b3
      obtain ⟨e4, s4⟩ := n4 b4
      refine ⟨?_, ?_⟩
      · rw [← hreply, hd, e1, e2, e3, e4]
        rfl
      · cases ds
        cases dsr
        simp only at s1 s2 s3 s4
        rw [s1, s2, s3, s4]

set_option maxRecDepth 100000 in
/-- `DEL` on a fresh store, where `DEL k` replies 0 and leaves the store as it was, and on
the store after `LPUSH k x`, where `k` is in the list table only: `DEL k` replies 1 and
`EXISTS k` then replies 0.  On the wire, with `k` in the string and list tables, `DEL k`
replies 1, `EXISTS k` replies 0, a second `DEL k` replies 0 and another key is still
there. -/
theorem DEL_union_witness :
    (HandleCommand NewDataStore [bs "DEL", bs "k"] 5 = .ok (intReply 0, NewDataStore)
      ∧ ∀ t, HandleCommand NewDataStore [bs "EXISTS", bs "k"] t = .ok (intReply 0, NewDataStore))
    ∧ (∃ ds ds2, HandleCommand NewDataStore [bs "LPUSH", bs "k", bs "x"] 1 = .ok (intReply 1, ds)
      ∧ ds.listStore.Exists (bs "k") 5 = .ok true
      ∧ HandleCommand ds [bs "DEL", bs "k"] 5 = .ok (intReply 1, ds2)
      ∧ ∀ t, HandleCommand ds2 [bs "EXISTS", bs "k"] t = .ok (intReply 0, ds2))
    ∧ serve [([bs "SET", bs "k", bs "v"], 1), ([bs "LPUSH", bs "k", bs "x"], 2),
        ([bs "SET", bs "other", bs "w"], 3), ([bs "EXISTS", bs "k"], 4), ([bs "DEL", bs "k"], 5),
        ([bs "EXISTS", bs "k"], 6), ([bs "DEL", bs "k"], 7), ([bs "LLEN", bs "k"], 8),
        ([bs "GET", bs "k"], 9), ([bs "EXISTS", bs "other"], 10)] NewDataStore
      = .ok [bs "+OK\r\n", bs ":1\r\n", bs "+OK\r\n", bs ":1\r\n", bs ":1\r\n", bs ":0\r\n",
          bs ":0\r\n", bs ":0\r\n", bs "$-1\r\n", bs ":1\r\n"] := by
  have h0 : HandleCommand NewDataStore [bs "DEL", bs "k"] 5 = .ok (intReply 0, NewDataStore) :=
    rfl
  have key : ∃ ds ds2,
      HandleCommand NewDataStore [bs "LPUSH", bs "k", bs "x"] 1 = .ok (intReply 1, ds)
      ∧ ds.listStore.Exists (bs "k") 5 = .ok true
      ∧ HandleCommand ds [bs "DEL", bs "k"] 5 = .ok (intReply 1, ds2) :=
    ⟨_, _, rfl, rfl, rfl⟩
  obtain ⟨ds, ds2, h1, h2, h3⟩ := key
  exact ⟨⟨h0, (DEL_union NewDataStore NewDataStore (bs "k") 5 (intReply 0) h0).2.1⟩,
    ⟨ds, ds2, h1, h2, h3, (DEL_union ds ds2 (bs "k") 5 (intReply 1) h3).2.1⟩, by decide⟩

/-! ## Error replies on the wire, and the terminators the parser does not look at -/

set_option maxRecDepth 100000 in
/-- C23 fails on the code: a command error is returned by the handler as a Go string,
and `writeResponse` sends every Go string with `WriteSimpleString`.  `GET` without
arguments, `SET` with a bad expire time and `INCR` on a text that is no integer are all
answered with a first byte `+`; the bytes `WriteError` would send are never produced. -/
theorem error_reply_is_simple_string :
    (∀ ds now, HandleCommand ds [bs "GET"] now
      = .ok (strReply "ERR wrong number of arguments for 'get' command", ds))
    ∧ writeResponse (strReply "ERR wrong number of arguments for 'get' command")
      = bs "+ERR wrong number of arguments for 'get' command\r\n"
    ∧ writeResponse (strReply "ERR wrong number of arguments for 'get' command")
      ≠ WriteError (bs "ERR wrong number of arguments for 'get' command")
    ∧ serve [([bs "GET"], 1), ([bs "SET", bs "k", bs "v", bs "EX", bs "abc"], 2),
        ([bs "SET", bs "k", bs "abc"], 3), ([bs "INCR", bs "k"], 4)] NewDataStore
      = .ok [bs "+ERR wrong number of arguments for 'get' command\r\n",
          bs "+ERR invalid expire time in 'set' command\r\n", bs "+OK\r\n",
          bs "+ERR value is not an integer or out of range\r\n"]
    ∧ ∀ s : Bytes, writeResponse (.atom (.str s)) = 43 :: s ++ CRLF :=
  ⟨fun _ _ => rfl, by decide, by decide, by decide, fun _ => rfl⟩

set_option maxRecDepth 100000 in
/-- C28 fails on the code: `readValue` strips the last two bytes of a framing line
without looking at them, and reads the two bytes after a bulk payload without comparing
them with CR LF.  An input in which every framing line ends in a bare LF (no CR occurs in
it) and the payload is followed by `ab` is accepted as the command `PING`, and so is a
well-framed input whose payload is followed by `xy`. -/
theorem ReadCommand_accepts_bad_terminators :
    ReadCommand (bs "*10\n$40\nPINGab") = .ok [bs "PING"] []
    ∧ (13 : UInt8) ∉ bs "*10\n$40\nPINGab"
    ∧ ReadCommand (bs "*1\r\n$4\r\nPINGxy") = .ok [bs "PING"] []
    ∧ ReadCommand (bs "*1\r\n$4\r\nPING\r\n") = .ok [bs "PING"] [] := by
  refine ⟨by decide, by decide, by decide, by decide⟩

/-! ## Unknown commands -/

theorem HandleCommand_unknown (ds : DataStore) (name : Bytes) (args : List Bytes) (now : Int)
    (hunknown : ToUpper name ∉ commandNames) :
    HandleCommand ds (name :: args) now
      = if (name :: args).length = 1 then handleGet ds (name :: args) now
        else .ok (.atom .nil, ds) := by
  simp only [commandNames, List.mem_cons, List.mem_singleton, not_or, List.not_mem_nil,
    not_false_eq_true, and_true] at hunknown
  obtain ⟨h1, h2, h3, h4, h5, h6, h7, h8, h9, h10, h11, h12, h13, h14, h15, h16, h17, h18,
    h19, h20, h21, h22, h23, h24, h25, h26, h27, h28, h29, h30⟩ := hunknown
  simp only [HandleCommand, if_neg h1, if_neg h2, if_neg h3, if_neg h4, if_neg h5, if_neg h6,
    if_neg h7, if_neg h8, if_neg h9, if_neg h10, if_neg h11, if_neg h12, if_neg h13,
    if_neg h14, if_neg h15, if_neg h16, if_neg h17, if_neg h18, if_neg h19, if_neg h20,
    if_neg h21, if_neg h22, if_neg h23, if_neg h24, if_neg h25, if_neg h26, if_neg h27,
    if_neg h28, if_neg h29, if_neg h30]

theorem handleGet_store (ds ds2 : DataStore) (args : List Bytes) (now : Int) (reply : Value)
    (h : handleGet ds args now = .ok (reply, ds2)) : ds2 = ds := by
  unfold handleGet at h
  split at h
  · unfold DataStore.Get at h
    cases hg : ds.stringStore.Get _ now with
    | panic => rw [hg] at h; simp [Outcome.bind] at h
    | ok found =>
      rw [hg] at h
      simp only [Outcome.bind] at h
      split at h <;>
        · simp only [Outcome.ok.injEq, Prod.mk.injEq] at h
          exact h.2.symm
  · simp only [Outcome.ok.injEq, Prod.mk.injEq] at h
    exact h.2.symm

/-- C24 (unknown command fallback): for every store and every token `name`, of any
bytes, whose upper-cased form is none of the command names, `HandleCommand([name])` is
`HandleCommand(["GET", name])` (the same reply, or the same panic of the key lookup), with
`name` as the key in its own case, and when it returns the store is the one it was given;
a command of two or more elements with such a first element is answered with nil and the
same store. -/
theorem unknown_command_fallback (ds : DataStore) (name : Bytes) (now : Int)
    (hunknown : ToUpper name ∉ commandNames) :
    HandleCommand ds [name] now = HandleCommand ds [bs "GET", name] now
    ∧ (∀ reply ds2, HandleCommand ds [name] now = .ok (reply, ds2) → ds2 = ds)
    ∧ ∀ arg args, HandleCommand ds (name :: arg :: args) now = .ok (.atom .nil, ds) := by
  refine ⟨?_, ?_, ?_⟩
  · rw [HandleCommand_unknown ds name [] now hunknown, HandleCommand_GET]
    rfl
  · intro reply ds2 h
    rw [HandleCommand_unknown ds name [] now hunknown] at h
    exact handleGet_store ds ds2 [name] now reply h
  · intro arg args
    rw [HandleCommand_unknown ds name (arg :: args) now hunknown]
    simp

set_option maxRecDepth 100000 in
/-- C24 on the token `greeting` and on the token `clé` (its last letter is the two bytes
0xC3 0xA9): after `SET greeting hi` the one-element command `greeting` is answered as
`GET greeting` is, and `greeting x` with nil.  A token that Go upper-cases to a command
name is not such a token: `ſet` (with U+017F, the bytes 0xC5 0xBF) runs `SET`. -/
theorem unknown_command_fallback_witness :
    (∀ ds, HandleCommand ds [bs "greeting"] 7 = HandleCommand ds [bs "GET", bs "greeting"] 7)
    ∧ (∀ ds, HandleCommand ds [bs "cl" ++ [0xC3, 0xA9]] 7
        = HandleCommand ds [bs "GET", bs "cl" ++ [0xC3, 0xA9]] 7)
    ∧ serve [([bs "SET", bs "greeting", bs "hi"], 1), ([bs "greeting"], 2),
        ([bs "GET", bs "greeting"], 3), ([bs "Greeting"], 4), ([bs "greeting", bs "x"], 5)]
        NewDataStore
      = .ok [bs "+OK\r\n", bs "+hi\r\n", bs "+hi\r\n", bs "$-1\r\n", bs "$-1\r\n"]
    ∧ ToUpper ([0xC5, 0xBF] ++ bs "et") = bs "SET"
    ∧ serve [([[0xC5, 0xBF] ++ bs "et", bs "k", bs "v"], 1), ([bs "GET", bs "k"], 2)]
        NewDataStore
      = .ok [bs "+OK\r\n", bs "+v\r\n"] :=
  ⟨fun ds => (unknown_command_fallback ds (bs "greeting") 7 (by decide)).1,
    fun ds => (unknown_command_fallback ds (bs "cl" ++ [0xC3, 0xA9]) 7 (by decide)).1,
    by decide, by decide, by decide⟩

/-! ## Arity errors -/

set_option maxRecDepth 100000 in
/-- A command name in any case is dispatched as its upper-case form. -/
theorem HandleCommand_upper (ds : DataStore) (name cmd : Bytes) (args : List Bytes) (now : Int)
    (hname : ToUpper name = cmd) (hcmd : cmd ∈ commandNames) :
    HandleCommand ds (name :: args) now = HandleCommand ds (cmd :: args) now := by
  simp only [commandNames, List.mem_cons, List.mem_singleton, List.not_mem_nil, or_false]
    at hcmd
  rcases hcmd with h | h | h | h | h | h | h | h | h | h | h | h | h | h | h | h | h | h | h
    | h | h | h | h | h | h | h | h | h | h | h <;>
  · subst h
    simp only [HandleCommand, hname]
    rfl

set_option maxRecDepth 100000 in
/-- The arity check of `handleZRANGEBYLEX`: a count other than 2 is answered with the
arity error and the same store, but the text names the command as `ZRANGEBYLEX`, where
every other handler writes its name in lower case. -/
theorem ZRANGEBYLEX_arity_text (ds : DataStore) (args : List Bytes) (now : Int)
    (harity : args.length ≠ 2) :
    handleZRANGEBYLEX ds args now = .ok (arityError (bs "ZRANGEBYLEX"), ds)
    ∧ arityError (bs "ZRANGEBYLEX") ≠ arityError (bs "zrangebylex") := by
  refine ⟨?_, by decide⟩
  rcases args with _ | ⟨a, _ | ⟨b, _ | ⟨c, rest⟩⟩⟩
  · rfl
  · rfl
  · exact absurd rfl harity
  · rfl

/-! ## ZRANGEBYLEX -/

theorem bytesLE_total : ∀ a b : Bytes, bytesLE a b = true ∨ bytesLE b a = true
  | [], _ => Or.inl rfl
  | _ :: _, [] => Or.inr rfl
  | a :: as, b :: rest => by
    simp only [bytesLE]
    by_cases h1 : a.toNat < b.toNat
    · simp [h1]
    · by_cases h2 : b.toNat < a.toNat
      · simp [h2]
      · simp only [h1, h2, if_false]
        exact bytesLE_total as rest

theorem bytesLE_trans : ∀ a b c : Bytes, bytesLE a b = true → bytesLE b c = true →
    bytesLE a c = true
  | [], _, _ => fun _ _ => rfl
  | _ :: _, [], _ => fun h _ => by simp [bytesLE] at h
  | _ :: _, _ :: _, [] => fun _ h => by simp [bytesLE] at h
  | a :: as, b :: bs2, c :: cs => by
    intro hab hbc
    simp only [bytesLE] at hab hbc ⊢
    by_cases h1 : a.toNat < b.toNat
    · by_cases h2 : b.toNat < c.toNat
      · have : a.toNat < c.toNat := by omega
        simp [this]
      · by_cases h3 : c.toNat < b.toNat
        · simp [h2, h3] at hbc
        · have : a.toNat < c.toNat := by omega
          simp [this]
    · by_cases h1b : b.toNat < a.toNat
      · simp [h1, h1b] at hab
      · simp only [h1, h1b, if_false] at hab
        by_cases h2 : b.toNat < c.toNat
        · have : a.toNat < c.toNat := by omega
          simp [this]
        · by_cases h3 : c.toNat < b.toNat
          · simp [h2, h3] at hbc
          · simp only [h2, h3, if_false] at hbc
            have e1 : ¬ a.toNat < c.toNat := by omega
            have e2 : ¬ c.toNat < a.toNat := by omega
            simp only [e1, e2, if_false]
            exact bytesLE_trans as bs2 cs hab hbc

theorem bytesLE_antisymm : ∀ a b : Bytes, bytesLE a b = true → bytesLE b a = true → a = b
  | [], [] => fun _ _ => rfl
  | [], _ :: _ => fun _ h => by simp [bytesLE] at h
  | _ :: _, [] => fun h _ => by simp [bytesLE] at h
  | a :: as, b :: rest => by
    intro hab hba
    simp only [bytesLE] at hab hba
    by_cases h1 : a.toNat < b.toNat
    · have h2 : ¬ b.toNat < a.toNat := by omega
      simp [h1, h2] at hba
    · by_cases h2 : b.toNat < a.toNat
      · simp [h1, h2] at hab
      · simp only [h1, h2, if_false] at hab hba
        have hh : a = b := UInt8.ext (by omega)
        rw [hh, bytesLE_antisymm as rest hab hba]

theorem toIfaces_stringMembers (ms : List Iface) (hstr : ∀ m ∈ ms, ∃ s, m = Iface.str s) :
    toIfaces (stringMembers ms) = ms := by
  induction ms with
  | nil => rfl
  | cons m ms ih =>
    obtain ⟨s, hs⟩ := hstr m (List.mem_cons_self _ _)
    subst hs
    simp only [stringMembers, toIfaces, List.map_cons]
    have := ih fun m hm => hstr m (List.mem_cons_of_mem _ hm)
    simp only [toIfaces] at this
    rw [this]

theorem HandleCommand_ZRANGEBYLEX (ds : DataStore) (args : List Bytes) (now : Int) :
    HandleCommand ds (bs "ZRANGEBYLEX" :: args) now = handleZRANGEBYLEX ds args now := rfl

/-- C26 (ZRANGEBYLEX sortedness): on a key whose lookup in the set table gives a set of
strings, `ZRANGEBYLEX k I` replies with the members, each exactly once, in non-decreasing
byte-wise lexicographic order, and `ZRANGEBYLEX k D` with the same members in
non-increasing order, which is the `I` reply reversed. -/
theorem ZRANGEBYLEX_sorted (ds : DataStore) (k : Bytes) (now : Int) (members : GoSet)
    (hget : ds.setStore.Get k now = .ok (some (.set members)))
    (hstr : ∀ m ∈ members.keys, ∃ s, m = Iface.str s) :
    ∃ inc dec : List Bytes,
      HandleCommand ds [bs "ZRANGEBYLEX", k, bs "I"] now = .ok (.slice (some (toIfaces inc)), ds)
      ∧ HandleCommand ds [bs "ZRANGEBYLEX", k, bs "D"] now
          = .ok (.slice (some (toIfaces dec)), ds)
      ∧ (toIfaces inc).Perm members.keys ∧ inc.Nodup
      ∧ inc.Sorted (fun a b => bytesLE a b = true)
      ∧ dec.Sorted (fun a b => bytesLE b a = true)
      ∧ dec = inc.reverse := by
  have hI : bs "I" ≠ bs "D" := by decide
  have htot : IsTotal Bytes (fun a b => bytesLE a b = true) := ⟨bytesLE_total⟩
  have htr : IsTrans Bytes (fun a b => bytesLE a b = true) := ⟨bytesLE_trans⟩
  have htot2 : IsTotal Bytes (fun a b => bytesLE b a = true) :=
    ⟨fun a b => bytesLE_total b a⟩
  have htr2 : IsTrans Bytes (fun a b => bytesLE b a = true) :=
    ⟨fun a b c h1 h2 => bytesLE_trans c b a h2 h1⟩
  have hanti : IsAntisymm Bytes (fun a b => bytesLE b a = true) :=
    ⟨fun a b h1 h2 => bytesLE_antisymm a b h2 h1⟩
  have hpI := List.perm_insertionSort (fun a b => bytesLE a b = true)
    (stringMembers members.keys)
  have hpD := List.perm_insertionSort (fun a b => bytesLE b a = true)
    (stringMembers members.keys)
  have hsI := List.sorted_insertionSort (fun a b => bytesLE a b = true)
    (stringMembers members.keys)
  have hsD := List.sorted_insertionSort (fun a b => bytesLE b a = true)
    (stringMembers members.keys)
  refine ⟨(stringMembers members.keys).insertionSort fun a b => bytesLE a b = true,
    (stringMembers members.keys).insertionSort fun a b => bytesLE b a = true,
    ?_, ?_, ?_, ?_, hsI, hsD, ?_⟩
  · rw [HandleCommand_ZRANGEBYLEX]
    simp only [handleZRANGEBYLEX, DataStore.SMembers, hget, Outcome.bind, if_true]
  · rw [HandleCommand_ZRANGEBYLEX]
    simp only [handleZRANGEBYLEX, DataStore.SMembers, hget, Outcome.bind, if_true,
      if_neg (Ne.symm hI)]
  · have h := hpI.map Iface.str
    have e := toIfaces_stringMembers members.keys hstr
    unfold toIfaces at e ⊢
    rw [e] at h
    exact h
  · have hnd : (toIfaces (stringMembers members.keys)).Nodup := by
      rw [toIfaces_stringMembers members.keys hstr]
      exact AList.keys_nodup _
    have hnd2 : (stringMembers members.keys).Nodup := List.Nodup.of_map _ hnd
    exact hpI.nodup_iff.mpr hnd2
  · apply List.eq_of_perm_of_sorted (hpD.trans (hpI.symm.trans (List.reverse_perm _).symm)) hsD
    exact List.pairwise_reverse.mpr hsI

set_option maxRecDepth 100000 in
/-- C26 on the set built by `SADD z b a c`: the `I` reply is `a b c`, the `D` reply is
`c b a`. -/
theorem ZRANGEBYLEX_sorted_witness :
    (∃ ds, HandleCommand NewDataStore [bs "SADD", bs "z", bs "b", bs "a", bs "c"] 1
        = .ok (intReply 3, ds)
      ∧ ∃ inc dec : List Bytes,
        HandleCommand ds [bs "ZRANGEBYLEX", bs "z", bs "I"] 5
          = .ok (.slice (some (toIfaces inc)), ds)
        ∧ HandleCommand ds [bs "ZRANGEBYLEX", bs "z", bs "D"] 5
          = .ok (.slice (some (toIfaces dec)), ds)
        ∧ inc.Sorted (fun a b => bytesLE a b = true) ∧ dec = inc.reverse)
    ∧ serve [([bs "SADD", bs "z", bs "b", bs "a", bs "c"], 1),
        ([bs "ZRANGEBYLEX", bs "z", bs "I"], 2), ([bs "ZRANGEBYLEX", bs "z", bs "D"], 3),
        ([bs "ZRANGEBYLEX", bs "none", bs "I"], 4)] NewDataStore
      = .ok [bs ":3\r\n", bs "*3\r\n$1\r\na\r\n$1\r\nb\r\n$1\r\nc\r\n",
          bs "*3\r\n$1\r\nc\r\n$1\r\nb\r\n$1\r\na\r\n", bs "*0\r\n"] := by
  have hkeys : (AList.insert (Iface.str (bs "c")) true
      (AList.insert (Iface.str (bs "a")) true
        (AList.insert (Iface.str (bs "b")) true (∅ : GoSet)))).keys
      = [Iface.str (bs "c"), Iface.str (bs "a"), Iface.str (bs "b")] := by decide
  have key : ∃ ds, HandleCommand NewDataStore [bs "SADD", bs "z", bs "b", bs "a", bs "c"] 1
        = .ok (intReply 3, ds)
      ∧ ds.setStore.Get (bs "z") 5 = .ok (some (.set (AList.insert (Iface.str (bs "c")) true
          (AList.insert (Iface.str (bs "a")) true
            (AList.insert (Iface.str (bs "b")) true (∅ : GoSet)))))) :=
    ⟨_, rfl, rfl⟩
  obtain ⟨ds, h1, h2⟩ := key
  refine ⟨⟨ds, h1, ?_⟩, by decide⟩
  obtain ⟨inc, dec, hI, hD, _, _, hs, _, hr⟩ := ZRANGEBYLEX_sorted ds (bs "z") 5 _ h2
    (by
      intro m hm
      rw [hkeys] at hm
      simp only [List.mem_cons, List.mem_singleton, List.not_mem_nil, or_false] at hm
      rcases hm with h | h | h <;> exact ⟨_, h⟩)
  exact ⟨inc, dec, hI, hD, hs, hr⟩

/-! ## Writes store the value without an expiration -/

theorem Outcome.bind_eq_ok {α β : Type} (x : Outcome α) (f : α → Outcome β) (r : β)
    (h : x.bind f = .ok r) : ∃ a, x = .ok a ∧ f a = .ok r := by
  cases x with
  | panic => simp [Outcome.bind] at h
  | ok a => exact ⟨a, rfl, h⟩

theorem TTL_Set_zero {α : Type} (h h2 : HashTable α) (k : Bytes) (v : α) (t0 : Int)
    (hset : h.Set k v 0 t0 = .ok h2) : ∀ t, h2.TTL k t = .ok (-1) := by
  intro t
  rw [TTL_Set_same h h2 k v 0 t0 t hset]
  simp only [Bucket.ttl, AList.lookup_insert, gt_iff_lt, lt_self_iff_false, if_false, if_true]

theorem DataStore_Set_writes (ds ds2 : DataStore) (k : Bytes) (v : Value) (now : Int)
    (h : ds.Set k v 0 now = .ok ds2) : ∀ t, ds2.stringStore.TTL k t = .ok (-1) := by
  unfold DataStore.Set at h
  obtain ⟨tbl, hset, hds⟩ := Outcome.bind_eq_ok _ _ _ h
  simp only [Outcome.ok.injEq] at hds
  subst hds
  exact TTL_Set_zero _ _ k v now hset

theorem INCR_writes (ds ds2 : DataStore) (k : Bytes) (now n : Int)
    (h : handleIncr ds [k] now = .ok (.atom (.int n), ds2)) :
    ∀ t, ds2.stringStore.TTL k t = .ok (-1) := by
  simp only [handleIncr] at h
  obtain ⟨found, _, h⟩ := Outcome.bind_eq_ok _ _ _ h
  split at h
  · obtain ⟨d, hset, hd⟩ := Outcome.bind_eq_ok _ _ _ h
    simp only [Outcome.ok.injEq, Prod.mk.injEq] at hd
    rw [← hd.2]
    exact DataStore_Set_writes ds d k _ now hset
  · split at h
    · simp [strReply] at h
    · obtain ⟨d, hset, hd⟩ := Outcome.bind_eq_ok _ _ _ h
      simp only [Outcome.ok.injEq, Prod.mk.injEq] at hd
      rw [← hd.2]
      exact DataStore_Set_writes ds d k _ now hset
  · simp [strReply] at h

theorem DECR_writes (ds ds2 : DataStore) (k : Bytes) (now n : Int)
    (h : handleDecr ds [k] now = .ok (.atom (.int n), ds2)) :
    ∀ t, ds2.stringStore.TTL k t = .ok (-1) := by
  simp only [handleDecr] at h
  obtain ⟨found, _, h⟩ := Outcome.bind_eq_ok _ _ _ h
  split at h
  · obtain ⟨d, hset, hd⟩ := Outcome.bind_eq_ok _ _ _ h
    simp only [Outcome.ok.injEq, Prod.mk.injEq] at hd
    rw [← hd.2]
    exact DataStore_Set_writes ds d k _ now hset
  · split at h
    · simp [strReply] at h
    · obtain ⟨d, hset, hd⟩ := Outcome.bind_eq_ok _ _ _ h
      simp only [Outcome.ok.injEq, Prod.mk.injEq] at hd
      rw [← hd.2]
      exact DataStore_Set_writes ds d k _ now hset
  · simp [strReply] at h

theorem LPush_writes (ds ds2 : DataStore) (k : Bytes) (values : List Iface) (now n : Int)
    (h : ds.LPush k values now = .ok (n, ds2)) : ∀ t, ds2.listStore.TTL k t = .ok (-1) := by
  unfold DataStore.LPush at h
  obtain ⟨found, _, h⟩ := Outcome.bind_eq_ok _ _ _ h
  obtain ⟨list, _, h⟩ := Outcome.bind_eq_ok _ _ _ h
  obtain ⟨tbl, hset, h⟩ := Outcome.bind_eq_ok _ _ _ h
  simp only [Outcome.ok.injEq, Prod.mk.injEq] at h
  rw [← h.2]
  exact TTL_Set_zero _ _ k _ now hset

theorem RPush_writes (ds ds2 : DataStore) (k : Bytes) (values : List Iface) (now n : Int)
    (h : ds.RPush k values now = .ok (n, ds2)) : ∀ t, ds2.listStore.TTL k t = .ok (-1) := by
  unfold DataStore.RPush at h
  obtain ⟨found, _, h⟩ := Outcome.bind_eq_ok _ _ _ h
  obtain ⟨list, _, h⟩ := Outcome.bind_eq_ok _ _ _ h
  obtain ⟨tbl, hset, h⟩ := Outcome.bind_eq_ok _ _ _ h
  simp only [Outcome.ok.injEq, Prod.mk.injEq] at h
  rw [← h.2]
  exact TTL_Set_zero _ _ k _ now hset

theorem LPop_writes (ds ds2 : DataStore) (k : Bytes) (now : Int) (x v : Iface) (xs : List Iface)
    (hget : ds.listStore.Get k now = .ok (some (.slice (some (x :: xs)))))
    (h : ds.LPop k now = .ok (v, ds2)) : ∀ t, ds2.listStore.TTL k t = .ok (-1) := by
  unfold DataStore.LPop at h
  rw [hget] at h
  simp only [Outcome.bind, Value.asSlice, Option.getD_some] at h
  obtain ⟨tbl, hset, h⟩ := Outcome.bind_eq_ok _ _ _ h
  simp only [Outcome.ok.injEq, Prod.mk.injEq] at h
  rw [← h.2]
  exact TTL_Set_zero _ _ k _ now hset

theorem RPop_writes (ds ds2 : DataStore) (k : Bytes) (now : Int) (x v : Iface) (xs : List Iface)
    (hget : ds.listStore.Get k now = .ok (some (.slice (some (x :: xs)))))
    (h : ds.RPop k now = .ok (v, ds2)) : ∀ t, ds2.listStore.TTL k t = .ok (-1) := by
  unfold DataStore.RPop at h
  rw [hget] at h
  simp only [Outcome.bind, Value.asSlice, Option.getD_some] at h
  cases hl : (x :: xs).getLast? with
  | none => simp at hl
  | some y =>
    rw [hl] at h
    obtain ⟨tbl, hset, h⟩ := Outcome.bind_eq_ok _ _ _ h
    simp only [Outcome.ok.injEq, Prod.mk.injEq] at h
    rw [← h.2]
    exact TTL_Set_zero _ _ k _ now hset

theorem SAdd_writes (ds ds2 : DataStore) (k : Bytes) (members : List Iface) (now n : Int)
    (h : ds.SAdd k members now = .ok (n, ds2)) : ∀ t, ds2.setStore.TTL k t = .ok (-1) := by
  unfold DataStore.SAdd at h
  obtain ⟨found, _, h⟩ := Outcome.bind_eq_ok _ _ _ h
  obtain ⟨set, _, h⟩ := Outcome.bind_eq_ok _ _ _ h
  split at h
  · obtain ⟨tbl, hset, h⟩ := Outcome.bind_eq_ok _ _ _ h
    simp only [Outcome.ok.injEq, Prod.mk.injEq] at h
    rw [← h.2]
    exact TTL_Set_zero _ _ k _ now hset
  · simp at h

theorem SRem_writes (ds ds2 : DataStore) (k : Bytes) (members : List Iface) (now n : Int)
    (v : Value) (hget : ds.setStore.Get k now = .ok (some v))
    (h : ds.SRem k members now = .ok (n, ds2)) : ∀ t, ds2.setStore.TTL k t = .ok (-1) := by
  unfold DataStore.SRem at h
  rw [hget] at h
  simp only [Outcome.bind] at h
  obtain ⟨set, _, h⟩ := Outcome.bind_eq_ok _ _ _ h
  split at h
  · obtain ⟨tbl, hset, h⟩ := Outcome.bind_eq_ok _ _ _ h
    simp only [Outcome.ok.injEq, Prod.mk.injEq] at h
    rw [← h.2]
    exact TTL_Set_zero _ _ k _ now hset
  · simp at h

theorem HSet_writes (ds ds2 : DataStore) (k f : Bytes) (v : Iface) (now : Int) (r : Bool)
    (h : ds.HSet k f v now = .ok (r, ds2)) : ∀ t, ds2.hashStore.TTL k t = .ok (-1) := by
  unfold DataStore.HSet at h
  obtain ⟨found, _, h⟩ := Outcome.bind_eq_ok _ _ _ h
  obtain ⟨hash, _, h⟩ := Outcome.bind_eq_ok _ _ _ h
  obtain ⟨tbl, hset, h⟩ := Outcome.bind_eq_ok _ _ _ h
  simp only [Outcome.ok.injEq, Prod.mk.injEq] at h
  rw [← h.2]
  exact TTL_Set_zero _ _ k _ now hset

theorem hsetLoop_writes (k : Bytes) (now : Int) (pairs : List (Bytes × Bytes)) :
    ∀ (ds ds2 : DataStore) (added n : Int), pairs ≠ [] →
      hsetLoop k now (flatPairs pairs) ds added = .ok (n, ds2) →
      ∀ t, ds2.hashStore.TTL k t = .ok (-1) := by
  induction pairs with
  | nil => intro _ _ _ _ hne; exact absurd rfl hne
  | cons p ps ih =>
    intro ds ds2 added n _ h
    rw [flatPairs_cons] at h
    simp only [hsetLoop] at h
    obtain ⟨r, hset, h⟩ := Outcome.bind_eq_ok _ _ _ h
    cases ps with
    | nil =>
      simp only [flatPairs, List.map_nil, List.flatten_nil, hsetLoop, Outcome.ok.injEq,
        Prod.mk.injEq] at h
      rw [← h.2]
      exact HSet_writes ds r.2 k p.1 _ now r.1 hset
    | cons q qs => exact ih r.2 ds2 _ n (by simp) h

theorem HDel_writes (ds ds2 : DataStore) (k : Bytes) (fields : List Bytes) (now n : Int)
    (v : Value) (hget : ds.hashStore.Get k now = .ok (some v))
    (h : ds.HDel k fields now = .ok (n, ds2)) : ∀ t, ds2.hashStore.TTL k t = .ok (-1) := by
  unfold DataStore.HDel at h
  rw [hget] at h
  simp only [Outcome.bind] at h
  obtain ⟨hash, _, h⟩ := Outcome.bind_eq_ok _ _ _ h
  obtain ⟨tbl, hset, h⟩ := Outcome.bind_eq_ok _ _ _ h
  simp only [Outcome.ok.injEq, Prod.mk.injEq] at h
  rw [← h.2]
  exact TTL_Set_zero _ _ k _ now hset

/-- C30 (writes clear the TTL): whenever one of the rewriting commands has written `k`
in its table, the entry is stored without expiration, so `TTL` of `k` in that table is -1
at every later clock reading.  `INCR` and `DECR` write when they reply with an integer;
`LPUSH`, `RPUSH`, `SADD` and `HSET` always write; `LPOP` and `RPOP` write on a non-empty
list; `SREM` and `HDEL` write on a live key. -/
theorem writes_clear_TTL (ds ds2 : DataStore) (k : Bytes) (now : Int) (reply : Value) :
    (∀ n, (HandleCommand ds [bs "INCR", k] now = .ok (.atom (.int n), ds2)
          ∨ HandleCommand ds [bs "DECR", k] now = .ok (.atom (.int n), ds2)) →
        ∀ t, ds2.stringStore.TTL k t = .ok (-1))
    ∧ (∀ v vs, (HandleCommand ds (bs "LPUSH" :: k :: v :: vs) now = .ok (reply, ds2)
          ∨ HandleCommand ds (bs "RPUSH" :: k :: v :: vs) now = .ok (reply, ds2)) →
        ∀ t, ds2.listStore.TTL k t = .ok (-1))
    ∧ (∀ x xs, ds.listStore.Get k now = .ok (some (.slice (some (x :: xs)))) →
        (HandleCommand ds [bs "LPOP", k] now = .ok (reply, ds2)
          ∨ HandleCommand ds [bs "RPOP", k] now = .ok (reply, ds2)) →
        ∀ t, ds2.listStore.TTL k t = .ok (-1))
    ∧ (∀ m ms, HandleCommand ds (bs "SADD" :: k :: m :: ms) now = .ok (reply, ds2) →
        ∀ t, ds2.setStore.TTL k t = .ok (-1))
    ∧ (∀ m ms v, ds.setStore.Get k now = .ok (some v) →
        HandleCommand ds (bs "SREM" :: k :: m :: ms) now = .ok (reply, ds2) →
        ∀ t, ds2.setStore.TTL k t = .ok (-1))
    ∧ (∀ pairs, pairs ≠ [] →
        HandleCommand ds (bs "HSET" :: k :: flatPairs pairs) now = .ok (reply, ds2) →
        ∀ t, ds2.hashStore.TTL k t = .ok (-1))
    ∧ (∀ f fs v, ds.hashStore.Get k now = .ok (some v) →
        HandleCommand ds (bs "HDEL" :: k :: f :: fs) now = .ok (reply, ds2) →
        ∀ t, ds2.hashStore.TTL k t = .ok (-1)) := by
  refine ⟨?_, ?_, ?_, ?_, ?_, ?_, ?_⟩
  · intro n h
    rcases h with h | h
    · exact INCR_writes ds ds2 k now n h
    · exact DECR_writes ds ds2 k now n h
  · intro v vs h
    rcases h with h | h
    · have h2 : handleLPush ds (k :: v :: vs) now = .ok (reply, ds2) := h
      simp only [handleLPush] at h2
      obtain ⟨r, hr, h3⟩ := Outcome.bind_eq_ok _ _ _ h2
      simp only [Outcome.ok.injEq, Prod.mk.injEq] at h3
      rw [← h3.2]
      exact LPush_writes ds r.2 k _ now r.1 hr
    · have h2 : handleRPush ds (k :: v :: vs) now = .ok (reply, ds2) := h
      simp only [handleRPush] at h2
      obtain ⟨r, hr, h3⟩ := Outcome.bind_eq_ok _ _ _ h2
      simp only [Outcome.ok.injEq, Prod.mk.injEq] at h3
      rw [← h3.2]
      exact RPush_writes ds r.2 k _ now r.1 hr
  · intro x xs hget h
    rcases h with h | h
    · have h2 : handleLPop ds [k] now = .ok (reply, ds2) := h
      simp only [handleLPop] at h2
      obtain ⟨r, hr, h3⟩ := Outcome.bind_eq_ok _ _ _ h2
      simp only [Outcome.ok.injEq, Prod.mk.injEq] at h3
      rw [← h3.2]
      exact LPop_writes ds r.2 k now x r.1 xs hget hr
    · have h2 : handleRPop ds [k] now = .ok (reply, ds2) := h
      simp only [handleRPop] at h2
      obtain ⟨r, hr, h3⟩ := Outcome.bind_eq_ok _ _ _ h2
      simp only [Outcome.ok.injEq, Prod.mk.injEq] at h3
      rw [← h3.2]
      exact RPop_writes ds r.2 k now x r.1 xs hget hr
  · intro m ms h
    have h2 : handleSAdd ds (k :: m :: ms) now = .ok (reply, ds2) := h
    simp only [handleSAdd] at h2
    obtain ⟨r, hr, h3⟩ := Outcome.bind_eq_ok _ _ _ h2
    simp only [Outcome.ok.injEq, Prod.mk.injEq] at h3
    rw [← h3.2]
    exact SAdd_writes ds r.2 k _ now r.1 hr
  · intro m ms v hget h
    have h2 : handleSRem ds (k :: m :: ms) now = .ok (reply, ds2) := h
    simp only [handleSRem] at h2
    obtain ⟨r, hr, h3⟩ := Outcome.bind_eq_ok _ _ _ h2
    simp only [Outcome.ok.injEq, Prod.mk.injEq] at h3
    rw [← h3.2]
    exact SRem_writes ds r.2 k _ now r.1 v hget hr
  · intro pairs hne h
    rw [handleHSet_pairs ds k pairs now hne] at h
    obtain ⟨r, hr, h3⟩ := Outcome.bind_eq_ok _ _ _ h
    simp only [Outcome.ok.injEq, Prod.mk.injEq] at h3
    rw [← h3.2]
    exact hsetLoop_writes k now pairs ds r.2 0 r.1 hne hr
  · intro f fs v hget h
    have h2 : handleHDel ds (k :: f :: fs) now = .ok (reply, ds2) := h
    simp only [handleHDel] at h2
    obtain ⟨r, hr, h3⟩ := Outcome.bind_eq_ok _ _ _ h2
    simp only [Outcome.ok.injEq, Prod.mk.injEq] at h3
    rw [← h3.2]
    exact HDel_writes ds r.2 k _ now r.1 v hget hr

set_option maxRecDepth 100000 in
/-- C30 after `SET k 5 EX 100`: `INCR k` replies 6 and the string table then answers
`TTL` with -1.  On the wire the TTL of `k` is 100 before `INCR` and -1 after it, and the
TTL of the list `L` is 50 after `EXPIRE L 50` and -1 after `LPOP L`. -/
theorem writes_clear_TTL_witness :
    (∃ ds ds2, HandleCommand NewDataStore [bs "SET", bs "k", bs "5", bs "EX", bs "100"] 1000
        = .ok (strReply "OK", ds)
      ∧ ds.stringStore.TTL (bs "k") 2000 = .ok 99
      ∧ HandleCommand ds [bs "INCR", bs "k"] 2000 = .ok (.atom (.int 6), ds2)
      ∧ ∀ t, ds2.stringStore.TTL (bs "k") t = .ok (-1))
    ∧ serve [([bs "SET", bs "k", bs "5", bs "EX", bs "100"], 1000), ([bs "TTL", bs "k"], 1000),
        ([bs "INCR", bs "k"], 2000), ([bs "TTL", bs "k"], 3000),
        ([bs "RPUSH", bs "L", bs "a", bs "b"], 4000), ([bs "EXPIRE", bs "L", bs "50"], 5000),
        ([bs "TTL", bs "L"], 5000), ([bs "LPOP", bs "L"], 6000), ([bs "TTL", bs "L"], 7000)]
        NewDataStore
      = .ok [bs "+OK\r\n", bs ":100\r\n", bs ":6\r\n", bs ":-1\r\n", bs ":2\r\n", bs ":1\r\n",
          bs ":50\r\n", bs "+a\r\n", bs ":-1\r\n"] := by
  have key : ∃ ds ds2,
      HandleCommand NewDataStore [bs "SET", bs "k", bs "5", bs "EX", bs "100"] 1000
        = .ok (strReply "OK", ds)
      ∧ ds.stringStore.TTL (bs "k") 2000 = .ok 99
      ∧ HandleCommand ds [bs "INCR", bs "k"] 2000 = .ok (.atom (.int 6), ds2) :=
    ⟨_, _, rfl, rfl, rfl⟩
  obtain ⟨ds, ds2, h1, h2, h3⟩ := key
  exact ⟨⟨ds, ds2, h1, h2, h3,
    (writes_clear_TTL ds ds2 (bs "k") 2000 (.atom (.int 6))).1 6 (Or.inl h3)⟩, by decide⟩

/-! ## The entries of a table -/

theorem sum_map_set {β : Type} (f : β → Nat) (l : List β) (i : Nat) (x y : β)
    (hi : l[i]? = some y) :
    ((l.set i x).map f).sum + f y = (l.map f).sum + f x := by
  induction l generalizing i with
  | nil => simp at hi
  | cons a l ih =>
    cases i with
    | zero =>
      simp only [List.getElem?_cons_zero, Option.some.injEq] at hi
      subst hi
      simp only [List.set_cons_zero, List.map_cons, List.sum_cons]
      omega
    | succ j =>
      simp only [List.getElem?_cons_succ] at hi
      simp only [List.set_cons_succ, List.map_cons, List.sum_cons]
      have := ih j hi
      omega

theorem entries_length {α : Type} (h : HashTable α) :
    h.entries.length = (h.buckets.map fun b => b.entries.length).sum := by
  unfold HashTable.entries
  rw [List.length_flatten, List.map_map]
  rfl

/-- The number of entries after one bucket has been replaced. -/
theorem entries_length_set {α : Type} (h : HashTable α) (i : Nat) (b nb : Bucket α) (c : Int)
    (hb : h.buckets[i]? = some b) :
    (HashTable.entries { buckets := h.buckets.set i nb, size := h.size, count := c }).length
        + b.entries.length
      = h.entries.length + nb.entries.length := by
  rw [entries_length, entries_length]
  exact sum_map_set (fun b => b.entries.length) h.buckets i nb b hb

theorem mem_entries_set {α : Type} (h : HashTable α) (i : Nat) (nb : Bucket α) (c : Int)
    (e : Sigma fun _ : Bytes => Entry α)
    (he : e ∈ HashTable.entries
      { buckets := h.buckets.set i nb, size := h.size, count := c }) :
    e ∈ nb.entries ∨ e ∈ h.entries := by
  unfold HashTable.entries at he ⊢
  simp only [List.mem_flatten, List.mem_map] at he ⊢
  obtain ⟨l, ⟨b2, hb2, rfl⟩, hel⟩ := he
  obtain ⟨j, hj⟩ := List.mem_iff_getElem?.mp hb2
  rw [List.getElem?_set] at hj
  by_cases hij : i = j
  · rw [if_pos hij] at hj
    split at hj
    · simp only [Option.some.injEq] at hj
      subst hj
      exact Or.inl hel
    · simp at hj
  · rw [if_neg hij] at hj
    exact Or.inr ⟨_, ⟨b2, List.mem_iff_getElem?.mpr ⟨j, hj⟩, rfl⟩, hel⟩

theorem length_kerase_add {α : Type} (l : List (Sigma fun _ : Bytes => Entry α)) (k : Bytes)
    (hk : k ∈ l.keys) : (List.kerase k l).length + 1 = l.length := by
  induction l with
  | nil => simp at hk
  | cons s l ih =>
    by_cases h : k = s.1
    · rw [List.kerase_cons_eq h, List.length_cons]
    · rw [List.kerase_cons_ne h, List.length_cons, List.length_cons]
      have hk2 : k ∈ l.keys := by
        simp only [List.keys_cons, List.mem_cons] at hk
        rcases hk with hk | hk
        · exact absurd hk h
        · exact hk
      rw [ih hk2]

theorem kerase_eq_filter {α : Type} (l : List (Sigma fun _ : Bytes => Entry α)) (k : Bytes)
    (nd : l.NodupKeys) : List.kerase k l = l.filter fun e => decide (e.1 ≠ k) := by
  induction l with
  | nil => rfl
  | cons s l ih =>
    have nd2 := List.nodupKeys_cons.mp nd
    by_cases h : k = s.1
    · rw [List.kerase_cons_eq h]
      have hs : decide (s.1 ≠ k) = false := by simp [h]
      rw [List.filter_cons_of_neg (by simp [h])]
      symm
      rw [List.filter_eq_self]
      intro e he
      have : e.1 ≠ k := by
        intro hek
        apply nd2.1
        rw [← h, ← hek]
        exact List.mem_keys_of_mem he
      simp [this]
    · rw [List.kerase_cons_ne h]
      have hs : s.1 ≠ k := fun hsk => h hsk.symm
      rw [List.filter_cons_of_pos (by simp [hs]), ih nd2.2]

theorem bucket_insert_length {α : Type} (b : Bucket α) (k : Bytes) (e : Entry α) :
    (b.insert k e).entries.length + (if (b.lookup k).isNone then 0 else 1)
      = b.entries.length + 1 := by
  rw [AList.insert_entries, List.length_cons]
  by_cases hk : k ∈ b
  · have hs : (b.lookup k).isSome = true := AList.lookup_isSome.mpr hk
    have hn : (b.lookup k).isNone = false := by
      cases hl : b.lookup k with
      | none => rw [hl] at hs; simp at hs
      | some _ => rfl
    rw [hn]
    have hlen := length_kerase_add b.entries k (AList.mem_keys.mp hk)
    simp only [Bool.false_eq_true, if_false]
    omega
  · have hn : b.lookup k = none := AList.lookup_eq_none.mpr hk
    rw [hn]
    rw [List.kerase_of_not_mem_keys (fun h => hk (AList.mem_keys.mpr h))]
    simp

/-- The table `Expire` returns. -/
theorem Expire_eq {α : Type} (h h2 : HashTable α) (k : Bytes) (ttl now : Int) (r : Bool)
    (hexp : h.Expire k ttl now = .ok (r, h2)) :
    ∃ b, h.bucketOf k = .ok b
      ∧ ((b.lookup k = none ∧ r = false ∧ h2 = h)
        ∨ ∃ e, b.lookup k = some e ∧ r = true
          ∧ h2 = { buckets := h.buckets.set (h.hash k).toNat
                     (b.replace k { Value := e.Value,
                                    Expiration := if ttl > 0 then wrap64 (now + ttl) else 0 })
                   size := h.size
                   count := h.count }) := by
  unfold HashTable.Expire at hexp
  dsimp only at hexp
  cases hb : h.bucketOf k with
  | panic => rw [hb] at hexp; simp at hexp
  | ok b =>
    rw [hb] at hexp
    simp only at hexp
    refine ⟨b, rfl, ?_⟩
    cases hl : b.lookup k with
    | none =>
      rw [hl] at hexp
      simp only [Outcome.ok.injEq, Prod.mk.injEq] at hexp
      exact Or.inl ⟨rfl, hexp.1.symm, hexp.2.symm⟩
    | some e =>
      rw [hl] at hexp
      simp only [Outcome.ok.injEq, Prod.mk.injEq] at hexp
      exact Or.inr ⟨e, rfl, hexp.1.symm, hexp.2.symm⟩

theorem mem_kreplace {α : Type} (l : List (Sigma fun _ : Bytes => Entry α)) (k : Bytes)
    (v : Entry α) (e : Sigma fun _ : Bytes => Entry α) (he : e ∈ List.kreplace k v l) :
    e = ⟨k, v⟩ ∨ e ∈ l := by
  induction l with
  | nil => simp [List.kreplace] at he
  | cons s l ih =>
    by_cases hs : k = s.1
    · have hk : List.kreplace k v (s :: l) = ⟨k, v⟩ :: l :=
        List.lookmap_cons_some _ _ (if_pos hs)
      rw [hk, List.mem_cons] at he
      rcases he with he | he
      · exact Or.inl he
      · exact Or.inr (List.mem_cons_of_mem _ he)
    · have hk : List.kreplace k v (s :: l) = s :: List.kreplace k v l :=
        List.lookmap_cons_none _ _ (if_neg hs)
      rw [hk, List.mem_cons] at he
      rcases he with he | he
      · exact Or.inr (by rw [he]; exact List.mem_cons_self _ _)
      · rcases ih he with h | h
        · exact Or.inl h
        · exact Or.inr (List.mem_cons_of_mem _ h)

theorem bucket_replace_length {α : Type} (b : Bucket α) (k : Bytes) (v : Entry α) :
    (b.replace k v).entries.length = b.entries.length := by
  show (List.kreplace k v b.entries).length = _
  unfold List.kreplace
  rw [List.length_lookmap]

theorem mem_bucket_insert {α : Type} (b : Bucket α) (k : Bytes) (v : Entry α)
    (e : Sigma fun _ : Bytes => Entry α) (he : e ∈ (b.insert k v).entries) :
    e = ⟨k, v⟩ ∨ e ∈ b.entries := by
  rw [AList.insert_entries, List.mem_cons] at he
  rcases he with he | he
  · exact Or.inl he
  · exact Or.inr ((List.kerase_sublist k b.entries).subset he)

/-- What `RemoveExpired` leaves of one bucket: the entries that are not expired. -/
theorem bucket_sweep {α : Type} (b : Bucket α) (t : Int) :
    ((b.expiredKeys t).foldl (fun b key => b.erase key) b).entries
      = b.entries.filter fun e => ! e.2.expired t := by
  have hgen : ∀ (K : List Bytes) (b : Bucket α),
      (K.foldl (fun b key => b.erase key) b).entries
        = b.entries.filter fun e => decide (e.1 ∉ K) := by
    intro K
    induction K with
    | nil => intro b; simp
    | cons a K ih =>
      intro b
      rw [List.foldl_cons, ih]
      show List.filter _ (List.kerase a b.entries) = _
      rw [kerase_eq_filter b.entries a b.nodupKeys, List.filter_filter]
      apply List.filter_congr
      intro e _
      simp only [List.mem_cons, not_or, ne_eq]
      by_cases h1 : e.1 = a <;> by_cases h2 : e.1 ∈ K <;> simp [h1, h2]
  rw [hgen]
  apply List.filter_congr
  intro e he
  have hiff : e.1 ∈ b.expiredKeys t ↔ (e.2.Expiration > 0 ∧ t > e.2.Expiration) := by
    unfold Bucket.expiredKeys
    constructor
    · intro hm
      obtain ⟨e2, he2, hfst⟩ := List.mem_map.mp hm
      obtain ⟨he2m, he2x⟩ := List.mem_filter.mp he2
      have : e2 = e := b.nodupKeys.eq_of_fst_eq he2m he hfst
      subst this
      simpa using he2x
    · intro hx
      exact List.mem_map.mpr ⟨e, List.mem_filter.mpr ⟨he, by simpa using hx⟩, rfl⟩
  unfold Entry.expired
  by_cases hx : e.2.Expiration > 0 ∧ t > e.2.Expiration
  · have hm : e.1 ∈ b.expiredKeys t := hiff.mpr hx
    rw [decide_eq_false (not_not.mpr hm), decide_eq_true hx]
    rfl
  · have hm : e.1 ∉ b.expiredKeys t := fun h => hx (hiff.mp h)
    rw [decide_eq_true hm, decide_eq_false hx]
    rfl

/-- What `RemoveExpired` does to the entries and to the count. -/
theorem RemoveExpired_spec {α : Type} (h : HashTable α) (t : Int) :
    (h.RemoveExpired t).1 = ((h.entries.filter fun e => e.2.expired t).length : Int)
    ∧ (h.RemoveExpired t).2.entries = h.entries.filter (fun e => ! e.2.expired t)
    ∧ (h.RemoveExpired t).2.count
        = h.count - ((h.entries.filter fun e => e.2.expired t).length : Int)
    ∧ (h.RemoveExpired t).2.size = h.size := by
  have hrem : (h.buckets.map fun bucket => (bucket.expiredKeys t).length).sum
      = (h.entries.filter fun e => e.2.expired t).length := by
    unfold HashTable.entries
    rw [List.filter_flatten, List.length_flatten, List.map_map, List.map_map]
    congr 1
    apply List.map_congr_left
    intro b _
    simp only [Function.comp, Bucket.expiredKeys, List.length_map]
    rfl
  refine ⟨?_, ?_, ?_, rfl⟩
  · unfold HashTable.RemoveExpired
    simp only
    rw [hrem]
  · unfold HashTable.RemoveExpired HashTable.entries
    simp only
    rw [List.filter_flatten, List.map_map, List.map_map]
    congr 1
    apply List.map_congr_left
    intro b _
    exact bucket_sweep b t
  · unfold HashTable.RemoveExpired
    simp only
    rw [hrem]

theorem Set_count {α : Type} (h h2 : HashTable α) (k : Bytes) (v : α) (ttl t0 : Int)
    (hset : h.Set k v ttl t0 = .ok h2) :
    ∃ b, h.bucketOf k = .ok b
      ∧ h2.count = h.count + (if (b.lookup k).isNone then 1 else 0)
      ∧ (h2.entries.length : Int)
          = h.entries.length + (if (b.lookup k).isNone then 1 else 0) := by
  obtain ⟨b, hb, rfl⟩ := Set_eq h h2 k v ttl t0 hset
  obtain ⟨_, _, hget⟩ := bucketOf_ok h k b hb
  refine ⟨b, hb, ?_, ?_⟩
  · by_cases hn : (b.lookup k).isNone = true
    · simp [hn]
    · simp [hn]
  · have h1 := entries_length_set h (h.hash k).toNat b
      (b.insert k { Value := v, Expiration := if ttl > 0 then wrap64 (t0 + ttl) else 0 })
      (if (b.lookup k).isNone then h.count + 1 else h.count) hget
    have h3 := bucket_insert_length b k
      { Value := v, Expiration := if ttl > 0 then wrap64 (t0 + ttl) else 0 }
    by_cases hn : (b.lookup k).isNone = true
    · simp only [hn, if_true] at h1 h3 ⊢
      omega
    · simp only [hn, Bool.false_eq_true, if_false] at h1 h3 ⊢
      omega

theorem Delete_count {α : Type} (h h2 : HashTable α) (k : Bytes) (d : Bool)
    (hdel : h.Delete k = .ok (d, h2)) :
    h2.count = h.count - (if d then 1 else 0)
    ∧ (h2.entries.length : Int) = h.entries.length - (if d then 1 else 0) := by
  obtain ⟨b, hb, hd, h2eq⟩ := Delete_eq h h2 k d hdel
  obtain ⟨_, _, hget⟩ := bucketOf_ok h k b hb
  by_cases hl : (b.lookup k).isSome = true
  · rw [if_pos hl] at h2eq
    rw [hl] at hd
    subst hd h2eq
    refine ⟨by simp, ?_⟩
    have h1 := entries_length_set h (h.hash k).toNat b (b.erase k) (h.count - 1) hget
    have h3 : (b.erase k).entries.length + 1 = b.entries.length :=
      length_kerase_add b.entries k (AList.mem_keys.mp (AList.lookup_isSome.mp hl))
    simp only [if_true]
    omega
  · rw [if_neg hl] at h2eq
    simp only [Bool.not_eq_true] at hl
    rw [hl] at hd
    subst hd h2eq
    simp

theorem Expire_count {α : Type} (h h2 : HashTable α) (k : Bytes) (ttl now : Int) (r : Bool)
    (hexp : h.Expire k ttl now = .ok (r, h2)) :
    h2.count = h.count ∧ h2.entries.length = h.entries.length := by
  obtain ⟨b, hb, hcase⟩ := Expire_eq h h2 k ttl now r hexp
  obtain ⟨_, _, hget⟩ := bucketOf_ok h k b hb
  rcases hcase with ⟨_, _, rfl⟩ | ⟨e, _, _, rfl⟩
  · exact ⟨rfl, rfl⟩
  · refine ⟨rfl, ?_⟩
    have h1 := entries_length_set h (h.hash k).toNat b
      (b.replace k { Value := e.Value,
                     Expiration := if ttl > 0 then wrap64 (now + ttl) else 0 }) h.count hget
    rw [bucket_replace_length] at h1
    omega

/-- Each call keeps the count equal to the number of stored entries. -/
theorem step_count {α : Type} (h h2 : HashTable α) (op : TableOp α)
    (hstep : h.step op = .ok h2) (hinv : h.count = (h.entries.length : Int)) :
    h2.count = (h2.entries.length : Int) := by
  cases op with
  | Set key value ttl now =>
    obtain ⟨b, _, hc, hl⟩ := Set_count h h2 key value ttl now hstep
    rw [hc, hl, hinv]
  | Delete key =>
    obtain ⟨r, hr, h3⟩ := Outcome.bind_eq_ok _ _ _ hstep
    simp only [Outcome.ok.injEq] at h3
    subst h3
    obtain ⟨hc, hl⟩ := Delete_count h r.2 key r.1 hr
    rw [hc, hl, hinv]
  | Expire key ttl now =>
    obtain ⟨r, hr, h3⟩ := Outcome.bind_eq_ok _ _ _ hstep
    simp only [Outcome.ok.injEq] at h3
    subst h3
    obtain ⟨hc, hl⟩ := Expire_count h r.2 key ttl now r.1 hr
    rw [hc, hl, hinv]
  | RemoveExpired now =>
    simp only [HashTable.step, Outcome.ok.injEq] at hstep
    subst hstep
    obtain ⟨_, he, hc, _⟩ := RemoveExpired_spec h now
    rw [hc, he, hinv]
    have := List.length_eq_length_filter_add (l := h.entries) (fun e => e.2.expired now)
    omega

theorem NewHashTable_entries {α : Type} (size : Int) :
    (NewHashTable size : HashTable α).entries = [] := by
  unfold NewHashTable HashTable.entries
  simp only [List.map_replicate]
  exact List.flatten_replicate_nil

theorem run_count {α : Type} (ops : List (TableOp α)) :
    ∀ (h h2 : HashTable α), h.run ops = .ok h2 → h.count = (h.entries.length : Int) →
      h2.count = (h2.entries.length : Int) := by
  induction ops with
  | nil =>
    intro h h2 hrun hinv
    simp only [HashTable.run, Outcome.ok.injEq] at hrun
    rw [← hrun]
    exact hinv
  | cons op ops ih =>
    intro h h2 hrun hinv
    simp only [HashTable.run] at hrun
    obtain ⟨h1, hstep, hrest⟩ := Outcome.bind_eq_ok _ _ _ hrun
    exact ih h1 h2 hrest (step_count h h1 op hstep hinv)

theorem mem_entries_of_bucket {α : Type} (h : HashTable α) (i : Nat) (b : Bucket α)
    (hb : h.buckets[i]? = some b) (e : Sigma fun _ : Bytes => Entry α) (he : e ∈ b.entries) :
    e ∈ h.entries := by
  unfold HashTable.entries
  simp only [List.mem_flatten, List.mem_map]
  exact ⟨_, ⟨b, List.mem_iff_getElem?.mpr ⟨i, hb⟩, rfl⟩, he⟩

theorem nonneg_set {α : Type} (h : HashTable α) (i : Nat) (b nb : Bucket α) (c : Int)
    (hn : ∀ e ∈ h.entries, 0 ≤ e.2.Expiration) (hb : h.buckets[i]? = some b)
    (hnb : ∀ e ∈ nb.entries, e ∈ b.entries ∨ 0 ≤ e.2.Expiration) :
    ∀ e ∈ HashTable.entries { buckets := h.buckets.set i nb, size := h.size, count := c },
      0 ≤ e.2.Expiration := by
  intro e he
  rcases mem_entries_set h i nb c e he with h1 | h1
  · rcases hnb e h1 with h2 | h2
    · exact hn e (mem_entries_of_bucket h i b hb e h2)
    · exact h2
  · exact hn e h1

theorem deadline_nonneg (ttl now : Int) (h0 : 0 ≤ now) (hlt : 0 < ttl → now + ttl < 2 ^ 63) :
    0 ≤ (if ttl > 0 then wrap64 (now + ttl) else 0) := by
  by_cases ht : ttl > 0
  · rw [if_pos ht, wrap64_of_inInt64 _ (by unfold inInt64; have := hlt ht; omega)]
    omega
  · rw [if_neg ht]

/-- A timely call keeps every stored expiration non-negative. -/
theorem step_nonneg {α : Type} (h h2 : HashTable α) (op : TableOp α) (htime : op.timely)
    (hstep : h.step op = .ok h2) (hn : ∀ e ∈ h.entries, 0 ≤ e.2.Expiration) :
    ∀ e ∈ h2.entries, 0 ≤ e.2.Expiration := by
  cases op with
  | Set key value ttl now =>
    obtain ⟨b, hb, rfl⟩ := Set_eq h h2 key value ttl now hstep
    obtain ⟨_, _, hget⟩ := bucketOf_ok h key b hb
    apply nonneg_set h _ b _ _ hn hget
    intro e he
    rcases mem_bucket_insert b key _ e he with h1 | h1
    · right
      rw [h1]
      exact deadline_nonneg ttl now htime.1 htime.2
    · exact Or.inl h1
  | Delete key =>
    obtain ⟨r, hr, h3⟩ := Outcome.bind_eq_ok _ _ _ hstep
    simp only [Outcome.ok.injEq] at h3
    subst h3
    obtain ⟨b, hb, _, h2eq⟩ := Delete_eq h r.2 key r.1 hr
    obtain ⟨_, _, hget⟩ := bucketOf_ok h key b hb
    by_cases hl : (b.lookup key).isSome = true
    · rw [if_pos hl] at h2eq
      rw [h2eq]
      apply nonneg_set h _ b _ _ hn hget
      intro e he
      exact Or.inl ((List.kerase_sublist key b.entries).subset he)
    · rw [if_neg hl] at h2eq
      rw [h2eq]
      exact hn
  | Expire key ttl now =>
    obtain ⟨r, hr, h3⟩ := Outcome.bind_eq_ok _ _ _ hstep
    simp only [Outcome.ok.injEq] at h3
    subst h3
    obtain ⟨b, hb, hcase⟩ := Expire_eq h r.2 key ttl now r.1 hr
    obtain ⟨_, _, hget⟩ := bucketOf_ok h key b hb
    rcases hcase with ⟨_, _, h2eq⟩ | ⟨e0, _, _, h2eq⟩
    · rw [h2eq]; exact hn
    · rw [h2eq]
      apply nonneg_set h _ b _ _ hn hget
      intro e he
      rcases mem_kreplace b.entries key _ e he with h1 | h1
      · right
        rw [h1]
        exact deadline_nonneg ttl now htime.1 htime.2
      · exact Or.inl h1
  | RemoveExpired now =>
    simp only [HashTable.step, Outcome.ok.injEq] at hstep
    subst hstep
    obtain ⟨_, he, _, _⟩ := RemoveExpired_spec h now
    intro e hmem
    rw [he] at hmem
    exact hn e (List.mem_filter.mp hmem).1

theorem run_nonneg {α : Type} (ops : List (TableOp α)) :
    ∀ (h h2 : HashTable α), (∀ op ∈ ops, op.timely) → h.run ops = .ok h2 →
      (∀ e ∈ h.entries, 0 ≤ e.2.Expiration) → ∀ e ∈ h2.entries, 0 ≤ e.2.Expiration := by
  induction ops with
  | nil =>
    intro h h2 _ hrun hinv
    simp only [HashTable.run, Outcome.ok.injEq] at hrun
    rw [← hrun]
    exact hinv
  | cons op ops ih =>
    intro h h2 htime hrun hinv
    simp only [HashTable.run] at hrun
    obtain ⟨h1, hstep, hrest⟩ := Outcome.bind_eq_ok _ _ _ hrun
    exact ih h1 h2 (fun o ho => htime o (List.mem_cons_of_mem _ ho)) hrest
      (step_nonneg h h1 op (htime op (List.mem_cons_self _ _)) hstep hinv)

theorem placed_set {α : Type} (h : HashTable α) (i : Nat) (b nb : Bucket α) (c : Int)
    (hp : h.placed) (hb : h.buckets[i]? = some b)
    (hkeys : ∀ key ∈ nb.keys, key ∈ b.keys ∨ (0 ≤ h.hash key ∧ (h.hash key).toNat = i)) :
    HashTable.placed { buckets := h.buckets.set i nb, size := h.size, count := c } := by
  refine ⟨hp.1, ?_⟩
  intro j b2 hj key hkey
  show 0 ≤ h.hash key ∧ (h.hash key).toNat = j
  simp only [List.getElem?_set] at hj
  by_cases hij : i = j
  · rw [if_pos hij] at hj
    split at hj
    · simp only [Option.some.injEq] at hj
      subst hj
      rcases hkeys key hkey with h1 | h1
      · rw [← hij]
        exact hp.2 i b hb key h1
      · rw [← hij]
        exact h1
    · simp at hj
  · rw [if_neg hij] at hj
    exact hp.2 j b2 hj key hkey

/-- Each call keeps every key in the bucket its hash selects. -/
theorem step_placed {α : Type} (h h2 : HashTable α) (op : TableOp α)
    (hstep : h.step op = .ok h2) (hp : h.placed) : h2.placed := by
  cases op with
  | Set key value ttl now =>
    obtain ⟨b, hb, rfl⟩ := Set_eq h h2 key value ttl now hstep
    obtain ⟨_, h0, hget⟩ := bucketOf_ok h key b hb
    apply placed_set h _ b _ _ hp hget
    intro k2 hk2
    rcases (AList.mem_insert b).mp (AList.mem_keys.mpr hk2) with h1 | h1
    · right
      rw [h1]
      exact ⟨h0, rfl⟩
    · exact Or.inl (AList.mem_keys.mp h1)
  | Delete key =>
    obtain ⟨r, hr, h3⟩ := Outcome.bind_eq_ok _ _ _ hstep
    simp only [Outcome.ok.injEq] at h3
    subst h3
    obtain ⟨b, hb, _, h2eq⟩ := Delete_eq h r.2 key r.1 hr
    obtain ⟨_, _, hget⟩ := bucketOf_ok h key b hb
    by_cases hl : (b.lookup key).isSome = true
    · rw [if_pos hl] at h2eq
      rw [h2eq]
      apply placed_set h _ b _ _ hp hget
      intro k2 hk2
      exact Or.inl (AList.mem_keys.mp (AList.mem_erase.mp (AList.mem_keys.mpr hk2)).2)
    · rw [if_neg hl] at h2eq
      rw [h2eq]
      exact hp
  | Expire key ttl now =>
    obtain ⟨r, hr, h3⟩ := Outcome.bind_eq_ok _ _ _ hstep
    simp only [Outcome.ok.injEq] at h3
    subst h3
    obtain ⟨b, hb, hcase⟩ := Expire_eq h r.2 key ttl now r.1 hr
    obtain ⟨_, _, hget⟩ := bucketOf_ok h key b hb
    rcases hcase with ⟨_, _, h2eq⟩ | ⟨e0, _, _, h2eq⟩
    · rw [h2eq]; exact hp
    · rw [h2eq]
      apply placed_set h _ b _ _ hp hget
      intro k2 hk2
      rw [AList.keys_replace] at hk2
      exact Or.inl hk2
  | RemoveExpired now =>
    simp only [HashTable.step, Outcome.ok.injEq] at hstep
    subst hstep
    refine ⟨hp.1, ?_⟩
    intro j b2 hj key hkey
    show 0 ≤ h.hash key ∧ (h.hash key).toNat = j
    unfold HashTable.RemoveExpired at hj
    simp only [List.getElem?_map, Option.map_eq_some'] at hj
    obtain ⟨b, hb, rfl⟩ := hj
    apply hp.2 j b hb key
    unfold AList.keys List.keys at hkey ⊢
    rw [bucket_sweep] at hkey
    obtain ⟨e, he, rfl⟩ := List.mem_map.mp hkey
    exact List.mem_map.mpr ⟨e, (List.mem_filter.mp he).1, rfl⟩

theorem NewHashTable_placed {α : Type} (size : Int) : (NewHashTable size : HashTable α).placed := by
  unfold NewHashTable HashTable.placed
  simp only
  refine ⟨?_, ?_⟩
  · split <;> omega
  · intro i b hb key hkey
    have hmem : b ∈ List.replicate (if size ≤ 0 then 1024 else size).toNat (∅ : Bucket α) :=
      List.mem_iff_getElem?.mpr ⟨i, hb⟩
    rw [List.eq_of_mem_replicate hmem] at hkey
    simp at hkey

theorem run_placed {α : Type} (ops : List (TableOp α)) :
    ∀ (h h2 : HashTable α), h.run ops = .ok h2 → h.placed → h2.placed := by
  induction ops with
  | nil =>
    intro h h2 hrun hinv
    simp only [HashTable.run, Outcome.ok.injEq] at hrun
    rw [← hrun]
    exact hinv
  | cons op ops ih =>
    intro h h2 hrun hinv
    simp only [HashTable.run] at hrun
    obtain ⟨h1, hstep, hrest⟩ := Outcome.bind_eq_ok _ _ _ hrun
    exact ih h1 h2 hrest (step_placed h h1 op hstep hinv)

/-- In a table whose keys are in place, a key is live exactly when `Exists` finds it. -/
theorem live_iff_Exists {α : Type} (h : HashTable α) (k : Bytes) (t : Int) :
    (h.Exists k t = .ok true → h.live k t)
    ∧ (h.placed → h.live k t → h.Exists k t = .ok true) := by
  constructor
  · intro hex
    cases hb : h.bucketOf k with
    | panic =>
      rw [Exists_via_bucket, hb] at hex
      simp [Outcome.bind] at hex
    | ok b =>
      obtain ⟨_, _, hget⟩ := bucketOf_ok h k b hb
      rw [Exists_eq_bucket h k t b hb] at hex
      simp only [Outcome.ok.injEq] at hex
      unfold Bucket.get at hex
      cases hl : b.lookup k with
      | none => rw [hl] at hex; simp at hex
      | some e =>
        rw [hl] at hex
        refine ⟨e, mem_entries_of_bucket h _ b hget _ (AList.mem_lookup_iff.mp hl), ?_⟩
        unfold Entry.expired
        by_cases hx : e.Expiration > 0 ∧ t > e.Expiration
        · simp [hx] at hex
        · simp [hx]
  · intro hp ⟨e, he, hlive⟩
    unfold HashTable.entries at he
    simp only [List.mem_flatten, List.mem_map] at he
    obtain ⟨l, ⟨b, hbm, rfl⟩, hel⟩ := he
    obtain ⟨i, hi⟩ := List.mem_iff_getElem?.mp hbm
    have hkey : k ∈ b.keys := List.mem_keys_of_mem hel
    obtain ⟨h0, hidx⟩ := hp.2 i b hi k hkey
    have hb : h.bucketOf k = .ok b := by
      unfold HashTable.bucketOf HashTable.bucketAt
      rw [if_neg hp.1, if_pos h0, hidx, hi]
    rw [Exists_eq_bucket h k t b hb]
    have hl : b.lookup k = some e := AList.mem_lookup_iff.mpr hel
    unfold Bucket.get
    rw [hl]
    unfold Entry.expired at hlive
    simp only [decide_eq_false_iff_not] at hlive
    simp [hlive]

/-- In a table whose keys are in place, a key is stored exactly when the bucket its
hash selects holds it. -/
theorem stored_iff_lookup {α : Type} (h : HashTable α) (k : Bytes) (b : Bucket α)
    (hp : h.placed) (hb : h.bucketOf k = .ok b) :
    k ∈ h.entries.keys ↔ (b.lookup k).isSome = true := by
  obtain ⟨_, _, hget⟩ := bucketOf_ok h k b hb
  constructor
  · intro hk
    obtain ⟨e, he⟩ := List.exists_of_mem_keys hk
    unfold HashTable.entries at he
    simp only [List.mem_flatten, List.mem_map] at he
    obtain ⟨l, ⟨b2, hbm, rfl⟩, hel⟩ := he
    obtain ⟨i, hi⟩ := List.mem_iff_getElem?.mp hbm
    obtain ⟨_, hidx⟩ := hp.2 i b2 hi k (List.mem_keys_of_mem hel)
    rw [hidx, hi] at hget
    simp only [Option.some.injEq] at hget
    subst hget
    exact AList.lookup_isSome.mpr (AList.mem_keys.mpr (List.mem_keys_of_mem hel))
  · intro hs
    have hk : k ∈ b.keys := AList.mem_keys.mp (AList.lookup_isSome.mp hs)
    obtain ⟨e, he⟩ := List.exists_of_mem_keys hk
    exact List.mem_keys_of_mem (mem_entries_of_bucket h _ b hget _ he)

/-- C27 (count invariant): in every table that a sequence of `Set`, `Delete`, `Expire`
and `RemoveExpired` calls has produced from `NewHashTable`, `Count()` is the number of
entries stored in the buckets.  A further `Set` adds one to it exactly for a key that is
not stored, `Delete` takes one off exactly when it removes an entry, `Expire` leaves it.
`RemoveExpired` at `t` returns the number of entries that are expired at `t`, leaves
exactly the other entries, and `Count()` is then their number; when all calls were made
at non-negative clock readings with deadlines inside the 64-bit range, no stored
expiration is negative, and the entries `RemoveExpired` takes are those whose expiration
is set and earlier than `t`. -/
theorem Count_invariant {α : Type} (size : Int) (ops : List (TableOp α)) (tbl : HashTable α)
    (hrun : (NewHashTable size).run ops = .ok tbl) :
    tbl.Count = (tbl.entries.length : Int)
    ∧ (∀ key value ttl now tbl2, tbl.Set key value ttl now = .ok tbl2 →
        (key ∈ tbl.entries.keys → tbl2.Count = tbl.Count)
        ∧ (key ∉ tbl.entries.keys → tbl2.Count = tbl.Count + 1))
    ∧ (∀ key d tbl2, tbl.Delete key = .ok (d, tbl2) →
        (d = true ↔ key ∈ tbl.entries.keys)
        ∧ tbl2.Count = tbl.Count - (if d then 1 else 0))
    ∧ (∀ key ttl now r tbl2, tbl.Expire key ttl now = .ok (r, tbl2) → tbl2.Count = tbl.Count)
    ∧ (∀ t, (tbl.RemoveExpired t).1 = ((tbl.entries.filter fun e => e.2.expired t).length : Int)
        ∧ (tbl.RemoveExpired t).2.entries = tbl.entries.filter (fun e => ! e.2.expired t)
        ∧ (tbl.RemoveExpired t).2.Count
            = ((tbl.entries.filter fun e => ! e.2.expired t).length : Int))
    ∧ ((∀ op ∈ ops, op.timely) →
        (∀ e ∈ tbl.entries, 0 ≤ e.2.Expiration)
        ∧ ∀ t, (tbl.RemoveExpired t).1
            = ((tbl.entries.filter
                fun e => decide (e.2.Expiration ≠ 0 ∧ e.2.Expiration < t)).length : Int)) := by
  have hcount : tbl.count = (tbl.entries.length : Int) :=
    run_count ops _ tbl hrun (by rw [NewHashTable_entries]; rfl)
  have hplaced : tbl.placed := run_placed ops _ tbl hrun (NewHashTable_placed size)
  refine ⟨hcount, ?_, ?_, ?_, ?_, ?_⟩
  · intro key value ttl now tbl2 hset
    obtain ⟨b, hb, hc, _⟩ := Set_count tbl tbl2 key value ttl now hset
    have hiff := stored_iff_lookup tbl key b hplaced hb
    constructor
    · intro hk
      have hs := hiff.mp hk
      have hn : (b.lookup key).isNone = false := by
        cases hl : b.lookup key with
        | none => rw [hl] at hs; simp at hs
        | some _ => rfl
      show tbl2.count = tbl.count
      rw [hc, hn]
      simp
    · intro hk
      have hn : (b.lookup key).isNone = true := by
        cases hl : b.lookup key with
        | none => rfl
        | some e => exact absurd (hiff.mpr (by rw [hl]; rfl)) hk
      show tbl2.count = tbl.count + 1
      rw [hc, hn]
      simp
  · intro key d tbl2 hdel
    obtain ⟨b, hb, hd, _⟩ := Delete_eq tbl tbl2 key d hdel
    have hiff := stored_iff_lookup tbl key b hplaced hb
    refine ⟨?_, (Delete_count tbl tbl2 key d hdel).1⟩
    rw [hd]
    exact hiff.symm
  · intro key ttl now r tbl2 hexp
    exact (Expire_count tbl tbl2 key ttl now r hexp).1
  · intro t
    obtain ⟨h1, h2, h3, _⟩ := RemoveExpired_spec tbl t
    refine ⟨h1, h2, ?_⟩
    show (tbl.RemoveExpired t).2.count = _
    rw [h3, hcount]
    have := List.length_eq_length_filter_add (l := tbl.entries) (fun e => e.2.expired t)
    omega
  · intro htime
    have hnn : ∀ e ∈ tbl.entries, 0 ≤ e.2.Expiration :=
      run_nonneg ops _ tbl htime hrun (by rw [NewHashTable_entries]; simp)
    refine ⟨hnn, fun t => ?_⟩
    rw [(RemoveExpired_spec tbl t).1]
    congr 2
    apply List.filter_congr
    intro e he
    have h0 := hnn e he
    unfold Entry.expired
    by_cases hx : e.2.Expiration > 0 ∧ t > e.2.Expiration
    · have hy : e.2.Expiration ≠ 0 ∧ e.2.Expiration < t := ⟨by omega, by omega⟩
      rw [decide_eq_true hx, decide_eq_true hy]
    · have hy : ¬ (e.2.Expiration ≠ 0 ∧ e.2.Expiration < t) := by
        intro hy
        exact hx ⟨by omega, by omega⟩
      rw [decide_eq_false hx, decide_eq_false hy]

set_option maxRecDepth 100000 in
/-- C27 on a table of 8 buckets after `Set a`, `Set b` (lifetime 5 ns at reading 2),
`Set a` again, `Set c` and `Delete c`: the count is 2; `RemoveExpired` at reading 100
returns 1 and leaves the count 1. -/
theorem Count_invariant_witness :
    ∃ tbl : HashTable Bytes,
      (NewHashTable 8).run [.Set (bs "a") (bs "v") 0 1, .Set (bs "b") (bs "v") 5 2,
        .Set (bs "a") (bs "w") 0 3, .Set (bs "c") (bs "x") 0 4, .Delete (bs "c")] = .ok tbl
      ∧ tbl.Count = 2
      ∧ tbl.Count = (tbl.entries.length : Int)
      ∧ (tbl.RemoveExpired 100).1 = 1
      ∧ (tbl.RemoveExpired 100).1
          = ((tbl.entries.filter
              fun e => decide (e.2.Expiration ≠ 0 ∧ e.2.Expiration < 100)).length : Int)
      ∧ (tbl.RemoveExpired 100).2.Count = 1 := by
  have key : ∃ tbl : HashTable Bytes,
      (NewHashTable 8).run [.Set (bs "a") (bs "v") 0 1, .Set (bs "b") (bs "v") 5 2,
        .Set (bs "a") (bs "w") 0 3, .Set (bs "c") (bs "x") 0 4, .Delete (bs "c")] = .ok tbl
      ∧ tbl.Count = 2 ∧ (tbl.RemoveExpired 100).1 = 1 ∧ (tbl.RemoveExpired 100).2.Count = 1 :=
    ⟨_, rfl, rfl, rfl, rfl⟩
  obtain ⟨tbl, hrun, h2, h3, h4⟩ := key
  have hthm := Count_invariant 8 _ tbl hrun
  refine ⟨tbl, hrun, h2, hthm.1, h3, ?_, h4⟩
  exact (hthm.2.2.2.2.2 (by
    intro op hop
    simp only [List.mem_cons, List.mem_singleton, List.not_mem_nil, or_false] at hop
    rcases hop with h | h | h | h | h <;> subst h <;> simp [TableOp.timely])).2 100

/-! ## KEYS and DBSIZE -/

/-- The keys `HashTable.Keys` reports: those of the live entries that match. -/
theorem mem_table_Keys {α : Type} (h : HashTable α) (p k : Bytes) (t : Int) :
    k ∈ h.Keys p t ↔ h.live k t ∧ matchesPattern k p = true := by
  unfold HashTable.Keys HashTable.live HashTable.entries Bucket.liveKeys Entry.expired
  constructor
  · intro hk
    obtain ⟨l, hl, hkl⟩ := List.mem_flatten.mp hk
    obtain ⟨b, hb, rfl⟩ := List.mem_map.mp hl
    obtain ⟨e, he, rfl⟩ := List.mem_map.mp hkl
    obtain ⟨hmem, hcond⟩ := List.mem_filter.mp he
    simp only [decide_eq_true_eq] at hcond
    refine ⟨⟨e.2, List.mem_flatten.mpr ⟨_, List.mem_map.mpr ⟨b, hb, rfl⟩, hmem⟩, ?_⟩, hcond.2⟩
    exact decide_eq_false hcond.1
  · rintro ⟨⟨e, he, hlive⟩, hmatch⟩
    obtain ⟨l, hl, hel⟩ := List.mem_flatten.mp he
    obtain ⟨b, hb, rfl⟩ := List.mem_map.mp hl
    simp only [decide_eq_false_iff_not] at hlive
    refine List.mem_flatten.mpr ⟨_, List.mem_map.mpr ⟨b, hb, rfl⟩, ?_⟩
    refine List.mem_map.mpr ⟨⟨k, e⟩, List.mem_filter.mpr ⟨hel, ?_⟩, rfl⟩
    exact decide_eq_true ⟨hlive, hmatch⟩

theorem count_bytes (k : Bytes) (l : List Bytes) (hnd : l.Nodup) (hk : k ∈ l) :
    l.count k = 1 := by
  induction l with
  | nil => simp at hk
  | cons a l ih =>
    have hnd2 := List.nodup_cons.mp hnd
    rw [List.count_cons]
    by_cases ha : a = k
    · subst ha
      have h0 : List.count a l = 0 := by
        rw [List.count_eq_zero]
        exact hnd2.1
      rw [h0]
      simp
    · have hk2 : k ∈ l := by
        rcases List.mem_cons.mp hk with h | h
        · exact absurd h.symm ha
        · exact h
      rw [ih hnd2.2 hk2]
      have : (a == k) = false := by
        rw [beq_eq_false_iff_ne]
        exact ha
      rw [this]
      simp

theorem matchesPattern_star (k : Bytes) : matchesPattern k (bs "*") = true := by
  unfold matchesPattern
  rw [if_pos (by decide)]

theorem mem_Keys (ds : DataStore) (p k : Bytes) (t : Int) :
    k ∈ ds.Keys p t ↔
      (ds.stringStore.live k t ∨ ds.listStore.live k t ∨ ds.setStore.live k t
        ∨ ds.hashStore.live k t) ∧ matchesPattern k p = true := by
  unfold DataStore.Keys
  rw [List.mem_dedup]
  simp only [List.mem_append, mem_table_Keys]
  tauto

theorem HandleCommand_DBSIZE (ds : DataStore) (args : List Bytes) (now : Int) :
    HandleCommand ds (bs "DBSIZE" :: args) now = handleDBSize ds args now := rfl

/-- C21 (KEYS is a deduplicated filtered union): `DataStore.Keys(p)` at `t` holds no key
twice, and holds `k` exactly when one of the four tables stores an entry for `k` that is
not expired at `t` and `matchesPattern(k, p)` is true.  A key that is live in one or in
several tables is once in `Keys("*")`.  A key that `Exists` finds in a table and that
matches is in the result, and in tables whose keys are in the buckets their hashes select
every key of the result is found by `Exists` in some table.  `DBSIZE` replies with the
number of distinct live keys. -/
theorem Keys_dedup_union (ds : DataStore) (p : Bytes) (t : Int) :
    (ds.Keys p t).Nodup
    ∧ (∀ k, k ∈ ds.Keys p t ↔
        (ds.stringStore.live k t ∨ ds.listStore.live k t ∨ ds.setStore.live k t
          ∨ ds.hashStore.live k t) ∧ matchesPattern k p = true)
    ∧ (∀ k, (ds.stringStore.live k t ∨ ds.listStore.live k t ∨ ds.setStore.live k t
          ∨ ds.hashStore.live k t) → (ds.Keys (bs "*") t).count k = 1)
    ∧ (∀ k, (ds.stringStore.Exists k t = .ok true ∨ ds.listStore.Exists k t = .ok true
          ∨ ds.setStore.Exists k t = .ok true ∨ ds.hashStore.Exists k t = .ok true) →
        matchesPattern k p = true → k ∈ ds.Keys p t)
    ∧ (ds.stringStore.placed → ds.listStore.placed → ds.setStore.placed →
        ds.hashStore.placed → ∀ k, k ∈ ds.Keys p t →
          ds.stringStore.Exists k t = .ok true ∨ ds.listStore.Exists k t = .ok true
            ∨ ds.setStore.Exists k t = .ok true ∨ ds.hashStore.Exists k t = .ok true)
    ∧ (∀ args, ∃ keys : Finset Bytes,
        (∀ k, k ∈ keys ↔ (ds.stringStore.live k t ∨ ds.listStore.live k t
          ∨ ds.setStore.live k t ∨ ds.hashStore.live k t))
        ∧ HandleCommand ds (bs "DBSIZE" :: args) t = .ok (intReply (keys.card : Int), ds)) := by
  have hnd : ∀ q, (ds.Keys q t).Nodup := fun q => List.nodup_dedup _
  refine ⟨hnd p, fun k => mem_Keys ds p k t, ?_, ?_, ?_, ?_⟩
  · intro k hlive
    exact count_bytes k _ (hnd _)
      ((mem_Keys ds (bs "*") k t).mpr ⟨hlive, matchesPattern_star k⟩)
  · intro k hex hmatch
    refine (mem_Keys ds p k t).mpr ⟨?_, hmatch⟩
    rcases hex with h | h | h | h
    · exact Or.inl ((live_iff_Exists _ k t).1 h)
    · exact Or.inr (Or.inl ((live_iff_Exists _ k t).1 h))
    · exact Or.inr (Or.inr (Or.inl ((live_iff_Exists _ k t).1 h)))
    · exact Or.inr (Or.inr (Or.inr ((live_iff_Exists _ k t).1 h)))
  · intro p1 p2 p3 p4 k hk
    rcases ((mem_Keys ds p k t).mp hk).1 with h | h | h | h
    · exact Or.inl ((live_iff_Exists _ k t).2 p1 h)
    · exact Or.inr (Or.inl ((live_iff_Exists _ k t).2 p2 h))
    · exact Or.inr (Or.inr (Or.inl ((live_iff_Exists _ k t).2 p3 h)))
    · exact Or.inr (Or.inr (Or.inr ((live_iff_Exists _ k t).2 p4 h)))
  · intro args
    refine ⟨(ds.Keys (bs "*") t).toFinset, ?_, ?_⟩
    · intro k
      rw [List.mem_toFinset, mem_Keys]
      simp [matchesPattern_star]
    · rw [HandleCommand_DBSIZE, List.toFinset_card_of_nodup (hnd _)]
      rfl

set_option maxRecDepth 100000 in
/-- C21 on the store in which `k` is a string, a list and a set and `other` is a string:
`KEYS *` lists `k` once (in the order of the model) and `DBSIZE` replies 2. -/
theorem Keys_dedup_union_witness :
    (∀ ds : DataStore, (ds.Keys (bs "k*") 9).Nodup)
    ∧ serve [([bs "SET", bs "k", bs "v"], 1), ([bs "LPUSH", bs "k", bs "x"], 2),
        ([bs "SADD", bs "k", bs "y"], 3), ([bs "SET", bs "other", bs "w", bs "PX", bs "1"], 4),
        ([bs "KEYS", bs "*"], 5), ([bs "DBSIZE"], 6), ([bs "KEYS", bs "k*"], 7),
        ([bs "KEYS", bs "*"], 2000000), ([bs "DBSIZE"], 2000000)] NewDataStore
      = .ok [bs "+OK\r\n", bs ":1\r\n", bs ":1\r\n", bs "+OK\r\n",
          bs "*2\r\n$5\r\nother\r\n$1\r\nk\r\n", bs ":2\r\n", bs "*1\r\n$1\r\nk\r\n",
          bs "*1\r\n$1\r\nk\r\n", bs ":1\r\n"] :=
  ⟨fun ds => (Keys_dedup_union ds (bs "k*") 9).1, by decide⟩

/-! ## Commands of one kind see one table -/

set_option linter.unnecessarySeqFocus false

theorem Outcome.bind_assoc {α β γ : Type} (x : Outcome α) (f : α → Outcome β)
    (g : β → Outcome γ) : (x.bind f).bind g = x.bind fun a => (f a).bind g := by
  cases x <;> rfl

theorem LPush_local (ds : DataStore) (k : Bytes) (vs : List Iface) (now : Int) :
    ds.LPush k vs now
      = ((DataStore.ofLists ds.listStore).LPush k vs now).bind fun r =>
          .ok (r.1, { ds with listStore := r.2.listStore }) := by
  simp only [DataStore.LPush, DataStore.ofLists]
  cases ds.listStore.Get k now with
  | panic => rfl
  | ok found =>
    rcases found with _ | (_ | _ | _ | _) <;> simp only [Outcome.bind, Value.asSlice] <;>
      first | rfl | (split <;> rfl)

theorem RPush_local (ds : DataStore) (k : Bytes) (vs : List Iface) (now : Int) :
    ds.RPush k vs now
      = ((DataStore.ofLists ds.listStore).RPush k vs now).bind fun r =>
          .ok (r.1, { ds with listStore := r.2.listStore }) := by
  simp only [DataStore.RPush, DataStore.ofLists]
  cases ds.listStore.Get k now with
  | panic => rfl
  | ok found =>
    rcases found with _ | (_ | _ | _ | _) <;> simp only [Outcome.bind, Value.asSlice] <;>
      first | rfl | (split <;> rfl)

theorem LPop_local (ds : DataStore) (k : Bytes) (now : Int) :
    ds.LPop k now
      = ((DataStore.ofLists ds.listStore).LPop k now).bind fun r =>
          .ok (r.1, { ds with listStore := r.2.listStore }) := by
  simp only [DataStore.LPop, DataStore.ofLists]
  cases ds.listStore.Get k now with
  | panic => rfl
  | ok found =>
    rcases found with _ | (_ | l | _ | _) <;> simp only [Outcome.bind, Value.asSlice] <;>
      first
        | rfl
        | (rcases l with _ | (_ | ⟨x, xs⟩) <;> simp only [Option.getD] <;>
            first | rfl | (split <;> rfl))

theorem RPop_local (ds : DataStore) (k : Bytes) (now : Int) :
    ds.RPop k now
      = ((DataStore.ofLists ds.listStore).RPop k now).bind fun r =>
          .ok (r.1, { ds with listStore := r.2.listStore }) := by
  simp only [DataStore.RPop, DataStore.ofLists]
  cases ds.listStore.Get k now with
  | panic => rfl
  | ok found =>
    rcases found with _ | (_ | l | _ | _) <;> simp only [Outcome.bind, Value.asSlice] <;>
      first
        | rfl
        | (cases (l.getD []).getLast? <;> simp only <;> first | rfl | (split <;> rfl))

theorem SAdd_local (ds : DataStore) (k : Bytes) (ms : List Iface) (now : Int) :
    ds.SAdd k ms now
      = ((DataStore.ofSets ds.setStore).SAdd k ms now).bind fun r =>
          .ok (r.1, { ds with setStore := r.2.setStore }) := by
  simp only [DataStore.SAdd, DataStore.ofSets]
  cases ds.setStore.Get k now with
  | panic => rfl
  | ok found =>
    rcases found with _ | (_ | _ | _ | _) <;> simp only [Outcome.bind, Value.asSet] <;>
      first | rfl | (split <;> first | rfl | (split <;> rfl))

theorem SRem_local (ds : DataStore) (k : Bytes) (ms : List Iface) (now : Int) :
    ds.SRem k ms now
      = ((DataStore.ofSets ds.setStore).SRem k ms now).bind fun r =>
          .ok (r.1, { ds with setStore := r.2.setStore }) := by
  simp only [DataStore.SRem, DataStore.ofSets]
  cases ds.setStore.Get k now with
  | panic => rfl
  | ok found =>
    rcases found with _ | (_ | _ | _ | _) <;> simp only [Outcome.bind, Value.asSet] <;>
      first | rfl | (split <;> first | rfl | (split <;> rfl))

theorem HSet_local (ds : DataStore) (k f : Bytes) (v : Iface) (now : Int) :
    ds.HSet k f v now
      = ((DataStore.ofHashes ds.hashStore).HSet k f v now).bind fun r =>
          .ok (r.1, { ds with hashStore := r.2.hashStore }) := by
  simp only [DataStore.HSet, DataStore.ofHashes]
  cases ds.hashStore.Get k now with
  | panic => rfl
  | ok found =>
    rcases found with _ | (_ | _ | _ | _) <;> simp only [Outcome.bind, Value.asHash] <;>
      first | rfl | (split <;> rfl)

theorem HDel_local (ds : DataStore) (k : Bytes) (fs : List Bytes) (now : Int) :
    ds.HDel k fs now
      = ((DataStore.ofHashes ds.hashStore).HDel k fs now).bind fun r =>
          .ok (r.1, { ds with hashStore := r.2.hashStore }) := by
  simp only [DataStore.HDel, DataStore.ofHashes]
  cases ds.hashStore.Get k now with
  | panic => rfl
  | ok found =>
    rcases found with _ | (_ | _ | _ | _) <;> simp only [Outcome.bind, Value.asHash] <;>
      first | rfl | (split <;> rfl)

theorem Set_local (ds : DataStore) (k : Bytes) (v : Value) (ttl now : Int) :
    ds.Set k v ttl now
      = ((DataStore.ofStrings ds.stringStore).Set k v ttl now).bind fun r =>
          .ok { ds with stringStore := r.stringStore } := by
  simp only [DataStore.Set, DataStore.ofStrings]
  cases ds.stringStore.Set k v ttl now <;> rfl

theorem hsetLoop_local (k : Bytes) (now : Int) :
    ∀ (args : List Bytes) (ds : DataStore) (added : Int),
      hsetLoop k now args ds added
        = (hsetLoop k now args (DataStore.ofHashes ds.hashStore) added).bind fun r =>
            .ok (r.1, { ds with hashStore := r.2.hashStore })
  | [], _, _ => rfl
  | [_], _, _ => rfl
  | f :: v :: rest, ds, added => by
    simp only [hsetLoop]
    rw [HSet_local ds]
    cases (DataStore.ofHashes ds.hashStore).HSet k f (Iface.str v) now with
    | panic => rfl
    | ok r =>
      simp only [Outcome.bind]
      rw [hsetLoop_local k now rest { ds with hashStore := r.2.hashStore },
        hsetLoop_local k now rest r.2]
      simp only [Outcome.bind_assoc]
      cases hsetLoop k now rest (DataStore.ofHashes r.2.hashStore)
        (if r.1 = true then added + 1 else added) <;> rfl

theorem handleLPush_local (ds : DataStore) (args : List Bytes) (now : Int) :
    handleLPush ds args now
      = (handleLPush (DataStore.ofLists ds.listStore) args now).bind fun r =>
          .ok (r.1, { ds with listStore := r.2.listStore }) := by
  rcases args with _ | ⟨k, _ | ⟨v, vs⟩⟩
  · rfl
  · rfl
  · simp only [handleLPush]
    rw [LPush_local ds, Outcome.bind_assoc, Outcome.bind_assoc]
    rfl

theorem handleRPush_local (ds : DataStore) (args : List Bytes) (now : Int) :
    handleRPush ds args now
      = (handleRPush (DataStore.ofLists ds.listStore) args now).bind fun r =>
          .ok (r.1, { ds with listStore := r.2.listStore }) := by
  rcases args with _ | ⟨k, _ | ⟨v, vs⟩⟩
  · rfl
  · rfl
  · simp only [handleRPush]
    rw [RPush_local ds, Outcome.bind_assoc, Outcome.bind_assoc]
    rfl

theorem handleLPop_local (ds : DataStore) (args : List Bytes) (now : Int) :
    handleLPop ds args now
      = (handleLPop (DataStore.ofLists ds.listStore) args now).bind fun r =>
          .ok (r.1, { ds with listStore := r.2.listStore }) := by
  rcases args with _ | ⟨k, _ | ⟨v, vs⟩⟩
  · rfl
  · simp only [handleLPop]
    rw [LPop_local ds, Outcome.bind_assoc, Outcome.bind_assoc]
    rfl
  · rfl

theorem handleRPop_local (ds : DataStore) (args : List Bytes) (now : Int) :
    handleRPop ds args now
      = (handleRPop (DataStore.ofLists ds.listStore) args now).bind fun r =>
          .ok (r.1, { ds with listStore := r.2.listStore }) := by
  rcases args with _ | ⟨k, _ | ⟨v, vs⟩⟩
  · rfl
  · simp only [handleRPop]
    rw [RPop_local ds, Outcome.bind_assoc, Outcome.bind_assoc]
    rfl
  · rfl

theorem handleLLen_local (ds : DataStore) (args : List Bytes) (now : Int) :
    handleLLen ds args now
      = (handleLLen (DataStore.ofLists ds.listStore) args now).bind fun r =>
          .ok (r.1, { ds with listStore := r.2.listStore }) := by
  rcases args with _ | ⟨k, _ | ⟨v, vs⟩⟩
  · rfl
  · simp only [handleLLen, DataStore.LLen, DataStore.ofLists, Outcome.bind_assoc]
    cases ds.listStore.Get k now with
    | panic => rfl
    | ok found => rcases found with _ | (_ | _ | _ | _) <;> rfl
  · rfl

theorem handleSAdd_local (ds : DataStore) (args : List Bytes) (now : Int) :
    handleSAdd ds args now
      = (handleSAdd (DataStore.ofSets ds.setStore) args now).bind fun r =>
          .ok (r.1, { ds with setStore := r.2.setStore }) := by
  rcases args with _ | ⟨k, _ | ⟨v, vs⟩⟩
  · rfl
  · rfl
  · simp only [handleSAdd]
    rw [SAdd_local ds, Outcome.bind_assoc, Outcome.bind_assoc]
    rfl

theorem handleSRem_local (ds : DataStore) (args : List Bytes) (now : Int) :
    handleSRem ds args now
      = (handleSRem (DataStore.ofSets ds.setStore) args now).bind fun r =>
          .ok (r.1, { ds with setStore := r.2.setStore }) := by
  rcases args with _ | ⟨k, _ | ⟨v, vs⟩⟩
  · rfl
  · rfl
  · simp only [handleSRem]
    rw [SRem_local ds, Outcome.bind_assoc, Outcome.bind_assoc]
    rfl

theorem handleSMembers_local (ds : DataStore) (args : List Bytes) (now : Int) :
    handleSMembers ds args now
      = (handleSMembers (DataStore.ofSets ds.setStore) args now).bind fun r =>
          .ok (r.1, { ds with setStore := r.2.setStore }) := by
  rcases args with _ | ⟨k, _ | ⟨v, vs⟩⟩
  · rfl
  · simp only [handleSMembers, DataStore.SMembers, DataStore.ofSets, Outcome.bind_assoc]
    cases ds.setStore.Get k now with
    | panic => rfl
    | ok found => rcases found with _ | (_ | _ | _ | _) <;> rfl
  · rfl

theorem handleSIsMember_local (ds : DataStore) (args : List Bytes) (now : Int) :
    handleSIsMember ds args now
      = (handleSIsMember (DataStore.ofSets ds.setStore) args now).bind fun r =>
          .ok (r.1, { ds with setStore := r.2.setStore }) := by
  rcases args with _ | ⟨k, _ | ⟨v, _ | ⟨w, ws⟩⟩⟩
  · rfl
  · rfl
  · simp only [handleSIsMember, DataStore.SIsMember, DataStore.ofSets, Outcome.bind_assoc]
    cases ds.setStore.Get k now with
    | panic => rfl
    | ok found => rcases found with _ | (_ | _ | _ | _) <;> rfl
  · rfl

theorem handleZRANGEBYLEX_local (ds : DataStore) (args : List Bytes) (now : Int) :
    handleZRANGEBYLEX ds args now
      = (handleZRANGEBYLEX (DataStore.ofSets ds.setStore) args now).bind fun r =>
          .ok (r.1, { ds with setStore := r.2.setStore }) := by
  rcases args with _ | ⟨k, _ | ⟨v, _ | ⟨w, ws⟩⟩⟩
  · rfl
  · rfl
  · simp only [handleZRANGEBYLEX, DataStore.SMembers, DataStore.ofSets, Outcome.bind_assoc]
    cases ds.setStore.Get k now with
    | panic => rfl
    | ok found =>
      rcases found with _ | (_ | _ | _ | _) <;> simp only [Outcome.bind] <;>
        first | rfl | (split <;> first | rfl | (split <;> rfl))
  · rfl

theorem handleHSet_local (ds : DataStore) (args : List Bytes) (now : Int) :
    handleHSet ds args now
      = (handleHSet (DataStore.ofHashes ds.hashStore) args now).bind fun r =>
          .ok (r.1, { ds with hashStore := r.2.hashStore }) := by
  unfold handleHSet
  split
  · rfl
  · rcases args with _ | ⟨k, pairs⟩
    · rfl
    · simp only
      rw [hsetLoop_local k now pairs ds, Outcome.bind_assoc, Outcome.bind_assoc]
      rfl

theorem handleHDel_local (ds : DataStore) (args : List Bytes) (now : Int) :
    handleHDel ds args now
      = (handleHDel (DataStore.ofHashes ds.hashStore) args now).bind fun r =>
          .ok (r.1, { ds with hashStore := r.2.hashStore }) := by
  rcases args with _ | ⟨k, _ | ⟨v, vs⟩⟩
  · rfl
  · rfl
  · simp only [handleHDel]
    rw [HDel_local ds, Outcome.bind_assoc, Outcome.bind_assoc]
    rfl

theorem handleHGet_local (ds : DataStore) (args : List Bytes) (now : Int) :
    handleHGet ds args now
      = (handleHGet (DataStore.ofHashes ds.hashStore) args now).bind fun r =>
          .ok (r.1, { ds with hashStore := r.2.hashStore }) := by
  rcases args with _ | ⟨k, _ | ⟨v, _ | ⟨w, ws⟩⟩⟩
  · rfl
  · rfl
  · simp only [handleHGet, DataStore.HGet, DataStore.ofHashes, Outcome.bind_assoc]
    cases ds.hashStore.Get k now with
    | panic => rfl
    | ok found => rcases found with _ | (_ | _ | _ | _) <;> rfl
  · rfl

theorem handleHGetAll_local (ds : DataStore) (args : List Bytes) (now : Int) :
    handleHGetAll ds args now
      = (handleHGetAll (DataStore.ofHashes ds.hashStore) args now).bind fun r =>
          .ok (r.1, { ds with hashStore := r.2.hashStore }) := by
  rcases args with _ | ⟨k, _ | ⟨v, vs⟩⟩
  · rfl
  · simp only [handleHGetAll, DataStore.HGetAll, DataStore.ofHashes, Outcome.bind_assoc]
    cases ds.hashStore.Get k now with
    | panic => rfl
    | ok found => rcases found with _ | (_ | _ | _ | _) <;> rfl
  · rfl

theorem handleHKeys_local (ds : DataStore) (args : List Bytes) (now : Int) :
    handleHKeys ds args now
      = (handleHKeys (DataStore.ofHashes ds.hashStore) args now).bind fun r =>
          .ok (r.1, { ds with hashStore := r.2.hashStore }) := by
  rcases args with _ | ⟨k, _ | ⟨v, vs⟩⟩
  · rfl
  · simp only [handleHKeys, DataStore.HGetAll, DataStore.ofHashes, Outcome.bind_assoc]
    cases ds.hashStore.Get k now with
    | panic => rfl
    | ok found => rcases found with _ | (_ | _ | _ | _) <;> rfl
  · rfl

theorem handleHVals_local (ds : DataStore) (args : List Bytes) (now : Int) :
    handleHVals ds args now
      = (handleHVals (DataStore.ofHashes ds.hashStore) args now).bind fun r =>
          .ok (r.1, { ds with hashStore := r.2.hashStore }) := by
  rcases args with _ | ⟨k, _ | ⟨v, vs⟩⟩
  · rfl
  · simp only [handleHVals, DataStore.HGetAll, DataStore.ofHashes, Outcome.bind_assoc]
    cases ds.hashStore.Get k now with
    | panic => rfl
    | ok found => rcases found with _ | (_ | _ | _ | _) <;> rfl
  · rfl

theorem handleSet_local (ds : DataStore) (args : List Bytes) (now : Int) :
    handleSet ds args now
      = (handleSet (DataStore.ofStrings ds.stringStore) args now).bind fun r =>
          .ok (r.1, { ds with stringStore := r.2.stringStore }) := by
  rcases args with _ | ⟨k, _ | ⟨v, more⟩⟩
  · rfl
  · rfl
  · simp only [handleSet]
    split
    · rfl
    · rw [Set_local ds, Outcome.bind_assoc, Outcome.bind_assoc]
      rfl

theorem handleGet_local (ds : DataStore) (args : List Bytes) (now : Int) :
    handleGet ds args now
      = (handleGet (DataStore.ofStrings ds.stringStore) args now).bind fun r =>
          .ok (r.1, { ds with stringStore := r.2.stringStore }) := by
  rcases args with _ | ⟨k, _ | ⟨v, vs⟩⟩
  · rfl
  · simp only [handleGet, DataStore.Get, DataStore.ofStrings, Outcome.bind_assoc]
    cases ds.stringStore.Get k now with
    | panic => rfl
    | ok found => rcases found with _ | ((_ | _ | _ | _ | _ | _) | _ | _ | _) <;> rfl
  · rfl

theorem handleIncr_local (ds : DataStore) (args : List Bytes) (now : Int) :
    handleIncr ds args now
      = (handleIncr (DataStore.ofStrings ds.stringStore) args now).bind fun r =>
          .ok (r.1, { ds with stringStore := r.2.stringStore }) := by
  rcases args with _ | ⟨k, _ | ⟨v, vs⟩⟩
  · rfl
  · simp only [handleIncr, DataStore.Get, DataStore.Set, DataStore.ofStrings,
      Outcome.bind_assoc]
    cases ds.stringStore.Get k now with
    | panic => rfl
    | ok found =>
      rcases found with _ | ((s | _ | _ | _ | _ | _) | _ | _ | _) <;>
        simp only [Outcome.bind] <;>
        first
          | rfl
          | (split <;> rfl)
          | (cases Atoi s <;> simp only <;> first | rfl | (split <;> rfl))
  · rfl

theorem handleDecr_local (ds : DataStore) (args : List Bytes) (now : Int) :
    handleDecr ds args now
      = (handleDecr (DataStore.ofStrings ds.stringStore) args now).bind fun r =>
          .ok (r.1, { ds with stringStore := r.2.stringStore }) := by
  rcases args with _ | ⟨k, _ | ⟨v, vs⟩⟩
  · rfl
  · simp only [handleDecr, DataStore.Get, DataStore.Set, DataStore.ofStrings,
      Outcome.bind_assoc]
    cases ds.stringStore.Get k now with
    | panic => rfl
    | ok found =>
      rcases found with _ | ((s | _ | _ | _ | _ | _) | _ | _ | _) <;>
        simp only [Outcome.bind] <;>
        first
          | rfl
          | (split <;> rfl)
          | (cases Atoi s <;> simp only <;> first | rfl | (split <;> rfl))
  · rfl

set_option maxRecDepth 100000 in
/-- C25, as amended.  A command of one kind, written in any case, sees the table of its
kind only: its outcome on a store is its outcome on the store that has that one table
and three fresh ones, with the other three tables of the store put back.  So the reply
and the table afterwards are determined by the table of the command's kind, and the
tables of the other kinds are left as they are; a value that the key holds in another
table is not seen, and no type-mismatch error is produced. -/
theorem kind_isolation (name cmd : Bytes) (args : List Bytes) (now : Int)
    (hname : ToUpper name = cmd) :
    (cmd ∈ stringCommands → ∀ ds, HandleCommand ds (name :: args) now
      = (HandleCommand (DataStore.ofStrings ds.stringStore) (name :: args) now).bind fun r =>
          .ok (r.1, { ds with stringStore := r.2.stringStore }))
    ∧ (cmd ∈ listCommands → ∀ ds, HandleCommand ds (name :: args) now
      = (HandleCommand (DataStore.ofLists ds.listStore) (name :: args) now).bind fun r =>
          .ok (r.1, { ds with listStore := r.2.listStore }))
    ∧ (cmd ∈ setCommands → ∀ ds, HandleCommand ds (name :: args) now
      = (HandleCommand (DataStore.ofSets ds.setStore) (name :: args) now).bind fun r =>
          .ok (r.1, { ds with setStore := r.2.setStore }))
    ∧ (cmd ∈ hashCommands → ∀ ds, HandleCommand ds (name :: args) now
      = (HandleCommand (DataStore.ofHashes ds.hashStore) (name :: args) now).bind fun r =>
          .ok (r.1, { ds with hashStore := r.2.hashStore })) := by
  refine ⟨?_, ?_, ?_, ?_⟩
  · intro hcmd ds
    simp only [stringCommands, List.mem_cons, List.mem_singleton, List.not_mem_nil, or_false]
      at hcmd
    rcases hcmd with h | h | h | h <;> subst h <;>
      rw [HandleCommand_upper ds name _ args now hname (by decide),
        HandleCommand_upper _ name _ args now hname (by decide)]
    · exact handleSet_local ds args now
    · exact handleGet_local ds args now
    · exact handleIncr_local ds args now
    · exact handleDecr_local ds args now
  · intro hcmd ds
    simp only [listCommands, List.mem_cons, List.mem_singleton, List.not_mem_nil, or_false]
      at hcmd
    rcases hcmd with h | h | h | h | h <;> subst h <;>
      rw [HandleCommand_upper ds name _ args now hname (by decide),
        HandleCommand_upper _ name _ args now hname (by decide)]
    · exact handleLPush_local ds args now
    · exact handleRPush_local ds args now
    · exact handleLPop_local ds args now
    · exact handleRPop_local ds args now
    · exact handleLLen_local ds args now
  · intro hcmd ds
    simp only [setCommands, List.mem_cons, List.mem_singleton, List.not_mem_nil, or_false]
      at hcmd
    rcases hcmd with h | h | h | h | h <;> subst h <;>
      rw [HandleCommand_upper ds name _ args now hname (by decide),
        HandleCommand_upper _ name _ args now hname (by decide)]
    · exact handleSAdd_local ds args now
    · exact handleSRem_local ds args now
    · exact handleSMembers_local ds args now
    · exact handleSIsMember_local ds args now
    · exact handleZRANGEBYLEX_local ds args now
  · intro hcmd ds
    simp only [hashCommands, List.mem_cons, List.mem_singleton, List.not_mem_nil, or_false]
      at hcmd
    rcases hcmd with h | h | h | h | h | h <;> subst h <;>
      rw [HandleCommand_upper ds name _ args now hname (by decide),
        HandleCommand_upper _ name _ args now hname (by decide)]
    · exact handleHSet_local ds args now
    · exact handleHGet_local ds args now
    · exact handleHDel_local ds args now
    · exact handleHGetAll_local ds args now
    · exact handleHKeys_local ds args now
    · exact handleHVals_local ds args now

set_option maxRecDepth 100000 in
/-- C25, as amended, on `lpush k x`: on every store the outcome is that on the store
with the same list table alone; on a store whose list table is fresh the reply is 1,
whatever the string table holds for `k`. -/
theorem kind_isolation_witness :
    (∀ ds, HandleCommand ds [bs "lpush", bs "k", bs "x"] 5
      = (HandleCommand (DataStore.ofLists ds.listStore) [bs "lpush", bs "k", bs "x"] 5).bind
          fun r => .ok (r.1, { ds with listStore := r.2.listStore }))
    ∧ ∀ strings sets hashes, ∃ lists,
        HandleCommand { stringStore := strings, listStore := NewHashTable 512,
                        setStore := sets, hashStore := hashes } [bs "lpush", bs "k", bs "x"] 5
          = .ok (intReply 1, { stringStore := strings, listStore := lists,
                               setStore := sets, hashStore := hashes }) := by
  have h := (kind_isolation (bs "lpush") (bs "LPUSH") [bs "k", bs "x"] 5 (by decide)).2.1
    (by decide)
  refine ⟨h, fun strings sets hashes => ?_⟩
  rw [h]
  exact ⟨_, rfl⟩

set_option maxRecDepth 100000 in
/-- C25 as stated fails: after `SET k v`, the commands `LPUSH k x`, `SADD k y` and
`HSET k f w` each reply 1 and `GET k` still replies `v`; after `LPUSH L a`, `GET L`
replies nil.  None of the replies is the WRONGTYPE error. -/
theorem WRONGTYPE_counterexample :
    serve [([bs "SET", bs "k", bs "v"], 1), ([bs "LPUSH", bs "k", bs "x"], 2),
        ([bs "SADD", bs "k", bs "y"], 3), ([bs "HSET", bs "k", bs "f", bs "w"], 4),
        ([bs "GET", bs "k"], 5), ([bs "LLEN", bs "k"], 6), ([bs "LPUSH", bs "L", bs "a"], 7),
        ([bs "GET", bs "L"], 8)] NewDataStore
      = .ok [bs "+OK\r\n", bs ":1\r\n", bs ":1\r\n", bs ":1\r\n", bs "+v\r\n", bs ":1\r\n",
          bs ":1\r\n", bs "$-1\r\n"]
    ∧ bs ":1\r\n"
      ≠ WriteError (bs "WRONGTYPE Operation against a key holding the wrong kind of value")
    ∧ bs "$-1\r\n"
      ≠ WriteError (bs "WRONGTYPE Operation against a key holding the wrong kind of value") := by
  refine ⟨by decide, by decide, by decide⟩

/-! ## Concurrent INCR -/

set_option maxRecDepth 100000 in
/-- C29 fails on the code: `handleIncr` is its `Get` followed by a `Set` of the value it
computed, and nothing keeps another task from running between the two.  With two tasks
that each run one `INCR k` on an absent key, the schedule in which both read before
either writes ends with every task finished and `k` holding `1`, not `2`; on a key that
holds `5` it ends with `6`, not `7`.  The schedule that runs the tasks one after the
other ends with `2`. -/
theorem concurrent_INCR_loses_update :
    (∀ ds key now, handleIncr ds [key] now
      = (incrRead ds key now).bind fun found => incrWrite ds key found now)
    ∧ (runSchedule (bs "k") [(0, 1), (1, 2), (0, 3), (1, 4)] NewDataStore
          [{ remaining := 1, pending := none }, { remaining := 1, pending := none }]).bind
        (fun r => (HandleCommand r.1 [bs "GET", bs "k"] 5).bind fun g => .ok (g.1, r.2))
      = .ok (.atom (.str (bs "1")),
          [{ remaining := 0, pending := none }, { remaining := 0, pending := none }])
    ∧ (runSchedule (bs "k") [(0, 1), (0, 2), (1, 3), (1, 4)] NewDataStore
          [{ remaining := 1, pending := none }, { remaining := 1, pending := none }]).bind
        (fun r => (HandleCommand r.1 [bs "GET", bs "k"] 5).bind fun g => .ok (g.1, r.2))
      = .ok (.atom (.str (bs "2")),
          [{ remaining := 0, pending := none }, { remaining := 0, pending := none }])
    ∧ ((HandleCommand NewDataStore [bs "SET", bs "k", bs "5"] 0).bind fun s =>
        (runSchedule (bs "k") [(0, 1), (1, 2), (0, 3), (1, 4)] s.2
          [{ remaining := 1, pending := none }, { remaining := 1, pending := none }]).bind
        (fun r => (HandleCommand r.1 [bs "GET", bs "k"] 5).bind fun g => .ok (g.1, r.2)))
      = .ok (.atom (.str (bs "6")),
          [{ remaining := 0, pending := none }, { remaining := 0, pending := none }]) := by
  refine ⟨?_, by decide, by decide, by decide⟩
  intro ds key now
  simp only [handleIncr, incrRead, incrWrite]

/-! ## The kinds of the values in the four tables -/

theorem Outcome.ensures_ok {α : Type} (a : α) (post : α → Prop) (h : post a) :
    (Outcome.ok a).ensures post := by
  intro b hb
  simp only [Outcome.ok.injEq] at hb
  rw [← hb]
  exact h

theorem Outcome.ensures_panic {α : Type} (post : α → Prop) :
    (Outcome.panic : Outcome α).ensures post := by
  intro b hb
  simp at hb

theorem Outcome.ensures_bind {α β : Type} (x : Outcome α) (f : α → Outcome β)
    (post : β → Prop) (h : ∀ a, x = .ok a → (f a).ensures post) : (x.bind f).ensures post := by
  intro b hb
  obtain ⟨a, ha, hf⟩ := Outcome.bind_eq_ok _ _ _ hb
  exact h a ha b hf

theorem holdsOnly_set (h : HashTable Value) (kind : Value → Bool) (i : Nat) (b nb : Bucket Value)
    (c : Int) (hk : h.holdsOnly kind) (hb : h.buckets[i]? = some b)
    (hnb : ∀ e ∈ nb.entries, e ∈ b.entries ∨ kind e.2.Value = true) :
    HashTable.holdsOnly { buckets := h.buckets.set i nb, size := h.size, count := c } kind := by
  intro e he
  rcases mem_entries_set h i nb c e he with h1 | h1
  · rcases hnb e h1 with h2 | h2
    · exact hk e (mem_entries_of_bucket h i b hb e h2)
    · exact h2
  · exact hk e h1

theorem Set_holdsOnly (h h2 : HashTable Value) (kind : Value → Bool) (k : Bytes) (v : Value)
    (ttl now : Int) (hset : h.Set k v ttl now = .ok h2) (hv : kind v = true)
    (hk : h.holdsOnly kind) : h2.holdsOnly kind := by
  obtain ⟨b, hb, rfl⟩ := Set_eq h h2 k v ttl now hset
  obtain ⟨_, _, hget⟩ := bucketOf_ok h k b hb
  apply holdsOnly_set h kind _ b _ _ hk hget
  intro e he
  rcases mem_bucket_insert b k _ e he with h1 | h1
  · right
    rw [h1]
    exact hv
  · exact Or.inl h1

theorem Delete_holdsOnly (h h2 : HashTable Value) (kind : Value → Bool) (k : Bytes) (d : Bool)
    (hdel : h.Delete k = .ok (d, h2)) (hk : h.holdsOnly kind) : h2.holdsOnly kind := by
  obtain ⟨b, hb, _, h2eq⟩ := Delete_eq h h2 k d hdel
  obtain ⟨_, _, hget⟩ := bucketOf_ok h k b hb
  by_cases hl : (b.lookup k).isSome = true
  · rw [if_pos hl] at h2eq
    rw [h2eq]
    apply holdsOnly_set h kind _ b _ _ hk hget
    intro e he
    exact Or.inl ((List.kerase_sublist k b.entries).subset he)
  · rw [if_neg hl] at h2eq
    rw [h2eq]
    exact hk

theorem Expire_holdsOnly (h h2 : HashTable Value) (kind : Value → Bool) (k : Bytes)
    (ttl now : Int) (r : Bool) (hexp : h.Expire k ttl now = .ok (r, h2))
    (hk : h.holdsOnly kind) : h2.holdsOnly kind := by
  obtain ⟨b, hb, hcase⟩ := Expire_eq h h2 k ttl now r hexp
  obtain ⟨_, _, hget⟩ := bucketOf_ok h k b hb
  rcases hcase with ⟨_, _, h2eq⟩ | ⟨e0, hl, _, h2eq⟩
  · rw [h2eq]; exact hk
  · rw [h2eq]
    apply holdsOnly_set h kind _ b _ _ hk hget
    intro e he
    rcases mem_kreplace b.entries k _ e he with h1 | h1
    · right
      rw [h1]
      exact hk ⟨k, e0⟩ (mem_entries_of_bucket h _ b hget _ (AList.mem_lookup_iff.mp hl))
    · exact Or.inl h1

theorem RemoveExpired_holdsOnly (h : HashTable Value) (kind : Value → Bool) (now : Int)
    (hk : h.holdsOnly kind) : (h.RemoveExpired now).2.holdsOnly kind := by
  intro e he
  rw [(RemoveExpired_spec h now).2.1] at he
  exact hk e (List.mem_filter.mp he).1

theorem NewHashTable_holdsOnly (size : Int) (kind : Value → Bool) :
    (NewHashTable size : HashTable Value).holdsOnly kind := by
  intro e he
  rw [NewHashTable_entries] at he
  simp at he

theorem NewDataStore_wellKinded : NewDataStore.wellKinded :=
  ⟨NewHashTable_holdsOnly _ _, NewHashTable_holdsOnly _ _, NewHashTable_holdsOnly _ _,
    NewHashTable_holdsOnly _ _⟩

/-- The value `Get` finds is the value of a stored entry. -/
theorem Get_holdsOnly (h : HashTable Value) (kind : Value → Bool) (k : Bytes) (now : Int)
    (v : Value) (hk : h.holdsOnly kind) (hget : h.Get k now = .ok (some v)) :
    kind v = true := by
  obtain ⟨b, hb⟩ := Get_ok_bucket h k now _ hget
  obtain ⟨_, _, hidx⟩ := bucketOf_ok h k b hb
  rw [Get_eq_bucket h k now b hb] at hget
  simp only [Outcome.ok.injEq] at hget
  unfold Bucket.get at hget
  cases hl : b.lookup k with
  | none => rw [hl] at hget; simp at hget
  | some e =>
    rw [hl] at hget
    simp only at hget
    split at hget
    · simp at hget
    · simp only [Option.some.injEq] at hget
      rw [← hget]
      exact hk ⟨k, e⟩ (mem_entries_of_bucket h _ b hidx _ (AList.mem_lookup_iff.mp hl))

theorem wellKinded_strings (ds : DataStore) (t : HashTable Value) (hk : ds.wellKinded)
    (ht : t.holdsOnly Value.isString) : DataStore.wellKinded { ds with stringStore := t } :=
  ⟨ht, hk.2.1, hk.2.2.1, hk.2.2.2⟩

theorem wellKinded_lists (ds : DataStore) (t : HashTable Value) (hk : ds.wellKinded)
    (ht : t.holdsOnly Value.isList) : DataStore.wellKinded { ds with listStore := t } :=
  ⟨hk.1, ht, hk.2.2.1, hk.2.2.2⟩

theorem wellKinded_sets (ds : DataStore) (t : HashTable Value) (hk : ds.wellKinded)
    (ht : t.holdsOnly Value.isSet) : DataStore.wellKinded { ds with setStore := t } :=
  ⟨hk.1, hk.2.1, ht, hk.2.2.2⟩

theorem wellKinded_hashes (ds : DataStore) (t : HashTable Value) (hk : ds.wellKinded)
    (ht : t.holdsOnly Value.isHash) : DataStore.wellKinded { ds with hashStore := t } :=
  ⟨hk.1, hk.2.1, hk.2.2.1, ht⟩

theorem DataStore_Set_kinds (ds : DataStore) (k s : Bytes) (ttl now : Int)
    (hk : ds.wellKinded) :
    (ds.Set k (.atom (.str s)) ttl now).ensures fun ds2 => ds2.wellKinded := by
  unfold DataStore.Set
  apply Outcome.ensures_bind
  intro t ht
  apply Outcome.ensures_ok
  exact wellKinded_strings ds t hk (Set_holdsOnly _ _ _ _ _ _ _ ht rfl hk.1)

theorem LPush_kinds (ds : DataStore) (k : Bytes) (vs : List Iface) (now : Int)
    (hk : ds.wellKinded) : (ds.LPush k vs now).ensures fun r => r.2.wellKinded := by
  unfold DataStore.LPush
  apply Outcome.ensures_bind
  intro found _
  apply Outcome.ensures_bind
  intro list _
  apply Outcome.ensures_bind
  intro t ht
  apply Outcome.ensures_ok
  exact wellKinded_lists ds t hk (Set_holdsOnly _ _ _ _ _ _ _ ht rfl hk.2.1)

theorem RPush_kinds (ds : DataStore) (k : Bytes) (vs : List Iface) (now : Int)
    (hk : ds.wellKinded) : (ds.RPush k vs now).ensures fun r => r.2.wellKinded := by
  unfold DataStore.RPush
  apply Outcome.ensures_bind
  intro found _
  apply Outcome.ensures_bind
  intro list _
  apply Outcome.ensures_bind
  intro t ht
  apply Outcome.ensures_ok
  exact wellKinded_lists ds t hk (Set_holdsOnly _ _ _ _ _ _ _ ht rfl hk.2.1)

theorem LPop_kinds (ds : DataStore) (k : Bytes) (now : Int)
    (hk : ds.wellKinded) : (ds.LPop k now).ensures fun r => r.2.wellKinded := by
  unfold DataStore.LPop
  apply Outcome.ensures_bind
  intro found _
  split
  · exact Outcome.ensures_ok _ _ hk
  · apply Outcome.ensures_bind
    intro list _
    split
    · exact Outcome.ensures_ok _ _ hk
    · apply Outcome.ensures_bind
      intro t ht
      apply Outcome.ensures_ok
      exact wellKinded_lists ds t hk (Set_holdsOnly _ _ _ _ _ _ _ ht rfl hk.2.1)

theorem RPop_kinds (ds : DataStore) (k : Bytes) (now : Int)
    (hk : ds.wellKinded) : (ds.RPop k now).ensures fun r => r.2.wellKinded := by
  unfold DataStore.RPop
  apply Outcome.ensures_bind
  intro found _
  split
  · exact Outcome.ensures_ok _ _ hk
  · apply Outcome.ensures_bind
    intro list _
    split
    · exact Outcome.ensures_ok _ _ hk
    · apply Outcome.ensures_bind
      intro t ht
      apply Outcome.ensures_ok
      exact wellKinded_lists ds t hk (Set_holdsOnly _ _ _ _ _ _ _ ht rfl hk.2.1)

theorem SAdd_kinds (ds : DataStore) (k : Bytes) (ms : List Iface) (now : Int)
    (hk : ds.wellKinded) : (ds.SAdd k ms now).ensures fun r => r.2.wellKinded := by
  unfold DataStore.SAdd
  apply Outcome.ensures_bind
  intro found _
  apply Outcome.ensures_bind
  intro set _
  split
  · apply Outcome.ensures_bind
    intro t ht
    apply Outcome.ensures_ok
    exact wellKinded_sets ds t hk (Set_holdsOnly _ _ _ _ _ _ _ ht rfl hk.2.2.1)
  · exact Outcome.ensures_panic _

theorem SRem_kinds (ds : DataStore) (k : Bytes) (ms : List Iface) (now : Int)
    (hk : ds.wellKinded) : (ds.SRem k ms now).ensures fun r => r.2.wellKinded := by
  unfold DataStore.SRem
  apply Outcome.ensures_bind
  intro found _
  split
  · exact Outcome.ensures_ok _ _ hk
  · apply Outcome.ensures_bind
    intro set _
    split
    · apply Outcome.ensures_bind
      intro t ht
      apply Outcome.ensures_ok
      exact wellKinded_sets ds t hk (Set_holdsOnly _ _ _ _ _ _ _ ht rfl hk.2.2.1)
    · exact Outcome.ensures_panic _

theorem HSet_kinds (ds : DataStore) (k f : Bytes) (v : Iface) (now : Int)
    (hk : ds.wellKinded) : (ds.HSet k f v now).ensures fun r => r.2.wellKinded := by
  unfold DataStore.HSet
  apply Outcome.ensures_bind
  intro found _
  apply Outcome.ensures_bind
  intro hash _
  apply Outcome.ensures_bind
  intro t ht
  apply Outcome.ensures_ok
  exact wellKinded_hashes ds t hk (Set_holdsOnly _ _ _ _ _ _ _ ht rfl hk.2.2.2)

theorem HDel_kinds (ds : DataStore) (k : Bytes) (fs : List Bytes) (now : Int)
    (hk : ds.wellKinded) : (ds.HDel k fs now).ensures fun r => r.2.wellKinded := by
  unfold DataStore.HDel
  apply Outcome.ensures_bind
  intro found _
  split
  · exact Outcome.ensures_ok _ _ hk
  · apply Outcome.ensures_bind
    intro hash _
    apply Outcome.ensures_bind
    intro t ht
    apply Outcome.ensures_ok
    exact wellKinded_hashes ds t hk (Set_holdsOnly _ _ _ _ _ _ _ ht rfl hk.2.2.2)

theorem DataStore_Delete_kinds (ds : DataStore) (k : Bytes) (hk : ds.wellKinded) :
    (ds.Delete k).ensures fun r => r.2.wellKinded := by
  unfold DataStore.Delete
  apply Outcome.ensures_bind
  intro r1 h1
  apply Outcome.ensures_bind
  intro r2 h2
  apply Outcome.ensures_bind
  intro r3 h3
  apply Outcome.ensures_bind
  intro r4 h4
  apply Outcome.ensures_ok
  exact ⟨Delete_holdsOnly _ _ _ k r1.1 h1 hk.1, Delete_holdsOnly _ _ _ k r2.1 h2 hk.2.1,
    Delete_holdsOnly _ _ _ k r3.1 h3 hk.2.2.1, Delete_holdsOnly _ _ _ k r4.1 h4 hk.2.2.2⟩

theorem DataStore_Expire_kinds (ds : DataStore) (k : Bytes) (ttl now : Int)
    (hk : ds.wellKinded) : (ds.Expire k ttl now).ensures fun r => r.2.wellKinded := by
  unfold DataStore.Expire
  apply Outcome.ensures_bind
  intro r1 h1
  apply Outcome.ensures_bind
  intro r2 h2
  apply Outcome.ensures_bind
  intro r3 h3
  apply Outcome.ensures_bind
  intro r4 h4
  apply Outcome.ensures_ok
  exact ⟨Expire_holdsOnly _ _ _ k ttl now r1.1 h1 hk.1,
    Expire_holdsOnly _ _ _ k ttl now r2.1 h2 hk.2.1,
    Expire_holdsOnly _ _ _ k ttl now r3.1 h3 hk.2.2.1,
    Expire_holdsOnly _ _ _ k ttl now r4.1 h4 hk.2.2.2⟩

theorem DataStore_RemoveExpired_kinds (ds : DataStore) (now : Int) (hk : ds.wellKinded) :
    (ds.RemoveExpired now).2.wellKinded :=
  ⟨RemoveExpired_holdsOnly _ _ now hk.1, RemoveExpired_holdsOnly _ _ now hk.2.1,
    RemoveExpired_holdsOnly _ _ now hk.2.2.1, RemoveExpired_holdsOnly _ _ now hk.2.2.2⟩

theorem handleSet_kinds (ds : DataStore) (args : List Bytes) (now : Int) (hk : ds.wellKinded) :
    (handleSet ds args now).ensures fun r => r.2.wellKinded := by
  unfold handleSet
  split
  · simp only
    split
    · exact Outcome.ensures_ok _ _ hk
    · apply Outcome.ensures_bind
      intro ds2 h2
      apply Outcome.ensures_ok
      exact DataStore_Set_kinds ds _ _ _ now hk ds2 h2
  · exact Outcome.ensures_ok _ _ hk

theorem handleGet_kinds (ds : DataStore) (args : List Bytes) (now : Int) (hk : ds.wellKinded) :
    (handleGet ds args now).ensures fun r => r.2.wellKinded := by
  intro r hr
  rw [handleGet_store ds r.2 args now r.1 hr]
  exact hk

theorem delLoop_kinds (keys : List Bytes) :
    ∀ (ds : DataStore) (deleted : Int), ds.wellKinded →
      (delLoop keys ds deleted).ensures fun r => r.2.wellKinded := by
  induction keys with
  | nil =>
    intro ds deleted hk
    exact Outcome.ensures_ok _ _ hk
  | cons key keys ih =>
    intro ds deleted hk
    simp only [delLoop]
    apply Outcome.ensures_bind
    intro r hr
    exact ih r.2 _ (DataStore_Delete_kinds ds key hk r hr)

theorem handleDel_kinds (ds : DataStore) (args : List Bytes) (now : Int) (hk : ds.wellKinded) :
    (handleDel ds args now).ensures fun r => r.2.wellKinded := by
  unfold handleDel
  apply Outcome.ensures_bind
  intro r hr
  apply Outcome.ensures_ok
  exact delLoop_kinds args ds 0 hk r hr

theorem handleExists_kinds (ds : DataStore) (args : List Bytes) (now : Int)
    (hk : ds.wellKinded) : (handleExists ds args now).ensures fun r => r.2.wellKinded := by
  unfold handleExists
  apply Outcome.ensures_bind
  intro _ _
  exact Outcome.ensures_ok _ _ hk

theorem handleKeys_kinds (ds : DataStore) (args : List Bytes) (now : Int) (hk : ds.wellKinded) :
    (handleKeys ds args now).ensures fun r => r.2.wellKinded := by
  unfold handleKeys
  split <;> exact Outcome.ensures_ok _ _ hk

theorem handleTTL_kinds (ds : DataStore) (args : List Bytes) (now : Int) (hk : ds.wellKinded) :
    (handleTTL ds args now).ensures fun r => r.2.wellKinded := by
  unfold handleTTL
  split
  · apply Outcome.ensures_bind
    intro _ _
    exact Outcome.ensures_ok _ _ hk
  · exact Outcome.ensures_ok _ _ hk

theorem handleExpire_kinds (ds : DataStore) (args : List Bytes) (now : Int)
    (hk : ds.wellKinded) : (handleExpire ds args now).ensures fun r => r.2.wellKinded := by
  unfold handleExpire
  split
  · split
    · exact Outcome.ensures_ok _ _ hk
    · apply Outcome.ensures_bind
      intro r hr
      apply Outcome.ensures_ok
      exact DataStore_Expire_kinds ds _ _ now hk r hr
  · exact Outcome.ensures_ok _ _ hk

theorem handleIncr_kinds (ds : DataStore) (args : List Bytes) (now : Int) (hk : ds.wellKinded) :
    (handleIncr ds args now).ensures fun r => r.2.wellKinded := by
  unfold handleIncr
  split
  · apply Outcome.ensures_bind
    intro found _
    split
    · apply Outcome.ensures_bind
      intro ds2 h2
      apply Outcome.ensures_ok
      exact DataStore_Set_kinds ds _ _ _ now hk ds2 h2
    · split
      · exact Outcome.ensures_ok _ _ hk
      · apply Outcome.ensures_bind
        intro ds2 h2
        apply Outcome.ensures_ok
        exact DataStore_Set_kinds ds _ _ _ now hk ds2 h2
    · exact Outcome.ensures_ok _ _ hk
  · exact Outcome.ensures_ok _ _ hk

theorem handleDecr_kinds (ds : DataStore) (args : List Bytes) (now : Int) (hk : ds.wellKinded) :
    (handleDecr ds args now).ensures fun r => r.2.wellKinded := by
  unfold handleDecr
  split
  · apply Outcome.ensures_bind
    intro found _
    split
    · apply Outcome.ensures_bind
      intro ds2 h2
      apply Outcome.ensures_ok
      exact DataStore_Set_kinds ds _ _ _ now hk ds2 h2
    · split
      · exact Outcome.ensures_ok _ _ hk
      · apply Outcome.ensures_bind
        intro ds2 h2
        apply Outcome.ensures_ok
        exact DataStore_Set_kinds ds _ _ _ now hk ds2 h2
    · exact Outcome.ensures_ok _ _ hk
  · exact Outcome.ensures_ok _ _ hk

theorem handleLPush_kinds (ds : DataStore) (args : List Bytes) (now : Int)
    (hk : ds.wellKinded) : (handleLPush ds args now).ensures fun r => r.2.wellKinded := by
  unfold handleLPush
  split
  · apply Outcome.ensures_bind
    intro r hr
    apply Outcome.ensures_ok
    exact LPush_kinds ds _ _ now hk r hr
  · exact Outcome.ensures_ok _ _ hk

theorem handleRPush_kinds (ds : DataStore) (args : List Bytes) (now : Int)
    (hk : ds.wellKinded) : (handleRPush ds args now).ensures fun r => r.2.wellKinded := by
  unfold handleRPush
  split
  · apply Outcome.ensures_bind
    intro r hr
    apply Outcome.ensures_ok
    exact RPush_kinds ds _ _ now hk r hr
  · exact Outcome.ensures_ok _ _ hk

theorem handleLPop_kinds (ds : DataStore) (args : List Bytes) (now : Int)
    (hk : ds.wellKinded) : (handleLPop ds args now).ensures fun r => r.2.wellKinded := by
  unfold handleLPop
  split
  · apply Outcome.ensures_bind
    intro r hr
    apply Outcome.ensures_ok
    exact LPop_kinds ds _ now hk r hr
  · exact Outcome.ensures_ok _ _ hk

theorem handleRPop_kinds (ds : DataStore) (args : List Bytes) (now : Int)
    (hk : ds.wellKinded) : (handleRPop ds args now).ensures fun r => r.2.wellKinded := by
  unfold handleRPop
  split
  · apply Outcome.ensures_bind
    intro r hr
    apply Outcome.ensures_ok
    exact RPop_kinds ds _ now hk r hr
  · exact Outcome.ensures_ok _ _ hk

theorem handleLLen_kinds (ds : DataStore) (args : List Bytes) (now : Int)
    (hk : ds.wellKinded) : (handleLLen ds args now).ensures fun r => r.2.wellKinded := by
  unfold handleLLen
  split
  · apply Outcome.ensures_bind
    intro _ _
    exact Outcome.ensures_ok _ _ hk
  · exact Outcome.ensures_ok _ _ hk

theorem handleSAdd_kinds (ds : DataStore) (args : List Bytes) (now : Int)
    (hk : ds.wellKinded) : (handleSAdd ds args now).ensures fun r => r.2.wellKinded := by
  unfold handleSAdd
  split
  · apply Outcome.ensures_bind
    intro r hr
    apply Outcome.ensures_ok
    exact SAdd_kinds ds _ _ now hk r hr
  · exact Outcome.ensures_ok _ _ hk

theorem handleSRem_kinds (ds : DataStore) (args : List Bytes) (now : Int)
    (hk : ds.wellKinded) : (handleSRem ds args now).ensures fun r => r.2.wellKinded := by
  unfold handleSRem
  split
  · apply Outcome.ensures_bind
    intro r hr
    apply Outcome.ensures_ok
    exact SRem_kinds ds _ _ now hk r hr
  · exact Outcome.ensures_ok _ _ hk

theorem handleSMembers_kinds (ds : DataStore) (args : List Bytes) (now : Int)
    (hk : ds.wellKinded) : (handleSMembers ds args now).ensures fun r => r.2.wellKinded := by
  unfold handleSMembers
  split
  · apply Outcome.ensures_bind
    intro _ _
    split <;> exact Outcome.ensures_ok _ _ hk
  · exact Outcome.ensures_ok _ _ hk

theorem handleSIsMember_kinds (ds : DataStore) (args : List Bytes) (now : Int)
    (hk : ds.wellKinded) : (handleSIsMember ds args now).ensures fun r => r.2.wellKinded := by
  unfold handleSIsMember
  split
  · apply Outcome.ensures_bind
    intro _ _
    exact Outcome.ensures_ok _ _ hk
  · exact Outcome.ensures_ok _ _ hk

theorem hsetLoop_kinds (k : Bytes) (now : Int) :
    ∀ (args : List Bytes) (ds : DataStore) (added : Int), ds.wellKinded →
      (hsetLoop k now args ds added).ensures fun r => r.2.wellKinded
  | [], ds, added, hk => Outcome.ensures_ok _ _ hk
  | [_], ds, added, hk => Outcome.ensures_ok _ _ hk
  | f :: v :: rest, ds, added, hk => by
    simp only [hsetLoop]
    apply Outcome.ensures_bind
    intro r hr
    exact hsetLoop_kinds k now rest r.2 _ (HSet_kinds ds k f _ now hk r hr)

theorem handleHSet_kinds (ds : DataStore) (args : List Bytes) (now : Int)
    (hk : ds.wellKinded) : (handleHSet ds args now).ensures fun r => r.2.wellKinded := by
  unfold handleHSet
  split
  · exact Outcome.ensures_ok _ _ hk
  · split
    · apply Outcome.ensures_bind
      intro r hr
      apply Outcome.ensures_ok
      exact hsetLoop_kinds _ now _ ds 0 hk r hr
    · exact Outcome.ensures_ok _ _ hk

theorem handleHGet_kinds (ds : DataStore) (args : List Bytes) (now : Int)
    (hk : ds.wellKinded) : (handleHGet ds args now).ensures fun r => r.2.wellKinded := by
  unfold handleHGet
  split
  · apply Outcome.ensures_bind
    intro _ _
    exact Outcome.ensures_ok _ _ hk
  · exact Outcome.ensures_ok _ _ hk

theorem handleHDel_kinds (ds : DataStore) (args : List Bytes) (now : Int)
    (hk : ds.wellKinded) : (handleHDel ds args now).ensures fun r => r.2.wellKinded := by
  unfold handleHDel
  split
  · apply Outcome.ensures_bind
    intro r hr
    apply Outcome.ensures_ok
    exact HDel_kinds ds _ _ now hk r hr
  · exact Outcome.ensures_ok _ _ hk

theorem handleHGetAll_kinds (ds : DataStore) (args : List Bytes) (now : Int)
    (hk : ds.wellKinded) : (handleHGetAll ds args now).ensures fun r => r.2.wellKinded := by
  unfold handleHGetAll
  split
  · apply Outcome.ensures_bind
    intro _ _
    split <;> exact Outcome.ensures_ok _ _ hk
  · exact Outcome.ensures_ok _ _ hk

theorem handleHKeys_kinds (ds : DataStore) (args : List Bytes) (now : Int)
    (hk : ds.wellKinded) : (handleHKeys ds args now).ensures fun r => r.2.wellKinded := by
  unfold handleHKeys
  split
  · apply Outcome.ensures_bind
    intro _ _
    split <;> exact Outcome.ensures_ok _ _ hk
  · exact Outcome.ensures_ok _ _ hk

theorem handleHVals_kinds (ds : DataStore) (args : List Bytes) (now : Int)
    (hk : ds.wellKinded) : (handleHVals ds args now).ensures fun r => r.2.wellKinded := by
  unfold handleHVals
  split
  · apply Outcome.ensures_bind
    intro _ _
    split <;> exact Outcome.ensures_ok _ _ hk
  · exact Outcome.ensures_ok _ _ hk

theorem handleEcho_kinds (ds : DataStore) (args : List Bytes) (now : Int)
    (hk : ds.wellKinded) : (handleEcho ds args now).ensures fun r => r.2.wellKinded := by
  unfold handleEcho
  split <;> exact Outcome.ensures_ok _ _ hk

theorem handleFlushAll_kinds (ds : DataStore) (args : List Bytes) (now : Int) :
    (handleFlushAll ds args now).ensures fun r => r.2.wellKinded :=
  Outcome.ensures_ok _ _ NewDataStore_wellKinded

theorem handleDBSize_kinds (ds : DataStore) (args : List Bytes) (now : Int)
    (hk : ds.wellKinded) : (handleDBSize ds args now).ensures fun r => r.2.wellKinded :=
  Outcome.ensures_ok _ _ hk

theorem handleZRANGEBYLEX_kinds (ds : DataStore) (args : List Bytes) (now : Int)
    (hk : ds.wellKinded) : (handleZRANGEBYLEX ds args now).ensures fun r => r.2.wellKinded := by
  unfold handleZRANGEBYLEX
  split
  · apply Outcome.ensures_bind
    intro _ _
    split
    · exact Outcome.ensures_ok _ _ hk
    · simp only
      split
      · exact Outcome.ensures_ok _ _ hk
      · split <;> exact Outcome.ensures_ok _ _ hk
  · exact Outcome.ensures_ok _ _ hk

theorem HandleCommand_kinds (ds : DataStore) (command : List Bytes) (now : Int)
    (hk : ds.wellKinded) : (HandleCommand ds command now).ensures fun r => r.2.wellKinded := by
  cases command with
  | nil => exact Outcome.ensures_ok _ _ hk
  | cons name args =>
    by_cases hc : ToUpper name ∈ commandNames
    · rw [HandleCommand_upper ds name _ args now rfl hc]
      simp only [commandNames, List.mem_cons, List.mem_singleton, List.not_mem_nil, or_false]
        at hc
      rcases hc with h | h | h | h | h | h | h | h | h | h | h | h | h | h | h | h | h | h | h
        | h | h | h | h | h | h | h | h | h | h | h
      · rw [h]
        exact handleSet_kinds ds args now hk
      · rw [h]
        exact handleGet_kinds ds args now hk
      · rw [h]
        exact handleDel_kinds ds args now hk
      · rw [h]
        exact handleExists_kinds ds args now hk
      · rw [h]
        exact handleKeys_kinds ds args now hk
      · rw [h]
        exact handleTTL_kinds ds args now hk
      · rw [h]
        exact handleExpire_kinds ds args now hk
      · rw [h]
        exact handleIncr_kinds ds args now hk
      · rw [h]
        exact handleDecr_kinds ds args now hk
      · rw [h]
        exact handleLPush_kinds ds args now hk
      · rw [h]
        exact handleRPush_kinds ds args now hk
      · rw [h]
        exact handleLPop_kinds ds args now hk
      · rw [h]
        exact handleRPop_kinds ds args now hk
      · rw [h]
        exact handleLLen_kinds ds args now hk
      · rw [h]
        exact handleSAdd_kinds ds args now hk
      · rw [h]
        exact handleSRem_kinds ds args now hk
      · rw [h]
        exact handleSMembers_kinds ds args now hk
      · rw [h]
        exact handleSIsMember_kinds ds args now hk
      · rw [h]
        exact handleHSet_kinds ds args now hk
      · rw [h]
        exact handleHGet_kinds ds args now hk
      · rw [h]
        exact handleHDel_kinds ds args now hk
      · rw [h]
        exact handleHGetAll_kinds ds args now hk
      · rw [h]
        exact handleHKeys_kinds ds args now hk
      · rw [h]
        exact handleHVals_kinds ds args now hk
      · rw [h]
        exact Outcome.ensures_ok _ _ hk
      · rw [h]
        exact handleEcho_kinds ds args now hk
      · rw [h]
        exact handleFlushAll_kinds ds args now
      · rw [h]
        exact handleDBSize_kinds ds args now hk
      · rw [h]
        exact Outcome.ensures_ok _ _ hk
      · rw [h]
        exact handleZRANGEBYLEX_kinds ds args now hk
    · rw [HandleCommand_unknown ds name args now hc]
      split
      · exact handleGet_kinds ds _ now hk
      · exact Outcome.ensures_ok _ _ hk

theorem handle_kinds (ds : DataStore) (event : ServerEvent) (hk : ds.wellKinded) :
    (ds.handle event).ensures fun ds2 => ds2.wellKinded := by
  cases event with
  | command command now =>
    simp only [DataStore.handle]
    apply Outcome.ensures_bind
    intro r hr
    apply Outcome.ensures_ok
    exact HandleCommand_kinds ds command now hk r hr
  | sweep now =>
    simp only [DataStore.handle]
    apply Outcome.ensures_ok
    exact DataStore_RemoveExpired_kinds ds now hk

theorem runEvents_kinds (events : List ServerEvent) :
    ∀ ds : DataStore, ds.wellKinded →
      (ds.runEvents events).ensures fun ds2 => ds2.wellKinded := by
  induction events with
  | nil =>
    intro ds hk
    exact Outcome.ensures_ok _ _ hk
  | cons event events ih =>
    intro ds hk
    simp only [DataStore.runEvents]
    apply Outcome.ensures_bind
    intro ds2 h2
    exact ih ds2 (handle_kinds ds event hk ds2 h2)

theorem isList_eq (v : Value) (h : v.isList = true) : ∃ l, v = .slice l := by
  cases v with
  | slice l => exact ⟨l, rfl⟩
  | atom _ => simp [Value.isList] at h
  | set _ => simp [Value.isList] at h
  | hash _ => simp [Value.isList] at h

theorem isSet_eq (v : Value) (h : v.isSet = true) : ∃ m, v = .set m := by
  cases v with
  | set m => exact ⟨m, rfl⟩
  | atom _ => simp [Value.isSet] at h
  | slice _ => simp [Value.isSet] at h
  | hash _ => simp [Value.isSet] at h

theorem isHash_eq (v : Value) (h : v.isHash = true) : ∃ m, v = .hash m := by
  cases v with
  | hash m => exact ⟨m, rfl⟩
  | atom _ => simp [Value.isHash] at h
  | slice _ => simp [Value.isHash] at h
  | set _ => simp [Value.isHash] at h

/-- The assertion `existing.([]interface{})` on a value read from a table of lists. -/
theorem asSlice_of_Get (h : HashTable Value) (k : Bytes) (now : Int) (v : Value)
    (hk : h.holdsOnly Value.isList) (hget : h.Get k now = .ok (some v)) :
    ∃ l, v.asSlice = .ok l := by
  obtain ⟨l, rfl⟩ := isList_eq v (Get_holdsOnly h _ k now v hk hget)
  exact ⟨l, rfl⟩

theorem asSet_of_Get (h : HashTable Value) (k : Bytes) (now : Int) (v : Value)
    (hk : h.holdsOnly Value.isSet) (hget : h.Get k now = .ok (some v)) :
    ∃ m, v.asSet = .ok m := by
  obtain ⟨m, rfl⟩ := isSet_eq v (Get_holdsOnly h _ k now v hk hget)
  exact ⟨m, rfl⟩

theorem asHash_of_Get (h : HashTable Value) (k : Bytes) (now : Int) (v : Value)
    (hk : h.holdsOnly Value.isHash) (hget : h.Get k now = .ok (some v)) :
    ∃ m, v.asHash = .ok m := by
  obtain ⟨m, rfl⟩ := isHash_eq v (Get_holdsOnly h _ k now v hk hget)
  exact ⟨m, rfl⟩

theorem LPush_returns (ds : DataStore) (key : Bytes) (values : List Iface) (now : Int)
    (b : Bucket Value) (hk : ds.listStore.holdsOnly Value.isList)
    (hb : ds.listStore.bucketOf key = .ok b) : ∃ r, ds.LPush key values now = .ok r := by
  unfold DataStore.LPush
  cases hg : ds.listStore.Get key now with
  | panic => rw [Get_eq_bucket _ _ _ b hb] at hg; cases hg
  | ok existing =>
    cases existing with
    | none =>
      obtain ⟨t, ht⟩ := Set_succeeds ds.listStore key
        (.slice (goAppend (variadic values) none)) 0 now b hb
      simp only [Outcome.bind, ht]
      exact ⟨_, rfl⟩
    | some v =>
      obtain ⟨l, hl⟩ := asSlice_of_Get _ key now v hk hg
      obtain ⟨t, ht⟩ := Set_succeeds ds.listStore key
        (.slice (goAppend (variadic values) l)) 0 now b hb
      simp only [Outcome.bind, hl, ht]
      exact ⟨_, rfl⟩

theorem RPush_returns (ds : DataStore) (key : Bytes) (values : List Iface) (now : Int)
    (b : Bucket Value) (hk : ds.listStore.holdsOnly Value.isList)
    (hb : ds.listStore.bucketOf key = .ok b) : ∃ r, ds.RPush key values now = .ok r := by
  unfold DataStore.RPush
  cases hg : ds.listStore.Get key now with
  | panic => rw [Get_eq_bucket _ _ _ b hb] at hg; cases hg
  | ok existing =>
    cases existing with
    | none =>
      obtain ⟨t, ht⟩ := Set_succeeds ds.listStore key
        (.slice (goAppend none (variadic values))) 0 now b hb
      simp only [Outcome.bind, ht]
      exact ⟨_, rfl⟩
    | some v =>
      obtain ⟨l, hl⟩ := asSlice_of_Get _ key now v hk hg
      obtain ⟨t, ht⟩ := Set_succeeds ds.listStore key
        (.slice (goAppend l (variadic values))) 0 now b hb
      simp only [Outcome.bind, hl, ht]
      exact ⟨_, rfl⟩

theorem LPop_returns (ds : DataStore) (key : Bytes) (now : Int)
    (b : Bucket Value) (hk : ds.listStore.holdsOnly Value.isList)
    (hb : ds.listStore.bucketOf key = .ok b) : ∃ r, ds.LPop key now = .ok r := by
  unfold DataStore.LPop
  cases hg : ds.listStore.Get key now with
  | panic => rw [Get_eq_bucket _ _ _ b hb] at hg; cases hg
  | ok existing =>
    cases existing with
    | none => exact ⟨_, rfl⟩
    | some v =>
      obtain ⟨l, hl⟩ := asSlice_of_Get _ key now v hk hg
      simp only [Outcome.bind, hl]
      cases l.getD [] with
      | nil => exact ⟨_, rfl⟩
      | cons value rest =>
        obtain ⟨t, ht⟩ := Set_succeeds ds.listStore key (.slice (some rest)) 0 now b hb
        simp only [ht]
        exact ⟨_, rfl⟩

theorem RPop_returns (ds : DataStore) (key : Bytes) (now : Int)
    (b : Bucket Value) (hk : ds.listStore.holdsOnly Value.isList)
    (hb : ds.listStore.bucketOf key = .ok b) : ∃ r, ds.RPop key now = .ok r := by
  unfold DataStore.RPop
  cases hg : ds.listStore.Get key now with
  | panic => rw [Get_eq_bucket _ _ _ b hb] at hg; cases hg
  | ok existing =>
    cases existing with
    | none => exact ⟨_, rfl⟩
    | some v =>
      obtain ⟨l, hl⟩ := asSlice_of_Get _ key now v hk hg
      simp only [Outcome.bind, hl]
      obtain ⟨t, ht⟩ := Set_succeeds ds.listStore key
        (.slice (some (l.getD []).dropLast)) 0 now b hb
      cases (l.getD []).getLast? with
      | none => exact ⟨_, rfl⟩
      | some value => 
        simp only [ht]
        exact ⟨_, rfl⟩

theorem LLen_returns (ds : DataStore) (key : Bytes) (now : Int)
    (b : Bucket Value) (hk : ds.listStore.holdsOnly Value.isList)
    (hb : ds.listStore.bucketOf key = .ok b) : ∃ r, ds.LLen key now = .ok r := by
  unfold DataStore.LLen
  cases hg : ds.listStore.Get key now with
  | panic => rw [Get_eq_bucket _ _ _ b hb] at hg; cases hg
  | ok existing =>
    cases existing with
    | none => exact ⟨_, rfl⟩
    | some v =>
      obtain ⟨l, hl⟩ := asSlice_of_Get _ key now v hk hg
      simp only [Outcome.bind, hl]
      exact ⟨_, rfl⟩

theorem SAdd_returns (ds : DataStore) (key : Bytes) (members : List Iface) (now : Int)
    (b : Bucket Value) (hk : ds.setStore.holdsOnly Value.isSet)
    (hb : ds.setStore.bucketOf key = .ok b) (hm : members.all Iface.hashable = true) :
    ∃ r, ds.SAdd key members now = .ok r := by
  unfold DataStore.SAdd
  cases hg : ds.setStore.Get key now with
  | panic => rw [Get_eq_bucket _ _ _ b hb] at hg; cases hg
  | ok existing =>
    cases existing with
    | none =>
      obtain ⟨t, ht⟩ := Set_succeeds ds.setStore key
        (.set (saddLoop members (∅, 0)).1) 0 now b hb
      simp only [Outcome.bind, hm, if_true, ht]
      exact ⟨_, rfl⟩
    | some v =>
      obtain ⟨m, hv⟩ := asSet_of_Get _ key now v hk hg
      obtain ⟨t, ht⟩ := Set_succeeds ds.setStore key
        (.set (saddLoop members (m, 0)).1) 0 now b hb
      simp only [Outcome.bind, hv, hm, if_true, ht]
      exact ⟨_, rfl⟩

theorem SRem_returns (ds : DataStore) (key : Bytes) (members : List Iface) (now : Int)
    (b : Bucket Value) (hk : ds.setStore.holdsOnly Value.isSet)
    (hb : ds.setStore.bucketOf key = .ok b) (hm : members.all Iface.hashable = true) :
    ∃ r, ds.SRem key members now = .ok r := by
  unfold DataStore.SRem
  cases hg : ds.setStore.Get key now with
  | panic => rw [Get_eq_bucket _ _ _ b hb] at hg; cases hg
  | ok existing =>
    cases existing with
    | none => exact ⟨_, rfl⟩
    | some v =>
      obtain ⟨m, hv⟩ := asSet_of_Get _ key now v hk hg
      obtain ⟨t, ht⟩ := Set_succeeds ds.setStore key
        (.set (sremLoop members (m, 0)).1) 0 now b hb
      simp only [Outcome.bind, hv, hm, if_true, ht]
      exact ⟨_, rfl⟩

theorem SIsMember_returns (ds : DataStore) (key : Bytes) (member : Iface) (now : Int)
    (b : Bucket Value) (hk : ds.setStore.holdsOnly Value.isSet)
    (hb : ds.setStore.bucketOf key = .ok b) (hm : member.hashable = true) :
    ∃ r, ds.SIsMember key member now = .ok r := by
  unfold DataStore.SIsMember
  cases hg : ds.setStore.Get key now with
  | panic => rw [Get_eq_bucket _ _ _ b hb] at hg; cases hg
  | ok existing =>
    cases existing with
    | none => exact ⟨_, rfl⟩
    | some v =>
      obtain ⟨m, hv⟩ := asSet_of_Get _ key now v hk hg
      simp only [Outcome.bind, hv, hm, if_true]
      exact ⟨_, rfl⟩

theorem HSet_returns (ds : DataStore) (key field : Bytes) (value : Iface) (now : Int)
    (b : Bucket Value) (hk : ds.hashStore.holdsOnly Value.isHash)
    (hb : ds.hashStore.bucketOf key = .ok b) : ∃ r, ds.HSet key field value now = .ok r := by
  unfold DataStore.HSet
  cases hg : ds.hashStore.Get key now with
  | panic => rw [Get_eq_bucket _ _ _ b hb] at hg; cases hg
  | ok existing =>
    cases existing with
    | none =>
      obtain ⟨t, ht⟩ := Set_succeeds ds.hashStore key
        (.hash (AList.insert field value ∅)) 0 now b hb
      simp only [Outcome.bind, ht]
      exact ⟨_, rfl⟩
    | some v =>
      obtain ⟨m, hv⟩ := asHash_of_Get _ key now v hk hg
      obtain ⟨t, ht⟩ := Set_succeeds ds.hashStore key
        (.hash (m.insert field value)) 0 now b hb
      simp only [Outcome.bind, hv, ht]
      exact ⟨_, rfl⟩

theorem HGet_returns (ds : DataStore) (key field : Bytes) (now : Int)
    (b : Bucket Value) (hk : ds.hashStore.holdsOnly Value.isHash)
    (hb : ds.hashStore.bucketOf key = .ok b) : ∃ r, ds.HGet key field now = .ok r := by
  unfold DataStore.HGet
  cases hg : ds.hashStore.Get key now with
  | panic => rw [Get_eq_bucket _ _ _ b hb] at hg; cases hg
  | ok existing =>
    cases existing with
    | none => exact ⟨_, rfl⟩
    | some v =>
      obtain ⟨m, hv⟩ := asHash_of_Get _ key now v hk hg
      simp only [Outcome.bind, hv]
      exact ⟨_, rfl⟩

theorem HDel_returns (ds : DataStore) (key : Bytes) (fields : List Bytes) (now : Int)
    (b : Bucket Value) (hk : ds.hashStore.holdsOnly Value.isHash)
    (hb : ds.hashStore.bucketOf key = .ok b) : ∃ r, ds.HDel key fields now = .ok r := by
  unfold DataStore.HDel
  cases hg : ds.hashStore.Get key now with
  | panic => rw [Get_eq_bucket _ _ _ b hb] at hg; cases hg
  | ok existing =>
    cases existing with
    | none => exact ⟨_, rfl⟩
    | some v =>
      obtain ⟨m, hv⟩ := asHash_of_Get _ key now v hk hg
      obtain ⟨t, ht⟩ := Set_succeeds ds.hashStore key
        (.hash (hdelLoop fields (m, 0)).1) 0 now b hb
      simp only [Outcome.bind, hv, ht]
      exact ⟨_, rfl⟩

theorem HGetAll_returns (ds : DataStore) (key : Bytes) (now : Int)
    (b : Bucket Value) (hk : ds.hashStore.holdsOnly Value.isHash)
    (hb : ds.hashStore.bucketOf key = .ok b) : ∃ r, ds.HGetAll key now = .ok r := by
  unfold DataStore.HGetAll
  cases hg : ds.hashStore.Get key now with
  | panic => rw [Get_eq_bucket _ _ _ b hb] at hg; cases hg
  | ok existing =>
    cases existing with
    | none => exact ⟨_, rfl⟩
    | some v =>
      obtain ⟨m, hv⟩ := asHash_of_Get _ key now v hk hg
      simp only [Outcome.bind, hv]
      exact ⟨_, rfl⟩

/-- C31 (kind invariant of the four tables): in every `DataStore` reached from
`NewDataStore` by a sequence of dispatcher commands (at any clock readings, with sweeps
of the cleanup loop in between), every value stored in the string table is a string,
every value in the list table a `[]interface{}`, every value in the set table a
`map[interface{}]bool` and every value in the hash table a `map[string]interface{}`.
Therefore the unchecked type assertions never fail: a value that `Get` reads from the
list, set or hash table passes the assertion made on it, and `LPush`, `RPush`, `LPop`,
`RPop`, `LLen`, `SAdd`, `SRem`, `SIsMember`, `HSet`, `HGet`, `HDel` and `HGetAll` return
for every key whose bucket lookup returns (for the set methods: with members that can be
keys of a Go map). -/
theorem kind_invariant (events : List ServerEvent) (ds : DataStore)
    (hrun : NewDataStore.runEvents events = .ok ds) :
    ds.wellKinded
    ∧ (∀ key now v, ds.listStore.Get key now = .ok (some v) → ∃ l, v.asSlice = .ok l)
    ∧ (∀ key now v, ds.setStore.Get key now = .ok (some v) → ∃ m, v.asSet = .ok m)
    ∧ (∀ key now v, ds.hashStore.Get key now = .ok (some v) → ∃ m, v.asHash = .ok m)
    ∧ (∀ key now b, ds.listStore.bucketOf key = .ok b →
        (∀ values, ∃ r, ds.LPush key values now = .ok r)
        ∧ (∀ values, ∃ r, ds.RPush key values now = .ok r)
        ∧ (∃ r, ds.LPop key now = .ok r)
        ∧ (∃ r, ds.RPop key now = .ok r)
        ∧ (∃ r, ds.LLen key now = .ok r))
    ∧ (∀ key now b, ds.setStore.bucketOf key = .ok b →
        (∀ members, members.all Iface.hashable = true → ∃ r, ds.SAdd key members now = .ok r)
        ∧ (∀ members, members.all Iface.hashable = true →
            ∃ r, ds.SRem key members now = .ok r)
        ∧ (∀ member, member.hashable = true → ∃ r, ds.SIsMember key member now = .ok r))
    ∧ (∀ key now b, ds.hashStore.bucketOf key = .ok b →
        (∀ field value, ∃ r, ds.HSet key field value now = .ok r)
        ∧ (∀ field, ∃ r, ds.HGet key field now = .ok r)
        ∧ (∀ fields, ∃ r, ds.HDel key fields now = .ok r)
        ∧ (∃ r, ds.HGetAll key now = .ok r)) := by
  have hk : ds.wellKinded := runEvents_kinds events NewDataStore NewDataStore_wellKinded ds hrun
  refine ⟨hk, ?_, ?_, ?_, ?_, ?_, ?_⟩
  · intro key now v hget
    exact asSlice_of_Get _ key now v hk.2.1 hget
  · intro key now v hget
    exact asSet_of_Get _ key now v hk.2.2.1 hget
  · intro key now v hget
    exact asHash_of_Get _ key now v hk.2.2.2 hget
  · intro key now b hb
    exact ⟨fun values => LPush_returns ds key values now b hk.2.1 hb,
      fun values => RPush_returns ds key values now b hk.2.1 hb,
      LPop_returns ds key now b hk.2.1 hb, RPop_returns ds key now b hk.2.1 hb,
      LLen_returns ds key now b hk.2.1 hb⟩
  · intro key now b hb
    exact ⟨fun members hm => SAdd_returns ds key members now b hk.2.2.1 hb hm,
      fun members hm => SRem_returns ds key members now b hk.2.2.1 hb hm,
      fun member hm => SIsMember_returns ds key member now b hk.2.2.1 hb hm⟩
  · intro key now b hb
    exact ⟨fun field value => HSet_returns ds key field value now b hk.2.2.2 hb,
      fun field => HGet_returns ds key field now b hk.2.2.2 hb,
      fun fields => HDel_returns ds key fields now b hk.2.2.2 hb,
      HGetAll_returns ds key now b hk.2.2.2 hb⟩

set_option maxRecDepth 100000 in
/-- The invariant at the store reached by `SET k v`, `LPUSH k x`, `SADD k y`,
`HSET k f w`, a sweep and `INCR n`: the one key `k` is in all four tables, each table
holds its own kind, and the list, set and hash methods return on `k`. -/
theorem kind_invariant_witness :
    ∃ ds,
      NewDataStore.runEvents
          [.command [bs "SET", bs "k", bs "v"] 5, .command [bs "LPUSH", bs "k", bs "x"] 6,
            .command [bs "SADD", bs "k", bs "y"] 7,
            .command [bs "HSET", bs "k", bs "f", bs "w"] 8, .sweep 9,
            .command [bs "INCR", bs "n"] 10] = .ok ds
      ∧ ds.stringStore.Get (bs "k") 11 = .ok (some (.atom (.str (bs "v"))))
      ∧ ds.LLen (bs "k") 11 = .ok 1
      ∧ ds.wellKinded
      ∧ (∃ r, ds.LPop (bs "k") 11 = .ok r)
      ∧ (∃ r, ds.SIsMember (bs "k") (.str (bs "y")) 11 = .ok r)
      ∧ (∃ r, ds.HGetAll (bs "k") 11 = .ok r) := by
  have key : ∃ ds b1 b2 b3,
      NewDataStore.runEvents
          [.command [bs "SET", bs "k", bs "v"] 5, .command [bs "LPUSH", bs "k", bs "x"] 6,
            .command [bs "SADD", bs "k", bs "y"] 7,
            .command [bs "HSET", bs "k", bs "f", bs "w"] 8, .sweep 9,
            .command [bs "INCR", bs "n"] 10] = .ok ds
      ∧ ds.stringStore.Get (bs "k") 11 = .ok (some (.atom (.str (bs "v"))))
      ∧ ds.LLen (bs "k") 11 = .ok 1
      ∧ ds.listStore.bucketOf (bs "k") = .ok b1
      ∧ ds.setStore.bucketOf (bs "k") = .ok b2
      ∧ ds.hashStore.bucketOf (bs "k") = .ok b3 := ⟨_, _, _, _, rfl, rfl, rfl, rfl, rfl, rfl⟩
  obtain ⟨ds, b1, b2, b3, hrun, hstr, hlen, h1, h2, h3⟩ := key
  have hinv := kind_invariant _ ds hrun
  exact ⟨ds, hrun, hstr, hlen, hinv.1, (hinv.2.2.2.2.1 _ 11 b1 h1).2.2.1,
    (hinv.2.2.2.2.2.1 _ 11 b2 h2).2.2 _ rfl, (hinv.2.2.2.2.2.2 _ 11 b3 h3).2.2.2⟩

/-! ## Commands on a key whose bucket index is negative

The 64-bit fold of `hash` wraps for the key `counter:visits` and Go's `%` keeps the sign:
the bucket index is -58 in every table, and each method that looks the key up panics on
`h.buckets[-58]`, on a fresh store as on any other. -/

set_option maxRecDepth 100000 in
/-- C15 fails on the fresh key `counter:visits`: its bucket index in the set table is
-58, so `SADD counter:visits x` panics where it is to reply 1, and `SIsMember` and
`SMembers` of that key panic as well. -/
theorem SADD_negative_bucket :
    NewDataStore.setStore.hash (bs "counter:visits") = -58
    ∧ NewDataStore.setStore.bucketOf (bs "counter:visits") = .panic
    ∧ NewDataStore.SAdd (bs "counter:visits") [.str (bs "x")] 1 = .panic
    ∧ HandleCommand NewDataStore [bs "SADD", bs "counter:visits", bs "x"] 1 = .panic
    ∧ NewDataStore.SIsMember (bs "counter:visits") (.str (bs "x")) 1 = .panic
    ∧ NewDataStore.SMembers (bs "counter:visits") 1 = .panic :=
  ⟨by decide, rfl, rfl, rfl, rfl, rfl⟩

set_option maxRecDepth 100000 in
/-- C16 fails on the fresh key `counter:visits`: its bucket index in the hash table is
-58, so `HSET counter:visits f v` panics where it is to reply 1. -/
theorem HSET_negative_bucket :
    NewDataStore.hashStore.hash (bs "counter:visits") = -58
    ∧ NewDataStore.hashStore.bucketOf (bs "counter:visits") = .panic
    ∧ NewDataStore.HSet (bs "counter:visits") (bs "f") (.str (bs "v")) 1 = .panic
    ∧ HandleCommand NewDataStore [bs "HSET", bs "counter:visits", bs "f", bs "v"] 1 = .panic :=
  ⟨by decide, rfl, rfl, rfl⟩

set_option maxRecDepth 100000 in
/-- C17 fails on the absent key `counter:visits`: its bucket index in the hash table is
-58, so `HGETALL counter:visits` panics where it is to reply the empty array, and
`HGET counter:visits f` panics where it is to reply nil. -/
theorem HGETALL_negative_bucket :
    NewDataStore.hashStore.hash (bs "counter:visits") = -58
    ∧ NewDataStore.HGetAll (bs "counter:visits") 1 = .panic
    ∧ HandleCommand NewDataStore [bs "HGETALL", bs "counter:visits"] 1 = .panic
    ∧ HandleCommand NewDataStore [bs "HGET", bs "counter:visits", bs "f"] 1 = .panic :=
  ⟨by decide, rfl, rfl, rfl⟩

set_option maxRecDepth 100000 in
/-- C18 fails on the absent key `counter:visits`: its bucket index in the list table is
-58, so `RPush(counter:visits, a)` panics where it is to store `[a]` and return 1, and
`LLen` of that key panics. -/
theorem RPUSH_negative_bucket :
    NewDataStore.listStore.hash (bs "counter:visits") = -58
    ∧ NewDataStore.listStore.bucketOf (bs "counter:visits") = .panic
    ∧ NewDataStore.RPush (bs "counter:visits") [.str (bs "a")] 1 = .panic
    ∧ HandleCommand NewDataStore [bs "RPUSH", bs "counter:visits", bs "a"] 1 = .panic
    ∧ NewDataStore.LLen (bs "counter:visits") 1 = .panic :=
  ⟨by decide, rfl, rfl, rfl, rfl⟩

set_option maxRecDepth 100000 in
/-- C19 fails on the missing key `counter:visits`: its bucket index in the list table is
-58, so `LPop` and `RPop` of that key panic where they are to return nil, and the
sequence `RPUSH L a b c`, `LPOP L` with that key as `L` panics at its first command. -/
theorem LPOP_RPOP_negative_bucket :
    NewDataStore.listStore.hash (bs "counter:visits") = -58
    ∧ NewDataStore.LPop (bs "counter:visits") 1 = .panic
    ∧ NewDataStore.RPop (bs "counter:visits") 1 = .panic
    ∧ HandleCommand NewDataStore [bs "LPOP", bs "counter:visits"] 1 = .panic
    ∧ HandleCommand NewDataStore [bs "RPOP", bs "counter:visits"] 1 = .panic
    ∧ HandleCommand NewDataStore [bs "RPUSH", bs "counter:visits", bs "a", bs "b", bs "c"] 1
      = .panic :=
  ⟨by decide, rfl, rfl, rfl, rfl, rfl⟩

set_option maxRecDepth 100000 in
/-- C20 fails on keys with a negative bucket index.  On the fresh store, where
`counter:visits` is in no table, `DEL counter:visits` panics where it is to reply 0.  The
key `key:0000000001309` has bucket index 0 in the list table and -512 in the string
table: `LPUSH` of it replies 1 and the key is live in the list table, and `DEL` of it then
panics in the string table where it is to reply 1. -/
theorem DEL_negative_bucket :
    HandleCommand NewDataStore [bs "DEL", bs "counter:visits"] 1 = .panic
    ∧ NewDataStore.listStore.hash (bs "key:0000000001309") = 0
    ∧ NewDataStore.stringStore.hash (bs "key:0000000001309") = -512
    ∧ ∃ ds, HandleCommand NewDataStore [bs "LPUSH", bs "key:0000000001309", bs "x"] 1
          = .ok (intReply 1, ds)
        ∧ ds.listStore.Exists (bs "key:0000000001309") 2 = .ok true
        ∧ HandleCommand ds [bs "DEL", bs "key:0000000001309"] 2 = .panic
        ∧ HandleCommand ds [bs "EXISTS", bs "key:0000000001309"] 2 = .panic :=
  ⟨rfl, by decide, by decide, _, rfl, rfl, rfl, rfl⟩

end Memora
